import Mathlib

/-! # Verification development for the deployment reconciler

A shallow embedding of the Go packages `manifest`, `ssh`, `files`, `packages`
and `reconcile`, of the flags and of the action of the `reconcile` command.  Go
`string` and `[]byte` values are Lean `String`s, Go maps are association lists
read with `GoMap.get`, Go `error` values are `GoError` records, and everything
the program does to the remote host goes through a `Host` record of transition
functions over an abstract host state, while a trace of the commands sent is
kept in `World`.  The action of the command is a small-step machine over an
`errgroup.Group`: a schedule interleaves the moves of the action's own goroutine
with the ends of the tasks in flight.
-/

set_option autoImplicit false

/-! ## Go standard library fragments -/

namespace Go

/-- A Go `map[string]T`, kept as an association list; `get` reads the first
binding of a key and `set` keeps one binding per key. -/
abbrev GoMap (α : Type) := List (String × α)

/-- Map read `m[k]` with the comma-ok result as an option. -/
def GoMap.get {α : Type} (m : GoMap α) (k : String) : Option α :=
  match m with
  | [] => none
  | (k1, v) :: rest => if k1 = k then some v else GoMap.get rest k

/-- Map write `m[k] = v`. -/
def GoMap.set {α : Type} (m : GoMap α) (k : String) (v : α) : GoMap α :=
  match m with
  | [] => [(k, v)]
  | (k1, v1) :: rest => if k1 = k then (k, v) :: rest else (k1, v1) :: GoMap.set rest k v

/-- The bindings of a map that `get` can see: one per key, the first one. A
`range` over the map visits these, in an order Go leaves unspecified. -/
def GoMap.entries {α : Type} : GoMap α → List (String × α)
  | [] => []
  | (k, v) :: rest => (k, v) :: (GoMap.entries rest).filter (fun e => e.1 ≠ k)

/-- A Go `error` value: its message, the exit status of the `*ssh.ExitError`
found in its chain by `errors.As` (if any), and whether `os.IsNotExist` and
`os.IsExist` hold of it. -/
structure GoError where
  msg : String
  exitStatus : Option Nat := none
  notExist : Bool := false
  exist : Bool := false
deriving DecidableEq, Repr

deriving instance DecidableEq for Except

/-- The call `errors.New(msg)`, also `errors.Errorf` once formatted. -/
def errorsNew (msg : String) : GoError := { msg := msg }

/-- The call `errors.Wrap(err, msg)` of `github.com/pkg/errors`: the message is
put in front, the chain (and so `errors.As`) is kept, and `os.IsNotExist` no
longer sees through the wrapper. -/
def errorsWrap (err : GoError) (msg : String) : GoError :=
  { msg := msg ++ ": " ++ err.msg, exitStatus := err.exitStatus, notExist := false }

/-- The value `os.ErrNotExist`. -/
def ErrNotExist : GoError := { msg := "file does not exist", notExist := true }

/-- The test `strings.HasPrefix(s, p)`. -/
def hasPrefix (s p : String) : Bool := p.data.isPrefixOf s.data

/-- The call `strings.TrimPrefix(s, p)`. -/
def trimPrefix (s p : String) : String :=
  if hasPrefix s p then String.mk (s.data.drop p.data.length) else s

/-- Sublist test on characters used by `strContains`. -/
def containsChars : List Char → List Char → Bool
  | [], sub => sub.isEmpty
  | c :: cs, sub => sub.isPrefixOf (c :: cs) || containsChars cs sub

/-- The test `strings.Contains(s, sub)`. -/
def strContains (s sub : String) : Bool := containsChars s.data sub.data

/-- The predicate `unicode.IsSpace`. -/
def isSpace (c : Char) : Bool :=
  let n := c.toNat
  n = 9 || n = 10 || n = 11 || n = 12 || n = 13 || n = 32 || n = 0x85 || n = 0xA0 ||
  n = 0x1680 || (0x2000 ≤ n && n ≤ 0x200A) || n = 0x2028 || n = 0x2029 || n = 0x202F ||
  n = 0x205F || n = 0x3000

/-- The call `strings.TrimSpace(s)` (and `bytes.TrimSpace`). -/
def trimSpace (s : String) : String :=
  String.mk ((s.data.dropWhile isSpace).reverse.dropWhile isSpace).reverse

/-- Splitting a character list at every occurrence of `sep`. -/
def splitChars (sep : Char) : List Char → List (List Char)
  | [] => [[]]
  | c :: cs =>
    match splitChars sep cs with
    | [] => [[]]
    | seg :: segs => if c = sep then [] :: seg :: segs else (c :: seg) :: segs

/-- The call `strings.Split(s, sep)` for a one-character separator. -/
def split (s : String) (sep : Char) : List String :=
  (splitChars sep s.data).map String.mk

/-- The call `strings.Join(elems, sep)`. -/
def join (elems : List String) (sep : String) : String :=
  match elems with
  | [] => ""
  | [e] => e
  | e :: rest => e ++ sep ++ join rest sep

/-! ### `fmt.Sprintf` -/

/-- Decimal digit test. -/
def isDigit (c : Char) : Bool := decide (48 ≤ c.toNat) && decide (c.toNat ≤ 57)

/-- The scanner `parsenum` of package `fmt`: the number read, whether a digit
was seen, and the rest; `none` is the overflow exit (a number above 1e6). -/
def parsenum : List Char → Nat → Bool → Option (Nat × Bool × List Char)
  | [], num, isnum => some (num, isnum, [])
  | c :: cs, num, isnum =>
    if isDigit c then
      if num > 1000000 then none else parsenum cs (num * 10 + (c.toNat - 48)) true
    else some (num, isnum, c :: cs)

/-- Cutting a character list at its first closing bracket. -/
def cutBracket : List Char → Option (List Char × List Char)
  | [] => none
  | c :: cs =>
    if c = ']' then some ([], cs)
    else match cutBracket cs with
      | none => none
      | some (ds, rest) => some (c :: ds, rest)

/-- Result of `argNumber`: the argument index to use, the rest of the format,
whether an index was found, whether the index is good, and whether a bracket
was seen at all (which marks the call as reordered). -/
structure ArgNum where
  argNum : Nat
  rest : List Char
  found : Bool
  good : Bool
  bracket : Bool

/-- The method `argNumber` of package `fmt`, with `parseArgNumber` inlined. -/
def argNumber (argNum : Nat) (cs : List Char) (numArgs : Nat) : ArgNum :=
  match cs with
  | '[' :: rest =>
    if rest.length < 2 then ⟨argNum, rest, false, false, true⟩
    else
      match cutBracket rest with
      | none => ⟨argNum, rest, false, false, true⟩
      | some (ds, after) =>
        match parsenum ds 0 false with
        | some (n, true, []) =>
          if 1 ≤ n ∧ n - 1 < numArgs then ⟨n - 1, after, true, true, true⟩
          else ⟨argNum, after, true, false, true⟩
        | _ => ⟨argNum, after, false, false, true⟩
  | _ => ⟨argNum, cs, false, true, false⟩

/-- Output of the model for a directive that is outside the modelled fragment
of `fmt`: an argument consumed with a width or a precision, or by one of the
verbs `q`, `x`, `X`, or by `v` under the `#` flag. -/
def unmodelled : List Char := "%!(UNMODELLED)".data

/-- The method `printArg` at a string argument: `plain` says that neither a
non-zero width nor a precision is present, `sharp` is the `#` flag. -/
def printArg (arg : String) (verb : Char) (plain sharp : Bool) : List Char :=
  if !plain then unmodelled
  else if verb = 'T' then "string".data
  else if verb = 's' then arg.data
  else if verb = 'v' then (if sharp then unmodelled else arg.data)
  else if verb = 'q' || verb = 'x' || verb = 'X' then unmodelled
  else if verb = 'w' && sharp then unmodelled
  else "%!".data ++ [verb] ++ "(string=".data ++ arg.data ++ ")".data

/-- The five flag characters of a directive. -/
def isFlag (c : Char) : Bool := c = '#' || c = '0' || c = '+' || c = '-' || c = ' '

/-- What one directive produced: its output, the rest of the format, the next
argument index, whether the call is now reordered, and whether the format
ended inside the directive. -/
structure Verb where
  out : List Char
  rest : List Char
  argNum : Nat
  reordered : Bool

/-- Width or precision: a star takes an argument (never an integer here, so the
bad-width or bad-precision text `bad` is written), digits are parsed. The
result is the text written, the rest, the next argument index, whether a value
is present and non-zero, and whether a number was read. -/
def widthOrPrec (cs : List Char) (args : List String) (argNum : Nat) (bad : String) :
    List Char × List Char × Nat × Bool × Bool :=
  match cs with
  | '*' :: rest =>
    (bad.data, rest, if argNum < args.length then argNum + 1 else argNum, false, false)
  | _ =>
    match parsenum cs 0 false with
    | none => ([], [], argNum, false, false)
    | some (n, isnum, rest) => ([], rest, argNum, isnum && decide (n ≠ 0), isnum)

/-- One directive of `doPrintf`, entered after the percent sign. -/
def verbStep (cs : List Char) (args : List String) (argNum : Nat) (reordered : Bool) : Verb :=
  let flags := cs.takeWhile isFlag
  let sharp := flags.contains '#'
  let cs1 := cs.dropWhile isFlag
  let fast : Option (Char × List Char) :=
    match cs1 with
    | c :: rest =>
      if decide (97 ≤ c.toNat) && decide (c.toNat ≤ 122) && decide (argNum < args.length)
      then some (c, rest) else none
    | [] => none
  match fast with
  | some (c, rest) =>
    ⟨printArg (args.getD argNum "") c true sharp, rest, argNum + 1, reordered⟩
  | none =>
    let a1 := argNumber argNum cs1 args.length
    let star1 := a1.rest.head? = some '*'
    let (o2, cs2, n2, widNonZero, widRead) := widthOrPrec a1.rest args a1.argNum "%!(BADWIDTH)"
    let after2 := a1.found && !star1
    let good2 := a1.good && !(after2 && widRead)
    let (o3, cs3, n3, precPresent, after3, good3, br3) :=
      match cs2 with
      | '.' :: rest =>
        let a3 := argNumber n2 rest args.length
        let star3 := a3.rest.head? = some '*'
        let (o, r, n, _, _) := widthOrPrec a3.rest args a3.argNum "%!(BADPREC)"
        (o, r, n, true, a3.found && !star3, good2 && !after2 && a3.good, a3.bracket)
      | _ => ([], cs2, n2, false, after2, good2, false)
    let a4 := if after3 then ⟨n3, cs3, true, true, false⟩ else argNumber n3 cs3 args.length
    let good := good3 && a4.good
    let reord := reordered || a1.bracket || br3 || a4.bracket
    let plain := !widNonZero && !precPresent
    match a4.rest with
    | [] => ⟨o2 ++ o3 ++ "%!(NOVERB)".data, [], a4.argNum, reord⟩
    | verb :: rest =>
      if verb = '%' then ⟨o2 ++ o3 ++ ['%'], rest, a4.argNum, reord⟩
      else if !good then
        ⟨o2 ++ o3 ++ "%!".data ++ [verb] ++ "(BADINDEX)".data, rest, a4.argNum, reord⟩
      else if args.length ≤ a4.argNum then
        ⟨o2 ++ o3 ++ "%!".data ++ [verb] ++ "(MISSING)".data, rest, a4.argNum, reord⟩
      else
        ⟨o2 ++ o3 ++ printArg (args.getD a4.argNum "") verb plain sharp, rest,
          a4.argNum + 1, reord⟩

/-- The text written for arguments left over at the end of the format. -/
def extraArgs (args : List String) (argNum : Nat) (reordered : Bool) : List Char :=
  if !reordered && decide (argNum < args.length) then
    "%!(EXTRA ".data ++
      (String.intercalate ", " ((args.drop argNum).map (fun a => "string=" ++ a))).data ++
      ")".data
  else []

/-- The loop of `doPrintf`; the fuel bounds the number of characters left. -/
def doPrintf : Nat → List Char → List String → Nat → Bool → List Char
  | 0, _, _, _, _ => []
  | _ + 1, [], args, argNum, reordered => extraArgs args argNum reordered
  | fuel + 1, c :: cs, args, argNum, reordered =>
    if c = '%' then
      let v := verbStep cs args argNum reordered
      v.out ++ doPrintf fuel v.rest args v.argNum v.reordered
    else c :: doPrintf fuel cs args argNum reordered

/-- The call `fmt.Sprintf(format, args...)` with string arguments. The model
follows `doPrintf` for literal text, `%%`, flags, argument indexes, widths and
precisions, missing and extra arguments, and for the verbs `s`, `v`, `T` and
the bad-verb output at a string; see `unmodelled` for what is left out. -/
def Sprintf (format : String) (args : List String) : String :=
  String.mk (doPrintf (format.data.length + 1) format.data args 0 false)

/-! ### Package `path` -/

/-- The function `path.Base`. -/
def pathBase (p : String) : String :=
  if p.data.isEmpty then "."
  else
    let stripped := (p.data.reverse.dropWhile (fun c => c = '/')).reverse
    let last := (stripped.reverse.takeWhile (fun c => c ≠ '/')).reverse
    if last.isEmpty then "/" else String.mk last

/-- The element loop of `path.Clean`: `stack` holds the kept elements, last
first; empty and dot elements are skipped and a dot-dot removes the last kept
element, or is kept when the path is relative and nothing can be removed. -/
def cleanElems (rooted : Bool) : List (List Char) → List (List Char) → List (List Char)
  | [], stack => stack.reverse
  | e :: es, stack =>
    if e = [] || e = ['.'] then cleanElems rooted es stack
    else if e = ['.', '.'] then
      match stack with
      | [] => if rooted then cleanElems rooted es [] else cleanElems rooted es [e]
      | top :: below =>
        if top = ['.', '.'] then cleanElems rooted es (e :: stack)
        else cleanElems rooted es below
    else cleanElems rooted es (e :: stack)

/-- The function `path.Clean`. -/
def pathClean (p : String) : String :=
  if p.data.isEmpty then "."
  else
    let rooted := p.data.head? = some '/'
    let elems := cleanElems rooted (splitChars '/' p.data) []
    let body := String.intercalate "/" (elems.map String.mk)
    if rooted then "/" ++ body
    else if body.data.isEmpty then "." else body

/-- The function `path.Join`. -/
def pathJoin (elems : List String) : String :=
  let nonEmpty := elems.filter (fun e => !e.data.isEmpty)
  if nonEmpty.isEmpty then "" else pathClean (String.intercalate "/" nonEmpty)

/-! ### `crypto/sha256` and the `%x` rendering of a digest -/

/-- A Go `[]byte`; every element is below 256. -/
abbrev Bytes := List Nat

/-- The UTF-8 bytes of a character. -/
def utf8Bytes (c : Char) : Bytes :=
  let n := c.toNat
  if n < 0x80 then [n]
  else if n < 0x800 then [0xC0 + n / 64, 0x80 + n % 64]
  else if n < 0x10000 then [0xE0 + n / 4096, 0x80 + n / 64 % 64, 0x80 + n % 64]
  else [0xF0 + n / 262144, 0x80 + n / 4096 % 64, 0x80 + n / 64 % 64, 0x80 + n % 64]

/-- The conversion `[]byte(s)` of a Go string. -/
def bytesOf (s : String) : Bytes := s.data.flatMap utf8Bytes

/-- Reduction to a 32-bit word. -/
def m32 (x : Nat) : Nat := x % 4294967296

/-- Rotation of a 32-bit word to the right. -/
def rotr (x n : Nat) : Nat := m32 ((x >>> n) ||| (x <<< (32 - n)))

/-- The round constants of SHA-256. -/
def shaK : List Nat := [
  0x428a2f98, 0x71374491, 0xb5c0fbcf, 0xe9b5dba5, 0x3956c25b, 0x59f111f1, 0x923f82a4, 0xab1c5ed5,
  0xd807aa98, 0x12835b01, 0x243185be, 0x550c7dc3, 0x72be5d74, 0x80deb1fe, 0x9bdc06a7, 0xc19bf174,
  0xe49b69c1, 0xefbe4786, 0x0fc19dc6, 0x240ca1cc, 0x2de92c6f, 0x4a7484aa, 0x5cb0a9dc, 0x76f988da,
  0x983e5152, 0xa831c66d, 0xb00327c8, 0xbf597fc7, 0xc6e00bf3, 0xd5a79147, 0x06ca6351, 0x14292967,
  0x27b70a85, 0x2e1b2138, 0x4d2c6dfc, 0x53380d13, 0x650a7354, 0x766a0abb, 0x81c2c92e, 0x92722c85,
  0xa2bfe8a1, 0xa81a664b, 0xc24b8b70, 0xc76c51a3, 0xd192e819, 0xd6990624, 0xf40e3585, 0x106aa070,
  0x19a4c116, 0x1e376c08, 0x2748774c, 0x34b0bcb5, 0x391c0cb3, 0x4ed8aa4a, 0x5b9cca4f, 0x682e6ff3,
  0x748f82ee, 0x78a5636f, 0x84c87814, 0x8cc70208, 0x90befffa, 0xa4506ceb, 0xbef9a3f7, 0xc67178f2]

/-- The initial hash value of SHA-256. -/
def shaH0 : List Nat :=
  [0x6a09e667, 0xbb67ae85, 0x3c6ef372, 0xa54ff53a, 0x510e527f, 0x9b05688c, 0x1f83d9ab, 0x5be0cd19]

/-- Message schedule: `ws` holds the words computed so far, latest first. -/
def shaSchedule : Nat → List Nat → List Nat
  | 0, ws => ws
  | n + 1, ws =>
    let w2 := ws.getD 1 0
    let w7 := ws.getD 6 0
    let w15 := ws.getD 14 0
    let w16 := ws.getD 15 0
    let s0 := (rotr w15 7) ^^^ (rotr w15 18) ^^^ (w15 >>> 3)
    let s1 := (rotr w2 17) ^^^ (rotr w2 19) ^^^ (w2 >>> 10)
    shaSchedule n (m32 (w16 + s0 + w7 + s1) :: ws)

/-- One round of the compression function on the eight working variables. -/
def shaRound (st : List Nat) (kw : Nat × Nat) : List Nat :=
  match st with
  | [a, b, c, d, e, f, g, h] =>
    let s1 := rotr e 6 ^^^ rotr e 11 ^^^ rotr e 25
    let ch := (e &&& f) ^^^ ((4294967295 - e) &&& g)
    let t1 := m32 (h + s1 + ch + kw.1 + kw.2)
    let s0 := rotr a 2 ^^^ rotr a 13 ^^^ rotr a 22
    let maj := (a &&& b) ^^^ (a &&& c) ^^^ (b &&& c)
    let t2 := m32 (s0 + maj)
    [m32 (t1 + t2), a, b, c, m32 (d + t1), e, f, g]
  | _ => st

/-- Big-endian 32-bit words of a byte list. -/
def shaWords : List Nat → List Nat
  | a :: b :: c :: d :: rest => (a * 16777216 + b * 65536 + c * 256 + d) :: shaWords rest
  | _ => []

/-- The compression of one 64-byte block. -/
def shaCompress (h : List Nat) (block : List Nat) : List Nat :=
  let w := (shaSchedule 48 (shaWords block).reverse).reverse
  let st := (shaK.zip w).foldl shaRound h
  List.zipWith (fun x y => m32 (x + y)) h st

/-- The 64-byte blocks of a padded message. -/
def shaBlocks : Nat → List Nat → List (List Nat)
  | 0, _ => []
  | n + 1, bs => if bs.isEmpty then [] else bs.take 64 :: shaBlocks n (bs.drop 64)

/-- The padding of SHA-256: a one bit, zeros, and the bit length on 8 bytes. -/
def shaPad (msg : List Nat) : List Nat :=
  let l := msg.length
  msg ++ [128] ++ List.replicate ((119 - l % 64) % 64) 0 ++
    [7, 6, 5, 4, 3, 2, 1, 0].map (fun i => ((8 * l) >>> (8 * i)) % 256)

/-- The function `sha256.Sum256`, as eight 32-bit words. -/
def Sum256 (msg : List Nat) : List Nat :=
  let p := shaPad msg
  (shaBlocks (p.length / 64 + 1) p).foldl shaCompress shaH0

/-- A lower-case hexadecimal digit. -/
def hexDigit (n : Nat) : Char := if n < 10 then Char.ofNat (48 + n) else Char.ofNat (87 + n)

/-- The eight hexadecimal digits of a 32-bit word. -/
def hexWord (w : Nat) : List Char :=
  [7, 6, 5, 4, 3, 2, 1, 0].map (fun i => hexDigit ((w >>> (4 * i)) % 16))

/-- The expression `fmt.Sprintf("%x", sha256.Sum256(b))`. -/
def sha256Hex (b : Bytes) : String := String.mk ((Sum256 b).flatMap hexWord)

end Go

/-! ## Package manifest: the data model and the loader -/

namespace manifest

open Go

/-- The provider constant `ProviderBackendDocker`. -/
def ProviderBackendDocker : String := "docker"

/-- The kind constant `PackageKindService`. -/
def PackageKindService : String := "service"

/-- The kind constant `PackageKindBinary`. -/
def PackageKindBinary : String := "binary"

/-- A templated file of a package. -/
structure File where
  Path : String := ""
  Mode : String := ""
  Owner : String := ""
  Content : String := ""
deriving DecidableEq, Repr

/-- A package to be installed on a host. -/
structure Package where
  Name : String := ""
  Version : String := ""
  Kind : String := ""
  Status : String := ""
  Files : List File := []
  Parameters : GoMap String := []
deriving DecidableEq, Repr

/-- The desired state of one host. -/
structure Manifest where
  ID : String := ""
  Provider : String := ""
  Packages : List Package := []
  Parameters : GoMap String := []
deriving DecidableEq, Repr

/-- The YAML decoder `yaml.Unmarshal` at the two types the loader uses; the
library is a parameter of the loader. -/
structure Yaml where
  host : String → Except GoError Manifest
  packages : String → Except GoError (List Package)

/-- Full match of the regular expression `^[0-7]{3,4}$` (in Go, `$` without the
multi-line flag is the end of the text). -/
def fileModeRE (mode : String) : Bool :=
  (mode.data.length = 3 || mode.data.length = 4) &&
    mode.data.all (fun c => decide (48 ≤ c.toNat) && decide (c.toNat ≤ 55))

/-- The inner loop of the validation: the first file of the list with a bad mode. -/
def firstBadFile : List File → Option File
  | [] => none
  | f :: fs => if fileModeRE f.Mode then firstBadFile fs else some f

/-- The validation loops of `NewFromBytes`: the first file, in package order
then file order, whose mode does not match. -/
def firstBadMode : List Package → Option File
  | [] => none
  | p :: ps =>
    match firstBadFile p.Files with
    | some f => some f
    | none => firstBadMode ps

/-- The function `NewFromBytes`. -/
def NewFromBytes (y : Yaml) (host packages : String) : Except GoError Manifest :=
  if host.length = 0 then
    .error (errorsNew "cannot create a manifest from an empty byte array")
  else if packages.length = 0 then
    .error (errorsNew "cannot create packages from an empty byte array")
  else
    match y.host host with
    | .error err => .error (errorsWrap err "error unmarshalling bytes for manifest")
    | .ok m =>
      match y.packages packages with
      | .error err => .error (errorsWrap err "error unmarshalling bytes for packages")
      | .ok pkgs =>
        let m1 : Manifest := { m with Packages := pkgs }
        match firstBadMode m1.Packages with
        | some f =>
          .error (errorsNew ("invalid file mode " ++ f.Mode ++ " for file " ++ f.Path))
        | none => .ok m1

end manifest

/-! ## More library fragments: `strconv`, `path.Dir`, `bufio.Scanner`, `io.Reader` -/

namespace Go

/-- The value of a list of decimal digits, `none` when a character is not a digit. -/
def digitsValue : List Char → Nat → Option Nat
  | [], acc => some acc
  | c :: cs, acc => if isDigit c then digitsValue cs (acc * 10 + (c.toNat - 48)) else none

/-- The call `strconv.ParseInt(s, 10, 64)`; `none` stands for a returned error
(a syntax error or a value out of the 64-bit range). -/
def parseInt64 (s : String) : Option Int :=
  let (neg, digits) :=
    match s.data with
    | '-' :: ds => (true, ds)
    | '+' :: ds => (false, ds)
    | ds => (false, ds)
  if digits.isEmpty then none
  else
    match digitsValue digits 0 with
    | none => none
    | some n =>
      if neg then (if n ≤ 9223372036854775808 then some (-(n : Int)) else none)
      else (if n ≤ 9223372036854775807 then some (n : Int) else none)

/-- The function `path.Dir`. -/
def pathDir (p : String) : String :=
  pathClean (String.mk (p.data.reverse.dropWhile (fun c => c ≠ '/')).reverse)

/-- The tokens a `bufio.Scanner` with the default line splitter yields on a
text: the lines without their end-of-line marker, no token for the empty rest
after a final newline, and the scan stops (with `ErrTooLong`) at the first line
of 65536 bytes or more. -/
def scanLines (out : String) : List String :=
  let segs := splitChars '\n' out.data
  let segs := if segs.getLast? = some [] then segs.dropLast else segs
  let fits := segs.takeWhile (fun l => decide ((l.flatMap utf8Bytes).length < 65536))
  fits.map (fun l => String.mk (if l.getLast? = some '\r' then l.dropLast else l))

/-- An `io.Reader` over a finite byte sequence: the bytes, how many of them
have been read, whether the value is also an `io.Seeker`, the error (other
than `io.EOF`) that a read at the end of the bytes returns, if any, the error
of a `Seek`, if any, and the numbers of bytes the coming calls of `Read` deliver
at most (a read may deliver fewer bytes than the buffer holds, even none; once
the list is used up every read fills the buffer as far as bytes are left). -/
structure Reader where
  data : Bytes
  pos : Nat := 0
  seekable : Bool := true
  readErr : Option GoError := none
  seekErr : Option GoError := none
  sizes : List Nat := []
deriving DecidableEq, Repr

/-- The call `bytes.NewReader(b)`. -/
def NewReader (b : Bytes) : Reader := { data := b }

/-- The call `io.ReadAll(r)`: the bytes not yet read, the error if any, and the
reader left at its end. -/
def ReadAll (r : Reader) : Bytes × Option GoError × Reader :=
  (r.data.drop r.pos, r.readErr, { r with pos := r.data.length })

/-- What a Go call does: it returns a value, or it panics. -/
inductive Outcome (α : Type) where
  | ret (a : α)
  | panic (msg : String)
deriving DecidableEq, Repr

end Go

/-! ## Package `ssh`: the remote host, command execution, secure copy -/

namespace ssh

open Go

/-- What `session.CombinedOutput` gives back: the combined output on success,
the output with an `*ssh.ExitError` (its exit status and its message), or the
output with any other error. -/
inductive RunResult where
  | ok (out : String)
  | exitError (out : String) (status : Nat) (msg : String)
  | failed (out : String) (msg : String)
deriving DecidableEq, Repr

/-- The remote end of an SSH connection as a transition system on a host state
`σ`: opening a session, running a command in it, and the SFTP requests that
`Copy` makes. A write answers with the number of bytes taken and an error. -/
structure Host (σ : Type) where
  newSession : σ → Option GoError × σ
  run : σ → String → RunResult × σ
  sftpNew : σ → Option GoError × σ
  mkdirAll : σ → String → Option GoError × σ
  openFile : σ → String → Option GoError × σ
  write : σ → String → Bytes → (Nat × Option GoError) × σ

/-- What the program did to the remote host, in order. -/
inductive Event where
  /-- The command string handed to `session.CombinedOutput`. -/
  | exec (cmd : String)
  /-- The remote file opened for writing (created or truncated). -/
  | sftpOpen (path : String)
  /-- The bytes a write put into the remote file. -/
  | sftpWrite (path : String) (data : Bytes)
  /-- Entry into a method, with its argument (kept for `RestartService`). -/
  | call (method : String) (arg : String)
deriving DecidableEq, Repr

/-- The host state together with the trace of events so far. -/
structure World (σ : Type) where
  host : σ
  trace : List Event := []
deriving DecidableEq, Repr

/-- The names on which `RestartService` was entered, in order. -/
def restartCalls : List Event → List String
  | [] => []
  | Event.call method arg :: rest =>
    if method = "RestartService" then arg :: restartCalls rest else restartCalls rest
  | _ :: rest => restartCalls rest

/-- The SFTP events of a trace, in order. -/
def sftpEvents : List Event → List Event
  | [] => []
  | Event.sftpOpen path :: rest => Event.sftpOpen path :: sftpEvents rest
  | Event.sftpWrite path data :: rest => Event.sftpWrite path data :: sftpEvents rest
  | _ :: rest => sftpEvents rest

/-- A step from world `w` to world `w1` is quiet for a host property `Inv` when
it entered no `RestartService`, added no SFTP event and kept `Inv`. -/
def Quiet {σ : Type} (Inv : σ → Prop) (w w1 : World σ) : Prop :=
  restartCalls w1.trace = restartCalls w.trace ∧ sftpEvents w1.trace = sftpEvents w.trace ∧
    (Inv w.host → Inv w1.host)

/-- The `Client` of package `ssh`; the connection itself lives in the `World`. -/
structure Client where
  useSudo : Bool
deriving DecidableEq, Repr

/-- The part of `ssh.New` that does not dial: the client for a user name. -/
def New (username : String) : Client := { useSudo := username != "root" }

/-- The command string `Execf` hands to the session: the format applied to the
arguments, behind `sudo` when the client uses it. -/
def Client.wire (c : Client) (cmd : String) (args : List String) : String :=
  if c.useSudo then "sudo " ++ Sprintf cmd args else Sprintf cmd args

/-- The method `Client.Execf`. -/
def Execf {σ : Type} (h : Host σ) (c : Client) (cmd : String) (args : List String)
    (w : World σ) : Except GoError String × World σ :=
  match h.newSession w.host with
  | (some err, s) => (.error (errorsWrap err "failed to create session"), { w with host := s })
  | (none, s) =>
    let cmd2 := c.wire cmd args
    let tr := w.trace ++ [Event.exec cmd2]
    match h.run s cmd2 with
    | (.ok out, s1) => (.ok out, ⟨s1, tr⟩)
    | (.exitError out status msg, s1) =>
      (.error (errorsWrap { msg := msg, exitStatus := some status }
        ("remote command did not exit cleanly: " ++ out)), ⟨s1, tr⟩)
    | (.failed out msg, s1) =>
      (.error (errorsWrap { msg := msg }
        ("remote command did not exit cleanly: " ++ out)), ⟨s1, tr⟩)

/-- The `SecureCopyClient`; it holds the connection of the client it was made from. -/
structure SecureCopyClient where
  client : Client
deriving DecidableEq, Repr

/-- The function `NewSecureCopyClient`. -/
def NewSecureCopyClient (client : Client) : SecureCopyClient := { client := client }

/-- A `bufio.Writer` of the default size 4096 on the remote file: the bytes it
holds and its sticky error. -/
structure BufWriter where
  buf : Bytes := []
  err : Option GoError := none
deriving DecidableEq, Repr

/-- The method `bufio.Writer.Flush`. -/
def BufWriter.Flush {σ : Type} (h : Host σ) (path : String) (b : BufWriter) (w : World σ) :
    Option GoError × BufWriter × World σ :=
  match b.err with
  | some e => (some e, b, w)
  | none =>
    if b.buf.length = 0 then (none, b, w)
    else
      match h.write w.host path b.buf with
      | ((n, err), s) =>
        let w1 : World σ := ⟨s, w.trace ++ [Event.sftpWrite path (b.buf.take n)]⟩
        let err1 := if n < b.buf.length ∧ err = none then some (errorsNew "short write") else err
        match err1 with
        | some e => (some e, { buf := b.buf.drop n, err := some e }, w1)
        | none => (none, { buf := [], err := none }, w1)

/-- The method `bufio.Writer.Write` for a slice that is not longer than the
buffer (here at most 1024 bytes against 4096): when the slice does not fit in
what is left, the buffer is filled and flushed, then the rest is buffered. -/
def BufWriter.Write {σ : Type} (h : Host σ) (path : String) (b : BufWriter) (p : Bytes)
    (w : World σ) : Option GoError × BufWriter × World σ :=
  if p.length > 4096 - b.buf.length ∧ b.err = none then
    let n := 4096 - b.buf.length
    let (_, b1, w1) := BufWriter.Flush h path { b with buf := b.buf ++ p.take n } w
    match b1.err with
    | some e => (some e, b1, w1)
    | none => (none, { b1 with buf := b1.buf ++ p.drop n }, w1)
  else
    match b.err with
    | some e => (some e, b, w)
    | none => (none, { b with buf := b.buf ++ p }, w)

/-- The read loop of `Copy`: reads into a buffer of 1024 bytes, each delivering
as many bytes as the reader gives (`sizes`), which are written to the buffered
writer when there are any; a write error ends the copy with that error, the end
of the data ends it with the reader's error, or none at `io.EOF`. The fuel
bounds the number of reads. -/
def copyLoop {σ : Type} (h : Host σ) (path : String) :
    Nat → List Nat → Bytes → Option GoError → BufWriter → World σ →
      Option GoError × BufWriter × World σ
  | 0, _, _, _, b, w => (none, b, w)
  | fuel + 1, sizes, rest, readErr, b, w =>
    if rest.isEmpty then
      match readErr with
      | none => (none, b, w)
      | some e =>
        (some (errorsWrap e ("error reading from reader while copying " ++ path)), b, w)
    else if min (sizes.headD 1024) 1024 = 0 then copyLoop h path fuel sizes.tail rest readErr b w
    else
      match BufWriter.Write h path b (rest.take (min (sizes.headD 1024) 1024)) w with
      | (some e2, b1, w1) =>
        (some (errorsWrap e2 ("error writing to remote file while copying " ++ path)), b1, w1)
      | (none, b1, w1) =>
        copyLoop h path fuel sizes.tail (rest.drop (min (sizes.headD 1024) 1024)) readErr b1 w1

/-- The method `SecureCopyClient.Copy`. The deferred calls run at every return
after they were registered: the flush of the buffered writer (its error is
only logged), then the close of the remote file and of the SFTP client. -/
def Copy {σ : Type} (h : Host σ) (_s : SecureCopyClient) (data : Reader) (filepath : String)
    (w : World σ) : Option GoError × World σ :=
  match h.sftpNew w.host with
  | (some err, s0) =>
    (some (errorsWrap err "unable to start sftp from ssh client"), { w with host := s0 })
  | (none, s0) =>
    match (if data.seekable then data.seekErr else none) with
    | some err =>
      (some (errorsWrap err ("error seeking reader for " ++ filepath)), { w with host := s0 })
    | none =>
      let data1 : Reader := if data.seekable then { data with pos := 0 } else data
      match h.mkdirAll s0 (pathDir filepath) with
      | (mk, s1) =>
        match mk.filter (fun e => !e.exist) with
        | some err =>
          (some (errorsWrap err ("error creating directory " ++ pathDir filepath)),
            { w with host := s1 })
        | none =>
          match h.openFile s1 filepath with
          | (some err, s2) =>
            (some (errorsWrap err "error opening remote file for writing"),
              { w with host := s2 })
          | (none, s2) =>
            let w2 : World σ := ⟨s2, w.trace ++ [Event.sftpOpen filepath]⟩
            let rest := data1.data.drop data1.pos
            let (err, b, w3) := copyLoop h filepath (rest.length + data1.sizes.length + 1)
              data1.sizes rest data1.readErr {} w2
            let (_, _, w4) := BufWriter.Flush h filepath b w3
            (err, w4)

/-- The bytes the SFTP requests of a trace have put in the remote file `path`:
opening the file for writing truncates it, and every write on it appends the
bytes that the write put in. -/
def remoteFile (path : String) (trace : List Event) : Bytes :=
  trace.foldl (fun acc e =>
    match e with
    | Event.sftpOpen p => if p = path then [] else acc
    | Event.sftpWrite p d => if p = path then acc ++ d else acc
    | _ => acc) []

end ssh

/-! ## Package `files`: render, stat, transfer, permissions -/

namespace files

open Go manifest ssh

/-- The constant `FileTemplateKeyLastModifiedDate`. -/
def FileTemplateKeyLastModifiedDate : String := "LastModifiedDate"

/-- The bundled template set (`embed.FS`) and the `text/template` library, as
parameters of `Render`: reading a bundled file, parsing a template source under
a name, and executing the parsed template on a dictionary. -/
structure Templates where
  readFile : String → Except GoError String
  parse : String → String → Option GoError
  execute : String → String → GoMap String → Except GoError String

/-- The `FileManager`: the manifest, the SSH client (possibly nil) and the copy
client that `RenderAndTransfer` creates. -/
structure FileManager where
  manifest : Manifest
  ssh : Option Client
  scp : Option SecureCopyClient := none
deriving DecidableEq, Repr

/-- The function `files.New`. -/
def New (m : Manifest) (sshClient : Option Client) : FileManager :=
  { manifest := m, ssh := sshClient }

/-- The result record `Stat`. -/
structure Stat where
  Name : String
  FileType : String
  Size : Int
  Owner : String
  Group : String
  LastModifiedTime : String
  Sha256 : String := ""
deriving DecidableEq, Repr

/-- The remote command of the first step of `Stat`, as a format for `Execf`. -/
def statFormat : String := "stat -c '%%n,%%F,%%s,%%U,%%G,%%y' %s"

/-- The remote command of the second step of `Stat`, as built by its inner
`fmt.Sprintf`. -/
def shaCommand (path : String) : String := "sha256sum " ++ path ++ " |awk '\x7b print $1 \x7d'"

/-- The method `FileManager.Stat`. -/
def FileManager.Stat {σ : Type} (h : Host σ) (fm : FileManager) (f : File) (w : World σ) :
    Outcome (Except GoError files.Stat) × World σ :=
  match fm.ssh with
  | none => (.panic "invalid memory address or nil pointer dereference", w)
  | some c =>
    match Execf h c statFormat [f.Path] w with
    | (.error err, w1) =>
      if err.exitStatus.isSome && strContains err.msg "No such file or directory" then
        (.ret (.error ErrNotExist), w1)
      else (.ret (.error err), w1)
    | (.ok out, w1) =>
      let parts := split (trimSpace out) ','
      if parts.length ≠ 6 then
        (.ret (.error (errorsNew ("error parsing stat output: " ++ out))), w1)
      else
        let size : Int := (parseInt64 (parts.getD 2 "")).getD (-1)
        let stat : files.Stat :=
          { Name := parts.getD 0 "", FileType := parts.getD 1 "", Size := size,
            Owner := parts.getD 3 "", Group := parts.getD 4 "",
            LastModifiedTime := parts.getD 5 "" }
        match Execf h c (shaCommand f.Path) [] w1 with
        | (.error err, w2) => (.ret (.error (errorsWrap err ("error stat " ++ f.Path))), w2)
        | (.ok out2, w2) =>
          (.ret (.ok { stat with Sha256 := trimPrefix (trimSpace out2) "Sha256:" }), w2)

/-- The name of the temporary copy: `path.Join("/", "tmp", path.Base(f.Path))`. -/
def tmpName (path : String) : String := pathJoin ["/", "tmp", pathBase path]

/-- The method `FileManager.Transfer`: the pair it returns (`changed`, error). -/
def FileManager.Transfer {σ : Type} (h : Host σ) (fm : FileManager) (f : File)
    (reader : Reader) (w : World σ) : Outcome (Bool × Option GoError) × World σ :=
  match fm.scp with
  | none => (.ret (false, some (errorsNew "error: scp client not initialized")), w)
  | some scp =>
    match fm.Stat h f w with
    | (.panic msg, w1) => (.panic msg, w1)
    | (.ret st, w1) =>
      match (match st with
        | .error err => if !err.notExist then some err else none
        | .ok _ => none) with
      | some err => (.ret (false, some (errorsWrap err ("error stat " ++ f.Path))), w1)
      | none =>
        let stat : Option files.Stat := match st with
          | .ok x => some x
          | .error _ => none
        match ReadAll reader with
        | (_, some err, _) =>
          (.ret (false, some (errorsWrap err ("error reading file " ++ f.Path))), w1)
        | (b, none, reader1) =>
          let shalocal := if stat.isSome then sha256Hex b else ""
          if stat.isSome && decide (some shalocal = stat.map (fun x => x.Sha256)) then
            (.ret (false, none), w1)
          else
            match Copy h scp reader1 (tmpName f.Path) w1 with
            | (some err, w2) => (.ret (false, some (errorsWrap err "error copying file")), w2)
            | (none, w2) =>
              match fm.ssh with
              | none => (.panic "invalid memory address or nil pointer dereference", w2)
              | some c =>
                match Execf h c ("/bin/cat " ++ tmpName f.Path) [] w2 with
                | (.error err, w3) =>
                  (.ret (false, some (errorsWrap err ("error exec cat " ++ tmpName f.Path))), w3)
                | (.ok _, w3) =>
                  match Execf h c ("mv " ++ tmpName f.Path ++ " " ++ f.Path) [] w3 with
                  | (.error err, w4) =>
                    (.ret (false, some (errorsWrap err ("error exec cat " ++ f.Path))), w4)
                  | (.ok _, w4) => (.ret (true, none), w4)

/-- The dictionary `Render` builds for the template: the caller's entries, then
the package parameters, then `Version`. -/
def mergedData (p : Package) (data : GoMap String) : GoMap String :=
  let merged : GoMap String := []
  let merged := data.entries.foldl (fun m e => m.set e.1 e.2) merged
  let merged := p.Parameters.entries.foldl (fun m e => m.set e.1 e.2) merged
  merged.set "Version" p.Version

/-- The method `FileManager.Render`. -/
def FileManager.Render (t : Templates) (_fm : FileManager) (p : Package) (f : File)
    (data : GoMap String) : Except GoError Reader :=
  let filename := f.Path
  if hasPrefix f.Content "embed://" then
    let filenameToRead := trimPrefix f.Content "embed://"
    match t.readFile filenameToRead with
    | .error err => .error (errorsWrap err ("error reading file " ++ filenameToRead))
    | .ok b1 =>
      match t.parse filename b1 with
      | some err => .error (errorsWrap err ("error parsing template " ++ filenameToRead))
      | none =>
        match t.execute filename b1 (mergedData p data) with
        | .error err => .error (errorsWrap err ("error executing template " ++ filenameToRead))
        | .ok b2 => .ok (NewReader (bytesOf b2))
  else .ok (NewReader (bytesOf f.Content))

/-- The value pair `RenderAndTransfer` returns: the changed packages (or nil)
and the error. -/
abbrev Changed := Option (GoMap Package) × Option GoError

/-- The inner loop of `RenderAndTransfer` over the files of one package: either
the function returns (left) or the loop ends with the changed packages so far. -/
def transferFiles {σ : Type} (h : Host σ) (t : Templates) (fm : FileManager) (pkg : Package)
    (data : GoMap String) :
    List File → GoMap Package → World σ → Outcome (Changed ⊕ GoMap Package) × World σ
  | [], changed, w => (.ret (.inr changed), w)
  | f :: fs, changed, w =>
    if f.Path = "" then (.ret (.inl (none, some (errorsNew "error: file path not set"))), w)
    else
      match fm.Render t pkg f data with
      | .error err => (.ret (.inl (none, some (errorsWrap err ("error rendering " ++ f.Path)))), w)
      | .ok reader =>
        match fm.Transfer h f reader w with
        | (.panic msg, w1) => (.panic msg, w1)
        | (.ret (_, some err), w1) =>
          (.ret (.inl (some changed, some (errorsWrap err ("error transferring " ++ f.Path)))), w1)
        | (.ret (differences, none), w1) =>
          transferFiles h t fm pkg data fs
            (if differences then changed.set pkg.Name pkg else changed) w1

/-- The outer loop of `RenderAndTransfer` over the packages. -/
def transferPackages {σ : Type} (h : Host σ) (t : Templates) (fm : FileManager)
    (data : GoMap String) :
    List Package → GoMap Package → World σ → Outcome (Changed ⊕ GoMap Package) × World σ
  | [], changed, w => (.ret (.inr changed), w)
  | pkg :: pkgs, changed, w =>
    match transferFiles h t fm pkg data pkg.Files changed w with
    | (.panic msg, w1) => (.panic msg, w1)
    | (.ret (.inl r), w1) => (.ret (.inl r), w1)
    | (.ret (.inr changed1), w1) => transferPackages h t fm data pkgs changed1 w1

/-- The method `FileManager.RenderAndTransfer`; it also yields the file manager
with its copy client set. -/
def FileManager.RenderAndTransfer {σ : Type} (h : Host σ) (t : Templates) (fm : FileManager)
    (data : GoMap String) (w : World σ) : Outcome Changed × FileManager × World σ :=
  match fm.ssh with
  | none => (.ret (none, some (errorsNew "error: ssh client not initialized")), fm, w)
  | some c =>
    let fm1 : FileManager := { fm with scp := some (NewSecureCopyClient c) }
    match transferPackages h t fm1 data fm1.manifest.Packages [] w with
    | (.panic msg, w1) => (.panic msg, fm1, w1)
    | (.ret (.inl r), w1) => (.ret r, fm1, w1)
    | (.ret (.inr changed), w1) => (.ret (some changed, none), fm1, w1)

/-- The loop body of `ApplyPermissions` for the files of one package. -/
def permissionsFiles {σ : Type} (h : Host σ) (c : Client) :
    List File → World σ → Option GoError × World σ
  | [], w => (none, w)
  | f :: fs, w =>
    if f.Path = "" then permissionsFiles h c fs w
    else
      match (if f.Mode ≠ "" then
          (match Execf h c ("chmod " ++ f.Mode ++ " " ++ f.Path) [] w with
            | (.error err, w1) => (some (errorsWrap err ("error exec chmod " ++ f.Path)), w1)
            | (.ok _, w1) => (none, w1))
        else (none, w)) with
      | (some err, w1) => (some err, w1)
      | (none, w1) =>
        match (if f.Owner ≠ "" then
            (match Execf h c ("chown " ++ f.Owner ++ " " ++ f.Path) [] w1 with
              | (.error err, w2) => (some (errorsWrap err ("error exec chown " ++ f.Path)), w2)
              | (.ok _, w2) => (none, w2))
          else (none, w1)) with
        | (some err, w2) => (some err, w2)
        | (none, w2) => permissionsFiles h c fs w2

/-- The outer loop of `ApplyPermissions` over the packages. -/
def permissionsPackages {σ : Type} (h : Host σ) (c : Client) :
    List Package → World σ → Option GoError × World σ
  | [], w => (none, w)
  | pkg :: pkgs, w =>
    match permissionsFiles h c pkg.Files w with
    | (some err, w1) => (some err, w1)
    | (none, w1) => permissionsPackages h c pkgs w1

/-- The method `FileManager.ApplyPermissions`. -/
def FileManager.ApplyPermissions {σ : Type} (h : Host σ) (fm : FileManager) (w : World σ) :
    Option GoError × World σ :=
  match fm.ssh with
  | none => (some (errorsNew "error: ssh client not initialized"), w)
  | some c => permissionsPackages h c fm.manifest.Packages w

/-- The commands the specification lists for the permissions of one file: none
for an empty path, else `chmod <mode> <path>` when the mode is not empty, then
`chown <owner> <path>` when the owner is not empty. -/
def permissionCommands (f : File) : List String :=
  if f.Path = "" then []
  else
    (if f.Mode ≠ "" then ["chmod " ++ f.Mode ++ " " ++ f.Path] else []) ++
      (if f.Owner ≠ "" then ["chown " ++ f.Owner ++ " " ++ f.Path] else [])

/-- The commands for a manifest: those of every file of every package, in
declared order. -/
def manifestPermissionCommands (m : Manifest) : List String :=
  m.Packages.flatMap (fun pkg => pkg.Files.flatMap permissionCommands)

/-- Handing a list of command texts to `Execf` in order, up to the first one
that fails: the failure, if any, and the world that is left. -/
def runCommands {σ : Type} (h : Host σ) (c : Client) :
    List String → World σ → Option GoError × World σ
  | [], w => (none, w)
  | cmd :: rest, w =>
    match Execf h c cmd [] w with
    | (.error err, w1) => (some err, w1)
    | (.ok _, w1) => runCommands h c rest w1

/-- A step of the code follows a run of `runCommands`: the same world, an error
exactly when the run has one, and then that error wrapped. -/
def Follows {σ : Type} (r r1 : Option GoError × World σ) : Prop :=
  r.2 = r1.2 ∧ (r.1 = none ↔ r1.1 = none) ∧
    ∀ e, r1.1 = some e → ∃ msg, r.1 = some (errorsWrap e msg)

end files

/-! ## Package `packages`: the Debian package manager over SSH -/

namespace packages

open Go manifest ssh

/-- The `Packages` manager: the manifest and the SSH client. -/
structure Packages where
  manifest : Manifest
  ssh : Client
deriving DecidableEq, Repr

/-- The function `NewPackages`. -/
def NewPackages (m : Manifest) (c : Client) : Packages := { manifest := m, ssh := c }

/-- The method `Packages.Update`. -/
def Packages.Update {σ : Type} (h : Host σ) (p : Packages) (w : World σ) :
    Option GoError × World σ :=
  match Execf h p.ssh "DEBIAN_FRONTEND=noninteractive apt-get update" [] w with
  | (.error err, w1) => (some (errorsWrap err "error on apt-get update"), w1)
  | (.ok _, w1) => (none, w1)

/-- The format of the query command of `Packages.Query`. -/
def queryFormat : String :=
  "DEBIAN_FRONTEND=noninteractive /usr/bin/dpkg-query -W " ++
    "'-f=$\x7bbinary:Package\x7d,$\x7bVersion\x7d,$\x7bdb:Status-Status\x7d\\n' %s"

/-- The parse loop of `Packages.Query` over the scanned lines: each line is
split at the commas and its first three parts are read; a line with fewer parts
makes the index expression panic. -/
def parseLines : List String → GoMap Package → Outcome (GoMap Package)
  | [], pkglist => .ret pkglist
  | text :: rest, pkglist =>
    match split text ',' with
    | name :: version :: status :: _ =>
      parseLines rest (pkglist.set name { Name := name, Version := version, Status := status })
    | _ => .panic "index out of range"

/-- The entry the parse loop of `Query` stores for a line with the fields `name`,
`version` and `status`: the name and the package record. -/
def rowEntry (r : String × String × String) : String × Package :=
  (r.1, { Name := r.1, Version := r.2.1, Status := r.2.2 })

/-- The method `Packages.Query`. -/
def Packages.Query {σ : Type} (h : Host σ) (p : Packages) (w : World σ) :
    Outcome (Except GoError (GoMap Package)) × World σ :=
  if p.manifest.Packages.length = 0 then
    (.ret (.error (errorsNew "no packages provided to query")), w)
  else
    let names := p.manifest.Packages.map (fun pkg => pkg.Name)
    match Execf h p.ssh queryFormat [join names " "] w with
    | (res, w1) =>
      let early : Option GoError :=
        match res with
        | .ok _ => none
        | .error err =>
          match err.exitStatus with
          | some status => if status = 1 then none else some (errorsWrap err "error on dpkg-query")
          | none => none
      match early with
      | some e => (.ret (.error e), w1)
      | none =>
        let out : String := match res with
          | .ok o => o
          | .error _ => ""
        match parseLines (scanLines out) [] with
        | .panic msg => (.panic msg, w1)
        | .ret pkglist => (.ret (.ok pkglist), w1)

/-- The method `Packages.fixInvokeRcd`. -/
def Packages.fixInvokeRcd {σ : Type} (h : Host σ) (p : Packages) (w : World σ) :
    Option GoError × World σ :=
  match Execf h p.ssh "printf '#!/bin/sh\\nexit 0\\n' > /usr/sbin/policy-rc.d" [] w with
  | (.error err, w1) => (some (errorsWrap err "error on service start"), w1)
  | (.ok _, w1) => (none, w1)

/-- The method `Packages.Install`. -/
def Packages.Install {σ : Type} (h : Host σ) (p : Packages) (pkgs : List Package)
    (w : World σ) : Option GoError × World σ :=
  if pkgs.length = 0 then (some (errorsNew "no packages provided to install"), w)
  else
    let names := pkgs.map (fun pkg => pkg.Name)
    match (if p.manifest.Provider = ProviderBackendDocker then
        (match p.fixInvokeRcd h w with
          | (some err, w1) => (some (errorsWrap err "error fixing invoke-rc.d"), w1)
          | (none, w1) => (none, w1))
      else (none, w)) with
    | (some err, w1) => (some err, w1)
    | (none, w1) =>
      match Execf h p.ssh ("DEBIAN_FRONTEND=noninteractive apt-get install -y " ++ join names " ")
          [] w1 with
      | (.error err, w2) => (some (errorsWrap err "error on apt-get install"), w2)
      | (.ok _, w2) => (none, w2)

/-- The method `Packages.RestartService`; its entry is recorded in the trace. -/
def Packages.RestartService {σ : Type} (h : Host σ) (p : Packages) (name : String)
    (w : World σ) : Option GoError × World σ :=
  let w0 : World σ := { w with trace := w.trace ++ [Event.call "RestartService" name] }
  match Execf h p.ssh ("DEBIAN_FRONTEND=noninteractive service " ++ name ++ " restart") [] w0 with
  | (.error err, w1) => (some (errorsWrap err "error on service start"), w1)
  | (.ok _, w1) => (none, w1)

end packages

/-! ## Package `reconcile`: the per-host reconciler -/

namespace reconcile

open Go manifest ssh files packages

/-- The `ProviderReconciler`: the manifest and the SSH client. -/
structure ProviderReconciler where
  manifest : Manifest
  ssh : Client
deriving DecidableEq, Repr

/-- The function `reconcile.New`. -/
def New (m : Manifest) (c : Client) : ProviderReconciler := { manifest := m, ssh := c }

/-- The diff loop of `Reconcile`: the packages to install, in the order of the
manifest, each carried as its name and version. -/
def missingPackages (desired : List Package) (pkglist : GoMap Package) : List Package :=
  desired.foldl (fun missing pkgDesired =>
    match pkglist.get pkgDesired.Name with
    | none => missing ++ [{ Name := pkgDesired.Name, Version := pkgDesired.Version }]
    | some pkgActual =>
      if pkgActual.Status ≠ "installed" then
        missing ++ [{ Name := pkgDesired.Name, Version := pkgDesired.Version }]
      else if pkgDesired.Version ≠ pkgActual.Version then missing
      else missing) []

/-- The first two cases of the switch in the diff loop of `Reconcile`: the
desired package is absent from the query result, or present with a status other
than `installed`. -/
def needsInstall (pkglist : GoMap Package) (d : Package) : Bool :=
  match pkglist.get d.Name with
  | none => true
  | some actual => decide (actual.Status ≠ "installed")

/-- The render data of `Reconcile`: the start time under `LastModifiedDate`,
then every manifest parameter. -/
def renderData (m : Manifest) (now : String) : GoMap String :=
  m.Parameters.entries.foldl (fun d e => d.set e.1 e.2) [(FileTemplateKeyLastModifiedDate, now)]

/-- The restart loop of `Reconcile` over the changed packages in the order the
`range` visits them. -/
def restartServices {σ : Type} (h : Host σ) (pkgs : Packages) (id : String) :
    List (String × Package) → World σ → Option GoError × World σ
  | [], w => (none, w)
  | (_, pkg) :: rest, w =>
    if pkg.Kind = PackageKindService then
      match pkgs.RestartService h pkg.Name w with
      | (some err, w1) =>
        (some (errorsWrap err ("error restarting service " ++ pkg.Name ++ " on " ++ id)), w1)
      | (none, w1) => restartServices h pkgs id rest w1
    else restartServices h pkgs id rest w

/-- The status loop of `Reconcile` over the service packages of the manifest;
a failing status command is only logged. -/
def checkServices {σ : Type} (h : Host σ) (p : ProviderReconciler) :
    List Package → World σ → World σ
  | [], w => w
  | pkg :: rest, w =>
    if pkg.Kind ≠ PackageKindService then checkServices h p rest w
    else
      let cmd := if p.manifest.Provider = ProviderBackendDocker then "service %s status"
        else "systemctl status %s"
      checkServices h p rest (Execf h p.ssh cmd [pkg.Name] w).2

/-- The install step of `Reconcile`: when the list is not empty, `Update` then
`Install`; the first failure is returned. -/
def installMissing {σ : Type} (h : Host σ) (pkgs : Packages) (id : String)
    (missing : List Package) (w : World σ) : Option GoError × World σ :=
  if missing.length > 0 then
    match pkgs.Update h w with
    | (some err, w2) => (some (errorsWrap err ("error update packages on " ++ id)), w2)
    | (none, w2) =>
      match pkgs.Install h missing w2 with
      | (some err, w3) => (some (errorsWrap err ("error installing packages on " ++ id)), w3)
      | (none, w3) => (none, w3)
  else (none, w)

/-- The method `ProviderReconciler.Reconcile`. The clock reading
`time.Now().UTC().Format(time.RFC3339)` is the parameter `now`, and `order` is
the order in which the `range` over the changed packages visits them. -/
def ProviderReconciler.Reconcile {σ : Type} (h : Host σ) (t : Templates)
    (order : GoMap Package → List (String × Package)) (now : String)
    (p : ProviderReconciler) (w : World σ) : Outcome (Option GoError) × World σ :=
  let pkgs := NewPackages p.manifest p.ssh
  match pkgs.Query h w with
  | (.panic msg, w1) => (.panic msg, w1)
  | (.ret (.error err), w1) =>
    (.ret (some (errorsWrap err "error getting packages from container")), w1)
  | (.ret (.ok pkglist), w1) =>
    let missing := missingPackages p.manifest.Packages pkglist
    match installMissing h pkgs p.manifest.ID missing w1 with
    | (some err, w2) => (.ret (some err), w2)
    | (none, w2) =>
      let data := renderData p.manifest now
      let fm := files.New p.manifest (some p.ssh)
      match fm.RenderAndTransfer h t data w2 with
      | (.panic msg, _, w3) => (.panic msg, w3)
      | (.ret (_, some err), _, w3) => (.ret (some (errorsWrap err "error rendering files")), w3)
      | (.ret (changedPackages, none), fm1, w3) =>
        match fm1.ApplyPermissions h w3 with
        | (some err, w4) => (.ret (some (errorsWrap err "error applying permissions")), w4)
        | (none, w4) =>
          match restartServices h pkgs p.manifest.ID (order (changedPackages.getD [])) w4 with
          | (some err, w5) => (.ret (some err), w5)
          | (none, w5) => (.ret none, checkServices h p p.manifest.Packages w5)

end reconcile

/-! ## Removal: `files.Remove`, `packages.Remove`, `reconcile.Remove`, `reconcile.Run` -/

namespace ssh

open Go

/-- Whether a command string handed to the session is an `apt-get` command:
after an optional `sudo `, it starts with the environment setting and `apt-get`. -/
def isAptGet (cmd : String) : Bool :=
  hasPrefix (trimPrefix cmd "sudo ") "DEBIAN_FRONTEND=noninteractive apt-get "

/-- The `apt-get` commands of a trace, in order. -/
def aptCalls : List Event → List String
  | [] => []
  | Event.exec cmd :: rest => if isAptGet cmd then cmd :: aptCalls rest else aptCalls rest
  | _ :: rest => aptCalls rest

/-- An event that is not an `apt-get` command. -/
def notApt : Event → Prop
  | Event.exec cmd => isAptGet cmd = false
  | _ => True

/-- The formats of the remote commands other than those of `apt-get`: whether a
format starts as one of them. -/
def stepFormat (fmt : String) : Bool :=
  hasPrefix fmt "stat " || hasPrefix fmt "sha256sum " || hasPrefix fmt "/bin/cat " ||
  hasPrefix fmt "mv " || hasPrefix fmt "chmod " || hasPrefix fmt "chown " ||
  hasPrefix fmt "rm " || hasPrefix fmt "printf " || hasPrefix fmt "cat " ||
  hasPrefix fmt "systemctl " || hasPrefix fmt "service " ||
  hasPrefix fmt "DEBIAN_FRONTEND=noninteractive service " ||
  hasPrefix fmt "DEBIAN_FRONTEND=noninteractive /usr/bin/dpkg-query "

/-- A step from world `w` to world `w1` adds only events with the property `P`. -/
def Adds {σ : Type} (P : Event → Prop) (w w1 : World σ) : Prop :=
  ∃ l, w1.trace = w.trace ++ l ∧ ∀ e ∈ l, P e

/-- The property `P` holds of every SFTP event, of every entry into
`RestartService`, and of every command a client sends for a format of
`stepFormat`. -/
def Allows (c : Client) (P : Event → Prop) : Prop :=
  (∀ path, P (Event.sftpOpen path)) ∧ (∀ path data, P (Event.sftpWrite path data)) ∧
  (∀ name, P (Event.call "RestartService" name)) ∧
  (∀ fmt args, stepFormat fmt = true → P (Event.exec (c.wire fmt args)))

end ssh

namespace files

open Go manifest ssh

/-- The method `FileManager.RemoveOne`: a failing command is only logged. -/
def FileManager.RemoveOne {σ : Type} (h : Host σ) (fm : FileManager) (f : File) (w : World σ) :
    Outcome (Option GoError) × World σ :=
  match fm.ssh with
  | none => (.panic "invalid memory address or nil pointer dereference", w)
  | some c => (.ret none, (Execf h c "rm -f %s" [f.Path] w).2)

/-- The inner loop of `FileManager.Remove` over the files of one package: an
error when the function returns inside the loop, `none` when the loop ends. -/
def removeFiles {σ : Type} (h : Host σ) (fm : FileManager) :
    List File → World σ → Outcome (Option GoError) × World σ
  | [], w => (.ret none, w)
  | f :: fs, w =>
    if f.Path = "" then (.ret (some (errorsNew "error: file path not set")), w)
    else
      match fm.RemoveOne h f w with
      | (.panic msg, w1) => (.panic msg, w1)
      | (.ret _, w1) => removeFiles h fm fs w1

/-- The method `FileManager.Remove`. -/
def FileManager.Remove {σ : Type} (h : Host σ) (fm : FileManager) :
    List Package → World σ → Outcome (Option GoError) × World σ
  | [], w => (.ret none, w)
  | pkg :: pkgs, w =>
    match removeFiles h fm pkg.Files w with
    | (.panic msg, w1) => (.panic msg, w1)
    | (.ret (some err), w1) => (.ret (some err), w1)
    | (.ret none, w1) => FileManager.Remove h fm pkgs w1

end files

namespace packages

open Go manifest ssh

/-- The method `Packages.Remove`. -/
def Packages.Remove {σ : Type} (h : Host σ) (p : Packages) (purge : Bool) (pkgs : List Package)
    (w : World σ) : Option GoError × World σ :=
  if pkgs.length = 0 then (some (errorsNew "no packages provided to remove"), w)
  else
    let names := pkgs.map (fun pkg => pkg.Name)
    let purgeOrRemove := if purge then "purge" else "remove"
    match Execf h p.ssh ("DEBIAN_FRONTEND=noninteractive apt-get %s -y " ++ join names " ")
        [purgeOrRemove] w with
    | (.error err, w1) => (some (errorsWrap err "error on apt-get remove"), w1)
    | (.ok _, w1) => (none, w1)

/-- The command text of the update step, as the specification lists it. -/
def updateCommand : String := "DEBIAN_FRONTEND=noninteractive apt-get update"

/-- The command text of the install step for a list of packages, as the
specification lists it: the names in the order of the list, one space apart. -/
def installCommand (pkgs : List Package) : String :=
  "DEBIAN_FRONTEND=noninteractive apt-get install -y " ++ join (pkgs.map (fun pkg => pkg.Name)) " "

end packages

namespace reconcile

open Go manifest ssh files packages

/-- The operation `Reconcile`. -/
def Reconcile : String := "reconcile"

/-- The operation `Remove`. -/
def Remove : String := "remove"

/-- The operation `Purge`. -/
def Purge : String := "purge"

/-- The provider constant `ProviderBackendEC2`. -/
def ProviderBackendEC2 : String := "ec2"

/-- The provider constant `ProviderBackendSlack`. -/
def ProviderBackendSlack : String := "slack"

/-- The provider constant `ProviderBackendLinode`. -/
def ProviderBackendLinode : String := "linode"

/-- The loop of `ProviderReconciler.Remove` that builds the list to remove: the
desired packages found in the query result, in the order of the manifest, each
carried as its name and version. -/
def removeList (desired : List Package) (pkglist : GoMap Package) : List Package :=
  desired.foldl (fun remove pkg =>
    match pkglist.get pkg.Name with
    | some _ => remove ++ [{ Name := pkg.Name, Version := pkg.Version }]
    | none => remove) []

/-- The method `ProviderReconciler.Remove`. -/
def ProviderReconciler.Remove {σ : Type} (h : Host σ) (p : ProviderReconciler) (purge : Bool)
    (w : World σ) : Outcome (Option GoError) × World σ :=
  let pkgs := NewPackages p.manifest p.ssh
  match pkgs.Query h w with
  | (.panic msg, w1) => (.panic msg, w1)
  | (.ret (.error err), w1) =>
    (.ret (some (errorsWrap err "error getting packages from container")), w1)
  | (.ret (.ok pkglist), w1) =>
    let remove := removeList p.manifest.Packages pkglist
    if remove.length > 0 then
      let w2 := (pkgs.Remove h purge remove w1).2
      let fm := files.New p.manifest (some p.ssh)
      match fm.Remove h remove w2 with
      | (.panic msg, w3) => (.panic msg, w3)
      | (.ret (some err), w3) => (.ret (some (errorsWrap err "error rendering files")), w3)
      | (.ret none, w3) => (.ret none, w3)
    else (.ret none, w1)

/-- A provider backend (`ProviderBackendReconciler`): `Run` yields the SSH
client or fails, `Close` releases what the backend holds. -/
structure Backend (σ : Type) where
  Run : World σ → Except GoError Client × World σ
  Close : World σ → World σ

/-- The constructors of the four backends; those of EC2 and Linode can fail. -/
structure Backends (σ : Type) where
  docker : Manifest → Backend σ
  ec2 : Manifest → Except GoError (Backend σ)
  slack : Manifest → Backend σ
  linode : Manifest → Except GoError (Backend σ)

/-- The `switch m.Provider` of `Run`: the backend for the manifest, with the
options applied for the providers that take them. -/
def newBackend {σ : Type} (bs : Backends σ) (m : Manifest)
    (options : List (Backend σ → Backend σ)) : Except GoError (Backend σ) :=
  if m.Provider = ProviderBackendDocker then .ok (bs.docker m)
  else if m.Provider = ProviderBackendEC2 then
    match bs.ec2 m with
    | .error err => .error (errorsWrap err ("error on provider backend new " ++ m.Provider))
    | .ok be => .ok be
  else if m.Provider = ProviderBackendSlack then
    .ok (options.foldl (fun be option => option be) (bs.slack m))
  else if m.Provider = ProviderBackendLinode then
    match bs.linode m with
    | .error err => .error (errorsWrap err ("error on provider backend new " ++ m.Provider))
    | .ok be => .ok (options.foldl (fun be option => option be) be)
  else .error (errorsNew ("unknown provider " ++ m.Provider))

/-- The function `reconcile.Run`; the deferred `Close` runs on every way out
once the backend's `Run` has succeeded. -/
def Run {σ : Type} (h : Host σ) (t : Templates)
    (order : GoMap Package → List (String × Package)) (now : String) (bs : Backends σ)
    (m : Manifest) (op : String) (options : List (Backend σ → Backend σ)) (w : World σ) :
    Outcome (Option GoError) × World σ :=
  match newBackend bs m options with
  | .error err => (.ret (some err), w)
  | .ok be =>
    match be.Run w with
    | (.error err, w1) =>
      (.ret (some (errorsWrap err "error on provider backend reconcile")), w1)
    | (.ok sshClient, w1) =>
      let w2 := (Execf h sshClient "cat /etc/os-release" [] w1).2
      let reconciler := New m sshClient
      let wrap : Outcome (Option GoError) → Outcome (Option GoError) := fun r =>
        match r with
        | .ret (some err) => .ret (some (errorsWrap err "error on reconciler"))
        | other => other
      if op = Reconcile then
        match reconciler.Reconcile h t order now w2 with
        | (r, w3) => (wrap r, be.Close w3)
      else if op = Remove ∨ op = Purge then
        match reconciler.Remove h false w2 with
        | (r, w3) => (wrap r, be.Close w3)
      else (.ret (some (errorsNew ("unknown reconcile op: " ++ op))), be.Close w2)

end reconcile

/-! ## The command line: flags, the task group, the `reconcile` action -/

namespace flags

/-- The constant `maxConcurrency`. -/
def maxConcurrency : Int := 3

/-- The default `Value` of `FlagConcurrency`. -/
def FlagConcurrencyValue : Int := 2

/-- The `Action` of `FlagConcurrency`, run when the flag is given: the value the
flag holds afterwards. -/
def FlagConcurrencyAction (concurrency : Int) : Int :=
  if concurrency > maxConcurrency then maxConcurrency else concurrency

/-- The value `c.Int(FlagNameConcurrency)` reads in the command's action: the
default when the flag is not given, else what the flag's action left. -/
def concurrency (given : Option Int) : Int :=
  match given with
  | none => FlagConcurrencyValue
  | some n => FlagConcurrencyAction n

end flags

namespace errgroup

open Go

/-- An `errgroup.Group`: the capacity of its token channel (`none` for the nil
channel, which is no limit), the number of goroutines started by `Go` and not
yet done, and the first error recorded. -/
structure Group where
  sem : Option Nat := none
  running : Nat := 0
  err : Option GoError := none
deriving DecidableEq, Repr

/-- The method `SetLimit`: a negative value removes the limit. -/
def Group.SetLimit (g : Group) (n : Int) : Outcome Group :=
  if n < 0 then .ret { g with sem := none }
  else
    match g.sem with
    | some _ =>
      if g.running ≠ 0 then
        .panic "errgroup: modify limit while goroutines in the group are still active"
      else .ret { g with sem := some n.toNat }
    | none => .ret { g with sem := some n.toNat }

/-- Whether `Go` can start its goroutine now; otherwise it blocks on the token
channel. -/
def Group.canGo (g : Group) : Bool :=
  match g.sem with
  | none => true
  | some cap => decide (g.running < cap)

/-- The method `Go` once it has its token. -/
def Group.Go (g : Group) : Group := { g with running := g.running + 1 }

/-- The end of a goroutine of the group that returned `r`: the first error is
kept and the token is given back. -/
def Group.done (g : Group) (r : Option GoError) : Group :=
  { g with running := g.running - 1, err := if g.err.isSome then g.err else r }

end errgroup

namespace cmd

open Go manifest errgroup

/-- The constant `maxReconcileManifests`. -/
def maxReconcileManifests : Nat := 10

/-- The flags of the `reconcile` command as its action reads them. -/
structure Context where
  manifest : List String
  packages : String := ""
  concurrency : Option Int := none
  timeout : String := "15m"
  password : String := ""
  remove : Bool := false
  purge : Bool := false
deriving DecidableEq, Repr

/-- One reconcile task: the manifest path, the loaded manifest, the operation. -/
structure Task where
  path : String
  m : Manifest
  op : String
deriving DecidableEq, Repr

/-- What the action did, in order. -/
inductive Event where
  | load (path : String) (packages : String)
  | start (path : String) (op : String)
  | finish (path : String) (err : Option GoError)
deriving DecidableEq, Repr

/-- The state of the action: the paths the loop has not reached, the task
loaded and waiting in `errgrp.Go`, the group, the tasks in flight, the events
so far, and what the action returned once it has. -/
structure Runner where
  todo : List String
  pending : Option Task := none
  group : Group := {}
  running : List Task := []
  events : List Event := []
  returned : Option (Outcome (Option GoError)) := none
deriving DecidableEq, Repr

/-- The operation the flags choose. -/
def reconcileOP (c : Context) : String :=
  if c.purge then reconcile.Purge else if c.remove then reconcile.Remove else reconcile.Reconcile

/-- The action up to its loop: the check of the number of manifests, then the
limit of the group. -/
def Action.begin (c : Context) : Runner :=
  if c.manifest.length > maxReconcileManifests then
    { todo := c.manifest,
      returned := some (.ret (some (errorsNew
        ("manifest argument is over the limtit of " ++ Nat.repr maxReconcileManifests)))) }
  else
    match ({} : Group).SetLimit (flags.concurrency c.concurrency) with
    | .panic msg => { todo := c.manifest, returned := some (.panic msg) }
    | .ret g => { todo := c.manifest, group := g }

/-- A move of the scheduler: the action's own goroutine goes on, or the task in
flight at an index ends. -/
inductive Step where
  | main
  | finish (i : Nat)
deriving DecidableEq, Repr

/-- One move of the action's goroutine; `none` when it has returned or is
blocked (in `Go` on a full group, in `Wait` on tasks in flight). -/
def Runner.main (load : String → String → Except GoError Manifest) (c : Context)
    (r : Runner) : Option Runner :=
  if r.returned.isSome then none
  else
    match r.pending with
    | some task =>
      if r.group.canGo then
        some { r with pending := none, group := r.group.Go, running := r.running ++ [task],
                      events := r.events ++ [Event.start task.path task.op] }
      else none
    | none =>
      match r.todo with
      | path :: rest =>
        let r1 : Runner := { r with todo := rest, events := r.events ++ [Event.load path c.packages] }
        match load path c.packages with
        | .error err => some { r1 with returned := some (.ret (some err)) }
        | .ok m => some { r1 with pending := some { path := path, m := m, op := reconcileOP c } }
      | [] => if r.running.isEmpty then some { r with returned := some (.ret r.group.err) } else none

/-- The end of the task in flight at index `i`, with the error `runTask` gives
for it; `none` when there is no such task or the action has returned. -/
def Runner.finish (runTask : Task → Option GoError) (i : Nat) (r : Runner) : Option Runner :=
  if r.returned.isSome then none
  else
    match r.running.get? i with
    | none => none
    | some task =>
      some { r with running := r.running.eraseIdx i, group := r.group.done (runTask task),
                    events := r.events ++ [Event.finish task.path (runTask task)] }

/-- One move; a move that cannot be made leaves the state as it is. -/
def Runner.step (load : String → String → Except GoError Manifest)
    (runTask : Task → Option GoError) (c : Context) (r : Runner) (s : Step) : Runner :=
  match s with
  | .main => (r.main load c).getD r
  | .finish i => (r.finish runTask i).getD r

/-- The action under a schedule: the state after the moves, from the start. -/
def Action (load : String → String → Except GoError Manifest)
    (runTask : Task → Option GoError) (c : Context) (schedule : List Step) : Runner :=
  schedule.foldl (Runner.step load runTask c) (Action.begin c)

/-- The errors of the tasks that ended with one, in the order the tasks ended. -/
def failures : List Event → List GoError
  | [] => []
  | Event.finish _ (some err) :: rest => err :: failures rest
  | _ :: rest => failures rest

/-- The number of tasks that were started. -/
def startCount : List Event → Nat
  | [] => 0
  | Event.start _ _ :: rest => startCount rest + 1
  | _ :: rest => startCount rest

/-- The number of tasks that ended. -/
def finishCount : List Event → Nat
  | [] => 0
  | Event.finish _ _ :: rest => finishCount rest + 1
  | _ :: rest => finishCount rest

/-- What holds of every state of the action when at most 10 manifests are given
and each of them loads: the group holds the error of the task that failed
first, every started task is in flight or has ended, every manifest is yet to
be reached, waiting in `Go`, or started, and the action has returned only from
`Wait`, with the group's error, after every task ended. -/
def Runner.Accounted (load : String → String → Except GoError Manifest) (c : Context)
    (r : Runner) : Prop :=
  r.group.err = (failures r.events).head? ∧
  startCount r.events = finishCount r.events + r.running.length ∧
  r.todo.length + (if r.pending.isSome then 1 else 0) + startCount r.events =
    c.manifest.length ∧
  (∀ p ∈ r.todo, ∃ m, load p c.packages = .ok m) ∧
  (r.returned = none ∨
    (r.returned = some (.ret (failures r.events).head?) ∧ r.todo = [] ∧ r.pending = none ∧
      r.running = []))

end cmd

/-! ## `FindPackage` and `NewID` -/

namespace Go

/-- The test `strings.HasSuffix(s, sfx)`. -/
def hasSuffix (s sfx : String) : Bool := sfx.data.reverse.isPrefixOf s.data.reverse

/-- The loop of `slices.IndexFunc` from position `i` on. -/
def indexFrom {α : Type} (f : α → Bool) : List α → Nat → Int
  | [], _ => -1
  | a :: rest, i => if f a then (i : Int) else indexFrom f rest (i + 1)

/-- The function `slices.IndexFunc`: the first index at which `f` holds, or -1. -/
def IndexFunc {α : Type} (s : List α) (f : α → Bool) : Int := indexFrom f s 0

/-- The text `fmt.Sprintf("%x", b)` of a byte slice: two lowercase hexadecimal
digits for each byte. -/
def hexBytes (b : Bytes) : String :=
  String.mk (b.flatMap (fun x => [hexDigit (x / 16 % 16), hexDigit (x % 16)]))

/-- The value of a hexadecimal digit (lowercase letters), 16 for another character. -/
def hexValue (c : Char) : Nat :=
  if 48 ≤ c.toNat ∧ c.toNat ≤ 57 then c.toNat - 48
  else if 97 ≤ c.toNat ∧ c.toNat ≤ 102 then c.toNat - 87
  else 16

/-- The bytes a text of hexadecimal digits stands for, two digits for a byte. -/
def unhex : List Char → Bytes
  | c :: d :: rest => (hexValue c * 16 + hexValue d) :: unhex rest
  | _ => []

end Go

namespace manifest

open Go

/-- The method `Manifest.FindPackage`. -/
def Manifest.FindPackage (m : Manifest) (pfx sfx : String) : Outcome (Except GoError Package) :=
  let index := IndexFunc m.Packages (fun p => hasPrefix p.Name pfx && hasSuffix p.Name sfx)
  if index = -1 then
    .ret (.error (errorsNew
      ("no package found with prefix: " ++ pfx ++ " and suffix: " ++ sfx)))
  else
    match m.Packages.get? index.toNat with
    | some p => .ret (.ok p)
    | none => .panic "index out of range"

/-- The format `UniqueIDFormatRandom`. -/
def UniqueIDFormatRandom : String := "random"

/-- The format `UniqueIDFormatULID`. -/
def UniqueIDFormatULID : String := "ulid"

/-- The sources `NewID` draws on, as parameters: `rand.Read` on a buffer of `n`
bytes (the bytes that fill it, or the error), and the call
`ulid.New(ulid.Now(), ulid.DefaultEntropy())` (the text of the identifier and
the error). -/
structure Entropy where
  read : Nat → Except GoError Bytes
  ulid : String × Option GoError

/-- The function `randID`. -/
def randID (e : Entropy) (length : Nat) : Except GoError Bytes :=
  match e.read length with
  | .error err => .error (errorsWrap err "error reading random bytes")
  | .ok b => .ok b

/-- The function `NewID`: the identifier and the error it returns
(`errors.Wrap` of no error is no error). -/
def NewID (e : Entropy) (format : String) : String × Option GoError :=
  if format = UniqueIDFormatULID then
    (e.ulid.1, e.ulid.2.map (fun err => errorsWrap err "error creating new id"))
  else
    match randID e 5 with
    | .error err => (hexBytes [], some (errorsWrap err "error creating new id"))
    | .ok id => (hexBytes id, none)

end manifest

/-! ## The command shapes the specification lists -/

namespace packages

/-- The restart command as the specification writes it: `service <name> restart`. -/
def specRestartCommand (name : String) : String := "service " ++ name ++ " restart"

end packages

namespace files

/-- The hash command as the specification writes it:
`sha256sum <path> | awk '{ print $1 }'`. -/
def specShaCommand (path : String) : String :=
  "sha256sum " ++ path ++ " | awk '\x7b print $1 \x7d'"

end files

/-! ## Package `ec2`: looking an instance up by its name tag -/

namespace ec2

open Go

/-- The constant `types.InstanceStateNameTerminated`. -/
def InstanceStateNameTerminated : String := "terminated"

/-- The type `types.InstanceState`, as far as `Exists` reads it. -/
structure InstanceState where
  Name : String
deriving DecidableEq, Repr

/-- The type `types.Instance`, as far as `Exists` reads it; the fields are
pointers, `none` is the nil pointer. -/
structure Instance where
  InstanceId : Option String := none
  PublicDnsName : Option String := none
  State : Option InstanceState := none
deriving DecidableEq, Repr

/-- The type `types.Reservation`, as far as `Exists` reads it. -/
structure Reservation where
  Instances : List Instance
deriving DecidableEq, Repr

/-- The error `ErrNoInstanceFound`. -/
def ErrNoInstanceFound : GoError := errorsNew "no instance found"

/-- The ec2 `ProviderBackend`, as far as `Exists` uses it: the client, as the
answer of `DescribeInstances` for a name tag on the call with a given number
(counted from 0). -/
structure ProviderBackend where
  Client : String → Nat → Except GoError (List Reservation)

/-- The loop of `Exists` over the reservations of one answer: the instance id
and DNS name it stops at, or `none` when the loop runs to its end. Only the
first instance of a reservation is looked at; the index expression panics on
an empty list and a nil pointer panics where it is followed. -/
def findInstance : List Reservation → Outcome (Option (String × String))
  | [] => .ret none
  | r :: rest =>
    match r.Instances with
    | [] => .panic "index out of range [0] with length 0"
    | i :: _ =>
      match i.State with
      | none => .panic "invalid memory address or nil pointer dereference"
      | some st =>
        if st.Name = InstanceStateNameTerminated then
          match i.InstanceId with
          | none => .panic "invalid memory address or nil pointer dereference"
          | some _ => findInstance rest
        else
          match i.InstanceId, i.PublicDnsName with
          | some id, some dns => .ret (some (id, dns))
          | _, _ => .panic "invalid memory address or nil pointer dereference"

/-- The operation `Exists` hands to `backoff.Retry`, on one answer of
`DescribeInstances`: the instance found, or the error of the attempt. -/
def existsAttempt (out : Except GoError (List Reservation)) :
    Outcome (Except GoError (String × String)) :=
  match out with
  | .error err => .ret (.error err)
  | .ok rs =>
    match findInstance rs with
    | .panic msg => .panic msg
    | .ret (some found) => .ret (.ok found)
    | .ret none => .ret (.error ErrNoInstanceFound)

/-- The call `backoff.Retry(op, backoff.WithMaxRetries(b, n))`: the operation is
tried, and after an error tried again, `n` more times at most; the last error
is returned. The waiting between the attempts is not modelled; `k` is the
number of the attempt. -/
def retry {α : Type} (op : Nat → Outcome (Except GoError α)) :
    Nat → Nat → Outcome (Except GoError α)
  | 0, k => op k
  | n + 1, k =>
    match op k with
    | .ret (.error _) => retry op n (k + 1)
    | r => r

/-- The method `ProviderBackend.Exists`: `exists`, the instance id, the public
DNS name and the error. -/
def ProviderBackend.Exists (p : ProviderBackend) (name : String) :
    Outcome (Bool × String × String × Option GoError) :=
  match retry (fun k => existsAttempt (p.Client name k)) 2 0 with
  | .panic msg => .panic msg
  | .ret (.error err) => .ret (false, "", "", some err)
  | .ret (.ok (id, dns)) => .ret (true, id, dns, none)

/-- Whether an instance is in the terminated state. -/
def isTerminated (i : Instance) : Bool :=
  match i.State with
  | some st => st.Name = InstanceStateNameTerminated
  | none => false

/-- An answer in which every reservation has an instance and the state, id and
DNS name of its first instance are set. -/
def wellFormed (rs : List Reservation) : Bool :=
  rs.all (fun r =>
    match r.Instances with
    | i :: _ => i.State.isSome && i.InstanceId.isSome && i.PublicDnsName.isSome
    | [] => false)

/-- The first instances of the reservations of an answer, in order. -/
def firstInstances (rs : List Reservation) : List Instance :=
  rs.filterMap (fun r => r.Instances.head?)

/-- The first of the first instances that is not terminated. -/
def firstLive (rs : List Reservation) : Option Instance :=
  (firstInstances rs).find? (fun i => !isTerminated i)

end ec2

/-! ## Package `docker`: the container backend -/

namespace docker

open Go manifest ssh reconcile

/-- The Docker daemon and what else the backend calls, as transitions on the
state `σ`: the `dockertest` pool, the ping, the free port, the start of the
container (its id), the key pair (private and public key), the command run in
the container (its exit code), the SSH dial of `ssh.New`, and the `Expire` and
`Close` of a container. The field `container` of the backend object is part of
the state: `container` reads it and `setContainer` assigns it. -/
structure Docker (σ : Type) where
  newPool : σ → Option GoError × σ
  ping : σ → Option GoError × σ
  getFreePort : σ → Except GoError Nat × σ
  runWithOptions : σ → Nat → Except GoError String × σ
  generateKeyPair : σ → Except GoError (String × String) × σ
  exec : σ → String → List String → Except GoError Int × σ
  dial : σ → String → Nat → Option GoError × σ
  expire : σ → String → Option GoError × σ
  close : σ → String → Option GoError × σ
  container : σ → Option String
  setContainer : σ → String → σ

/-- The command that writes the public key to `authorized_keys`. -/
def authorizedKeysCommand (publicKey id : String) : List String :=
  ["/bin/bash", "-c",
    Sprintf "mkdir -p /root/.ssh/ && echo \"%s %s %s\" > /root/.ssh/authorized_keys"
      ["ssh-rsa", publicKey, id]]

/-- The method `ProviderBackend.Run` of the docker backend. The start of the
container is recorded in the trace, with the id of the container. -/
def ProviderBackend.Run {σ : Type} (d : Docker σ) (w : World σ) :
    Except GoError Client × World σ :=
  match d.newPool w.host with
  | (some err, s) => (.error (errorsWrap err "error on new dockertest pool"), { w with host := s })
  | (none, s) =>
    match d.ping s with
    | (some err, s1) => (.error (errorsWrap err "error ping docker"), { w with host := s1 })
    | (none, s1) =>
      match d.getFreePort s1 with
      | (.error err, s2) =>
        (.error (errorsWrap err "error getting free port"), { w with host := s2 })
      | (.ok sshPort, s2) =>
        match d.runWithOptions s2 sshPort with
        | (.error err, s3) =>
          (.error (errorsWrap err "error starting container"), { w with host := s3 })
        | (.ok id, s3) =>
          let tr := w.trace ++ [Event.call "RunWithOptions" id]
          match d.generateKeyPair (d.setContainer s3 id) with
          | (.error err, s4) => (.error (errorsWrap err "error generating key pair"), ⟨s4, tr⟩)
          | (.ok (privateKey, publicKey), s4) =>
            match d.exec s4 id (authorizedKeysCommand publicKey id) with
            | (.error err, s5) =>
              (.error (errorsWrap err ("error executing command " ++
                join (authorizedKeysCommand publicKey id) " " ++ " in container")), ⟨s5, tr⟩)
            | (.ok exit, s5) =>
              if exit ≠ 0 then
                (.error (errorsNew ("error starting sshd container " ++ id ++ ", exit code " ++
                  toString exit)), ⟨s5, tr⟩)
              else
                match d.dial s5 privateKey sshPort with
                | (some err, s6) =>
                  (.error (errorsWrap err "error creating ssh client"), ⟨s6, tr⟩)
                | (none, s6) => (.ok (ssh.New "root"), ⟨s6, tr⟩)

/-- The method `ProviderBackend.Close` of the docker backend: nothing without a
container; else `Expire` and `Close` on it, each recorded in the trace, their
errors only logged. -/
def ProviderBackend.Close {σ : Type} (d : Docker σ) (w : World σ) : World σ :=
  match d.container w.host with
  | none => w
  | some id =>
    let s1 := (d.expire w.host id).2
    let s2 := (d.close s1 id).2
    ⟨s2, w.trace ++ [Event.call "Expire" id, Event.call "Close" id]⟩

/-- The function `docker.New`: the backend for a manifest. -/
def New {σ : Type} (d : Docker σ) (_m : Manifest) : Backend σ :=
  { Run := ProviderBackend.Run d, Close := ProviderBackend.Close d }

/-- The ids of the containers that were started, in order. -/
def startCalls : List Event → List String
  | [] => []
  | Event.call method arg :: rest =>
    if method = "RunWithOptions" then arg :: startCalls rest else startCalls rest
  | _ :: rest => startCalls rest

/-- The ids of the containers on which `Close` was called, in order. -/
def closeCalls : List Event → List String
  | [] => []
  | Event.call method arg :: rest =>
    if method = "Close" then arg :: closeCalls rest else closeCalls rest
  | _ :: rest => closeCalls rest

end docker

/-! ## A host that keeps files -/

namespace ssh

open Go

/-- Whether a command string handed to the session is a move: after an optional
`sudo `, it starts with `mv `. -/
def isMove (cmd : String) : Bool := hasPrefix (trimPrefix cmd "sudo ") "mv "

/-- The formats of the remote commands of a `Reconcile` run other than the move
of `Transfer`: whether a format starts as one of them. -/
def quietFormat (fmt : String) : Bool :=
  hasPrefix fmt "stat " || hasPrefix fmt "sha256sum " || hasPrefix fmt "/bin/cat " ||
  hasPrefix fmt "chmod " || hasPrefix fmt "chown " || hasPrefix fmt "printf " ||
  hasPrefix fmt "systemctl " || hasPrefix fmt "service " ||
  hasPrefix fmt "DEBIAN_FRONTEND=noninteractive "

/-- The word `sudo ` that `Execf` puts before the command of a client that uses
it. -/
def Client.sudo (c : Client) : String := if c.useSudo then "sudo " else ""

end ssh

namespace files

open Go manifest ssh

/-- The files of a host (path to bytes) once the file `path` holds the bytes `b`. -/
def stored (d : String → Option Bytes) (path : String) (b : Bytes) : String → Option Bytes :=
  fun q => if path = q then some b else d q

/-- The files of a host once the file `a` is moved to `b`. -/
def moved (d : String → Option Bytes) (a b : String) : String → Option Bytes :=
  fun q => if b = q then d a else if a = q then none else d q

/-- A host that keeps the files `paths` and changes files only when it is told
to; `disk s` are the files (path to bytes) of the host in the state `s`, and `c`
is the client whose commands it receives.

* opening a session, starting SFTP, making directories and every command that is
  not a move leave the files as they are, and a session that does not open
  fails with an error that is not the exit status of a command;
* `stat` answers for a file of `paths` exactly when the file exists, then with a
  record of six fields, and `sha256sum` answers for an existing file of `paths`
  with the SHA-256 of its bytes;
* a file opened over SFTP is empty, and every SFTP write takes all its bytes
  and puts them at the end of the file;
* a move of the temporary copy of a file of `paths` to the file, when it
  succeeds, leaves the file with the bytes of the copy and removes the copy. -/
structure KeepsFiles {σ : Type} (h : Host σ) (c : Client) (disk : σ → String → Option Bytes)
    (paths : List String) : Prop where
  session : ∀ s, disk (h.newSession s).2 = disk s
  sessionError : ∀ s e, (h.newSession s).1 = some e → e.exitStatus = none
  sftp : ∀ s, disk (h.sftpNew s).2 = disk s
  mkdir : ∀ s dir, disk (h.mkdirAll s dir).2 = disk s
  command : ∀ s cmd, isMove cmd = false → disk (h.run s cmd).2 = disk s
  statMissing : ∀ s path out, path ∈ paths →
    (h.run s (c.sudo ++ ("stat -c '%n,%F,%s,%U,%G,%y' " ++ path))).1 = .ok out →
      disk s path ≠ none
  statFound : ∀ s path b, path ∈ paths → disk s path = some b →
    ∃ out, (h.run s (c.sudo ++ ("stat -c '%n,%F,%s,%U,%G,%y' " ++ path))).1 = .ok out ∧
      (split (trimSpace out) ',').length = 6
  sha : ∀ s path b, path ∈ paths → disk s path = some b →
    ∃ out, (h.run s (c.sudo ++ shaCommand path)).1 = .ok out ∧
      trimPrefix (trimSpace out) "Sha256:" = sha256Hex b
  openFile : ∀ s path, (h.openFile s path).1 = none →
    disk (h.openFile s path).2 = stored (disk s) path []
  write : ∀ s path data, (h.write s path data).1 = (data.length, none) ∧
    disk (h.write s path data).2 = stored (disk s) path ((disk s path).getD [] ++ data)
  move : ∀ s path out s1, path ∈ paths →
    h.run s (c.sudo ++ ("mv " ++ tmpName path ++ " " ++ path)) = (.ok out, s1) →
      disk s1 = moved (disk s) (tmpName path) path

/-- The file `path` exists and its bytes have the SHA-256 of the bytes `b`. -/
def Holds (d : String → Option Bytes) (path : String) (b : Bytes) : Prop :=
  ∃ b1, d path = some b1 ∧ sha256Hex b1 = sha256Hex b

/-- The files of a manifest with their packages, in the order in which
`RenderAndTransfer` visits them. -/
def manifestFiles (m : Manifest) : List (Package × File) :=
  m.Packages.flatMap (fun pkg => pkg.Files.map (fun f => (pkg, f)))

/-- The file of a package is installed: its path is set, it renders to some
bytes, and the host holds bytes with their SHA-256 under its path. -/
def Installed (t : Templates) (m : Manifest) (data : GoMap String)
    (d : String → Option Bytes) (a : Package × File) : Prop :=
  a.2.Path ≠ "" ∧ ∃ b, (files.New m none).Render t a.1 a.2 data = .ok (NewReader b) ∧
    Holds d a.2.Path b

/-- Two files of a manifest, `a` visited before `b`, do not get in each other's
way: the path of `a` is not the temporary name of `b`, and if they have the same
path they render the same. -/
def Apart (t : Templates) (m : Manifest) (data : GoMap String) (a b : Package × File) : Prop :=
  a.2.Path ≠ tmpName b.2.Path ∧
    (a.2.Path = b.2.Path →
      (files.New m none).Render t a.1 a.2 data = (files.New m none).Render t b.1 b.2 data)

end files

/-! ## Concrete instances used to run the model -/

namespace Examples

open Go manifest ssh files packages reconcile

/-- Cutting a character list at its first pair of closing braces. -/
def cutClose : List Char → Option (List Char × List Char)
  | [] => none
  | [_] => none
  | c :: d :: rest =>
    if c = '\x7d' ∧ d = '\x7d' then some ([], rest)
    else match cutClose (d :: rest) with
      | none => none
      | some (a, r) => some (c :: a, r)

/-- Execution of a template source in the fragment of `text/template` made of
plain text and field actions (two opening braces, a dot and a key, two closing
braces, with optional blanks): an action is replaced by the value of its key in
the dictionary. Anything else in an action is refused. -/
def fieldExecute (data : GoMap String) : Nat → List Char → Except GoError (List Char)
  | 0, _ => .ok []
  | _ + 1, [] => .ok []
  | _ + 1, [c] => .ok [c]
  | fuel + 1, c :: d :: rest =>
    if c = '\x7b' ∧ d = '\x7b' then
      match cutClose rest with
      | none => .error (errorsNew "template: unclosed action")
      | some (action, after) =>
        match (trimSpace (String.mk action)).data with
        | '.' :: key =>
          if key.all Char.isAlphanum && !key.isEmpty then
            match fieldExecute data fuel after with
            | .error e => .error e
            | .ok tail => .ok (((data.get (String.mk key)).getD "<no value>").data ++ tail)
          else .error (errorsNew "template: action outside the modelled fragment")
        | _ => .error (errorsNew "template: action outside the modelled fragment")
    else
      match fieldExecute data fuel (d :: rest) with
      | .error e => .error e
      | .ok tail => .ok (c :: tail)

/-- A template library over a bundle of named sources, for the fragment of
`fieldExecute`. -/
def fieldTemplates (bundle : GoMap String) : Templates where
  readFile := fun name =>
    match bundle.get name with
    | some src => .ok src
    | none => .error { msg := "open " ++ name ++ ": file does not exist", notExist := true }
  parse := fun _ src =>
    match fieldExecute [] (src.data.length + 1) src.data with
    | .error e => some e
    | .ok _ => none
  execute := fun _ src data =>
    match fieldExecute data (src.data.length + 1) src.data with
    | .error e => .error e
    | .ok out => .ok (String.mk out)

/-- A YAML decoder that ignores its input and yields the given values. -/
def constYaml (m : Manifest) (pkgs : List Package) : Yaml where
  host := fun _ => .ok m
  packages := fun _ => .ok pkgs

/-- A host with no files: every `stat` command fails with exit status 1 and the
message of a missing file, every other command and every SFTP request succeeds. -/
def emptyHost : Host Unit where
  newSession := fun s => (none, s)
  run := fun s cmd =>
    if hasPrefix cmd "stat " then
      (.exitError "stat: cannot statx: No such file or directory\n" 1
        "Process exited with status 1", s)
    else (.ok "", s)
  sftpNew := fun s => (none, s)
  mkdirAll := fun s _ => (none, s)
  openFile := fun s _ => (none, s)
  write := fun s _ b => ((b.length, none), s)

/-- The host `emptyHost`, except that every `chmod` command fails. -/
def noChmodHost : Host Unit :=
  { emptyHost with
    run := fun s cmd =>
      if hasPrefix cmd "chmod " then
        (.exitError "chmod: Operation not permitted\n" 1 "Process exited with status 1", s)
      else emptyHost.run s cmd }

/-- A host that holds one file whose SHA-256 is `sha`: it answers every `stat`
command with a six-field record and every other command with `sha`. -/
def staticHost (sha : String) : Host Unit :=
  { emptyHost with
    run := fun s cmd =>
      if hasPrefix cmd "stat " then
        (.ok "/etc/motd,regular file,36,root,root,2024-01-01 00:00:00.000000000 +0000\n", s)
      else (.ok (sha ++ "\n"), s) }

/-- A host on which no session can be opened. -/
def deadHost : Host Unit where
  newSession := fun s => (some (errorsNew "EOF"), s)
  run := fun s _ => (.ok "", s)
  sftpNew := fun s => (some (errorsNew "EOF"), s)
  mkdirAll := fun s _ => (none, s)
  openFile := fun s _ => (none, s)
  write := fun s _ _ => ((0, some (errorsNew "EOF")), s)

/-- The text of a byte sequence, one character per byte. -/
def textOf (b : Bytes) : String := String.mk (b.map Char.ofNat)

/-- The state of `diskHost`: the files (path to bytes) and the names of the
installed packages. -/
structure Disk where
  files : GoMap Bytes := []
  installed : List String := []
deriving DecidableEq, Repr

/-- The answer of `dpkg-query` for the queried names: one line per installed
name, and exit status 1 when a queried name is not installed. -/
def dpkgAnswer (d : Disk) (names : List String) : RunResult :=
  let out := String.join ((names.filter (fun n => d.installed.contains n)).map
    (fun n => n ++ ",1.0,installed\n"))
  if names.all (fun n => d.installed.contains n) then .ok out
  else .exitError out 1 "Process exited with status 1"

/-- A host with a file system and a package database. It answers `stat`,
`sha256sum`, `/bin/cat` and `mv` from the files it holds, `dpkg-query` and
`apt-get install` from the packages it holds, it opens (truncates) and appends
on SFTP requests, and every other command succeeds with no output. -/
def diskHost : Host Disk where
  newSession := fun s => (none, s)
  run := fun s cmd =>
    if hasPrefix cmd "stat -c '%n,%F,%s,%U,%G,%y' " then
      let path := trimPrefix cmd "stat -c '%n,%F,%s,%U,%G,%y' "
      match GoMap.get s.files path with
      | some b =>
        (.ok (path ++ ",regular file," ++ Nat.repr b.length ++
          ",root,root,2024-01-01 00:00:00.000000000 +0000\n"), s)
      | none =>
        (.exitError ("stat: cannot statx '" ++ path ++ "': No such file or directory\n") 1
          "Process exited with status 1", s)
    else if hasPrefix cmd "sha256sum " then
      let path := String.mk ((trimPrefix cmd "sha256sum ").data.takeWhile (fun c => c ≠ ' '))
      match GoMap.get s.files path with
      | some b => (.ok (sha256Hex b ++ "\n"), s)
      | none => (.ok "", s)
    else if hasPrefix cmd "/bin/cat " then
      match GoMap.get s.files (trimPrefix cmd "/bin/cat ") with
      | some b => (.ok (textOf b), s)
      | none => (.exitError "cat: No such file or directory\n" 1 "Process exited with status 1", s)
    else if hasPrefix cmd "mv " then
      match split (trimPrefix cmd "mv ") ' ' with
      | [src, dst] =>
        match GoMap.get s.files src with
        | some b =>
          (.ok "", { s with files := GoMap.set (s.files.filter (fun e => e.1 ≠ src)) dst b })
        | none =>
          (.exitError "mv: cannot stat: No such file or directory\n" 1
            "Process exited with status 1", s)
      | _ => (.exitError "mv: missing operand\n" 1 "Process exited with status 1", s)
    else if hasPrefix cmd "DEBIAN_FRONTEND=noninteractive /usr/bin/dpkg-query " then
      (dpkgAnswer s ((split cmd ' ').drop 4), s)
    else if hasPrefix cmd "DEBIAN_FRONTEND=noninteractive apt-get install -y " then
      (.ok "", { s with installed := s.installed ++ (split cmd ' ').drop 4 })
    else (.ok "", s)
  sftpNew := fun s => (none, s)
  mkdirAll := fun s _ => (none, s)
  openFile := fun s path => (none, { s with files := GoMap.set s.files path [] })
  write := fun s path b =>
    ((b.length, none),
      { s with files := GoMap.set s.files path ((GoMap.get s.files path).getD [] ++ b) })

/-- The `range` order that visits a map in the order of its association list. -/
def listOrder (m : GoMap Package) : List (String × Package) := m

/-- A file rendered from a bundled template. -/
def motdFile : File :=
  { Path := "/etc/motd", Mode := "0644", Owner := "root:root", Content := "embed://templates/motd" }

/-- A service package with one file. -/
def motdPackage : Package :=
  { Name := "nginx", Version := "1.0", Kind := "service", Files := [motdFile] }

/-- A manifest with one service package. -/
def motdManifest : Manifest :=
  { ID := "h1", Provider := "docker", Packages := [motdPackage] }

/-- A file with literal content. -/
def plainFile : File := { Path := "/etc/a", Mode := "0644", Content := "a" }

/-- A manifest whose package has a good file followed by a file with no path. -/
def noPathManifest : Manifest :=
  { ID := "h2", Provider := "slack",
    Packages := [{ Name := "nginx", Version := "1.0", Kind := "service",
                   Files := [plainFile, { Mode := "0644", Content := "b" }] }] }

/-- A manifest whose package has a good file followed by a file whose bundled
template does not exist. -/
def noTemplateManifest : Manifest :=
  { ID := "h3", Provider := "slack",
    Packages := [{ Name := "nginx", Version := "1.0", Kind := "service",
                   Files := [plainFile, { Path := "/etc/b", Mode := "0644",
                                          Content := "embed://templates/absent" }] }] }

/-- A bundle whose template uses the injected key `LastModifiedDate`. -/
def motdBundle : GoMap String :=
  [("templates/motd", "generated file \x7b\x7b .LastModifiedDate \x7d\x7d\n")]

/-- A host that answers every `stat` command with a six-field record and on
which every other command fails with exit status 1. -/
def noShaHost : Host Unit :=
  { emptyHost with
    run := fun s cmd =>
      if hasPrefix cmd "stat " then
        (.ok "/etc/motd,regular file,36,root,root,2024-01-01 00:00:00.000000000 +0000\n", s)
      else (.exitError "sha256sum: /etc/motd: Permission denied\n" 1
        "Process exited with status 1", s) }

/-- A host that answers every `stat` command with the record of a file whose
name holds a comma. -/
def commaHost : Host Unit :=
  { emptyHost with
    run := fun s cmd =>
      if hasPrefix cmd "stat " then
        (.ok "/etc/a,b,regular file,36,root,root,2024-01-01 00:00:00.000000000 +0000\n", s)
      else (.ok "", s) }

/-- A host on which every command fails with exit status 1 and a message that
is not that of a missing file. -/
def deniedHost : Host Unit :=
  { emptyHost with
    run := fun s _ =>
      (.exitError "stat: cannot statx '/etc/motd': Permission denied\n" 1
        "Process exited with status 1", s) }

/-- A manifest with an installed binary package and the service package. -/
def aptManifest : Manifest :=
  { ID := "h4", Provider := "slack",
    Packages := [{ Name := "apt", Version := "1.0", Kind := "binary" }, motdPackage] }

/-- A disk on which only the package `apt` is installed. -/
def aptDisk : Disk := { installed := ["apt"] }

/-- A disk on which the package `nginx` is installed and its file exists. -/
def nginxDisk : Disk := { files := [("/etc/motd", [104, 105])], installed := ["nginx"] }

/-- Backends that provision nothing: each yields the given SSH client on the
host as it is, and closing changes nothing. -/
def directBackends {σ : Type} (c : Client) : Backends σ where
  docker := fun _ => { Run := fun w => (.ok c, w), Close := fun w => w }
  ec2 := fun _ => .ok { Run := fun w => (.ok c, w), Close := fun w => w }
  slack := fun _ => { Run := fun w => (.ok c, w), Close := fun w => w }
  linode := fun _ => .ok { Run := fun w => (.ok c, w), Close := fun w => w }

/-- A loader for which every path holds a manifest (named after the path) for
the `slack` provider. -/
def loadByName : String → String → Except GoError Manifest :=
  fun path _ => .ok { ID := path, Provider := "slack" }

/-- Ten manifest paths. -/
def tenPaths : List String := ["m0", "m1", "m2", "m3", "m4", "m5", "m6", "m7", "m8", "m9"]

/-- A manifest whose package name holds a doubled percent sign. -/
def percentManifest : Manifest :=
  { ID := "h5", Provider := "slack",
    Packages := [{ Name := "a%%b", Version := "1.0", Kind := "binary" }] }

/-- A manifest with a file whose path holds a doubled percent sign. -/
def percentFileManifest : Manifest :=
  { ID := "h6", Provider := "slack",
    Packages := [{ Name := "nginx", Version := "1.0", Kind := "service",
                   Files := [{ Path := "/srv/a%%b", Mode := "0644", Owner := "root:root",
                               Content := "x" }] }] }

/-- The manifest of the `FindPackage` scenario: `php8.2-fpm` and `nginx`. -/
def phpManifest : Manifest :=
  { ID := "h7", Provider := "docker",
    Packages := [{ Name := "php8.2-fpm", Version := "8.2", Kind := "service" },
                 { Name := "nginx", Version := "latest", Kind := "service" }] }

/-- A random source that delivers the given bytes. -/
def fixedEntropy (b : Bytes) : Entropy := { read := fun _ => .ok b, ulid := ("", none) }

/-- A random source that fails. -/
def noEntropy : Entropy :=
  { read := fun _ => .error (errorsNew "unexpected EOF"),
    ulid := ("00000000000000000000000000", some (errorsNew "unexpected EOF")) }

/-- A host that answers `dpkg-query` with a warning line before the line of the
package; every other command succeeds with no output. -/
def warningHost : Host Unit :=
  { emptyHost with
    run := fun s cmd =>
      if hasPrefix cmd "DEBIAN_FRONTEND=noninteractive /usr/bin/dpkg-query " then
        (.ok "dpkg-query: warning: files list file for package 'nginx' missing\nnginx,1.0,installed\n",
          s)
      else (.ok "", s) }

/-- Tasks that all fail, each with an error that names its manifest path. -/
def failByPath : cmd.Task → Option GoError :=
  fun task => some (errorsNew ("error on " ++ task.path))

/-- Two manifests are loaded and their tasks started; the task of `m1` ends
first, then the task of `m0`, then `Wait` returns. -/
def secondEndsFirst : List cmd.Step :=
  [cmd.Step.main, cmd.Step.main, cmd.Step.main, cmd.Step.main, cmd.Step.finish 1,
   cmd.Step.finish 0, cmd.Step.main]

/-- Only the task of `m1` fails. -/
def failOnM1 : cmd.Task → Option GoError :=
  fun task => if task.path = "m1" then some (errorsNew "unreachable") else none


/-- The host `diskHost` with a full disk: files open, and every write takes no
byte and fails. -/
def fullDiskHost : Host Disk :=
  { diskHost with
    write := fun s _ _ => ((0, some (errorsNew "sftp: \"Failure\" (SSH_FX_FAILURE)")), s) }


/-- A terminated instance. -/
def goneInstance : ec2.Instance :=
  { InstanceId := some "i-1", PublicDnsName := some "", State := some ⟨"terminated"⟩ }

/-- A running instance. -/
def liveInstance : ec2.Instance :=
  { InstanceId := some "i-2", PublicDnsName := some "ec2-2.compute.amazonaws.com",
    State := some ⟨"running"⟩ }

/-- An ec2 client that gives the same reservations on every call. -/
def steadyEC2 (rs : List ec2.Reservation) : ec2.ProviderBackend :=
  { Client := fun _ _ => .ok rs }


/-- The state of a Docker daemon next to a backend object: the containers that
run, and the field `container` of the backend. -/
structure DockerState where
  running : List String := []
  container : Option String := none
deriving DecidableEq, Repr

/-- A Docker daemon on which every call succeeds: the container `c1` is started
on port 2222, `Close` removes a container. The key pair and the dial are
parameters. -/
def dockerDaemon (keys : Except GoError (String × String)) (dialErr : Option GoError) :
    docker.Docker DockerState where
  newPool := fun s => (none, s)
  ping := fun s => (none, s)
  getFreePort := fun s => (.ok 2222, s)
  runWithOptions := fun s _ => (.ok "c1", { s with running := s.running ++ ["c1"] })
  generateKeyPair := fun s => (keys, s)
  exec := fun s _ _ => (.ok 0, s)
  dial := fun s _ _ => (dialErr, s)
  expire := fun s _ => (none, s)
  close := fun s id => (none, { s with running := s.running.filter (fun c => c ≠ id) })
  container := fun s => s.container
  setContainer := fun s id => { s with container := some id }

/-- Backends of which the docker one runs on the given daemon. -/
def dockerBackends (d : docker.Docker DockerState) : Backends DockerState where
  docker := fun m => docker.New d m
  ec2 := fun _ => .error (errorsNew "failed to load default configuration")
  slack := fun _ => { Run := fun w => (.error (errorsNew "dial tcp: connection refused"), w),
                      Close := fun w => w }
  linode := fun _ => .error (errorsNew "linode token not set")

/-- A host of the SSH connection into the container, on which every command
succeeds with no output. -/
def containerHost : Host DockerState where
  newSession := fun s => (none, s)
  run := fun s _ => (.ok "", s)
  sftpNew := fun s => (none, s)
  mkdirAll := fun s _ => (none, s)
  openFile := fun s _ => (none, s)
  write := fun s _ b => ((b.length, none), s)


/-- A loader for which the path `m1` holds no manifest and every other path holds
one, named after the path. -/
def loadButM1 : String → String → Except GoError Manifest :=
  fun path _ =>
    if path = "m1" then .error (errorsNew "open m1: no such file or directory")
    else .ok { ID := path, Provider := "slack" }



/-- A bundle whose template uses the package version and not the clock. -/
def helloBundle : GoMap String :=
  [("templates/hello", "hello \x7b\x7b .Version \x7d\x7d\n")]

/-- A manifest whose service package has a file with literal content and a file
rendered from the template of `helloBundle`. -/
def helloManifest : Manifest :=
  { ID := "h8", Provider := "slack",
    Packages := [{ Name := "nginx", Version := "1.0", Kind := "service",
                   Files := [plainFile, { Path := "/etc/hello", Mode := "0644",
                                          Content := "embed://templates/hello" }] }] }

/-- A manifest whose package has two files with the same path and different
content. -/
def samePathManifest : Manifest :=
  { ID := "h9", Provider := "slack",
    Packages := [{ Name := "nginx", Version := "1.0", Kind := "service",
                   Files := [plainFile, { Path := "/etc/a", Mode := "0644", Content := "b" }] }] }

/-- A manifest whose first file has the path that is the temporary name of its
second file. -/
def tmpPathManifest : Manifest :=
  { ID := "h10", Provider := "slack",
    Packages := [{ Name := "nginx", Version := "1.0", Kind := "service",
                   Files := [{ Path := "/tmp/b", Mode := "0644", Content := "x" },
                             { Path := "/etc/b", Mode := "0644", Content := "y" }] }] }

/-- A disk that holds `/tmp/b` with the byte of `x`. -/
def tmpDisk : Disk := { files := [("/tmp/b", [120])] }

/-- A disk that holds a file `/tmp/a%b`. -/
def percentDisk : Disk := { files := [("/tmp/a%b", [0])] }

/-- The first of two runs of `Reconcile` as `root`, on a host with the given
disk and an empty trace. -/
def firstRun (h : Host Disk) (t : Templates) (m : Manifest) (now : String) (d : Disk) :
    Outcome (Option GoError) × World Disk :=
  ProviderReconciler.Reconcile h t listOrder now (reconcile.New m (ssh.New "root")) ⟨d, []⟩

/-- The second of two runs of `Reconcile` as `root`: on the host as the first
run left it, with an empty trace. -/
def secondRun (h : Host Disk) (t : Templates) (m : Manifest) (now now2 : String) (d : Disk) :
    Outcome (Option GoError) × World Disk :=
  ProviderReconciler.Reconcile h t listOrder now2 (reconcile.New m (ssh.New "root"))
    ⟨(firstRun h t m now d).2.host, []⟩



/-- The files of a state of `diskHost`, path to bytes. -/
def diskFiles (s : Disk) : String → Option Bytes := fun q => GoMap.get s.files q


end Examples

/-! # Theorems -/

/-! ## Maps -/

namespace Go

theorem GoMap.get_set {α : Type} (m : GoMap α) (k k1 : String) (v : α) :
    (GoMap.set m k v).get k1 = if k = k1 then some v else m.get k1 := by
  induction m with
  | nil => simp [GoMap.set, GoMap.get]
  | cons x rest ih =>
    obtain ⟨k2, v2⟩ := x
    by_cases h : k2 = k
    · subst h
      by_cases h1 : k2 = k1 <;> simp [GoMap.set, GoMap.get, h1]
    · by_cases h1 : k2 = k1
      · subst h1
        have h2 : ¬ k = k2 := fun e => h e.symm
        simp [GoMap.set, GoMap.get, h, h2]
      · simp [GoMap.set, GoMap.get, h, h1, ih]

theorem GoMap.get_append {α : Type} (l1 l2 : GoMap α) (k : String) :
    GoMap.get (l1 ++ l2) k =
      match GoMap.get l1 k with
      | some v => some v
      | none => GoMap.get l2 k := by
  induction l1 with
  | nil => simp [GoMap.get]
  | cons x rest ih =>
    obtain ⟨k2, v2⟩ := x
    by_cases h : k2 = k <;> simp [GoMap.get, h, ih]

theorem GoMap.get_foldl_set {α : Type} (l : List (String × α)) (m : GoMap α) (k : String) :
    GoMap.get (l.foldl (fun m e => GoMap.set m e.1 e.2) m) k =
      match GoMap.get l.reverse k with
      | some v => some v
      | none => GoMap.get m k := by
  induction l generalizing m with
  | nil => simp [GoMap.get]
  | cons x rest ih =>
    obtain ⟨k2, v2⟩ := x
    simp only [List.foldl_cons, List.reverse_cons]
    rw [ih, GoMap.get_append, GoMap.get_set]
    cases hr : GoMap.get rest.reverse k with
    | some v => simp
    | none => by_cases h : k2 = k <;> simp [GoMap.get, h]

theorem GoMap.get_eq_none {α : Type} (l : GoMap α) (k : String) (h : k ∉ l.map Prod.fst) :
    GoMap.get l k = none := by
  induction l with
  | nil => simp [GoMap.get]
  | cons x rest ih =>
    obtain ⟨k2, v2⟩ := x
    simp only [List.map_cons, List.mem_cons, not_or] at h
    have h2 : ¬ k2 = k := fun e => h.1 e.symm
    simp [GoMap.get, h2, ih h.2]

theorem GoMap.get_filter_ne {α : Type} (l : GoMap α) (k k1 : String) (h : k ≠ k1) :
    GoMap.get (l.filter (fun e => decide (e.1 ≠ k1))) k = GoMap.get l k := by
  induction l with
  | nil => simp [GoMap.get]
  | cons x rest ih =>
    obtain ⟨k2, v2⟩ := x
    simp only [ne_eq, decide_not] at ih
    by_cases h2 : k2 = k1
    · subst h2
      have h3 : ¬ k2 = k := fun e => h e.symm
      simp [List.filter_cons, GoMap.get, h3, ih]
    · by_cases h3 : k2 = k
      · subst h3
        simp [List.filter_cons, GoMap.get, h2]
      · simp [List.filter_cons, GoMap.get, h2, h3, ih]

theorem GoMap.get_entries {α : Type} (m : GoMap α) (k : String) :
    GoMap.get (GoMap.entries m) k = GoMap.get m k := by
  induction m with
  | nil => simp [GoMap.entries]
  | cons x rest ih =>
    obtain ⟨k2, v2⟩ := x
    by_cases h : k2 = k
    · simp [GoMap.entries, GoMap.get, h]
    · have h2 : k ≠ k2 := fun e => h e.symm
      have h3 := GoMap.get_filter_ne (GoMap.entries rest) k k2 h2
      simp only [ne_eq, decide_not] at h3
      simp [GoMap.entries, GoMap.get, h, h3, ih]

theorem GoMap.nodup_entries {α : Type} (m : GoMap α) :
    ((GoMap.entries m).map Prod.fst).Nodup := by
  induction m with
  | nil => simp [GoMap.entries]
  | cons x rest ih =>
    obtain ⟨k2, v2⟩ := x
    simp only [GoMap.entries, List.map_cons, List.nodup_cons]
    constructor
    · intro hmem
      rcases List.mem_map.1 hmem with ⟨e, he, hk⟩
      have := (List.mem_filter.1 he).2
      simp [hk] at this
    · exact (ih.sublist (List.Sublist.map _ (List.filter_sublist _)))

theorem GoMap.get_reverse {α : Type} (l : GoMap α) (k : String)
    (h : (l.map Prod.fst).Nodup) : GoMap.get l.reverse k = GoMap.get l k := by
  induction l with
  | nil => simp
  | cons x rest ih =>
    obtain ⟨k2, v2⟩ := x
    simp only [List.map_cons, List.nodup_cons] at h
    rw [List.reverse_cons, GoMap.get_append, ih h.2]
    by_cases h2 : k2 = k
    · subst h2
      simp [GoMap.get, GoMap.get_eq_none rest k2 h.1]
    · cases hr : GoMap.get rest k <;> simp [GoMap.get, h2, hr]

/-- Writing every visible binding of `src` into `dst`: a key of `src` reads as
in `src`, any other key as in `dst`. -/
theorem GoMap.get_merge {α : Type} (src dst : GoMap α) (k : String) :
    GoMap.get ((GoMap.entries src).foldl (fun m e => GoMap.set m e.1 e.2) dst) k =
      match GoMap.get src k with
      | some v => some v
      | none => GoMap.get dst k := by
  rw [GoMap.get_foldl_set, GoMap.get_reverse _ _ (GoMap.nodup_entries src), GoMap.get_entries]

end Go

/-! ## The manifest loader -/

namespace manifest

open Go

theorem firstBadFile_none (fs : List File) :
    firstBadFile fs = none ↔ ∀ f ∈ fs, fileModeRE f.Mode = true := by
  induction fs with
  | nil => simp [firstBadFile]
  | cons f rest ih =>
    by_cases h : fileModeRE f.Mode = true <;> simp [firstBadFile, h, ih]

theorem firstBadFile_some (fs : List File) (f : File) (h : firstBadFile fs = some f) :
    f ∈ fs ∧ fileModeRE f.Mode = false := by
  induction fs with
  | nil => simp [firstBadFile] at h
  | cons g rest ih =>
    by_cases hg : fileModeRE g.Mode = true
    · simp only [firstBadFile, hg, if_true] at h
      exact ⟨List.mem_cons_of_mem _ (ih h).1, (ih h).2⟩
    · simp only [firstBadFile, hg] at h
      simp only [Bool.false_eq_true, if_false, Option.some.injEq] at h
      subst h
      exact ⟨List.mem_cons_self _ _, by simpa using hg⟩

theorem firstBadMode_none (ps : List Package) :
    firstBadMode ps = none ↔ ∀ p ∈ ps, ∀ f ∈ p.Files, fileModeRE f.Mode = true := by
  induction ps with
  | nil => simp [firstBadMode]
  | cons p rest ih =>
    cases hp : firstBadFile p.Files with
    | none =>
      have := (firstBadFile_none p.Files).1 hp
      simp only [firstBadMode, hp, ih, List.mem_cons, forall_eq_or_imp]
      exact ⟨fun h => ⟨this, h⟩, fun h => h.2⟩
    | some f =>
      have hf := firstBadFile_some p.Files f hp
      simp only [firstBadMode, hp, List.mem_cons, forall_eq_or_imp, false_iff, not_and]
      simp only [reduceCtorEq, false_iff, not_and]
      intro hall
      have := hall f hf.1
      simp [hf.2] at this

theorem contains_of_append (p r : List Char) : containsChars (p ++ r) p = true := by
  cases hpr : p ++ r with
  | nil =>
    have : p = [] := (List.append_eq_nil.1 hpr).1
    simp [containsChars, this]
  | cons c cs =>
    have h1 : p.isPrefixOf (p ++ r) = true := List.isPrefixOf_iff_prefix.2 (List.prefix_append p r)
    rw [hpr] at h1
    simp [containsChars, h1]

/-- C6: when both inputs deserialize as YAML, `NewFromBytes` fails exactly when
the host bytes are empty, the packages bytes are empty, or some file of some
package has a mode that is not 3 or 4 characters each in `0..7` (the empty mode
included); in the mode case the message contains `invalid file mode`. -/
theorem NewFromBytes_fails_iff (y : Yaml) (host packages : String) (m : Manifest)
    (pkgs : List Package) (hh : y.host host = .ok m) (hp : y.packages packages = .ok pkgs) :
    ((∃ e, NewFromBytes y host packages = .error e) ↔
      (host = "" ∨ packages = "" ∨ ∃ p ∈ pkgs, ∃ f ∈ p.Files, fileModeRE f.Mode = false)) ∧
    (host ≠ "" → packages ≠ "" → (∃ p ∈ pkgs, ∃ f ∈ p.Files, fileModeRE f.Mode = false) →
      ∃ e, NewFromBytes y host packages = .error e ∧
        strContains e.msg "invalid file mode" = true) ∧
    (∀ mode : String, fileModeRE mode = true ↔
      (mode.length = 3 ∨ mode.length = 4) ∧ ∀ c ∈ mode.data, '0' ≤ c ∧ c ≤ '7') ∧
    fileModeRE "" = false := by
  have hlen : ∀ s : String, s.length = 0 ↔ s = "" := by
    intro s
    constructor
    · intro h
      have : s.data = [] := List.length_eq_zero.1 h
      exact String.ext this
    · intro h
      subst h
      rfl
  have hbad : (∃ p ∈ pkgs, ∃ f ∈ p.Files, fileModeRE f.Mode = false) ↔
      firstBadMode pkgs ≠ none := by
    rw [Ne, firstBadMode_none]
    constructor
    · rintro ⟨p, hp1, f, hf, hm⟩ hall
      have := hall p hp1 f hf
      simp [hm] at this
    · intro hn
      by_contra hcon
      apply hn
      intro p hp1 f hf
      by_contra hm
      exact hcon ⟨p, hp1, f, hf, by simpa using hm⟩
  refine ⟨?_, ?_, ?_, by decide⟩
  · by_cases h1 : host = ""
    · subst h1
      simp [NewFromBytes, errorsNew]
    · by_cases h2 : packages = ""
      · subst h2
        have := (hlen host).not.2 h1
        simp [NewFromBytes, errorsNew, this]
      · have e1 := (hlen host).not.2 h1
        have e2 := (hlen packages).not.2 h2
        rw [hbad]
        cases hb : firstBadMode pkgs with
        | none => simp [NewFromBytes, e1, e2, hh, hp, hb, h1, h2]
        | some f => simp [NewFromBytes, e1, e2, hh, hp, hb, h1, h2]
  · intro h1 h2 h3
    have e1 := (hlen host).not.2 h1
    have e2 := (hlen packages).not.2 h2
    rw [hbad] at h3
    cases hb : firstBadMode pkgs with
    | none => exact absurd hb h3
    | some f =>
      refine ⟨errorsNew ("invalid file mode " ++ f.Mode ++ " for file " ++ f.Path), ?_, ?_⟩
      · simp [NewFromBytes, e1, e2, hh, hp, hb]
      · simp only [strContains, errorsNew, String.append_assoc, String.data_append]
        exact contains_of_append
          ['i', 'n', 'v', 'a', 'l', 'i', 'd', ' ', 'f', 'i', 'l', 'e', ' ', 'm', 'o', 'd', 'e']
          (' ' :: (f.Mode.data ++ ([' ', 'f', 'o', 'r', ' ', 'f', 'i', 'l', 'e', ' '] ++ f.Path.data)))
  · intro mode
    simp only [fileModeRE, Bool.and_eq_true, Bool.or_eq_true, decide_eq_true_eq, List.all_eq_true,
      String.length]
    constructor
    · rintro ⟨h1, h2⟩
      refine ⟨h1, fun c hc => ?_⟩
      have := h2 c hc
      constructor
      · show (48 : Nat) ≤ c.toNat
        exact this.1
      · show c.toNat ≤ 55
        exact this.2
    · rintro ⟨h1, h2⟩
      refine ⟨h1, fun c hc => ?_⟩
      have := h2 c hc
      exact ⟨this.1, this.2⟩

/-- C6, at a packages document with a file of mode `8`. -/
theorem NewFromBytes_fails_iff_witness :
    ∃ e, NewFromBytes (Examples.constYaml { ID := "h1" }
        [{ Name := "nginx", Files := [{ Path := "/etc/motd", Mode := "8" }] }])
        "id: h1" "- name: nginx" = .error e ∧
      strContains e.msg "invalid file mode" = true :=
  (NewFromBytes_fails_iff _ "id: h1" "- name: nginx" { ID := "h1" }
    [{ Name := "nginx", Files := [{ Path := "/etc/motd", Mode := "8" }] }] rfl rfl).2.1
    (by decide) (by decide)
    ⟨_, List.mem_cons_self _ _, _, List.mem_cons_self _ _, by decide⟩

end manifest

/-! ## The install list of `Reconcile` -/

namespace reconcile

open Go manifest ssh files packages

theorem missing_foldl (pkglist : GoMap Package) (desired acc : List Package) :
    desired.foldl (fun missing pkgDesired =>
      match pkglist.get pkgDesired.Name with
      | none => missing ++ [{ Name := pkgDesired.Name, Version := pkgDesired.Version }]
      | some pkgActual =>
        if pkgActual.Status ≠ "installed" then
          missing ++ [({ Name := pkgDesired.Name, Version := pkgDesired.Version } : Package)]
        else if pkgDesired.Version ≠ pkgActual.Version then missing
        else missing) acc =
    acc ++ (desired.filter (needsInstall pkglist)).map
      (fun d => ({ Name := d.Name, Version := d.Version } : Package)) := by
  induction desired generalizing acc with
  | nil => simp
  | cons d rest ih =>
    rw [List.foldl_cons, ih]
    cases hg : pkglist.get d.Name with
    | none => simp [List.filter_cons, needsInstall, hg]
    | some actual =>
      by_cases hs : actual.Status = "installed"
      · simp [List.filter_cons, needsInstall, hg, hs]
      · simp [List.filter_cons, needsInstall, hg, hs]

/-- C3: the list `Reconcile` passes to `Install` is the desired packages, in
declared order and each as its name and version, that are absent from the query
result or present with a status other than `installed`; a desired package that
the query reports installed, at whatever version, has no entry in the list. -/
theorem missingPackages_eq (desired : List Package) (pkglist : GoMap Package) :
    missingPackages desired pkglist =
      (desired.filter (fun d =>
        match pkglist.get d.Name with
        | none => true
        | some actual => decide (actual.Status ≠ "installed"))).map
        (fun d => { Name := d.Name, Version := d.Version }) ∧
    (∀ d ∈ desired, ∀ actual, pkglist.get d.Name = some actual → actual.Status = "installed" →
      actual.Version ≠ d.Version → ∀ q ∈ missingPackages desired pkglist, q.Name ≠ d.Name) := by
  have h1 : missingPackages desired pkglist =
      (desired.filter (needsInstall pkglist)).map
        (fun d => ({ Name := d.Name, Version := d.Version } : Package)) := by
    unfold missingPackages
    rw [missing_foldl]
    simp
  refine ⟨h1, ?_⟩
  intro d _ actual hget hst _ q hq hname
  rw [h1] at hq
  rcases List.mem_map.1 hq with ⟨d1, hd1, rfl⟩
  have hn := (List.mem_filter.1 hd1).2
  simp only at hname
  simp [needsInstall, hname, hget, hst] at hn

/-- C3, at a manifest of three packages of which one is absent, one is half
configured and one is installed at another version: the last is not scheduled. -/
theorem missingPackages_witness :
    missingPackages
      [{ Name := "nginx", Version := "1.0" }, { Name := "curl", Version := "2.0" },
        { Name := "php", Version := "8.2" }]
      [("curl", { Name := "curl", Version := "2.0", Status := "half-configured" }),
        ("php", { Name := "php", Version := "8.1", Status := "installed" })] =
    [{ Name := "nginx", Version := "1.0" }, { Name := "curl", Version := "2.0" }] :=
  (missingPackages_eq
      [{ Name := "nginx", Version := "1.0" }, { Name := "curl", Version := "2.0" },
        { Name := "php", Version := "8.2" }]
      [("curl", { Name := "curl", Version := "2.0", Status := "half-configured" }),
        ("php", { Name := "php", Version := "8.1", Status := "installed" })]).1.trans
    (by decide)

end reconcile

/-! ## Rendering -/

namespace files

open Go manifest ssh

/-- C8: for an `embed://` file, the dictionary `Render` hands to the template is
the caller's map overridden by the package parameters and then by `Version`: the
key `Version` reads as the package version whatever the caller or the package
parameters supply, a key of the package parameters reads as there, and any other
key reads as in the caller's map. -/
theorem Render_dictionary (t : Templates) (fm : FileManager) (p : Package) (f : File)
    (data : GoMap String) (b1 : String)
    (hembed : hasPrefix f.Content "embed://" = true)
    (hread : t.readFile (trimPrefix f.Content "embed://") = .ok b1)
    (hparse : t.parse f.Path b1 = none) :
    fm.Render t p f data =
      (match t.execute f.Path b1 (mergedData p data) with
        | .error err =>
          .error (errorsWrap err ("error executing template " ++ trimPrefix f.Content "embed://"))
        | .ok b2 => .ok (NewReader (bytesOf b2))) ∧
    ∀ k, (mergedData p data).get k =
      if k = "Version" then some p.Version
      else match p.Parameters.get k with
        | some v => some v
        | none => data.get k := by
  constructor
  · simp [FileManager.Render, hembed, hread, hparse]
  · intro k
    unfold mergedData
    simp only [GoMap.get_set, GoMap.get_merge]
    by_cases hk : k = "Version"
    · subst hk
      simp
    · have hk2 : ¬ "Version" = k := fun e => hk e.symm
      simp only [hk, hk2, if_false]
      cases p.Parameters.get k with
      | some v => rfl
      | none =>
        cases data.get k with
        | some v => rfl
        | none => rfl

/-- C8, at a package whose parameters and whose caller both supply `Version`
and a shared key. -/
theorem Render_dictionary_witness :
    (mergedData
        { Name := "nginx", Version := "1.0",
          Parameters := [("Version", "from-package"), ("Port", "80")] }
        [("Version", "from-caller"), ("Port", "8080"), ("LastModifiedDate", "now")]).get
      "Version" = some "1.0" ∧
    (mergedData
        { Name := "nginx", Version := "1.0",
          Parameters := [("Version", "from-package"), ("Port", "80")] }
        [("Version", "from-caller"), ("Port", "8080"), ("LastModifiedDate", "now")]).get
      "Port" = some "80" ∧
    (mergedData
        { Name := "nginx", Version := "1.0",
          Parameters := [("Version", "from-package"), ("Port", "80")] }
        [("Version", "from-caller"), ("Port", "8080"), ("LastModifiedDate", "now")]).get
      "LastModifiedDate" = some "now" :=
  have h := (Render_dictionary (Examples.fieldTemplates Examples.motdBundle) (New {} none)
    { Name := "nginx", Version := "1.0",
      Parameters := [("Version", "from-package"), ("Port", "80")] }
    Examples.motdFile
    [("Version", "from-caller"), ("Port", "8080"), ("LastModifiedDate", "now")]
    "generated file \x7b\x7b .LastModifiedDate \x7d\x7d\n" (by decide) (by decide) (by decide)).2
  ⟨(h "Version").trans (by decide), (h "Port").trans (by decide),
    (h "LastModifiedDate").trans (by decide)⟩

/-- C9 as amended: for content that does not start with `embed://`, `Render`
returns the content bytes as they are; nothing is substituted. -/
theorem Render_literal (t : Templates) (fm : FileManager) (p : Package) (f : File)
    (data : GoMap String) (h : hasPrefix f.Content "embed://" = false) :
    fm.Render t p f data = .ok (NewReader (bytesOf f.Content)) := by
  simp [FileManager.Render, h]

/-- C9 as amended, at the content of the claim's example. -/
theorem Render_literal_witness :
    FileManager.Render (Examples.fieldTemplates []) (New {} none)
      { Name := "php8.2-fpm", Version := "8.2" }
      { Path := "/var/www/v", Content := "v=\x7b\x7b .Version \x7d\x7d" } [] =
    .ok (NewReader (bytesOf "v=\x7b\x7b .Version \x7d\x7d")) :=
  Render_literal _ _ _ _ _ (by decide)

/-- C9 fails as stated: literal content with a template action, for a package of
version 8.2, does not render to `v=8.2`; the action is left in the output. -/
theorem Render_literal_counterexample :
    FileManager.Render (Examples.fieldTemplates []) (New {} none)
      { Name := "php8.2-fpm", Version := "8.2" }
      { Path := "/var/www/v", Content := "v=\x7b\x7b .Version \x7d\x7d" } [] ≠
    .ok (NewReader (bytesOf "v=8.2")) := by
  decide

end files

/-! ## Failures of `Query` and of `RenderAndTransfer` -/

namespace packages

open Go manifest ssh

/-- C10, the code at the failing input: when the command cannot be run at all
(no session can be opened, so the error carries no exit status), `Query` returns
an empty mapping and no error. -/
theorem Query_swallows_failure :
    (Packages.Query Examples.deadHost (NewPackages Examples.motdManifest (ssh.New "root"))
      ⟨(), []⟩).1 = .ret (.ok []) := by
  decide

end packages

namespace files

open Go manifest ssh

/-- C7, the code at the failing inputs: the first file of the package is
transferred with `changed = true`, then the second file has an empty path, or
fails to render; in both cases `RenderAndTransfer` returns no set at all next to
the error, not the set holding the package. -/
theorem RenderAndTransfer_drops_progress :
    (FileManager.Transfer Examples.emptyHost
        { manifest := Examples.noPathManifest, ssh := some (ssh.New "root"),
          scp := some (NewSecureCopyClient (ssh.New "root")) }
        Examples.plainFile (NewReader (bytesOf "a")) ⟨(), []⟩).1 = .ret (true, none) ∧
    (FileManager.RenderAndTransfer Examples.emptyHost (Examples.fieldTemplates [])
        (New Examples.noPathManifest (some (ssh.New "root"))) [] ⟨(), []⟩).1 =
      .ret (none, some (errorsNew "error: file path not set")) ∧
    (FileManager.RenderAndTransfer Examples.emptyHost (Examples.fieldTemplates [])
        (New Examples.noTemplateManifest (some (ssh.New "root"))) [] ⟨(), []⟩).1 =
      .ret (none, some (errorsWrap
        (errorsWrap { msg := "open templates/absent: file does not exist", notExist := true }
          "error reading file templates/absent") "error rendering /etc/b")) := by
  decide

end files

/-! ## Command execution and the trace -/

namespace ssh

open Go

theorem restartCalls_append (t1 t2 : List Event) :
    restartCalls (t1 ++ t2) = restartCalls t1 ++ restartCalls t2 := by
  induction t1 with
  | nil => simp [restartCalls]
  | cons e rest ih =>
    cases e with
    | call method arg =>
      by_cases hm : method = "RestartService" <;> simp [restartCalls, hm, ih]
    | exec cmd => simp [restartCalls, ih]
    | sftpOpen path => simp [restartCalls, ih]
    | sftpWrite path data => simp [restartCalls, ih]

theorem sftpEvents_append (t1 t2 : List Event) :
    sftpEvents (t1 ++ t2) = sftpEvents t1 ++ sftpEvents t2 := by
  induction t1 with
  | nil => simp [sftpEvents]
  | cons e rest ih =>
    cases e <;> simp [sftpEvents, ih]

/-- A successful `Execf` sent exactly one command. -/
theorem Execf_ok {σ : Type} (h : Host σ) (c : Client) (cmd : String) (args : List String)
    (w w1 : World σ) (out : String) (hx : Execf h c cmd args w = (.ok out, w1)) :
    w1.trace = w.trace ++ [Event.exec (c.wire cmd args)] := by
  unfold Execf at hx
  rcases hn : h.newSession w.host with ⟨_ | err, s⟩
  · simp only [hn] at hx
    rcases hr : h.run s (c.wire cmd args) with ⟨_ | _ | _, s1⟩ <;> simp only [hr] at hx
    · simp only [Prod.mk.injEq] at hx
      rw [← hx.2]
    · simp at hx
    · simp at hx
  · simp [hn] at hx

/-- Whatever `Execf` returns, it added no event or one `exec` event. -/
theorem Execf_trace {σ : Type} (h : Host σ) (c : Client) (cmd : String) (args : List String)
    (w : World σ) :
    (Execf h c cmd args w).2.trace = w.trace ∨
      (Execf h c cmd args w).2.trace = w.trace ++ [Event.exec (c.wire cmd args)] := by
  unfold Execf
  rcases hn : h.newSession w.host with ⟨_ | err, s⟩
  · right
    simp only []
    rcases hr : h.run s (c.wire cmd args) with ⟨_ | _ | _, s1⟩ <;> rfl
  · left
    rfl

theorem Execf_restartCalls {σ : Type} (h : Host σ) (c : Client) (cmd : String)
    (args : List String) (w : World σ) :
    restartCalls (Execf h c cmd args w).2.trace = restartCalls w.trace := by
  rcases Execf_trace h c cmd args w with e | e <;> rw [e]
  simp [restartCalls_append, restartCalls]

theorem Execf_sftpEvents {σ : Type} (h : Host σ) (c : Client) (cmd : String)
    (args : List String) (w : World σ) :
    sftpEvents (Execf h c cmd args w).2.trace = sftpEvents w.trace := by
  rcases Execf_trace h c cmd args w with e | e <;> rw [e]
  simp [sftpEvents_append, sftpEvents]

/-- The output of `Sprintf` starts with the first character of the format when
that is not a percent sign. -/
theorem Sprintf_head (c : Char) (rest : List Char) (args : List String) (hc : c ≠ '%') :
    ∃ tail, (Sprintf (String.mk (c :: rest)) args).data = c :: tail := by
  simp [Sprintf, doPrintf, hc]

/-- Two commands whose formats start with different characters, neither a
percent sign, are different on the wire. -/
theorem wire_ne (cl : Client) (c1 c2 : Char) (r1 r2 : List Char) (a1 a2 : List String)
    (h1 : c1 ≠ '%') (h2 : c2 ≠ '%') (h12 : c1 ≠ c2) :
    cl.wire (String.mk (c1 :: r1)) a1 ≠ cl.wire (String.mk (c2 :: r2)) a2 := by
  obtain ⟨t1, e1⟩ := Sprintf_head c1 r1 a1 h1
  obtain ⟨t2, e2⟩ := Sprintf_head c2 r2 a2 h2
  intro heq
  have hd : (cl.wire (String.mk (c1 :: r1)) a1).data = (cl.wire (String.mk (c2 :: r2)) a2).data := by
    rw [heq]
  unfold Client.wire at hd
  by_cases hs : cl.useSudo = true
  · simp only [hs, if_true, String.data_append, e1, e2] at hd
    have := List.append_cancel_left hd
    simp only [List.cons.injEq] at this
    exact h12 this.1
  · simp only [hs, Bool.false_eq_true, if_false] at hd
    rw [e1, e2] at hd
    simp only [List.cons.injEq] at hd
    exact h12 hd.1

end ssh

/-! ## `Stat` and the hash short-circuit of `Transfer` -/

namespace files

open Go manifest ssh

/-- A successful `Stat` sent its two commands and nothing else. -/
theorem Stat_ok {σ : Type} (h : Host σ) (fm : FileManager) (f : File) (w w1 : World σ)
    (st : files.Stat) (hs : fm.Stat h f w = (.ret (.ok st), w1)) :
    ∃ c, fm.ssh = some c ∧
      w1.trace = w.trace ++ [Event.exec (c.wire statFormat [f.Path]),
        Event.exec (c.wire (shaCommand f.Path) [])] := by
  unfold FileManager.Stat at hs
  rcases hc : fm.ssh with _ | c
  · simp [hc] at hs
  · refine ⟨c, rfl, ?_⟩
    simp only [hc] at hs
    rcases hx1 : Execf h c statFormat [f.Path] w with ⟨_ | out, w2⟩
    · simp only [hx1] at hs
      split at hs <;> simp at hs
    · simp only [hx1] at hs
      split at hs
      · simp at hs
      · rcases hx2 : Execf h c (shaCommand f.Path) [] w2 with ⟨_ | out2, w3⟩
        · simp [hx2] at hs
        · simp only [hx2, Prod.mk.injEq] at hs
          rw [← hs.2, Execf_ok _ _ _ _ _ _ _ hx2, Execf_ok _ _ _ _ _ _ _ hx1]
          simp

/-- The hash short-circuit: with the copy client set, a successful `Stat` whose
hash is that of the bytes makes `Transfer` stop where `Stat` stopped. -/
theorem Transfer_same_hash {σ : Type} (h : Host σ) (fm : FileManager)
    (scp : SecureCopyClient) (f : File) (b : Bytes) (w w1 : World σ) (st : files.Stat)
    (hscp : fm.scp = some scp) (hstat : fm.Stat h f w = (.ret (.ok st), w1))
    (hsha : st.Sha256 = sha256Hex b) :
    fm.Transfer h f (NewReader b) w = (.ret (false, none), w1) := by
  simp [FileManager.Transfer, hscp, hstat, ReadAll, NewReader, hsha]

/-- C1: on a file manager whose copy client is set, if the remote `Stat`
succeeds and the remote SHA-256 string equals the lower-case hexadecimal SHA-256
of the rendered bytes, `Transfer` returns `changed = false` with no error; it
stops where `Stat` stopped, so the only events are the two commands of `Stat`:
no SFTP event is added and the `mv` command of `Transfer` is not sent. -/
theorem Transfer_short_circuit {σ : Type} (h : Host σ) (fm : FileManager)
    (scp : SecureCopyClient) (f : File) (b : Bytes) (w w1 : World σ) (st : files.Stat)
    (hscp : fm.scp = some scp) (hstat : fm.Stat h f w = (.ret (.ok st), w1))
    (hsha : st.Sha256 = sha256Hex b) :
    fm.Transfer h f (NewReader b) w = (.ret (false, none), w1) ∧
    sftpEvents w1.trace = sftpEvents w.trace ∧
    ∃ c, fm.ssh = some c ∧
      w1.trace = w.trace ++ [Event.exec (c.wire statFormat [f.Path]),
        Event.exec (c.wire (shaCommand f.Path) [])] ∧
      Event.exec (c.wire ("mv " ++ tmpName f.Path ++ " " ++ f.Path) []) ∉
        [Event.exec (c.wire statFormat [f.Path]), Event.exec (c.wire (shaCommand f.Path) [])] := by
  obtain ⟨c, hc, htr⟩ := Stat_ok h fm f w w1 st hstat
  refine ⟨?_, ?_, c, hc, htr, ?_⟩
  · exact Transfer_same_hash h fm scp f b w w1 st hscp hstat hsha
  · rw [htr]
    simp [sftpEvents_append, sftpEvents]
  · have e1 : "mv " ++ tmpName f.Path ++ " " ++ f.Path =
        String.mk ('m' :: ("v " ++ tmpName f.Path ++ " " ++ f.Path).data) := by
      apply String.ext
      simp
    have e2 : statFormat = String.mk ('s' :: "tat -c '%%n,%%F,%%s,%%U,%%G,%%y' %s".data) := by
      decide
    have e3 : shaCommand f.Path =
        String.mk ('s' :: ("ha256sum " ++ f.Path ++ " |awk '\x7b print $1 \x7d'").data) := by
      apply String.ext
      simp [shaCommand]
    simp only [List.mem_cons, List.mem_singleton, Event.exec.injEq, List.not_mem_nil, or_false,
      not_or]
    constructor
    · rw [e1, e2]
      exact wire_ne c 'm' 's' _ _ _ _ (by decide) (by decide) (by decide)
    · rw [e1, e3]
      exact wire_ne c 'm' 's' _ _ _ _ (by decide) (by decide) (by decide)

end files

namespace files

open Go manifest ssh

set_option maxRecDepth 100000 in
/-- C1, on a host that holds the file with the bytes of `hello`. -/
theorem Transfer_short_circuit_witness :
    FileManager.Transfer (Examples.staticHost (sha256Hex (bytesOf "hello")))
        { manifest := Examples.motdManifest, ssh := some (ssh.New "root"),
          scp := some (NewSecureCopyClient (ssh.New "root")) }
        Examples.motdFile (NewReader (bytesOf "hello")) ⟨(), []⟩ =
      (.ret (false, none),
        ⟨(), [Event.exec "stat -c '%n,%F,%s,%U,%G,%y' /etc/motd",
          Event.exec "sha256sum /etc/motd |awk '\x7b print $1 \x7d'"]⟩) :=
  (Transfer_short_circuit (Examples.staticHost (sha256Hex (bytesOf "hello")))
    { manifest := Examples.motdManifest, ssh := some (ssh.New "root"),
      scp := some (NewSecureCopyClient (ssh.New "root")) }
    (NewSecureCopyClient (ssh.New "root")) Examples.motdFile (bytesOf "hello") ⟨(), []⟩
    ⟨(), [Event.exec "stat -c '%n,%F,%s,%U,%G,%y' /etc/motd",
      Event.exec "sha256sum /etc/motd |awk '\x7b print $1 \x7d'"]⟩
    { Name := "/etc/motd", FileType := "regular file", Size := 36, Owner := "root",
      Group := "root", LastModifiedTime := "2024-01-01 00:00:00.000000000 +0000",
      Sha256 := sha256Hex (bytesOf "hello") }
    rfl (by decide) rfl).1

end files

/-! ## The copy and move of `Transfer` -/

namespace Go

theorem doPrintf_noPercent (l : List Char) (fuel : Nat) (hf : l.length < fuel)
    (hp : '%' ∉ l) : doPrintf fuel l [] 0 false = l := by
  induction l generalizing fuel with
  | nil =>
    cases fuel with
    | zero => simp at hf
    | succ n => simp [doPrintf, extraArgs]
  | cons c cs ih =>
    cases fuel with
    | zero => simp at hf
    | succ n =>
      simp only [List.mem_cons, not_or] at hp
      have hc : ¬ c = '%' := fun e => hp.1 e.symm
      simp only [List.length_cons, Nat.add_lt_add_iff_right] at hf
      simp [doPrintf, hc, ih n hf hp.2]

/-- A string without a percent sign is unchanged by `Sprintf` without arguments. -/
theorem Sprintf_noPercent (s : String) (hp : '%' ∉ s.data) : Sprintf s [] = s := by
  unfold Sprintf
  rw [doPrintf_noPercent s.data _ (Nat.lt_succ_self _) hp]

end Go

namespace Go

theorem splitChars_noSep (sep : Char) (l : List Char) (h : sep ∉ l) :
    splitChars sep l = [l] := by
  induction l with
  | nil => rfl
  | cons c cs ih =>
    simp only [List.mem_cons, not_or] at h
    have hc : ¬ c = sep := fun e => h.1 e.symm
    simp [splitChars, ih h.2, hc]

theorem splitChars_ne_nil (sep : Char) (l : List Char) : splitChars sep l ≠ [] := by
  induction l with
  | nil => simp [splitChars]
  | cons c cs ih =>
    unfold splitChars
    split
    · simp
    · split <;> simp

theorem splitChars_sep (sep : Char) (l : List Char) :
    splitChars sep (sep :: l) = [] :: splitChars sep l := by
  rcases hs : splitChars sep l with _ | ⟨seg, segs⟩
  · exact absurd hs (splitChars_ne_nil sep l)
  · simp [splitChars, hs]

theorem splitChars_cons (sep c : Char) (l seg : List Char) (segs : List (List Char))
    (hc : c ≠ sep) (hs : splitChars sep l = seg :: segs) :
    splitChars sep (c :: l) = (c :: seg) :: segs := by
  simp [splitChars, hs, hc]

/-- The base name of a path is never empty. -/
theorem pathBase_ne_empty (p : String) : (pathBase p).data ≠ [] := by
  unfold pathBase
  split
  · decide
  · simp only []
    split
    · decide
    · rename_i h
      intro e
      apply h
      simpa using e

/-- A base name other than the root has no slash. -/
theorem pathBase_noSlash (p : String) (h : pathBase p ≠ "/") : '/' ∉ (pathBase p).data := by
  unfold pathBase at h ⊢
  by_cases h1 : p.data.isEmpty = true
  · rw [if_pos h1]
    decide
  · rw [if_neg h1] at h ⊢
    simp only [] at h ⊢
    split
    · rename_i h2
      rw [if_pos h2] at h
      exact absurd rfl h
    · intro hm
      have hm2 := List.mem_reverse.1 hm
      have := List.mem_takeWhile_imp hm2
      simp at this

/-- A base name holds no character that its path does not hold, except for the
dot and the slash that stand for an empty path and a path of slashes. -/
theorem pathBase_noPercent (p : String) (h : '%' ∉ p.data) : '%' ∉ (pathBase p).data := by
  unfold pathBase
  split
  · decide
  · simp only []
    split
    · decide
    · intro hm
      apply h
      have h1 := List.mem_reverse.1 hm
      have h2 := (List.takeWhile_sublist _).subset h1
      have h3 := List.mem_reverse.1 h2
      have h4 := List.mem_reverse.1 h3
      have h5 := (List.dropWhile_sublist _).subset h4
      exact List.mem_reverse.1 h5

/-- Joining `/`, `tmp` and an ordinary name (not empty, not a dot, not two dots,
without a slash) gives the name under `/tmp/`. -/
theorem pathJoin_tmp (name : String) (h0 : name.data ≠ []) (h1 : name ≠ ".")
    (h2 : name ≠ "..") (hs : '/' ∉ name.data) :
    pathJoin ["/", "tmp", name] = "/tmp/" ++ name := by
  have hne : name.data.isEmpty = false := by
    cases hd : name.data with
    | nil => exact absurd hd h0
    | cons c cs => rfl
  have hd1 : ¬ name.data = ['.'] := fun e => h1 (String.ext e)
  have hd2 : ¬ name.data = ['.', '.'] := fun e => h2 (String.ext e)
  have hsplit : splitChars '/' ("//tmp/" ++ name).data = [[], [], ['t', 'm', 'p'], name.data] := by
    have e0 : ("//tmp/" ++ name).data = '/' :: '/' :: 't' :: 'm' :: 'p' :: '/' :: name.data := by
      simp
    rw [e0, splitChars_sep, splitChars_sep]
    have e1 : splitChars '/' ('/' :: name.data) = [[], name.data] := by
      rw [splitChars_sep, splitChars_noSep _ _ hs]
    rw [splitChars_cons '/' 't' _ ['m', 'p'] [name.data] (by decide)
      (splitChars_cons '/' 'm' _ ['p'] [name.data] (by decide)
        (splitChars_cons '/' 'p' _ [] [name.data] (by decide) e1))]
  have hj : String.intercalate "/" ["/", "tmp", name] = "//tmp/" ++ name := by
    simp [String.intercalate, String.intercalate.go]
  unfold pathJoin
  simp only [List.filter_cons, List.filter_nil, hne]
  simp only [show ("/" : String).data.isEmpty = false from rfl,
    show ("tmp" : String).data.isEmpty = false from rfl, Bool.not_false, if_true,
    List.isEmpty_cons, Bool.false_eq_true, if_false, hj]
  unfold pathClean
  have hhead : ("//tmp/" ++ name).data.head? = some '/' := by simp
  have hemp : ("//tmp/" ++ name).data.isEmpty = false := by simp
  simp only [hemp, Bool.false_eq_true, if_false, hhead, hsplit, if_true]
  simp [cleanElems, hd1, hd2, h0, String.intercalate, String.intercalate.go]
  apply String.ext
  simp

end Go

namespace files

open Go manifest ssh

/-- `Copy` rewinds a seekable reader, so what was read from it before does not
matter: the copy is that of a fresh reader on the same bytes. -/
theorem Copy_rewind {σ : Type} (h : Host σ) (scp : SecureCopyClient) (b : Bytes) (n : Nat)
    (path : String) (w : World σ) :
    Copy h scp { data := b, pos := n, seekable := true, readErr := none } path w =
      Copy h scp (NewReader b) path w := by
  simp [Copy, NewReader]

/-- The command on the wire for a command text without a percent sign. -/
theorem wire_noPercent (c : Client) (cmd : String) (hp : '%' ∉ cmd.data) :
    c.wire cmd [] = (if c.useSudo then "sudo " else "") ++ cmd := by
  unfold Client.wire
  rw [Sprintf_noPercent cmd hp]
  by_cases hs : c.useSudo = true
  · simp [hs]
  · simp only [hs, Bool.false_eq_true, if_false]
    apply String.ext
    simp

/-- C2, what the code does: on a file manager whose copy client is set, for a
file whose remote copy is absent (`Stat` reports NotExist) or has another
SHA-256 than the rendered bytes, `Transfer` copies the rendered bytes (a rewound
reader on them) to `path.Join("/", "tmp", base)`, then hands the finished texts
`/bin/cat <tmp>` and `mv <tmp> <path>` to `Execf` as formats, which formats them
once more; when the three steps succeed it returns `changed = true` with no
error, and when the copy, the read-back or the move fails it returns
`changed = false` with an error. For a base name other than `.`, `..` and `/`
the temporary name is `/tmp/<base>`, and for a path without a percent sign the
two commands sent are `/bin/cat /tmp/<base>` and `mv /tmp/<base> <path>`. -/
theorem Transfer_copies {σ : Type} (h : Host σ) (fm : FileManager) (scp : SecureCopyClient)
    (c : Client) (f : File) (b : Bytes) (w w1 : World σ) (r : Except GoError files.Stat)
    (hscp : fm.scp = some scp) (hssh : fm.ssh = some c)
    (hdiff : match r with
      | .ok st => st.Sha256 ≠ sha256Hex b
      | .error e => e.notExist = true)
    (hstat : fm.Stat h f w = (.ret r, w1)) :
    (∀ w2 out3 w3 out4 w4,
      Copy h scp (NewReader b) (tmpName f.Path) w1 = (none, w2) →
      Execf h c ("/bin/cat " ++ tmpName f.Path) [] w2 = (.ok out3, w3) →
      Execf h c ("mv " ++ tmpName f.Path ++ " " ++ f.Path) [] w3 = (.ok out4, w4) →
      fm.Transfer h f (NewReader b) w = (.ret (true, none), w4)) ∧
    (∀ e w2, Copy h scp (NewReader b) (tmpName f.Path) w1 = (some e, w2) →
      fm.Transfer h f (NewReader b) w =
        (.ret (false, some (errorsWrap e "error copying file")), w2)) ∧
    (∀ w2 e w3, Copy h scp (NewReader b) (tmpName f.Path) w1 = (none, w2) →
      Execf h c ("/bin/cat " ++ tmpName f.Path) [] w2 = (.error e, w3) →
      fm.Transfer h f (NewReader b) w =
        (.ret (false, some (errorsWrap e ("error exec cat " ++ tmpName f.Path))), w3)) ∧
    (∀ w2 out3 w3 e w4, Copy h scp (NewReader b) (tmpName f.Path) w1 = (none, w2) →
      Execf h c ("/bin/cat " ++ tmpName f.Path) [] w2 = (.ok out3, w3) →
      Execf h c ("mv " ++ tmpName f.Path ++ " " ++ f.Path) [] w3 = (.error e, w4) →
      fm.Transfer h f (NewReader b) w =
        (.ret (false, some (errorsWrap e ("error exec cat " ++ f.Path))), w4)) ∧
    (pathBase f.Path ≠ "." → pathBase f.Path ≠ ".." → pathBase f.Path ≠ "/" →
      tmpName f.Path = "/tmp/" ++ pathBase f.Path ∧
      ('%' ∉ f.Path.data → ∀ w2 out3 w3 out4 w4,
        Execf h c ("/bin/cat " ++ tmpName f.Path) [] w2 = (.ok out3, w3) →
        Execf h c ("mv " ++ tmpName f.Path ++ " " ++ f.Path) [] w3 = (.ok out4, w4) →
        w4.trace = w2.trace ++
          [Event.exec ((if c.useSudo then "sudo " else "") ++
              ("/bin/cat /tmp/" ++ pathBase f.Path)),
            Event.exec ((if c.useSudo then "sudo " else "") ++
              ("mv /tmp/" ++ pathBase f.Path ++ " " ++ f.Path))])) := by
  have hshort : ∀ (k : Outcome (Bool × Option GoError) × World σ),
      (match Copy h scp (NewReader b) (tmpName f.Path) w1 with
        | (some err, w2) => (.ret (false, some (errorsWrap err "error copying file")), w2)
        | (none, w2) =>
          match Execf h c ("/bin/cat " ++ tmpName f.Path) [] w2 with
          | (.error err, w3) =>
            (.ret (false, some (errorsWrap err ("error exec cat " ++ tmpName f.Path))), w3)
          | (.ok _, w3) =>
            match Execf h c ("mv " ++ tmpName f.Path ++ " " ++ f.Path) [] w3 with
            | (.error err, w4) =>
              (.ret (false, some (errorsWrap err ("error exec cat " ++ f.Path))), w4)
            | (.ok _, w4) => (.ret (true, none), w4)) = k →
      fm.Transfer h f (NewReader b) w = k := by
    intro k hk
    rw [← hk]
    unfold FileManager.Transfer
    simp only [hscp, hstat, hssh]
    cases r with
    | error e =>
      simp only [] at hdiff
      simp [hdiff, ReadAll, NewReader, Copy_rewind]
    | ok st =>
      simp only [] at hdiff
      have hne : ¬ sha256Hex b = st.Sha256 := fun e => hdiff e.symm
      simp [ReadAll, NewReader, Copy_rewind, hne]
  refine ⟨?_, ?_, ?_, ?_, ?_⟩
  · intro w2 out3 w3 out4 w4 hcopy hx3 hx4
    exact hshort _ (by simp [hcopy, hx3, hx4])
  · intro e w2 hcopy
    exact hshort _ (by simp [hcopy])
  · intro w2 e w3 hcopy hx3
    exact hshort _ (by simp [hcopy, hx3])
  · intro w2 out3 w3 e w4 hcopy hx3 hx4
    exact hshort _ (by simp [hcopy, hx3, hx4])
  · intro hb1 hb2 hb3
    have htmp : tmpName f.Path = "/tmp/" ++ pathBase f.Path :=
      pathJoin_tmp _ (pathBase_ne_empty _) hb1 hb2 (pathBase_noSlash _ hb3)
    refine ⟨htmp, ?_⟩
    intro hpct w2 out3 w3 out4 w4 hx3 hx4
    have hbp := pathBase_noPercent _ hpct
    have hcat : '%' ∉ ("/bin/cat " ++ tmpName f.Path).data := by
      rw [htmp]
      simp only [String.data_append, List.mem_append, not_or]
      exact ⟨by decide, by decide, hbp⟩
    have hmv : '%' ∉ ("mv " ++ tmpName f.Path ++ " " ++ f.Path).data := by
      rw [htmp]
      simp only [String.data_append, List.mem_append, not_or]
      exact ⟨⟨⟨by decide, by decide, hbp⟩, by decide⟩, hpct⟩
    rw [Execf_ok _ _ _ _ _ _ _ hx4, Execf_ok _ _ _ _ _ _ _ hx3, wire_noPercent _ _ hcat,
      wire_noPercent _ _ hmv, htmp]
    simp only [List.append_assoc, List.cons_append, List.nil_append, List.append_cancel_left_eq,
      List.cons.injEq, Event.exec.injEq, and_true]
    constructor <;> (congr 1)

end files

namespace files

open Go manifest ssh

set_option maxRecDepth 100000 in
/-- C2 on a host with a file system and without the file. For the path `/etc/a`
the bytes of `a` go to `/tmp/a` and are moved to `/etc/a`. For the path
`/srv/a%%b` the bytes go to `/tmp/a%%b`, the read-back is sent as
`/bin/cat /tmp/a%b`, which names no file, and `Transfer` returns
`changed = false` with that error: no move is made. -/
theorem Transfer_copies_witness :
    FileManager.Transfer Examples.diskHost
        { manifest := {}, ssh := some (ssh.New "root"),
          scp := some (NewSecureCopyClient (ssh.New "root")) }
        Examples.plainFile (NewReader (bytesOf "a")) ⟨{}, []⟩ =
      (.ret (true, none),
        ⟨{ files := [("/etc/a", [97])] },
          [Event.exec "stat -c '%n,%F,%s,%U,%G,%y' /etc/a", Event.sftpOpen "/tmp/a",
            Event.sftpWrite "/tmp/a" [97], Event.exec "/bin/cat /tmp/a",
            Event.exec "mv /tmp/a /etc/a"]⟩) ∧
    FileManager.Transfer Examples.diskHost
        { manifest := {}, ssh := some (ssh.New "root"),
          scp := some (NewSecureCopyClient (ssh.New "root")) }
        { Path := "/srv/a%%b", Mode := "0644", Content := "x" } (NewReader (bytesOf "x"))
        ⟨{}, []⟩ =
      (.ret (false, some (errorsWrap (errorsWrap
          { msg := "Process exited with status 1", exitStatus := some 1 }
          "remote command did not exit cleanly: cat: No such file or directory\n")
          "error exec cat /tmp/a%%b")),
        ⟨{ files := [("/tmp/a%%b", [120])] },
          [Event.exec "stat -c '%n,%F,%s,%U,%G,%y' /srv/a%%b", Event.sftpOpen "/tmp/a%%b",
            Event.sftpWrite "/tmp/a%%b" [120], Event.exec "/bin/cat /tmp/a%b"]⟩) :=
  ⟨(Transfer_copies Examples.diskHost
      { manifest := {}, ssh := some (ssh.New "root"),
        scp := some (NewSecureCopyClient (ssh.New "root")) }
      (NewSecureCopyClient (ssh.New "root")) (ssh.New "root") Examples.plainFile (bytesOf "a")
      ⟨{}, []⟩ ⟨{}, [Event.exec "stat -c '%n,%F,%s,%U,%G,%y' /etc/a"]⟩ (.error ErrNotExist)
      rfl rfl rfl (by decide)).1
    ⟨{ files := [("/tmp/a", [97])] },
      [Event.exec "stat -c '%n,%F,%s,%U,%G,%y' /etc/a", Event.sftpOpen "/tmp/a",
        Event.sftpWrite "/tmp/a" [97]]⟩
    "a"
    ⟨{ files := [("/tmp/a", [97])] },
      [Event.exec "stat -c '%n,%F,%s,%U,%G,%y' /etc/a", Event.sftpOpen "/tmp/a",
        Event.sftpWrite "/tmp/a" [97], Event.exec "/bin/cat /tmp/a"]⟩
    ""
    ⟨{ files := [("/etc/a", [97])] },
      [Event.exec "stat -c '%n,%F,%s,%U,%G,%y' /etc/a", Event.sftpOpen "/tmp/a",
        Event.sftpWrite "/tmp/a" [97], Event.exec "/bin/cat /tmp/a",
        Event.exec "mv /tmp/a /etc/a"]⟩
    (by decide) (by decide) (by decide),
   ((Transfer_copies Examples.diskHost
      { manifest := {}, ssh := some (ssh.New "root"),
        scp := some (NewSecureCopyClient (ssh.New "root")) }
      (NewSecureCopyClient (ssh.New "root")) (ssh.New "root")
      { Path := "/srv/a%%b", Mode := "0644", Content := "x" } (bytesOf "x")
      ⟨{}, []⟩ ⟨{}, [Event.exec "stat -c '%n,%F,%s,%U,%G,%y' /srv/a%%b"]⟩ (.error ErrNotExist)
      rfl rfl rfl (by decide)).2.2.1
    ⟨{ files := [("/tmp/a%%b", [120])] },
      [Event.exec "stat -c '%n,%F,%s,%U,%G,%y' /srv/a%%b", Event.sftpOpen "/tmp/a%%b",
        Event.sftpWrite "/tmp/a%%b" [120]]⟩
    (errorsWrap { msg := "Process exited with status 1", exitStatus := some 1 }
      "remote command did not exit cleanly: cat: No such file or directory\n")
    ⟨{ files := [("/tmp/a%%b", [120])] },
      [Event.exec "stat -c '%n,%F,%s,%U,%G,%y' /srv/a%%b", Event.sftpOpen "/tmp/a%%b",
        Event.sftpWrite "/tmp/a%%b" [120], Event.exec "/bin/cat /tmp/a%b"]⟩
    (by decide) (by decide)).trans (by decide)⟩

end files

/-! ## Steps that only run commands -/

namespace ssh

open Go

theorem hasPrefix_append (s t p : String) (hs : hasPrefix s p = true) :
    hasPrefix (s ++ t) p = true := by
  simp only [hasPrefix, String.data_append] at *
  obtain ⟨r, hr⟩ := List.isPrefixOf_iff_prefix.mp hs
  exact List.isPrefixOf_iff_prefix.mpr ⟨r ++ t.data, by rw [← hr, List.append_assoc]⟩

/-- A format that starts as a format of `quietFormat` is one. -/
theorem quietFormat_append (s t : String) (hs : quietFormat s = true) :
    quietFormat (s ++ t) = true := by
  simp only [quietFormat, Bool.or_eq_true] at *
  rcases hs with (((((((h | h) | h) | h) | h) | h) | h) | h) | h <;>
    simp [hasPrefix_append _ t _ h]

theorem Quiet.refl {σ : Type} (Inv : σ → Prop) (w : World σ) : Quiet Inv w w :=
  ⟨rfl, rfl, id⟩

theorem Quiet.trans {σ : Type} {Inv : σ → Prop} {w1 w2 w3 : World σ}
    (h12 : Quiet Inv w1 w2) (h23 : Quiet Inv w2 w3) : Quiet Inv w1 w3 :=
  ⟨h23.1.trans h12.1, h23.2.1.trans h12.2.1, fun hi => h23.2.2 (h12.2.2 hi)⟩

/-- A command keeps the host property: the assumption under which the steps
below are quiet. -/
theorem Execf_quiet {σ : Type} (h : Host σ) (c : Client) (Inv : σ → Prop)
    (hexec : ∀ (w1 : World σ) (cmd : String) (args : List String),
      quietFormat cmd = true → Inv w1.host → Inv (Execf h c cmd args w1).2.host)
    (cmd : String) (args : List String) (hfmt : quietFormat cmd = true) (w : World σ) :
    Quiet Inv w (Execf h c cmd args w).2 :=
  ⟨Execf_restartCalls h c cmd args w, Execf_sftpEvents h c cmd args w, hexec w cmd args hfmt⟩

end ssh

namespace packages

open Go manifest ssh

theorem Update_quiet {σ : Type} (h : Host σ) (p : Packages) (Inv : σ → Prop)
    (hexec : ∀ (w1 : World σ) (cmd : String) (args : List String),
      quietFormat cmd = true → Inv w1.host → Inv (Execf h p.ssh cmd args w1).2.host)
    (w : World σ) : Quiet Inv w (p.Update h w).2 := by
  have hq := Execf_quiet h p.ssh Inv hexec "DEBIAN_FRONTEND=noninteractive apt-get update" [] rfl w
  unfold Packages.Update
  rcases hx : Execf h p.ssh "DEBIAN_FRONTEND=noninteractive apt-get update" [] w with ⟨_ | _, w1⟩ <;>
    (rw [hx] at hq; exact hq)

theorem fixInvokeRcd_quiet {σ : Type} (h : Host σ) (p : Packages) (Inv : σ → Prop)
    (hexec : ∀ (w1 : World σ) (cmd : String) (args : List String),
      quietFormat cmd = true → Inv w1.host → Inv (Execf h p.ssh cmd args w1).2.host)
    (w : World σ) : Quiet Inv w (p.fixInvokeRcd h w).2 := by
  have hq := Execf_quiet h p.ssh Inv hexec
    "printf '#!/bin/sh\\nexit 0\\n' > /usr/sbin/policy-rc.d" [] rfl w
  unfold Packages.fixInvokeRcd
  rcases hx : Execf h p.ssh "printf '#!/bin/sh\\nexit 0\\n' > /usr/sbin/policy-rc.d" [] w
    with ⟨_ | _, w1⟩ <;> (rw [hx] at hq; exact hq)

theorem Install_quiet {σ : Type} (h : Host σ) (p : Packages) (Inv : σ → Prop)
    (hexec : ∀ (w1 : World σ) (cmd : String) (args : List String),
      quietFormat cmd = true → Inv w1.host → Inv (Execf h p.ssh cmd args w1).2.host)
    (pkgs : List Package) (w : World σ) : Quiet Inv w (p.Install h pkgs w).2 := by
  unfold Packages.Install
  by_cases h0 : pkgs.length = 0
  · simp only [h0, if_true]
    exact Quiet.refl Inv w
  · simp only [h0, if_false]
    have hstep : ∀ w1 : World σ, Quiet Inv w w1 →
        Quiet Inv w (match Execf h p.ssh
          ("DEBIAN_FRONTEND=noninteractive apt-get install -y " ++
            join (pkgs.map (fun pkg : Package => pkg.Name)) " ") [] w1 with
          | (.error err, w2) => (some (errorsWrap err "error on apt-get install"), w2)
          | (.ok _, w2) => (none, w2)).2 := by
      intro w1 h1
      have hq := Execf_quiet h p.ssh Inv hexec
        ("DEBIAN_FRONTEND=noninteractive apt-get install -y " ++
          join (pkgs.map (fun pkg : Package => pkg.Name)) " ") []
        (quietFormat_append _ _ rfl) w1
      rcases hx : Execf h p.ssh ("DEBIAN_FRONTEND=noninteractive apt-get install -y " ++
          join (pkgs.map (fun pkg : Package => pkg.Name)) " ") [] w1 with ⟨_ | _, w2⟩ <;>
        (rw [hx] at hq; exact h1.trans hq)
    by_cases hd : p.manifest.Provider = ProviderBackendDocker
    · simp only [hd, if_true]
      have hf := fixInvokeRcd_quiet h p Inv hexec w
      rcases hx : p.fixInvokeRcd h w with ⟨_ | err, w1⟩
      · rw [hx] at hf
        exact hstep w1 hf
      · rw [hx] at hf
        exact hf
    · simp only [hd, if_false]
      exact hstep w (Quiet.refl Inv w)

theorem Query_quiet {σ : Type} (h : Host σ) (p : Packages) (Inv : σ → Prop)
    (hexec : ∀ (w1 : World σ) (cmd : String) (args : List String),
      quietFormat cmd = true → Inv w1.host → Inv (Execf h p.ssh cmd args w1).2.host)
    (w : World σ) : Quiet Inv w (p.Query h w).2 := by
  unfold Packages.Query
  by_cases h0 : p.manifest.Packages.length = 0
  · simp only [h0, if_true]
    exact Quiet.refl Inv w
  · simp only [h0, if_false]
    have hq := Execf_quiet h p.ssh Inv hexec queryFormat
      [join (p.manifest.Packages.map (fun pkg : Package => pkg.Name)) " "] rfl w
    rcases hx : Execf h p.ssh queryFormat
      [join (p.manifest.Packages.map (fun pkg : Package => pkg.Name)) " "] w with ⟨res, w1⟩
    rw [hx] at hq
    split
    · exact hq
    · split <;> exact hq

end packages

namespace files

open Go manifest ssh

theorem Stat_quiet {σ : Type} (h : Host σ) (fm : FileManager) (c : Client) (Inv : σ → Prop)
    (hssh : fm.ssh = some c)
    (hexec : ∀ (w1 : World σ) (cmd : String) (args : List String),
      quietFormat cmd = true → Inv w1.host → Inv (Execf h c cmd args w1).2.host)
    (f : File) (w : World σ) : Quiet Inv w (fm.Stat h f w).2 := by
  unfold FileManager.Stat
  simp only [hssh]
  have hq1 := Execf_quiet h c Inv hexec statFormat [f.Path] rfl w
  rcases hx1 : Execf h c statFormat [f.Path] w with ⟨_ | out, w1⟩
  · rw [hx1] at hq1
    simp only []
    split <;> exact hq1
  · rw [hx1] at hq1
    simp only []
    split
    · exact hq1
    · have hq2 := Execf_quiet h c Inv hexec (shaCommand f.Path) []
        (quietFormat_append _ _ (quietFormat_append _ _ rfl)) w1
      rcases hx2 : Execf h c (shaCommand f.Path) [] w1 with ⟨_ | out2, w2⟩ <;>
        (rw [hx2] at hq2; exact hq1.trans hq2)

theorem permissionsFiles_quiet {σ : Type} (h : Host σ) (c : Client) (Inv : σ → Prop)
    (hexec : ∀ (w1 : World σ) (cmd : String) (args : List String),
      quietFormat cmd = true → Inv w1.host → Inv (Execf h c cmd args w1).2.host)
    (fs : List File) (w : World σ) : Quiet Inv w (permissionsFiles h c fs w).2 := by
  induction fs generalizing w with
  | nil => exact Quiet.refl Inv w
  | cons f rest ih =>
    unfold permissionsFiles
    by_cases hp : f.Path = ""
    · simp only [hp, if_true]
      exact ih w
    · simp only [hp, if_false]
      have hmode : ∃ r w1, (if f.Mode ≠ "" then
          (match Execf h c ("chmod " ++ f.Mode ++ " " ++ f.Path) [] w with
            | (.error err, w1) => (some (errorsWrap err ("error exec chmod " ++ f.Path)), w1)
            | (.ok _, w1) => (none, w1))
          else (none, w)) = (r, w1) ∧ Quiet Inv w w1 := by
        by_cases hm : f.Mode = ""
        · exact ⟨none, w, by simp [hm], Quiet.refl Inv w⟩
        · have hq := Execf_quiet h c Inv hexec ("chmod " ++ f.Mode ++ " " ++ f.Path) []
            (quietFormat_append _ _ (quietFormat_append _ _ (quietFormat_append _ _ rfl))) w
          rcases hx : Execf h c ("chmod " ++ f.Mode ++ " " ++ f.Path) [] w with ⟨e | _, w1⟩
          · rw [hx] at hq
            exact ⟨some (errorsWrap e ("error exec chmod " ++ f.Path)), w1, by simp [hm], hq⟩
          · rw [hx] at hq
            exact ⟨none, w1, by simp [hm], hq⟩
      obtain ⟨r, w1, he, hq1⟩ := hmode
      rw [he]
      cases r with
      | some err => exact hq1
      | none =>
        simp only []
        have hown : ∃ r2 w2, (if f.Owner ≠ "" then
            (match Execf h c ("chown " ++ f.Owner ++ " " ++ f.Path) [] w1 with
              | (.error err, w2) => (some (errorsWrap err ("error exec chown " ++ f.Path)), w2)
              | (.ok _, w2) => (none, w2))
            else (none, w1)) = (r2, w2) ∧ Quiet Inv w1 w2 := by
          by_cases ho : f.Owner = ""
          · exact ⟨none, w1, by simp [ho], Quiet.refl Inv w1⟩
          · have hq := Execf_quiet h c Inv hexec ("chown " ++ f.Owner ++ " " ++ f.Path) []
              (quietFormat_append _ _ (quietFormat_append _ _ (quietFormat_append _ _ rfl))) w1
            rcases hx : Execf h c ("chown " ++ f.Owner ++ " " ++ f.Path) [] w1 with ⟨e | _, w2⟩
            · rw [hx] at hq
              exact ⟨some (errorsWrap e ("error exec chown " ++ f.Path)), w2, by simp [ho], hq⟩
            · rw [hx] at hq
              exact ⟨none, w2, by simp [ho], hq⟩
        obtain ⟨r2, w2, he2, hq2⟩ := hown
        rw [he2]
        cases r2 with
        | some err => exact hq1.trans hq2
        | none => exact (hq1.trans hq2).trans (ih w2)

theorem permissionsPackages_quiet {σ : Type} (h : Host σ) (c : Client) (Inv : σ → Prop)
    (hexec : ∀ (w1 : World σ) (cmd : String) (args : List String),
      quietFormat cmd = true → Inv w1.host → Inv (Execf h c cmd args w1).2.host)
    (ps : List Package) (w : World σ) : Quiet Inv w (permissionsPackages h c ps w).2 := by
  induction ps generalizing w with
  | nil => exact Quiet.refl Inv w
  | cons pkg rest ih =>
    unfold permissionsPackages
    have hq := permissionsFiles_quiet h c Inv hexec pkg.Files w
    rcases hx : permissionsFiles h c pkg.Files w with ⟨_ | err, w1⟩
    · rw [hx] at hq
      exact hq.trans (ih w1)
    · rw [hx] at hq
      exact hq

theorem ApplyPermissions_quiet {σ : Type} (h : Host σ) (fm : FileManager) (c : Client)
    (Inv : σ → Prop) (hssh : fm.ssh = some c)
    (hexec : ∀ (w1 : World σ) (cmd : String) (args : List String),
      quietFormat cmd = true → Inv w1.host → Inv (Execf h c cmd args w1).2.host)
    (w : World σ) : Quiet Inv w (fm.ApplyPermissions h w).2 := by
  unfold FileManager.ApplyPermissions
  simp only [hssh]
  exact permissionsPackages_quiet h c Inv hexec _ w

end files

namespace reconcile

open Go manifest ssh files packages

theorem checkServices_quiet {σ : Type} (h : Host σ) (p : ProviderReconciler) (Inv : σ → Prop)
    (hexec : ∀ (w1 : World σ) (cmd : String) (args : List String),
      quietFormat cmd = true → Inv w1.host → Inv (Execf h p.ssh cmd args w1).2.host)
    (ps : List Package) (w : World σ) : Quiet Inv w (checkServices h p ps w) := by
  induction ps generalizing w with
  | nil => exact Quiet.refl Inv w
  | cons pkg rest ih =>
    unfold checkServices
    by_cases hk : pkg.Kind = PackageKindService
    · simp only [hk, ne_eq, not_true_eq_false, if_false]
      refine (Execf_quiet h p.ssh Inv hexec _ _ ?_ w).trans (ih _)
      by_cases hd : p.manifest.Provider = ProviderBackendDocker <;>
        simp only [hd, if_true, if_false] <;> rfl
    · simp only [ne_eq, hk, not_false_eq_true, if_true]
      exact ih w

end reconcile

/-! ## Steps that copy: no `RestartService` is entered -/

namespace ssh

open Go

theorem Flush_restartCalls {σ : Type} (h : Host σ) (path : String) (b : BufWriter)
    (w : World σ) :
    restartCalls (BufWriter.Flush h path b w).2.2.trace = restartCalls w.trace := by
  unfold BufWriter.Flush
  cases b.err with
  | some e => rfl
  | none =>
    try simp only []
    by_cases hl : b.buf.length = 0
    · simp only [hl, if_true]
    · simp only [hl, if_false]
      rcases h.write w.host path b.buf with ⟨⟨n, err⟩, s⟩
      try simp only []
      split <;> simp [restartCalls_append, restartCalls]

theorem Write_restartCalls {σ : Type} (h : Host σ) (path : String) (b : BufWriter)
    (p : Bytes) (w : World σ) :
    restartCalls (BufWriter.Write h path b p w).2.2.trace = restartCalls w.trace := by
  unfold BufWriter.Write
  split
  · have hf := Flush_restartCalls h path
      { b with buf := b.buf ++ p.take (4096 - b.buf.length) } w
    try simp only []
    split <;> exact hf
  · split <;> rfl

theorem copyLoop_restartCalls {σ : Type} (h : Host σ) (path : String) (fuel : Nat)
    (sizes : List Nat) (rest : Bytes) (readErr : Option GoError) (b : BufWriter)
    (w : World σ) :
    restartCalls (copyLoop h path fuel sizes rest readErr b w).2.2.trace =
      restartCalls w.trace := by
  induction fuel generalizing sizes rest b w with
  | zero => rfl
  | succ n ih =>
    unfold copyLoop
    split
    · split <;> rfl
    · split
      · exact ih _ _ _ _
      · have hw := Write_restartCalls h path b (rest.take (min (sizes.headD 1024) 1024)) w
        rcases hx : BufWriter.Write h path b (rest.take (min (sizes.headD 1024) 1024)) w
          with ⟨_ | e2, b1, w1⟩
        · rw [hx] at hw
          try simp only []
          rw [ih, hw]
        · rw [hx] at hw
          exact hw

theorem Copy_restartCalls {σ : Type} (h : Host σ) (scp : SecureCopyClient) (data : Reader)
    (filepath : String) (w : World σ) :
    restartCalls (Copy h scp data filepath w).2.trace = restartCalls w.trace := by
  unfold Copy
  split
  · rfl
  · split
    · rfl
    · simp only []
      split
      · rfl
      · split
        · rfl
        · simp only []
          rw [Flush_restartCalls, copyLoop_restartCalls]
          simp [restartCalls_append, restartCalls]

end ssh

namespace files

open Go manifest ssh

theorem Stat_restartCalls {σ : Type} (h : Host σ) (fm : FileManager) (f : File)
    (w : World σ) : restartCalls (fm.Stat h f w).2.trace = restartCalls w.trace := by
  rcases hc : fm.ssh with _ | c
  · unfold FileManager.Stat
    simp only [hc]
  · exact (Stat_quiet h fm c (fun _ => True) hc (fun _ _ _ _ _ => trivial) f w).1

theorem Transfer_restartCalls {σ : Type} (h : Host σ) (fm : FileManager) (f : File)
    (reader : Reader) (w : World σ) :
    restartCalls (fm.Transfer h f reader w).2.trace = restartCalls w.trace := by
  rcases hscp : fm.scp with _ | scp
  · unfold FileManager.Transfer
    simp only [hscp]
  · have hw1 := Stat_restartCalls h fm f w
    rcases hra : ReadAll reader with ⟨b, re, r1⟩
    rcases hstat : fm.Stat h f w with ⟨(e | st) | msg, w1⟩ <;> rw [hstat] at hw1 <;>
      have hw2 := (Copy_restartCalls h scp r1 (tmpName f.Path) w1).trans hw1 <;>
      rcases hcopy : Copy h scp r1 (tmpName f.Path) w1 with ⟨_ | ce, w2⟩ <;>
      rw [hcopy] at hw2 <;>
      rcases hssh : fm.ssh with _ | c
    all_goals try
      (have hw3 := (Execf_restartCalls h c ("/bin/cat " ++ tmpName f.Path) [] w2).trans hw2
       rcases hcat : Execf h c ("/bin/cat " ++ tmpName f.Path) [] w2 with ⟨e3 | o3, w3⟩ <;>
         rw [hcat] at hw3 <;>
         have hw4 := (Execf_restartCalls h c
           ("mv " ++ tmpName f.Path ++ " " ++ f.Path) [] w3).trans hw3 <;>
         rcases hmv : Execf h c ("mv " ++ tmpName f.Path ++ " " ++ f.Path) [] w3
           with ⟨e4 | o4, w4⟩ <;>
         rw [hmv] at hw4)
    all_goals
      (unfold FileManager.Transfer
       rcases re with _ | re <;>
         simp only [hscp, hstat, hra, hcopy, hssh, *] <;>
         repeat' split)
    all_goals first | exact hw1 | exact hw2 | exact hw3 | exact hw4

end files

namespace files

open Go manifest ssh

theorem transferFiles_restartCalls {σ : Type} (h : Host σ) (t : Templates)
    (fm : FileManager) (pkg : Package) (data : GoMap String) (fs : List File)
    (changed : GoMap Package) (w : World σ) :
    restartCalls (transferFiles h t fm pkg data fs changed w).2.trace =
      restartCalls w.trace := by
  induction fs generalizing changed w with
  | nil => rfl
  | cons f rest ih =>
    unfold transferFiles
    by_cases hp : f.Path = ""
    · simp only [hp, if_true]
    · simp only [hp, if_false]
      rcases hr : fm.Render t pkg f data with err | reader
      · simp only []
      · simp only []
        have ht := Transfer_restartCalls h fm f reader w
        rcases hx : fm.Transfer h f reader w with ⟨⟨d, _ | err⟩ | msg, w1⟩ <;>
          rw [hx] at ht <;> simp only []
        · rw [ih]
          exact ht
        · exact ht
        · exact ht

theorem transferPackages_restartCalls {σ : Type} (h : Host σ) (t : Templates)
    (fm : FileManager) (data : GoMap String) (ps : List Package)
    (changed : GoMap Package) (w : World σ) :
    restartCalls (transferPackages h t fm data ps changed w).2.trace =
      restartCalls w.trace := by
  induction ps generalizing changed w with
  | nil => rfl
  | cons pkg rest ih =>
    unfold transferPackages
    have ht := transferFiles_restartCalls h t fm pkg data pkg.Files changed w
    rcases hx : transferFiles h t fm pkg data pkg.Files changed w
      with ⟨(r | changed1) | msg, w1⟩ <;> rw [hx] at ht <;> simp only []
    · exact ht
    · rw [ih]
      exact ht
    · exact ht

theorem RenderAndTransfer_restartCalls {σ : Type} (h : Host σ) (t : Templates)
    (fm : FileManager) (data : GoMap String) (w : World σ) :
    restartCalls (fm.RenderAndTransfer h t data w).2.2.trace = restartCalls w.trace := by
  unfold FileManager.RenderAndTransfer
  split
  · rfl
  · simp only []
    split <;> rename_i heq <;>
      exact (congrArg (fun x => restartCalls x.2.trace) heq).symm.trans
        (transferPackages_restartCalls _ _ _ _ _ _ _)

theorem transferFiles_inl {σ : Type} (h : Host σ) (t : Templates)
    (fm : FileManager) (pkg : Package) (data : GoMap String) (fs : List File)
    (changed : GoMap Package) (w w1 : World σ) (r : Changed)
    (hx : transferFiles h t fm pkg data fs changed w = (.ret (.inl r), w1)) : r.2 ≠ none := by
  induction fs generalizing changed w with
  | nil => simp [transferFiles] at hx
  | cons f rest ih =>
    unfold transferFiles at hx
    by_cases hp : f.Path = ""
    · simp only [hp, if_true, Prod.mk.injEq, Outcome.ret.injEq, Sum.inl.injEq] at hx
      rw [← hx.1]
      simp
    · simp only [hp, if_false] at hx
      rcases hr : fm.Render t pkg f data with err | reader
      · simp only [hr, Prod.mk.injEq, Outcome.ret.injEq, Sum.inl.injEq] at hx
        rw [← hx.1]
        simp
      · simp only [hr] at hx
        rcases hxt : fm.Transfer h f reader w with ⟨⟨d, _ | err⟩ | msg, w2⟩ <;>
          simp only [hxt] at hx
        · exact ih _ _ hx
        · simp only [Prod.mk.injEq, Outcome.ret.injEq, Sum.inl.injEq] at hx
          rw [← hx.1]
          simp
        · simp at hx

theorem transferPackages_inl {σ : Type} (h : Host σ) (t : Templates)
    (fm : FileManager) (data : GoMap String) (ps : List Package)
    (changed : GoMap Package) (w w1 : World σ) (r : Changed)
    (hx : transferPackages h t fm data ps changed w = (.ret (.inl r), w1)) : r.2 ≠ none := by
  induction ps generalizing changed w with
  | nil => simp [transferPackages] at hx
  | cons pkg rest ih =>
    unfold transferPackages at hx
    rcases hf : transferFiles h t fm pkg data pkg.Files changed w
      with ⟨(r1 | changed1) | msg, w2⟩ <;> simp only [hf] at hx
    · simp only [Prod.mk.injEq, Outcome.ret.injEq, Sum.inl.injEq] at hx
      rw [← hx.1]
      exact transferFiles_inl _ _ _ _ _ _ _ _ _ _ hf
    · exact ih _ _ hx
    · simp at hx

/-- When `RenderAndTransfer` returns no error it returns a set, the one its
loops built, and the file manager has its copy client set. -/
theorem RenderAndTransfer_some {σ : Type} (h : Host σ) (t : Templates) (fm fm1 : FileManager)
    (data : GoMap String) (w w1 : World σ) (co : Option (GoMap Package))
    (hx : fm.RenderAndTransfer h t data w = (.ret (co, none), fm1, w1)) :
    ∃ c changed, fm.ssh = some c ∧ co = some changed ∧
      fm1 = { fm with scp := some (NewSecureCopyClient c) } ∧
      transferPackages h t { fm with scp := some (NewSecureCopyClient c) } data
        fm.manifest.Packages [] w = (.ret (.inr changed), w1) := by
  unfold FileManager.RenderAndTransfer at hx
  obtain ⟨m, sshc, scp0⟩ := fm
  rcases sshc with _ | c
  · simp at hx
  · refine ⟨c, ?_⟩
    simp only [] at hx
    rcases ht : transferPackages h t
      { manifest := m, ssh := some c, scp := some (NewSecureCopyClient c) } data m.Packages [] w
      with ⟨(r | changed1) | msg, w2⟩ <;> simp only [ht] at hx
    · simp only [Prod.mk.injEq, Outcome.ret.injEq] at hx
      have := transferPackages_inl _ _ _ _ _ _ _ _ _ ht
      rw [hx.1] at this
      exact absurd rfl this
    · simp only [Prod.mk.injEq, Outcome.ret.injEq] at hx
      exact ⟨changed1, rfl, hx.1.1.symm, hx.2.1.symm, by rw [hx.2.2]⟩
    · simp at hx

end files

/-! ## Restart scoping -/

namespace files

open Go manifest ssh

theorem ApplyPermissions_restartCalls {σ : Type} (h : Host σ) (fm : FileManager)
    (w : World σ) : restartCalls (fm.ApplyPermissions h w).2.trace = restartCalls w.trace := by
  rcases hc : fm.ssh with _ | c
  · unfold FileManager.ApplyPermissions
    simp only [hc]
  · exact (ApplyPermissions_quiet h fm c (fun _ => True) hc (fun _ _ _ _ _ => trivial) w).1

end files

namespace reconcile

open Go manifest ssh files packages

theorem installMissing_quiet {σ : Type} (h : Host σ) (pkgs : Packages) (Inv : σ → Prop)
    (hexec : ∀ (w1 : World σ) (cmd : String) (args : List String),
      quietFormat cmd = true → Inv w1.host → Inv (Execf h pkgs.ssh cmd args w1).2.host)
    (id : String) (missing : List Package) (w : World σ) :
    Quiet Inv w (installMissing h pkgs id missing w).2 := by
  unfold installMissing
  by_cases hm : missing.length > 0
  · simp only [hm, if_true]
    have hu := Update_quiet h pkgs Inv hexec w
    rcases hx : pkgs.Update h w with ⟨_ | err, w2⟩ <;> rw [hx] at hu <;> simp only []
    · have hi := Install_quiet h pkgs Inv hexec missing w2
      rcases hy : pkgs.Install h missing w2 with ⟨_ | err, w3⟩ <;> rw [hy] at hi <;>
        exact hu.trans hi
    · exact hu
  · simp only [hm, if_false]
    exact Quiet.refl Inv w

theorem RestartService_restartCalls {σ : Type} (h : Host σ) (pkgs : Packages) (name : String)
    (w : World σ) :
    restartCalls (pkgs.RestartService h name w).2.trace = restartCalls w.trace ++ [name] := by
  unfold Packages.RestartService
  have he := Execf_restartCalls h pkgs.ssh
    ("DEBIAN_FRONTEND=noninteractive service " ++ name ++ " restart") []
    { w with trace := w.trace ++ [Event.call "RestartService" name] }
  simp only [restartCalls_append, restartCalls, if_true] at he
  simp only []
  split <;> rename_i heq <;> rw [heq] at he <;> exact he

/-- A restart loop that ends without error entered `RestartService` on the
service packages of its list, in order. -/
theorem restartServices_ok {σ : Type} (h : Host σ) (pkgs : Packages) (id : String)
    (l : List (String × Package)) (w w1 : World σ)
    (hx : restartServices h pkgs id l w = (none, w1)) :
    restartCalls w1.trace = restartCalls w.trace ++
      (l.filter (fun e => decide (e.2.Kind = PackageKindService))).map (fun e => e.2.Name) := by
  induction l generalizing w with
  | nil =>
    simp only [restartServices, Prod.mk.injEq, true_and] at hx
    rw [← hx]
    simp
  | cons e rest ih =>
    obtain ⟨k, pkg⟩ := e
    unfold restartServices at hx
    by_cases hk : pkg.Kind = PackageKindService
    · simp only [hk, if_true] at hx
      have hr := RestartService_restartCalls h pkgs pkg.Name w
      rcases hy : pkgs.RestartService h pkg.Name w with ⟨_ | err, w2⟩ <;>
        rw [hy] at hr <;> simp only [hy] at hx
      · rw [ih _ hx, hr]
        simp [List.filter_cons, hk]
      · simp at hx
    · simp only [hk, if_false] at hx
      rw [ih _ hx]
      simp [List.filter_cons, hk]

end reconcile

namespace reconcile

open Go manifest ssh files packages

/-- C4 as amended: in every run of `Reconcile` that returns no error, the names
on which `RestartService` is entered are exactly the names of the packages of
kind service in the changed-packages set that `RenderAndTransfer` returned in
that run, whatever the order in which the set is visited. The call of
`RenderAndTransfer` is the one of the run: it is made in the world `w2` that the
query and the install step of the run left, and the names are those of the
services among its result `changed`, each once for every entry, in the order of
the visit. -/
theorem Reconcile_restarts {σ : Type} (h : Host σ) (t : Templates)
    (order : GoMap Package → List (String × Package)) (now : String)
    (p : ProviderReconciler) (w w1 : World σ)
    (horder : ∀ m, (order m).Perm m)
    (hrun : p.Reconcile h t order now w = (.ret none, w1)) :
    ∃ pkglist wq w2 fm1 w3 changed,
      (NewPackages p.manifest p.ssh).Query h w = (.ret (.ok pkglist), wq) ∧
      installMissing h (NewPackages p.manifest p.ssh) p.manifest.ID
        (missingPackages p.manifest.Packages pkglist) wq = (none, w2) ∧
      (files.New p.manifest (some p.ssh)).RenderAndTransfer h t (renderData p.manifest now) w2 =
        (.ret (some changed, none), fm1, w3) ∧
      restartCalls w1.trace = restartCalls w.trace ++
        ((order changed).filter (fun e => decide (e.2.Kind = PackageKindService))).map
          (fun e => e.2.Name) ∧
      ∀ name,
        name ∈ ((order changed).filter (fun e => decide (e.2.Kind = PackageKindService))).map
          (fun e => e.2.Name) ↔
          ∃ e ∈ changed, e.2.Kind = PackageKindService ∧ e.2.Name = name := by
  unfold ProviderReconciler.Reconcile at hrun
  simp only [] at hrun
  have hq := (Query_quiet h (NewPackages p.manifest p.ssh) (fun _ => True)
    (fun _ _ _ _ _ => trivial) w).1
  rcases hxq : (NewPackages p.manifest p.ssh).Query h w with ⟨(e | pkglist) | msg, wq⟩ <;>
    rw [hxq] at hq <;> simp only [hxq] at hrun
  · simp at hrun
  · have hi := (installMissing_quiet h (NewPackages p.manifest p.ssh) (fun _ => True)
      (fun _ _ _ _ _ => trivial) p.manifest.ID (missingPackages p.manifest.Packages pkglist) wq).1
    rcases hxi : installMissing h (NewPackages p.manifest p.ssh) p.manifest.ID
      (missingPackages p.manifest.Packages pkglist) wq with ⟨_ | err, w2⟩ <;>
      rw [hxi] at hi <;> simp only [hxi] at hrun
    · have hr := RenderAndTransfer_restartCalls h t (files.New p.manifest (some p.ssh))
        (renderData p.manifest now) w2
      rcases hxr : (files.New p.manifest (some p.ssh)).RenderAndTransfer h t
        (renderData p.manifest now) w2 with ⟨⟨co, _ | err⟩ | msg, fm1, w3⟩ <;>
        rw [hxr] at hr <;> simp only [hxr] at hrun
      · obtain ⟨c, changed, _, hco, _, _⟩ := RenderAndTransfer_some _ _ _ _ _ _ _ _ hxr
        subst hco
        have ha := ApplyPermissions_restartCalls h fm1 w3
        rcases hxa : fm1.ApplyPermissions h w3 with ⟨_ | err, w4⟩ <;>
          rw [hxa] at ha <;> simp only [hxa] at hrun
        · rcases hxs : restartServices h (NewPackages p.manifest p.ssh) p.manifest.ID
            (order ((some changed).getD [])) w4 with ⟨_ | err, w5⟩ <;> simp only [hxs] at hrun
          · have hs := restartServices_ok _ _ _ _ _ _ hxs
            simp only [Prod.mk.injEq, true_and] at hrun
            have hc := (checkServices_quiet h p (fun _ => True) (fun _ _ _ _ _ => trivial)
              p.manifest.Packages w5).1
            rw [hrun] at hc
            refine ⟨pkglist, wq, w2, fm1, w3, changed, rfl, hxi, hxr, ?_, ?_⟩
            · rw [hc, hs, ha, hr, hi, hq]
              rfl
            · intro name
              simp only [List.mem_map, List.mem_filter, decide_eq_true_eq]
              constructor
              · rintro ⟨e, ⟨he, hk⟩, hn⟩
                exact ⟨e, (horder changed).mem_iff.1 he, hk, hn⟩
              · rintro ⟨e, he, hk, hn⟩
                exact ⟨e, ⟨(horder changed).mem_iff.2 he, hk⟩, hn⟩
          · simp at hrun
        · simp at hrun
      · simp at hrun
      · simp at hrun
    · simp at hrun
  · simp at hrun

end reconcile

namespace reconcile

open Go manifest ssh files packages

set_option maxRecDepth 100000 in
/-- C4 as amended, on a run that succeeds on a host with an empty disk: the
run returns no error, the call of `RenderAndTransfer` made after the query and
the install step returns the set holding the service `nginx`, and
`RestartService` is entered on `nginx` and on nothing else. -/
theorem Reconcile_restarts_witness :
    (ProviderReconciler.Reconcile Examples.diskHost
        (Examples.fieldTemplates Examples.motdBundle) Examples.listOrder
        "2024-01-01T00:00:00Z" (reconcile.New Examples.motdManifest (ssh.New "root"))
        ⟨{}, []⟩).1 = .ret none ∧
    (∃ pkglist wq w2 fm1 w3 changed,
      (NewPackages Examples.motdManifest (ssh.New "root")).Query Examples.diskHost ⟨{}, []⟩ =
        (.ret (.ok pkglist), wq) ∧
      installMissing Examples.diskHost (NewPackages Examples.motdManifest (ssh.New "root"))
        Examples.motdManifest.ID (missingPackages Examples.motdManifest.Packages pkglist) wq =
        (none, w2) ∧
      (files.New Examples.motdManifest (some (ssh.New "root"))).RenderAndTransfer
          Examples.diskHost (Examples.fieldTemplates Examples.motdBundle)
          (renderData Examples.motdManifest "2024-01-01T00:00:00Z") w2 =
        (.ret (some changed, none), fm1, w3) ∧
      restartCalls (ProviderReconciler.Reconcile Examples.diskHost
          (Examples.fieldTemplates Examples.motdBundle) Examples.listOrder
          "2024-01-01T00:00:00Z" (reconcile.New Examples.motdManifest (ssh.New "root"))
          ⟨{}, []⟩).2.trace = restartCalls [] ++
        ((Examples.listOrder changed).filter
          (fun e => decide (e.2.Kind = PackageKindService))).map (fun e => e.2.Name) ∧
      ∀ name,
        name ∈ ((Examples.listOrder changed).filter
          (fun e => decide (e.2.Kind = PackageKindService))).map (fun e => e.2.Name) ↔
          ∃ e ∈ changed, e.2.Kind = PackageKindService ∧ e.2.Name = name) ∧
    ((files.New Examples.motdManifest (some (ssh.New "root"))).RenderAndTransfer
        Examples.diskHost (Examples.fieldTemplates Examples.motdBundle)
        (renderData Examples.motdManifest "2024-01-01T00:00:00Z")
        (installMissing Examples.diskHost (NewPackages Examples.motdManifest (ssh.New "root"))
          "h1" [{ Name := "nginx", Version := "1.0" }]
          (Packages.Query Examples.diskHost
            (NewPackages Examples.motdManifest (ssh.New "root")) ⟨{}, []⟩).2).2).1 =
      .ret (some [("nginx", Examples.motdPackage)], none) ∧
    restartCalls (ProviderReconciler.Reconcile Examples.diskHost
        (Examples.fieldTemplates Examples.motdBundle) Examples.listOrder
        "2024-01-01T00:00:00Z" (reconcile.New Examples.motdManifest (ssh.New "root"))
        ⟨{}, []⟩).2.trace = ["nginx"] :=
  ⟨by decide,
    Reconcile_restarts Examples.diskHost (Examples.fieldTemplates Examples.motdBundle)
      Examples.listOrder "2024-01-01T00:00:00Z"
      (reconcile.New Examples.motdManifest (ssh.New "root")) ⟨{}, []⟩
      (ProviderReconciler.Reconcile Examples.diskHost
        (Examples.fieldTemplates Examples.motdBundle) Examples.listOrder
        "2024-01-01T00:00:00Z" (reconcile.New Examples.motdManifest (ssh.New "root"))
        ⟨{}, []⟩).2
      (fun m => List.Perm.refl m) (by decide),
    by decide, by decide⟩

set_option maxRecDepth 100000 in
/-- C4 fails as stated on a run that aborts: the file of the service `nginx` is
transferred with `changed = true`, so `RenderAndTransfer` returns the set holding
`nginx`, then `chmod` fails, `Reconcile` returns the error, and `RestartService`
is entered on no name at all. -/
theorem Reconcile_restarts_counterexample :
    (FileManager.RenderAndTransfer Examples.noChmodHost
        (Examples.fieldTemplates Examples.motdBundle)
        (files.New Examples.motdManifest (some (ssh.New "root")))
        (renderData Examples.motdManifest "2024-01-01T00:00:00Z")
        (installMissing Examples.noChmodHost
          (NewPackages Examples.motdManifest (ssh.New "root")) "h1"
          [{ Name := "nginx", Version := "1.0" }]
          (Packages.Query Examples.noChmodHost
            (NewPackages Examples.motdManifest (ssh.New "root")) ⟨(), []⟩).2).2).1 =
      .ret (some [("nginx", Examples.motdPackage)], none) ∧
    (ProviderReconciler.Reconcile Examples.noChmodHost
        (Examples.fieldTemplates Examples.motdBundle) Examples.listOrder "2024-01-01T00:00:00Z"
        (reconcile.New Examples.motdManifest (ssh.New "root")) ⟨(), []⟩).1 =
      .ret (some (errorsWrap (errorsWrap (errorsWrap
        { msg := "Process exited with status 1", exitStatus := some 1 }
        "remote command did not exit cleanly: chmod: Operation not permitted\n")
        "error exec chmod /etc/motd") "error applying permissions")) ∧
    restartCalls (ProviderReconciler.Reconcile Examples.noChmodHost
        (Examples.fieldTemplates Examples.motdBundle) Examples.listOrder "2024-01-01T00:00:00Z"
        (reconcile.New Examples.motdManifest (ssh.New "root")) ⟨(), []⟩).2.trace = [] := by
  decide

end reconcile

/-! ## What `Stat` and `Render` do not look at -/

namespace files

open Go manifest ssh

/-- `Stat` does not look at the copy client. -/
theorem Stat_scp {σ : Type} (h : Host σ) (fm : FileManager) (x : Option SecureCopyClient)
    (f : File) (w : World σ) :
    FileManager.Stat h { fm with scp := x } f w = fm.Stat h f w := by
  unfold FileManager.Stat
  rfl

/-- `Render` does not look at the file manager. -/
theorem Render_fm (t : Templates) (fm fm1 : FileManager) (p : Package) (f : File)
    (data : GoMap String) : fm.Render t p f data = fm1.Render t p f data := by
  unfold FileManager.Render
  rfl

/-- What `Render` returns is a fresh reader on the rendered bytes. -/
theorem Render_reader (t : Templates) (fm : FileManager) (p : Package) (f : File)
    (data : GoMap String) (r : Reader) (hr : fm.Render t p f data = .ok r) :
    r = NewReader r.data := by
  unfold FileManager.Render at hr
  simp only [] at hr
  split at hr
  · split at hr
    · simp at hr
    · split at hr
      · simp at hr
      · split at hr
        · simp at hr
        · simp only [Except.ok.injEq] at hr
          rw [← hr]
          rfl
  · simp only [Except.ok.injEq] at hr
    rw [← hr]
    rfl

end files

/-! ## The `sudo` wrapping of `Execf` -/

namespace ssh

open Go

/-- The text `Execf` sends for a user name: the formatted command, behind
`sudo ` unless the user is `root`. -/
theorem wire_New (username cmd : String) (args : List String) :
    (New username).wire cmd args =
      if username = "root" then Sprintf cmd args else "sudo " ++ Sprintf cmd args := by
  by_cases hu : username = "root" <;> simp [New, Client.wire, hu]

/-- C18: for a client created with a user name other than `root`, the command
string `Execf` hands to the remote session is `sudo ` followed by the formatted
command, and for `root` it is the formatted command unchanged; it is the one
string run in the session that was opened, and when no session can be opened
nothing is sent. -/
theorem Execf_sudo {σ : Type} (h : Host σ) (username cmd : String) (args : List String)
    (w : World σ) :
    (∀ s, h.newSession w.host = (none, s) →
      (username ≠ "root" →
        (Execf h (New username) cmd args w).2 =
          ⟨(h.run s ("sudo " ++ Sprintf cmd args)).2,
            w.trace ++ [Event.exec ("sudo " ++ Sprintf cmd args)]⟩) ∧
      (username = "root" →
        (Execf h (New username) cmd args w).2 =
          ⟨(h.run s (Sprintf cmd args)).2, w.trace ++ [Event.exec (Sprintf cmd args)]⟩)) ∧
    (∀ e s, h.newSession w.host = (some e, s) →
      (Execf h (New username) cmd args w).2 = ⟨s, w.trace⟩) := by
  refine ⟨fun s hs => ⟨fun hu => ?_, fun hu => ?_⟩, fun e s hs => ?_⟩
  · unfold Execf
    simp only [hs, wire_New, hu, if_false]
    rcases hr : h.run s ("sudo " ++ Sprintf cmd args) with ⟨_ | _ | _, s1⟩ <;> rfl
  · unfold Execf
    simp only [hs, wire_New, hu, if_true]
    rcases hr : h.run s (Sprintf cmd args) with ⟨_ | _ | _, s1⟩ <;> rfl
  · unfold Execf
    simp only [hs]

/-- C18 on a host that answers every command: user `admin` sends the command
behind `sudo `, user `root` sends it as it is. -/
theorem Execf_sudo_witness :
    (Execf Examples.emptyHost (New "admin") "rm -f %s" ["/etc/motd"] ⟨(), []⟩).2.trace =
        [Event.exec "sudo rm -f /etc/motd"] ∧
    (Execf Examples.emptyHost (New "root") "rm -f %s" ["/etc/motd"] ⟨(), []⟩).2.trace =
        [Event.exec "rm -f /etc/motd"] := by
  constructor
  · have h := ((Execf_sudo Examples.emptyHost "admin" "rm -f %s" ["/etc/motd"] ⟨(), []⟩).1 ()
      rfl).1 (by decide)
    rw [h]
    decide
  · have h := ((Execf_sudo Examples.emptyHost "root" "rm -f %s" ["/etc/motd"] ⟨(), []⟩).1 ()
      rfl).2 rfl
    rw [h]
    decide

end ssh

/-! ## The parse of `Stat` and its NotExist error -/

namespace files

open Go manifest ssh

/-- C16 as amended: after a successful `stat` command, `Stat` splits the trimmed
output at the commas. With six fields it runs the `sha256sum` command: when that
succeeds it returns the record whose name, type, owner, group and time are
fields 1, 2, 4, 5 and 6, whose size is field 3 parsed by `strconv.ParseInt` in
base 10 with 64 bits, or -1 when that fails, and whose hash is the trimmed
output of the second command with a leading `Sha256:` removed; when the second
command fails `Stat` fails. With another number of fields `Stat` fails without
a second command. -/
theorem Stat_parse {σ : Type} (h : Host σ) (fm : FileManager) (c : Client) (f : File)
    (w w1 : World σ) (out : String) (hssh : fm.ssh = some c)
    (hstat : Execf h c statFormat [f.Path] w = (.ok out, w1)) :
    (∀ nm ty sz ow gr mt,
      split (trimSpace out) ',' = [nm, ty, sz, ow, gr, mt] →
      (∀ out2 w2, Execf h c (shaCommand f.Path) [] w1 = (.ok out2, w2) →
        fm.Stat h f w =
          (.ret (.ok { Name := nm, FileType := ty, Size := (parseInt64 sz).getD (-1),
                       Owner := ow, Group := gr, LastModifiedTime := mt,
                       Sha256 := trimPrefix (trimSpace out2) "Sha256:" }), w2)) ∧
      (∀ e w2, Execf h c (shaCommand f.Path) [] w1 = (.error e, w2) →
        fm.Stat h f w = (.ret (.error (errorsWrap e ("error stat " ++ f.Path))), w2))) ∧
    ((split (trimSpace out) ',').length ≠ 6 →
      fm.Stat h f w = (.ret (.error (errorsNew ("error parsing stat output: " ++ out))), w1)) := by
  refine ⟨fun nm ty sz ow gr mt hp => ⟨fun out2 w2 hx => ?_, fun e w2 hx => ?_⟩,
    fun hlen => ?_⟩
  · simp [FileManager.Stat, hssh, hstat, hp, hx]
  · simp [FileManager.Stat, hssh, hstat, hp, hx]
  · simp [FileManager.Stat, hssh, hstat, hlen]

set_option maxRecDepth 100000 in
/-- C16 as amended, on a host that holds `/etc/motd` (36 bytes) and answers the
second command with `Sha256:ab12`, and on a host whose file name holds a comma:
the first gives the record with size 36 and hash `ab12`, the second gives seven
fields and `Stat` fails. -/
theorem Stat_parse_witness :
    FileManager.Stat (Examples.staticHost "Sha256:ab12") (New {} (some (ssh.New "root")))
        { Path := "/etc/motd" } ⟨(), []⟩ =
      (.ret (.ok { Name := "/etc/motd", FileType := "regular file", Size := 36, Owner := "root",
                   Group := "root", LastModifiedTime := "2024-01-01 00:00:00.000000000 +0000",
                   Sha256 := "ab12" }),
        ⟨(), [Event.exec "stat -c '%n,%F,%s,%U,%G,%y' /etc/motd",
              Event.exec "sha256sum /etc/motd |awk '\x7b print $1 \x7d'"]⟩) ∧
    FileManager.Stat Examples.commaHost (New {} (some (ssh.New "root")))
        { Path := "/etc/a,b" } ⟨(), []⟩ =
      (.ret (.error (errorsNew ("error parsing stat output: " ++
        "/etc/a,b,regular file,36,root,root,2024-01-01 00:00:00.000000000 +0000\n"))),
        ⟨(), [Event.exec "stat -c '%n,%F,%s,%U,%G,%y' /etc/a,b"]⟩) :=
  ⟨((Stat_parse (Examples.staticHost "Sha256:ab12") (New {} (some (ssh.New "root"))) (ssh.New "root")
      { Path := "/etc/motd" } ⟨(), []⟩
      ⟨(), [Event.exec "stat -c '%n,%F,%s,%U,%G,%y' /etc/motd"]⟩
      "/etc/motd,regular file,36,root,root,2024-01-01 00:00:00.000000000 +0000\n" rfl
      (by decide)).1 "/etc/motd" "regular file" "36" "root" "root"
      "2024-01-01 00:00:00.000000000 +0000" (by decide)).1 "Sha256:ab12\n"
      ⟨(), [Event.exec "stat -c '%n,%F,%s,%U,%G,%y' /etc/motd",
            Event.exec "sha256sum /etc/motd |awk '\x7b print $1 \x7d'"]⟩ (by decide) |>.trans
      (by decide),
   (Stat_parse Examples.commaHost (New {} (some (ssh.New "root"))) (ssh.New "root")
      { Path := "/etc/a,b" } ⟨(), []⟩
      ⟨(), [Event.exec "stat -c '%n,%F,%s,%U,%G,%y' /etc/a,b"]⟩
      "/etc/a,b,regular file,36,root,root,2024-01-01 00:00:00.000000000 +0000\n" rfl
      (by decide)).2 (by decide)⟩

set_option maxRecDepth 100000 in
/-- C16 fails as stated: on a host where the `stat` command succeeds with six
fields and the `sha256sum` command fails, `Stat` returns an error, not a record. -/
theorem Stat_parse_counterexample :
    (Execf Examples.noShaHost (ssh.New "root") statFormat ["/etc/motd"] ⟨(), []⟩).1 =
      .ok "/etc/motd,regular file,36,root,root,2024-01-01 00:00:00.000000000 +0000\n" ∧
    (split (trimSpace
      "/etc/motd,regular file,36,root,root,2024-01-01 00:00:00.000000000 +0000\n") ',').length
      = 6 ∧
    (FileManager.Stat Examples.noShaHost (New {} (some (ssh.New "root")))
        { Path := "/etc/motd" } ⟨(), []⟩).1 =
      .ret (.error (errorsWrap
        (errorsWrap { msg := "Process exited with status 1", exitStatus := some 1 }
          "remote command did not exit cleanly: sha256sum: /etc/motd: Permission denied\n")
        "error stat /etc/motd")) := by
  decide

end files

namespace ssh

open Go

/-- An error of `Execf` is a wrapped one: `os.IsNotExist` does not hold of it. -/
theorem Execf_error_notExist {σ : Type} (h : Host σ) (c : Client) (cmd : String)
    (args : List String) (w w1 : World σ) (e : GoError)
    (hx : Execf h c cmd args w = (.error e, w1)) : e.notExist = false := by
  unfold Execf at hx
  rcases hn : h.newSession w.host with ⟨_ | err, s⟩
  · simp only [hn] at hx
    rcases hr : h.run s (c.wire cmd args) with ⟨_ | _ | _, s1⟩ <;> simp only [hr] at hx
    · simp at hx
    · simp only [Prod.mk.injEq, Except.error.injEq] at hx
      rw [← hx.1]
      rfl
    · simp only [Prod.mk.injEq, Except.error.injEq] at hx
      rw [← hx.1]
      rfl
  · simp only [hn, Prod.mk.injEq, Except.error.injEq] at hx
    rw [← hx.1]
    rfl

end ssh

namespace files

open Go manifest ssh

/-- An error of `Stat` is `os.ErrNotExist` itself or an error of which
`os.IsNotExist` does not hold. -/
theorem Stat_error {σ : Type} (h : Host σ) (fm : FileManager) (f : File) (w w1 : World σ)
    (e : GoError) (hs : fm.Stat h f w = (.ret (.error e), w1)) :
    e = ErrNotExist ∨ e.notExist = false := by
  unfold FileManager.Stat at hs
  rcases hc : fm.ssh with _ | c
  · simp [hc] at hs
  · simp only [hc] at hs
    rcases hx1 : Execf h c statFormat [f.Path] w with ⟨e1 | out, w2⟩
    · simp only [hx1] at hs
      split at hs
      · simp only [Prod.mk.injEq, Outcome.ret.injEq, Except.error.injEq] at hs
        exact Or.inl hs.1.symm
      · simp only [Prod.mk.injEq, Outcome.ret.injEq, Except.error.injEq] at hs
        rw [← hs.1]
        exact Or.inr (Execf_error_notExist _ _ _ _ _ _ _ hx1)
    · simp only [hx1] at hs
      split at hs
      · simp only [Prod.mk.injEq, Outcome.ret.injEq, Except.error.injEq] at hs
        rw [← hs.1]
        exact Or.inr rfl
      · rcases hx2 : Execf h c (shaCommand f.Path) [] w2 with ⟨e2 | out2, w3⟩
        · simp only [hx2, Prod.mk.injEq, Outcome.ret.injEq, Except.error.injEq] at hs
          rw [← hs.1]
          exact Or.inr rfl
        · simp [hx2] at hs

/-- C17: `Stat` returns the NotExist error (`os.ErrNotExist`, with no record)
exactly when the `stat` command ends with an exit status and the message of its
error contains `No such file or directory`; every other failure of the command
is returned as it is, an error that is not NotExist; and `Transfer` stops with
`error stat <path>` on every error of `Stat` but NotExist, after which it goes
on to the copy. -/
theorem Stat_not_exist {σ : Type} (h : Host σ) (fm : FileManager) (c : Client) (f : File)
    (w : World σ) (hssh : fm.ssh = some c) :
    ((fm.Stat h f w).1 = .ret (.error ErrNotExist) ↔
      ∃ e, (Execf h c statFormat [f.Path] w).1 = .error e ∧ e.exitStatus.isSome = true ∧
        strContains e.msg "No such file or directory" = true) ∧
    (∀ e, (Execf h c statFormat [f.Path] w).1 = .error e →
      ¬ (e.exitStatus.isSome = true ∧ strContains e.msg "No such file or directory" = true) →
      fm.Stat h f w = (.ret (.error e), (Execf h c statFormat [f.Path] w).2) ∧
        e ≠ ErrNotExist ∧ e.notExist = false) ∧
    (∀ scp reader e w1, fm.scp = some scp → fm.Stat h f w = (.ret (.error e), w1) →
      e ≠ ErrNotExist →
      fm.Transfer h f reader w =
        (.ret (false, some (errorsWrap e ("error stat " ++ f.Path))), w1)) ∧
    (∀ scp b w1, fm.scp = some scp → fm.Stat h f w = (.ret (.error ErrNotExist), w1) →
      (∀ e w2, Copy h scp (NewReader b) (tmpName f.Path) w1 = (some e, w2) →
        fm.Transfer h f (NewReader b) w =
          (.ret (false, some (errorsWrap e "error copying file")), w2)) ∧
      (∀ w2 out3 w3 out4 w4, Copy h scp (NewReader b) (tmpName f.Path) w1 = (none, w2) →
        Execf h c ("/bin/cat " ++ tmpName f.Path) [] w2 = (.ok out3, w3) →
        Execf h c ("mv " ++ tmpName f.Path ++ " " ++ f.Path) [] w3 = (.ok out4, w4) →
        fm.Transfer h f (NewReader b) w = (.ret (true, none), w4))) := by
  refine ⟨⟨fun hs => ?_, fun ⟨e, he, h1, h2⟩ => ?_⟩, fun e he hn => ?_,
    fun scp reader e w1 hscp hs hne => ?_, fun scp b w1 hscp hs => ⟨fun e w2 hc => ?_,
      fun w2 out3 w3 out4 w4 hc hx3 hx4 => ?_⟩⟩
  · rcases hx1 : Execf h c statFormat [f.Path] w with ⟨e1 | out, w2⟩
    · by_cases hcond : e1.exitStatus.isSome = true ∧
          strContains e1.msg "No such file or directory" = true
      · exact ⟨e1, rfl, hcond.1, hcond.2⟩
      · exfalso
        have hne := Execf_error_notExist _ _ _ _ _ _ _ hx1
        have hst : fm.Stat h f w = (.ret (.error e1), w2) := by
          unfold FileManager.Stat
          simp only [hssh, hx1]
          rw [if_neg]
          simpa using hcond
        rw [hst] at hs
        simp only [Outcome.ret.injEq, Except.error.injEq] at hs
        rw [hs] at hne
        simp [ErrNotExist] at hne
    · exfalso
      rcases hst : fm.Stat h f w with ⟨_ | msg, w3⟩
      · rename_i a
        rw [hst] at hs
        simp only [Outcome.ret.injEq] at hs
        rw [hs] at hst
        unfold FileManager.Stat at hst
        simp only [hssh, hx1] at hst
        split at hst
        · simp [errorsNew, ErrNotExist] at hst
        · rcases hx2 : Execf h c (shaCommand f.Path) [] w2 with ⟨e2 | out2, w4⟩
          · simp [hx2, errorsWrap, ErrNotExist] at hst
          · simp [hx2] at hst
      · rw [hst] at hs
        simp at hs
  · rcases hx1 : Execf h c statFormat [f.Path] w with ⟨e1 | out, w2⟩
    · rw [hx1] at he
      simp only [Except.error.injEq] at he
      subst he
      unfold FileManager.Stat
      simp [hssh, hx1, h1, h2]
    · rw [hx1] at he
      simp at he
  · rcases hx1 : Execf h c statFormat [f.Path] w with ⟨e1 | out, w2⟩
    · rw [hx1] at he
      simp only [Except.error.injEq] at he
      subst he
      have hne := Execf_error_notExist _ _ _ _ _ _ _ hx1
      refine ⟨?_, ?_, hne⟩
      · unfold FileManager.Stat
        simp only [hssh, hx1]
        rw [if_neg]
        simpa using hn
      · intro heq
        rw [heq] at hne
        simp [ErrNotExist] at hne
    · rw [hx1] at he
      simp at he
  · rcases Stat_error h fm f w w1 e hs with he | he
    · exact absurd he hne
    · simp [FileManager.Transfer, hscp, hs, he]
  · simp [FileManager.Transfer, hscp, hs, hssh, ErrNotExist, ReadAll, NewReader, Copy_rewind]
    simp [hc]
  · simp [FileManager.Transfer, hscp, hs, hssh, ErrNotExist, ReadAll, NewReader, Copy_rewind]
    simp [hc, hx3, hx4]

set_option maxRecDepth 100000 in
/-- C17 on two hosts: where the `stat` command exits with status 1 and `No such
file or directory`, `Stat` returns NotExist; where it exits with status 1 and
`Permission denied`, `Stat` returns that failure, which is not NotExist. -/
theorem Stat_not_exist_witness :
    (FileManager.Stat Examples.emptyHost (New {} (some (ssh.New "root")))
        { Path := "/etc/motd" } ⟨(), []⟩).1 = .ret (.error ErrNotExist) ∧
    (FileManager.Stat Examples.deniedHost (New {} (some (ssh.New "root")))
        { Path := "/etc/motd" } ⟨(), []⟩).1 =
      .ret (.error (errorsWrap { msg := "Process exited with status 1", exitStatus := some 1 }
        ("remote command did not exit cleanly: " ++
          "stat: cannot statx '/etc/motd': Permission denied\n"))) :=
  ⟨(Stat_not_exist Examples.emptyHost (New {} (some (ssh.New "root"))) (ssh.New "root")
      { Path := "/etc/motd" } ⟨(), []⟩ rfl).1.2
      ⟨errorsWrap { msg := "Process exited with status 1", exitStatus := some 1 }
        ("remote command did not exit cleanly: " ++
          "stat: cannot statx: No such file or directory\n"),
        by decide, by decide, by decide⟩,
   (congrArg Prod.fst ((Stat_not_exist Examples.deniedHost (New {} (some (ssh.New "root")))
      (ssh.New "root") { Path := "/etc/motd" } ⟨(), []⟩ rfl).2.1
      (errorsWrap { msg := "Process exited with status 1", exitStatus := some 1 }
        ("remote command did not exit cleanly: " ++
          "stat: cannot statx '/etc/motd': Permission denied\n"))
      (by decide) (by decide)).1)⟩

end files

/-! ## `Query` after exit status 1 -/

namespace packages

open Go manifest ssh

/-- C11, what the code does: when the `dpkg-query` command ends with exit status
1, `Execf` hands back no output next to the error, so `Query` scans nothing and
returns the empty mapping, whatever lines the command printed. -/
theorem Query_exit_one_empty {σ : Type} (h : Host σ) (p : Packages) (w : World σ) (s s1 : σ)
    (out msg : String) (hne : p.manifest.Packages ≠ [])
    (hs : h.newSession w.host = (none, s))
    (hr : h.run s (p.ssh.wire queryFormat [join (p.manifest.Packages.map (fun pkg => pkg.Name)) " "])
      = (.exitError out 1 msg, s1)) :
    (p.Query h w).1 = .ret (.ok []) := by
  have hlen : p.manifest.Packages.length ≠ 0 := by
    intro h0
    exact hne (List.length_eq_zero.mp h0)
  simp [Packages.Query, hlen, Execf, hs, hr, errorsWrap, scanLines, splitChars, parseLines]

set_option maxRecDepth 100000 in
/-- C11 at the failing input: the packages `apt` and `nginx` are queried on a
host where only `apt` is installed; the command prints the line of `apt` and
ends with exit status 1, and the mapping `Query` returns has no entry at all. -/
theorem Query_exit_one_empty_witness :
    Examples.diskHost.run Examples.aptDisk
        ((ssh.New "root").wire queryFormat [join ["apt", "nginx"] " "]) =
      (.exitError "apt,1.0,installed\n" 1 "Process exited with status 1", Examples.aptDisk) ∧
    (Packages.Query Examples.diskHost (NewPackages Examples.aptManifest (ssh.New "root"))
      ⟨Examples.aptDisk, []⟩).1 = .ret (.ok []) :=
  ⟨by decide,
   Query_exit_one_empty Examples.diskHost (NewPackages Examples.aptManifest (ssh.New "root"))
    ⟨Examples.aptDisk, []⟩ Examples.aptDisk Examples.aptDisk "apt,1.0,installed\n"
    "Process exited with status 1" (by decide) rfl (by decide)⟩

end packages

/-! ## Removal -/

namespace files

open Go manifest ssh

/-- `FileManager.Remove` on packages that carry no file does nothing. -/
theorem Remove_noFiles {σ : Type} (h : Host σ) (fm : FileManager) (pkgs : List Package)
    (w : World σ) (hp : ∀ pkg ∈ pkgs, pkg.Files = []) :
    fm.Remove h pkgs w = (.ret none, w) := by
  induction pkgs with
  | nil => rfl
  | cons pkg rest ih =>
    have h1 : pkg.Files = [] := hp pkg (List.mem_cons_self _ _)
    have h2 : ∀ q ∈ rest, q.Files = [] := fun q hq => hp q (List.mem_cons_of_mem _ hq)
    simp [FileManager.Remove, h1, removeFiles, ih h2]

end files

namespace reconcile

open Go manifest ssh files packages

/-- The packages of the list built by `ProviderReconciler.Remove` carry no file. -/
theorem removeList_noFiles (desired : List Package) (pkglist : GoMap Package) :
    ∀ pkg ∈ removeList desired pkglist, pkg.Files = [] := by
  have key : ∀ (ds : List Package) (acc : List Package), (∀ q ∈ acc, q.Files = []) →
      ∀ q ∈ ds.foldl (fun remove pkg =>
        match pkglist.get pkg.Name with
        | some _ => remove ++ [{ Name := pkg.Name, Version := pkg.Version }]
        | none => remove) acc, q.Files = [] := by
    intro ds
    induction ds with
    | nil => intro acc hacc; simpa using hacc
    | cons d rest ih =>
      intro acc hacc
      simp only [List.foldl_cons]
      apply ih
      rcases hg : pkglist.get d.Name with _ | a
      · simpa using hacc
      · intro q hq
        simp only [List.mem_append, List.mem_singleton] at hq
        rcases hq with hq | hq
        · exact hacc q hq
        · rw [hq]
  exact key desired [] (by simp)

/-- C14, what the code does: after a successful query, `ProviderReconciler.Remove`
returns no error in the world the package command left. The list it hands to
`FileManager.Remove` holds names and versions only, so no file is visited: after
the query at most the one `apt-get` command is sent, and no `rm -f`. -/
theorem Remove_skips_files {σ : Type} (h : Host σ) (p : ProviderReconciler) (purge : Bool)
    (w w1 : World σ) (pkglist : GoMap Package)
    (hq : (NewPackages p.manifest p.ssh).Query h w = (.ret (.ok pkglist), w1)) :
    (p.Remove h purge w).1 = .ret none ∧
    ((p.Remove h purge w).2.trace = w1.trace ∨
      (p.Remove h purge w).2.trace = w1.trace ++
        [Event.exec (p.ssh.wire ("DEBIAN_FRONTEND=noninteractive apt-get %s -y " ++
            join ((removeList p.manifest.Packages pkglist).map (fun pkg => pkg.Name)) " ")
          [if purge then "purge" else "remove"])]) := by
  unfold ProviderReconciler.Remove
  simp only [hq]
  by_cases hlen : (removeList p.manifest.Packages pkglist).length > 0
  · simp only [hlen, if_true]
    rw [Remove_noFiles _ _ _ _ (removeList_noFiles _ _)]
    refine ⟨rfl, ?_⟩
    simp only []
    unfold Packages.Remove
    have h0 : ¬ (removeList p.manifest.Packages pkglist).length = 0 := by omega
    simp only [h0, if_false]
    have ht := Execf_trace h p.ssh ("DEBIAN_FRONTEND=noninteractive apt-get %s -y " ++
        join ((removeList p.manifest.Packages pkglist).map (fun pkg => pkg.Name)) " ")
      [if purge then "purge" else "remove"] w1
    rcases hx : Execf h p.ssh ("DEBIAN_FRONTEND=noninteractive apt-get %s -y " ++
        join ((removeList p.manifest.Packages pkglist).map (fun pkg => pkg.Name)) " ")
      [if purge then "purge" else "remove"] w1 with ⟨_ | _, w2⟩
    · rw [hx] at ht
      simpa [NewPackages, hx] using ht
    · rw [hx] at ht
      simpa [NewPackages, hx] using ht
  · simp [hlen]

set_option maxRecDepth 1000000 in
/-- C14 at the failing input: the package `nginx` is installed and the manifest
declares `/etc/motd` for it. `Remove` sends the query and `apt-get remove`, and
no `rm -f`; `FileManager.Remove` on the package as the manifest declares it
sends `rm -f /etc/motd`. -/
theorem Remove_skips_files_witness :
    (ProviderReconciler.Remove Examples.diskHost
        (reconcile.New Examples.motdManifest (ssh.New "root")) false
        ⟨Examples.nginxDisk, []⟩).1 = .ret none ∧
    (ProviderReconciler.Remove Examples.diskHost
        (reconcile.New Examples.motdManifest (ssh.New "root")) false
        ⟨Examples.nginxDisk, []⟩).2 =
      ⟨Examples.nginxDisk,
        [Event.exec ("DEBIAN_FRONTEND=noninteractive /usr/bin/dpkg-query -W " ++
            "'-f=$\x7bbinary:Package\x7d,$\x7bVersion\x7d,$\x7bdb:Status-Status\x7d\\n' nginx"),
          Event.exec "DEBIAN_FRONTEND=noninteractive apt-get remove -y nginx"]⟩ ∧
    (FileManager.Remove Examples.diskHost (files.New Examples.motdManifest (some (ssh.New "root")))
        [Examples.motdPackage] ⟨Examples.nginxDisk, []⟩).2.trace =
      [Event.exec "rm -f /etc/motd"] :=
  ⟨(Remove_skips_files Examples.diskHost
      (reconcile.New Examples.motdManifest (ssh.New "root")) false ⟨Examples.nginxDisk, []⟩
      ⟨Examples.nginxDisk,
        [Event.exec ("DEBIAN_FRONTEND=noninteractive /usr/bin/dpkg-query -W " ++
          "'-f=$\x7bbinary:Package\x7d,$\x7bVersion\x7d,$\x7bdb:Status-Status\x7d\\n' nginx")]⟩
      [("nginx", { Name := "nginx", Version := "1.0", Status := "installed" })]
      (by decide)).1,
   by decide, by decide⟩

end reconcile

namespace reconcile

open Go manifest ssh files packages

set_option maxRecDepth 1000000 in
/-- C15, what the code does: `Run` calls `Remove` with `purge = false` for the
operation `Purge` as for the operation `Remove`, so the two runs are the same;
at the failing input (the package `nginx` is installed) the operation `Purge`
sends `apt-get remove -y nginx`, while `Packages.Remove` with `purge = true`
would send `apt-get purge -y nginx`. -/
theorem Run_purge_removes :
    (∀ (σ : Type) (h : Host σ) (t : Templates) (order : GoMap Package → List (String × Package))
        (now : String) (bs : Backends σ) (m : Manifest) (options : List (Backend σ → Backend σ))
        (w : World σ),
      Run h t order now bs m Purge options w = Run h t order now bs m Remove options w) ∧
    Run Examples.diskHost (Examples.fieldTemplates []) Examples.listOrder "2024-01-01T00:00:00Z"
        (Examples.directBackends (ssh.New "root")) Examples.motdManifest Purge []
        ⟨Examples.nginxDisk, []⟩ =
      (.ret none, ⟨Examples.nginxDisk,
        [Event.exec "cat /etc/os-release",
          Event.exec ("DEBIAN_FRONTEND=noninteractive /usr/bin/dpkg-query -W " ++
            "'-f=$\x7bbinary:Package\x7d,$\x7bVersion\x7d,$\x7bdb:Status-Status\x7d\\n' nginx"),
          Event.exec "DEBIAN_FRONTEND=noninteractive apt-get remove -y nginx"]⟩) ∧
    (Packages.Remove Examples.diskHost (NewPackages Examples.motdManifest (ssh.New "root")) true
        [{ Name := "nginx", Version := "1.0" }] ⟨Examples.nginxDisk, []⟩).2.trace =
      [Event.exec "DEBIAN_FRONTEND=noninteractive apt-get purge -y nginx"] := by
  refine ⟨?_, by decide, by decide⟩
  intro σ h t order now bs m options w
  have h1 : Purge ≠ Reconcile := by decide
  have h2 : Remove ≠ Reconcile := by decide
  simp [Run, h1, h2]

end reconcile

/-! ## The `reconcile` action: the manifest cap and the concurrency limit -/

namespace cmd

open Go manifest errgroup

/-- Once the action has returned, no move changes its state. -/
theorem step_returned (load : String → String → Except GoError Manifest)
    (runTask : Task → Option GoError) (c : Context) (r : Runner) (s : Step)
    (hr : r.returned.isSome = true) : Runner.step load runTask c r s = r := by
  cases s <;> simp [Runner.step, Runner.main, Runner.finish, hr]

theorem foldl_returned (load : String → String → Except GoError Manifest)
    (runTask : Task → Option GoError) (c : Context) (schedule : List Step) (r : Runner)
    (hr : r.returned.isSome = true) :
    schedule.foldl (Runner.step load runTask c) r = r := by
  induction schedule with
  | nil => rfl
  | cons s rest ih => simp [List.foldl_cons, step_returned load runTask c r s hr, ih]

/-- C20: with more than 10 manifest paths the action returns its error at once:
under every schedule its state is the rejected one, with no manifest loaded, no
task waiting or in flight and no event; with 10 paths or fewer the check does
not make it return, and its first move loads the first manifest. -/
theorem Action_manifest_cap (load : String → String → Except GoError Manifest)
    (runTask : Task → Option GoError) (c : Context) :
    (c.manifest.length > 10 → ∀ schedule,
      Action load runTask c schedule =
        { todo := c.manifest, pending := none, group := {}, running := [], events := [],
          returned := some (.ret (some (errorsNew
            "manifest argument is over the limtit of 10"))) }) ∧
    (c.manifest.length ≤ 10 →
      (Action.begin c).returned = none ∧ (Action.begin c).events = [] ∧
      ∀ path rest, c.manifest = path :: rest →
        (Action load runTask c [Step.main]).events = [Event.load path c.packages]) := by
  constructor
  · intro hlen schedule
    have hb : Action.begin c =
        { todo := c.manifest, pending := none, group := {}, running := [], events := [],
          returned := some (.ret (some (errorsNew
            "manifest argument is over the limtit of 10"))) } := by
      simp [Action.begin, maxReconcileManifests, hlen]
      decide
    unfold Action
    rw [hb]
    exact foldl_returned load runTask c schedule _ rfl
  · intro hlen
    have hn : ¬ c.manifest.length > maxReconcileManifests := by
      simp only [maxReconcileManifests]; omega
    have hb : ∃ g, Action.begin c = { todo := c.manifest, group := g } := by
      unfold Action.begin
      simp only [hn, if_false]
      unfold Group.SetLimit
      by_cases h0 : flags.concurrency c.concurrency < 0
      · exact ⟨{ sem := none }, by simp [h0]⟩
      · exact ⟨{ sem := some (flags.concurrency c.concurrency).toNat }, by simp [h0]⟩
    obtain ⟨g, hg⟩ := hb
    refine ⟨by rw [hg], by rw [hg], ?_⟩
    intro path rest hp
    unfold Action
    rw [hg]
    simp only [List.foldl_cons, List.foldl_nil, Runner.step, Runner.main, hp]
    rcases hl : load path c.packages with e | m <;> simp [hl]

/-- C20 at eleven paths and at ten paths. -/
theorem Action_manifest_cap_witness :
    (Action Examples.loadByName (fun _ => none)
        { manifest := "m10" :: Examples.tenPaths } [Step.main, Step.main, Step.main]).events = [] ∧
    (Action Examples.loadByName (fun _ => none)
        { manifest := "m10" :: Examples.tenPaths } [Step.main, Step.main, Step.main]).returned =
      some (.ret (some (errorsNew "manifest argument is over the limtit of 10"))) ∧
    (Action Examples.loadByName (fun _ => none)
        { manifest := Examples.tenPaths } [Step.main]).events = [Event.load "m0" ""] := by
  have h1 := (Action_manifest_cap Examples.loadByName (fun _ => none)
    { manifest := "m10" :: Examples.tenPaths }).1 (by decide) [Step.main, Step.main, Step.main]
  have h2 := ((Action_manifest_cap Examples.loadByName (fun _ => none)
    { manifest := Examples.tenPaths }).2 (by decide)).2.2 "m0" _ rfl
  rw [h1]
  exact ⟨rfl, rfl, h2⟩

end cmd

namespace cmd

open Go manifest errgroup

/-- Under a limit `cap`, a move keeps the limit, keeps the group's count equal
to the number of tasks in flight, and keeps that number within the limit. -/
theorem step_limit (load : String → String → Except GoError Manifest)
    (runTask : Task → Option GoError) (c : Context) (r : Runner) (s : Step) (cap : Nat)
    (hsem : r.group.sem = some cap) (hrun : r.running.length = r.group.running)
    (hle : r.group.running ≤ cap) :
    (Runner.step load runTask c r s).group.sem = some cap ∧
    (Runner.step load runTask c r s).running.length =
      (Runner.step load runTask c r s).group.running ∧
    (Runner.step load runTask c r s).group.running ≤ cap := by
  cases s with
  | main =>
    unfold Runner.step Runner.main
    by_cases hret : r.returned.isSome = true
    · simp [hret, hsem, hrun, hle]
    · simp only [hret, Bool.false_eq_true, if_false]
      rcases hp : r.pending with _ | task
      · simp only []
        rcases ht : r.todo with _ | ⟨path, rest⟩
        · simp only []
          by_cases he : r.running.isEmpty = true
          · simp [he, hsem, hrun, hle]
          · simp [he, hsem, hrun, hle]
        · simp only []
          rcases hl : load path c.packages with e | m <;> simp [hsem, hrun, hle]
      · simp only []
        by_cases hg : r.group.canGo = true
        · have hlt : r.group.running < cap := by
            simpa [Group.canGo, hsem] using hg
          simp only [hg, if_true, Option.getD_some, Group.Go, List.length_append,
            List.length_singleton, hrun]
          exact ⟨hsem, trivial, hlt⟩
        · simp [hg, hsem, hrun, hle]
  | finish i =>
    unfold Runner.step Runner.finish
    by_cases hret : r.returned.isSome = true
    · simp [hret, hsem, hrun, hle]
    · simp only [hret, Bool.false_eq_true, if_false]
      rcases hi : r.running.get? i with _ | task
      · simp [hsem, hrun, hle]
      · obtain ⟨hlt, _⟩ := List.get?_eq_some.mp hi
        rw [hrun] at hlt
        simp only [Option.getD_some, Group.done, List.length_eraseIdx, hrun, hlt, if_true]
        exact ⟨hsem, trivial, by omega⟩

theorem foldl_limit (load : String → String → Except GoError Manifest)
    (runTask : Task → Option GoError) (c : Context) (schedule : List Step) (r : Runner)
    (cap : Nat) (hsem : r.group.sem = some cap) (hrun : r.running.length = r.group.running)
    (hle : r.group.running ≤ cap) :
    (schedule.foldl (Runner.step load runTask c) r).running.length ≤ cap := by
  induction schedule generalizing r with
  | nil => simpa [hrun] using hle
  | cons s rest ih =>
    obtain ⟨h1, h2, h3⟩ := step_limit load runTask c r s cap hsem hrun hle
    simpa using ih _ h1 h2 h3

/-- The value the action hands to `SetLimit` is never above 3. -/
theorem concurrency_le (given : Option Int) : flags.concurrency given ≤ 3 := by
  cases given with
  | none => decide
  | some n =>
    simp only [flags.concurrency, flags.FlagConcurrencyAction, flags.maxConcurrency]
    split <;> omega

/-- The number of tasks in flight under a limit that is not negative. -/
theorem Action_limit (load : String → String → Except GoError Manifest)
    (runTask : Task → Option GoError) (c : Context) (schedule : List Step)
    (h0 : 0 ≤ flags.concurrency c.concurrency) :
    ((Action load runTask c schedule).running.length : Int) ≤ flags.concurrency c.concurrency := by
  unfold Action
  by_cases hlen : c.manifest.length > maxReconcileManifests
  · have hb : (Action.begin c).returned.isSome = true := by
      simp [Action.begin, hlen]
    rw [foldl_returned load runTask c schedule _ hb]
    simpa [Action.begin, hlen] using h0
  · have hn : ¬ flags.concurrency c.concurrency < 0 := by omega
    have hb : Action.begin c =
        { todo := c.manifest, group := { sem := some (flags.concurrency c.concurrency).toNat } } := by
      simp [Action.begin, hlen, Group.SetLimit, hn]
    rw [hb]
    have := foldl_limit load runTask c schedule
      { todo := c.manifest, group := { sem := some (flags.concurrency c.concurrency).toNat } }
      (flags.concurrency c.concurrency).toNat rfl rfl (Nat.zero_le _)
    omega

set_option maxRecDepth 1000000 in
/-- C19, what the code does. The value handed to the group's limit is `N` when
`N ≤ 3` and 3 otherwise, and 2 when the flag is not given; when that value is
not negative, at most that many tasks are in flight under every schedule. A
negative value removes the limit: with `--concurrency -1` and ten manifests,
after the action's goroutine has loaded and started each of them, ten tasks are
in flight. -/
theorem concurrency_limit :
    (∀ n : Int, flags.concurrency (some n) = if n ≤ 3 then n else 3) ∧
    flags.concurrency none = 2 ∧
    (∀ (load : String → String → Except GoError Manifest) (runTask : Task → Option GoError)
        (c : Context) (schedule : List Step), 0 ≤ flags.concurrency c.concurrency →
      ((Action load runTask c schedule).running.length : Int) ≤
        min (flags.concurrency c.concurrency) 3) ∧
    (Action.begin { manifest := Examples.tenPaths, concurrency := some (-1) }).group.sem = none ∧
    (Action Examples.loadByName (fun _ => none)
        { manifest := Examples.tenPaths, concurrency := some (-1) }
        (List.replicate 20 Step.main)).running.length = 10 := by
  refine ⟨?_, rfl, ?_, by decide, by decide⟩
  · intro n
    simp only [flags.concurrency, flags.FlagConcurrencyAction, flags.maxConcurrency]
    by_cases h : n ≤ 3
    · have : ¬ n > 3 := by omega
      simp [h, this]
    · have : n > 3 := by omega
      simp [h, this]
  · intro load runTask c schedule h0
    exact le_min (Action_limit load runTask c schedule h0)
      (le_trans (Action_limit load runTask c schedule h0) (concurrency_le _))

end cmd

/-! ## Which steps send `apt-get` commands -/

namespace Go

/-- Literal text at the start of a format is copied to the output. -/
theorem doPrintf_lit (lit rest : List Char) (fuel : Nat) (args : List String) (n : Nat)
    (r : Bool) (hf : (lit ++ rest).length < fuel) (hp : '%' ∉ lit) :
    ∃ tail, doPrintf fuel (lit ++ rest) args n r = lit ++ tail := by
  induction lit generalizing fuel with
  | nil => exact ⟨_, rfl⟩
  | cons c cs ih =>
    cases fuel with
    | zero => simp at hf
    | succ k =>
      simp only [List.mem_cons, not_or] at hp
      have hc : ¬ c = '%' := fun e => hp.1 e.symm
      simp only [List.cons_append, List.length_cons, Nat.add_lt_add_iff_right] at hf
      obtain ⟨tail, ht⟩ := ih k hf hp.2
      exact ⟨tail, by simp [doPrintf, hc, ht]⟩

theorem Sprintf_lit (fmt : String) (args : List String) (lit : List Char)
    (hfmt : lit.isPrefixOf fmt.data = true) (hp : '%' ∉ lit) :
    ∃ tail, (Sprintf fmt args).data = lit ++ tail := by
  obtain ⟨rest, hr⟩ := List.isPrefixOf_iff_prefix.mp hfmt
  unfold Sprintf
  rw [← hr]
  exact doPrintf_lit lit rest _ args 0 false (Nat.lt_succ_self _) hp

end Go

namespace ssh

open Go

theorem aptCalls_append (t1 t2 : List Event) :
    aptCalls (t1 ++ t2) = aptCalls t1 ++ aptCalls t2 := by
  induction t1 with
  | nil => simp [aptCalls]
  | cons e rest ih =>
    cases e with
    | exec cmd => by_cases hm : isAptGet cmd = true <;> simp [aptCalls, hm, ih]
    | call method arg => simp [aptCalls, ih]
    | sftpOpen path => simp [aptCalls, ih]
    | sftpWrite path data => simp [aptCalls, ih]

/-- A command whose format starts with literal text that is neither the start of
`sudo ` nor that of an `apt-get` command is not an `apt-get` command. -/
theorem isAptGet_wire_lit (c : Client) (fmt : String) (args : List String) (lit : List Char)
    (hfmt : lit.isPrefixOf fmt.data = true) (hp : '%' ∉ lit)
    (h1 : ∀ t, "sudo ".data.isPrefixOf (lit ++ t) = false)
    (h2 : ∀ t, "DEBIAN_FRONTEND=noninteractive apt-get ".data.isPrefixOf (lit ++ t) = false) :
    isAptGet (c.wire fmt args) = false := by
  obtain ⟨tail, ht⟩ := Sprintf_lit fmt args lit hfmt hp
  unfold isAptGet Client.wire
  by_cases hs : c.useSudo = true
  · simp only [hs, if_true]
    have : trimPrefix ("sudo " ++ Sprintf fmt args) "sudo " = Sprintf fmt args := by
      apply String.ext
      simp [trimPrefix, hasPrefix]
    rw [this]
    simp only [hasPrefix, ht]
    exact h2 tail
  · simp only [hs, Bool.false_eq_true, if_false]
    have : trimPrefix (Sprintf fmt args) "sudo " = Sprintf fmt args := by
      simp only [trimPrefix, hasPrefix, ht, h1 tail, Bool.false_eq_true, if_false]
    rw [this]
    simp only [hasPrefix, ht]
    exact h2 tail

/-- No command of a format of `stepFormat` is an `apt-get` command. -/
theorem stepFormat_notApt (c : Client) (fmt : String) (args : List String)
    (hf : stepFormat fmt = true) : isAptGet (c.wire fmt args) = false := by
  simp only [stepFormat, Bool.or_eq_true, hasPrefix] at hf
  rcases hf with (((((((((((h | h) | h) | h) | h) | h) | h) | h) | h) | h) | h) | h) | h <;>
    exact isAptGet_wire_lit c fmt args _ h (by decide) (fun _ => rfl) (fun _ => rfl)

theorem Allows_notApt (c : Client) : Allows c notApt :=
  ⟨fun _ => trivial, fun _ _ => trivial, fun _ => trivial,
    fun fmt args hf => stepFormat_notApt c fmt args hf⟩

theorem Adds.same {σ : Type} (P : Event → Prop) (w : World σ) : Adds P w w :=
  ⟨[], by simp, by simp⟩

theorem Adds.seq {σ : Type} {P : Event → Prop} {w1 w2 w3 : World σ}
    (h12 : Adds P w1 w2) (h23 : Adds P w2 w3) : Adds P w1 w3 := by
  obtain ⟨l1, e1, p1⟩ := h12
  obtain ⟨l2, e2, p2⟩ := h23
  refine ⟨l1 ++ l2, by rw [e2, e1, List.append_assoc], ?_⟩
  intro e he
  rcases List.mem_append.mp he with he | he
  · exact p1 e he
  · exact p2 e he

/-- A step that adds no `apt-get` command leaves the `apt-get` commands of the
trace as they were. -/
theorem Adds.apt_eq {σ : Type} {w w1 : World σ} (ha : Adds notApt w w1) :
    aptCalls w1.trace = aptCalls w.trace := by
  obtain ⟨l, e, p⟩ := ha
  rw [e, aptCalls_append]
  have : aptCalls l = [] := by
    clear e
    induction l with
    | nil => rfl
    | cons x rest ih =>
      have hx := p x (List.mem_cons_self _ _)
      have hr := ih (fun e he => p e (List.mem_cons_of_mem _ he))
      cases x with
      | exec cmd =>
        have hx2 : isAptGet cmd = false := hx
        simp [ssh.aptCalls, hx2, hr]
      | call method arg => simp [ssh.aptCalls, hr]
      | sftpOpen path => simp [ssh.aptCalls, hr]
      | sftpWrite path data => simp [ssh.aptCalls, hr]
  rw [this, List.append_nil]

/-- A command adds its own event, or none. -/
theorem Execf_adds {σ : Type} (h : Host σ) (c : Client) (P : Event → Prop) (cmd : String)
    (args : List String) (w : World σ) (hp : P (Event.exec (c.wire cmd args))) :
    Adds P w (Execf h c cmd args w).2 := by
  rcases Execf_trace h c cmd args w with e | e
  · exact ⟨[], by simp [e], by simp⟩
  · exact ⟨[Event.exec (c.wire cmd args)], e, by simpa using hp⟩

end ssh

namespace ssh

open Go

theorem Adds.one {σ : Type} (P : Event → Prop) (host : σ) (tr : List Event) (e : Event)
    (w : World σ) (hw : w.trace = tr) (he : P e) : Adds P w ⟨host, tr ++ [e]⟩ :=
  ⟨[e], by simp [hw], by simpa using he⟩

theorem Flush_adds {σ : Type} (h : Host σ) (c : Client) (P : Event → Prop) (hP : Allows c P)
    (path : String) (b : BufWriter) (w : World σ) :
    Adds P w (BufWriter.Flush h path b w).2.2 := by
  unfold BufWriter.Flush
  cases b.err with
  | some e => exact Adds.same P w
  | none =>
    try simp only []
    by_cases hl : b.buf.length = 0
    · simp only [hl, if_true]
      exact Adds.same P w
    · simp only [hl, if_false]
      rcases h.write w.host path b.buf with ⟨⟨n, err⟩, s⟩
      try simp only []
      split <;> exact Adds.one P _ _ _ w rfl (hP.2.1 _ _)

theorem Write_adds {σ : Type} (h : Host σ) (c : Client) (P : Event → Prop) (hP : Allows c P)
    (path : String) (b : BufWriter) (p : Bytes) (w : World σ) :
    Adds P w (BufWriter.Write h path b p w).2.2 := by
  unfold BufWriter.Write
  split
  · have hf := Flush_adds h c P hP path
      { b with buf := b.buf ++ p.take (4096 - b.buf.length) } w
    try simp only []
    split <;> exact hf
  · split <;> exact Adds.same P w

theorem copyLoop_adds {σ : Type} (h : Host σ) (c : Client) (P : Event → Prop)
    (hP : Allows c P) (path : String) (fuel : Nat) (sizes : List Nat) (rest : Bytes)
    (readErr : Option GoError) (b : BufWriter) (w : World σ) :
    Adds P w (copyLoop h path fuel sizes rest readErr b w).2.2 := by
  induction fuel generalizing sizes rest b w with
  | zero => exact Adds.same P w
  | succ n ih =>
    unfold copyLoop
    split
    · split <;> exact Adds.same P w
    · split
      · exact ih _ _ _ _
      · have hw := Write_adds h c P hP path b (rest.take (min (sizes.headD 1024) 1024)) w
        rcases hx : BufWriter.Write h path b (rest.take (min (sizes.headD 1024) 1024)) w
          with ⟨_ | e2, b1, w1⟩
        · rw [hx] at hw
          try simp only []
          exact hw.seq (ih _ _ _ _)
        · rw [hx] at hw
          exact hw

theorem Copy_adds {σ : Type} (h : Host σ) (c : Client) (P : Event → Prop) (hP : Allows c P)
    (scp : SecureCopyClient) (data : Reader) (filepath : String) (w : World σ) :
    Adds P w (Copy h scp data filepath w).2 := by
  unfold Copy
  split
  · exact ⟨[], by simp, by simp⟩
  · split
    · exact ⟨[], by simp, by simp⟩
    · simp only []
      split
      · exact ⟨[], by simp, by simp⟩
      · split
        · exact ⟨[], by simp, by simp⟩
        · simp only []
          rename_i s2 _
          exact ((Adds.one P s2 w.trace (Event.sftpOpen filepath) w rfl (hP.1 _)).seq
            (copyLoop_adds h c P hP _ _ _ _ _ _ _)).seq (Flush_adds h c P hP _ _ _)

/-- A format that starts as a format of `stepFormat` is one. -/
theorem stepFormat_append (s t : String) (hs : stepFormat s = true) :
    stepFormat (s ++ t) = true := by
  simp only [stepFormat, Bool.or_eq_true] at *
  rcases hs with (((((((((((h | h) | h) | h) | h) | h) | h) | h) | h) | h) | h) | h) | h <;>
    simp [hasPrefix_append _ t _ h]

end ssh

namespace files

open Go manifest ssh

theorem Stat_adds {σ : Type} (h : Host σ) (fm : FileManager) (c : Client) (P : Event → Prop)
    (hssh : fm.ssh = some c) (hP : Allows c P) (f : File) (w : World σ) :
    Adds P w (fm.Stat h f w).2 := by
  unfold FileManager.Stat
  simp only [hssh]
  have hq1 := Execf_adds h c P statFormat [f.Path] w (hP.2.2.2 _ _ (by decide))
  rcases hx1 : Execf h c statFormat [f.Path] w with ⟨_ | out, w1⟩
  · rw [hx1] at hq1
    simp only []
    split <;> exact hq1
  · rw [hx1] at hq1
    simp only []
    split
    · exact hq1
    · have hq2 := Execf_adds h c P (shaCommand f.Path) [] w1
        (hP.2.2.2 _ _ (stepFormat_append _ _ (stepFormat_append _ _ (by decide))))
      rcases hx2 : Execf h c (shaCommand f.Path) [] w1 with ⟨_ | out2, w2⟩ <;>
        (rw [hx2] at hq2; exact hq1.seq hq2)

theorem Transfer_adds {σ : Type} (h : Host σ) (fm : FileManager) (c : Client)
    (P : Event → Prop) (hssh : fm.ssh = some c) (hP : Allows c P) (f : File)
    (reader : Reader) (w : World σ) :
    Adds P w (fm.Transfer h f reader w).2 := by
  rcases hscp : fm.scp with _ | scp
  · unfold FileManager.Transfer
    simp only [hscp]
    exact Adds.same P w
  · have hw1 := Stat_adds h fm c P hssh hP f w
    rcases hra : ReadAll reader with ⟨b, re, r1⟩
    rcases hstat : fm.Stat h f w with ⟨(e | st) | msg, w1⟩ <;> rw [hstat] at hw1 <;>
      have hw2 := hw1.seq (Copy_adds h c P hP scp r1 (tmpName f.Path) w1) <;>
      rcases hcopy : Copy h scp r1 (tmpName f.Path) w1 with ⟨_ | ce, w2⟩ <;>
      rw [hcopy] at hw2
    all_goals try
      (have hw3 := hw2.seq (Execf_adds h c P ("/bin/cat " ++ tmpName f.Path) [] w2
         (hP.2.2.2 _ _ (stepFormat_append _ _ (by decide))))
       rcases hcat : Execf h c ("/bin/cat " ++ tmpName f.Path) [] w2 with ⟨e3 | o3, w3⟩ <;>
         rw [hcat] at hw3 <;>
         have hw4 := hw3.seq (Execf_adds h c P
           ("mv " ++ tmpName f.Path ++ " " ++ f.Path) [] w3
           (hP.2.2.2 _ _ (stepFormat_append _ _ (stepFormat_append _ _
             (stepFormat_append _ _ (by decide)))))) <;>
         rcases hmv : Execf h c ("mv " ++ tmpName f.Path ++ " " ++ f.Path) [] w3
           with ⟨e4 | o4, w4⟩ <;>
         rw [hmv] at hw4)
    all_goals
      (unfold FileManager.Transfer
       rcases re with _ | re <;>
         simp only [hscp, hstat, hra, hcopy, hssh, *] <;>
         repeat' split)
    all_goals first | exact hw1 | exact hw2 | exact hw3 | exact hw4

end files

namespace files

open Go manifest ssh

theorem transferFiles_adds {σ : Type} (h : Host σ) (t : Templates) (fm : FileManager)
    (c : Client) (P : Event → Prop) (hssh : fm.ssh = some c) (hP : Allows c P)
    (pkg : Package) (data : GoMap String) (fs : List File) (changed : GoMap Package)
    (w : World σ) : Adds P w (transferFiles h t fm pkg data fs changed w).2 := by
  induction fs generalizing changed w with
  | nil => exact Adds.same P w
  | cons f rest ih =>
    unfold transferFiles
    by_cases hp : f.Path = ""
    · simp only [hp, if_true]
      exact Adds.same P w
    · simp only [hp, if_false]
      rcases hr : fm.Render t pkg f data with err | reader
      · simp only []
        exact Adds.same P w
      · simp only []
        have ht := Transfer_adds h fm c P hssh hP f reader w
        rcases hx : fm.Transfer h f reader w with ⟨⟨d, _ | err⟩ | msg, w1⟩ <;>
          rw [hx] at ht <;> simp only []
        · exact ht.seq (ih _ _)
        · exact ht
        · exact ht

theorem transferPackages_adds {σ : Type} (h : Host σ) (t : Templates) (fm : FileManager)
    (c : Client) (P : Event → Prop) (hssh : fm.ssh = some c) (hP : Allows c P)
    (data : GoMap String) (ps : List Package) (changed : GoMap Package) (w : World σ) :
    Adds P w (transferPackages h t fm data ps changed w).2 := by
  induction ps generalizing changed w with
  | nil => exact Adds.same P w
  | cons pkg rest ih =>
    unfold transferPackages
    have ht := transferFiles_adds h t fm c P hssh hP pkg data pkg.Files changed w
    rcases hx : transferFiles h t fm pkg data pkg.Files changed w
      with ⟨(r | changed1) | msg, w1⟩ <;> rw [hx] at ht <;> simp only []
    · exact ht
    · exact ht.seq (ih _ _)
    · exact ht

theorem RenderAndTransfer_adds {σ : Type} (h : Host σ) (t : Templates) (fm : FileManager)
    (c : Client) (P : Event → Prop) (hssh : fm.ssh = some c) (hP : Allows c P)
    (data : GoMap String) (w : World σ) :
    Adds P w (fm.RenderAndTransfer h t data w).2.2 := by
  obtain ⟨m, sshc, scp0⟩ := fm
  simp only [] at hssh
  subst hssh
  unfold FileManager.RenderAndTransfer
  simp only []
  have ht := transferPackages_adds h t
    { manifest := m, ssh := some c, scp := some (NewSecureCopyClient c) } c P rfl hP data
    m.Packages [] w
  rcases hx : transferPackages h t
    { manifest := m, ssh := some c, scp := some (NewSecureCopyClient c) } data m.Packages [] w
    with ⟨(r | changed1) | msg, w1⟩ <;> rw [hx] at ht <;> exact ht

theorem permissionsFiles_adds {σ : Type} (h : Host σ) (c : Client) (P : Event → Prop)
    (hP : Allows c P) (fs : List File) (w : World σ) :
    Adds P w (permissionsFiles h c fs w).2 := by
  induction fs generalizing w with
  | nil => exact Adds.same P w
  | cons f rest ih =>
    unfold permissionsFiles
    by_cases hp : f.Path = ""
    · simp only [hp, if_true]
      exact ih w
    · simp only [hp, if_false]
      have hmode : ∃ r w1, (if f.Mode ≠ "" then
          (match Execf h c ("chmod " ++ f.Mode ++ " " ++ f.Path) [] w with
            | (.error err, w1) => (some (errorsWrap err ("error exec chmod " ++ f.Path)), w1)
            | (.ok _, w1) => (none, w1))
          else (none, w)) = (r, w1) ∧ Adds P w w1 := by
        by_cases hm : f.Mode = ""
        · exact ⟨none, w, by simp [hm], Adds.same P w⟩
        · have hq := Execf_adds h c P ("chmod " ++ f.Mode ++ " " ++ f.Path) [] w
            (hP.2.2.2 _ _ (stepFormat_append _ _ (stepFormat_append _ _
              (stepFormat_append _ _ (by decide)))))
          rcases hx : Execf h c ("chmod " ++ f.Mode ++ " " ++ f.Path) [] w with ⟨e | _, w1⟩
          · rw [hx] at hq
            exact ⟨some (errorsWrap e ("error exec chmod " ++ f.Path)), w1, by simp [hm], hq⟩
          · rw [hx] at hq
            exact ⟨none, w1, by simp [hm], hq⟩
      obtain ⟨r, w1, he, hq1⟩ := hmode
      rw [he]
      cases r with
      | some err => exact hq1
      | none =>
        simp only []
        have hown : ∃ r2 w2, (if f.Owner ≠ "" then
            (match Execf h c ("chown " ++ f.Owner ++ " " ++ f.Path) [] w1 with
              | (.error err, w2) => (some (errorsWrap err ("error exec chown " ++ f.Path)), w2)
              | (.ok _, w2) => (none, w2))
            else (none, w1)) = (r2, w2) ∧ Adds P w1 w2 := by
          by_cases ho : f.Owner = ""
          · exact ⟨none, w1, by simp [ho], Adds.same P w1⟩
          · have hq := Execf_adds h c P ("chown " ++ f.Owner ++ " " ++ f.Path) [] w1
              (hP.2.2.2 _ _ (stepFormat_append _ _ (stepFormat_append _ _
                (stepFormat_append _ _ (by decide)))))
            rcases hx : Execf h c ("chown " ++ f.Owner ++ " " ++ f.Path) [] w1 with ⟨e | _, w2⟩
            · rw [hx] at hq
              exact ⟨some (errorsWrap e ("error exec chown " ++ f.Path)), w2, by simp [ho], hq⟩
            · rw [hx] at hq
              exact ⟨none, w2, by simp [ho], hq⟩
        obtain ⟨r2, w2, he2, hq2⟩ := hown
        rw [he2]
        cases r2 with
        | some err => exact hq1.seq hq2
        | none => exact (hq1.seq hq2).seq (ih w2)

theorem permissionsPackages_adds {σ : Type} (h : Host σ) (c : Client) (P : Event → Prop)
    (hP : Allows c P) (ps : List Package) (w : World σ) :
    Adds P w (permissionsPackages h c ps w).2 := by
  induction ps generalizing w with
  | nil => exact Adds.same P w
  | cons pkg rest ih =>
    unfold permissionsPackages
    have hq := permissionsFiles_adds h c P hP pkg.Files w
    rcases hx : permissionsFiles h c pkg.Files w with ⟨_ | err, w1⟩
    · rw [hx] at hq
      exact hq.seq (ih w1)
    · rw [hx] at hq
      exact hq

theorem ApplyPermissions_adds {σ : Type} (h : Host σ) (fm : FileManager) (c : Client)
    (P : Event → Prop) (hssh : fm.ssh = some c) (hP : Allows c P) (w : World σ) :
    Adds P w (fm.ApplyPermissions h w).2 := by
  unfold FileManager.ApplyPermissions
  simp only [hssh]
  exact permissionsPackages_adds h c P hP _ w

end files

namespace packages

open Go manifest ssh

theorem Query_adds {σ : Type} (h : Host σ) (p : Packages) (P : Event → Prop)
    (hP : Allows p.ssh P) (w : World σ) : Adds P w (p.Query h w).2 := by
  unfold Packages.Query
  by_cases h0 : p.manifest.Packages.length = 0
  · simp only [h0, if_true]
    exact Adds.same P w
  · simp only [h0, if_false]
    have hq := Execf_adds h p.ssh P queryFormat
      [join (p.manifest.Packages.map (fun pkg : Package => pkg.Name)) " "] w
      (hP.2.2.2 _ _ (by decide))
    rcases hx : Execf h p.ssh queryFormat
      [join (p.manifest.Packages.map (fun pkg : Package => pkg.Name)) " "] w with ⟨res, w1⟩
    rw [hx] at hq
    split
    · exact hq
    · split <;> exact hq

theorem fixInvokeRcd_adds {σ : Type} (h : Host σ) (p : Packages) (P : Event → Prop)
    (hP : Allows p.ssh P) (w : World σ) : Adds P w (p.fixInvokeRcd h w).2 := by
  have hq := Execf_adds h p.ssh P "printf '#!/bin/sh\\nexit 0\\n' > /usr/sbin/policy-rc.d" [] w
    (hP.2.2.2 _ _ (by decide))
  unfold Packages.fixInvokeRcd
  rcases hx : Execf h p.ssh "printf '#!/bin/sh\\nexit 0\\n' > /usr/sbin/policy-rc.d" [] w
    with ⟨_ | _, w1⟩ <;> (rw [hx] at hq; exact hq)

theorem RestartService_adds {σ : Type} (h : Host σ) (p : Packages) (P : Event → Prop)
    (hP : Allows p.ssh P) (name : String) (w : World σ) :
    Adds P w (p.RestartService h name w).2 := by
  unfold Packages.RestartService
  simp only []
  have h1 : Adds P w ⟨w.host, w.trace ++ [Event.call "RestartService" name]⟩ :=
    Adds.one P _ _ _ w rfl (hP.2.2.1 _)
  have hq := Execf_adds h p.ssh P
    ("DEBIAN_FRONTEND=noninteractive service " ++ name ++ " restart") []
    ⟨w.host, w.trace ++ [Event.call "RestartService" name]⟩
    (hP.2.2.2 _ _ (stepFormat_append _ _ (stepFormat_append _ _ (by decide))))
  rcases hx : Execf h p.ssh ("DEBIAN_FRONTEND=noninteractive service " ++ name ++ " restart") []
    ⟨w.host, w.trace ++ [Event.call "RestartService" name]⟩ with ⟨_ | _, w1⟩ <;>
    (rw [hx] at hq; exact h1.seq hq)

end packages

namespace reconcile

open Go manifest ssh files packages

theorem restartServices_adds {σ : Type} (h : Host σ) (pkgs : Packages) (P : Event → Prop)
    (hP : Allows pkgs.ssh P) (id : String) (l : List (String × Package)) (w : World σ) :
    Adds P w (restartServices h pkgs id l w).2 := by
  induction l generalizing w with
  | nil => exact Adds.same P w
  | cons e rest ih =>
    obtain ⟨k, pkg⟩ := e
    unfold restartServices
    by_cases hk : pkg.Kind = PackageKindService
    · simp only [hk, if_true]
      have hr := RestartService_adds h pkgs P hP pkg.Name w
      rcases hx : pkgs.RestartService h pkg.Name w with ⟨_ | err, w1⟩
      · rw [hx] at hr
        exact hr.seq (ih w1)
      · rw [hx] at hr
        exact hr
    · simp only [hk, if_false]
      exact ih w

theorem checkServices_adds {σ : Type} (h : Host σ) (p : ProviderReconciler) (P : Event → Prop)
    (hP : Allows p.ssh P) (ps : List Package) (w : World σ) :
    Adds P w (checkServices h p ps w) := by
  induction ps generalizing w with
  | nil => exact Adds.same P w
  | cons pkg rest ih =>
    unfold checkServices
    by_cases hk : pkg.Kind = PackageKindService
    · simp only [hk, ne_eq, not_true_eq_false, if_false]
      refine (Execf_adds h p.ssh P _ _ w (hP.2.2.2 _ _ ?_)).seq (ih _)
      by_cases hd : p.manifest.Provider = ProviderBackendDocker <;> simp [hd] <;> decide
    · simp only [ne_eq, hk, not_false_eq_true, if_true]
      exact ih w

end reconcile

namespace ssh

open Go

/-- A command whose format starts as an `apt-get` command is one. -/
theorem isAptGet_wire_apt (c : Client) (fmt : String) (args : List String)
    (hfmt : hasPrefix fmt "DEBIAN_FRONTEND=noninteractive apt-get " = true) :
    isAptGet (c.wire fmt args) = true := by
  obtain ⟨tail, ht⟩ := Sprintf_lit fmt args _ hfmt (by decide)
  unfold isAptGet Client.wire
  by_cases hs : c.useSudo = true
  · simp only [hs, if_true]
    have : trimPrefix ("sudo " ++ Sprintf fmt args) "sudo " = Sprintf fmt args := by
      apply String.ext
      simp [trimPrefix, hasPrefix]
    rw [this]
    simp only [hasPrefix, ht]
    exact List.isPrefixOf_iff_prefix.mpr ⟨tail, rfl⟩
  · simp only [hs, Bool.false_eq_true, if_false]
    have h1 : "sudo ".data.isPrefixOf
        ("DEBIAN_FRONTEND=noninteractive apt-get ".data ++ tail) = false := rfl
    have : trimPrefix (Sprintf fmt args) "sudo " = Sprintf fmt args := by
      simp only [trimPrefix, hasPrefix, ht, h1, Bool.false_eq_true, if_false]
    rw [this]
    simp only [hasPrefix, ht]
    exact List.isPrefixOf_iff_prefix.mpr ⟨tail, rfl⟩

/-- What an `apt-get` command adds to the `apt-get` commands of the trace: itself,
or nothing when no session could be opened; itself when it succeeded. -/
theorem Execf_apt {σ : Type} (h : Host σ) (c : Client) (fmt : String) (args : List String)
    (w : World σ) (hfmt : hasPrefix fmt "DEBIAN_FRONTEND=noninteractive apt-get " = true) :
    (aptCalls (Execf h c fmt args w).2.trace = aptCalls w.trace ∨
      aptCalls (Execf h c fmt args w).2.trace = aptCalls w.trace ++ [c.wire fmt args]) ∧
    (∀ out, (Execf h c fmt args w).1 = .ok out →
      aptCalls (Execf h c fmt args w).2.trace = aptCalls w.trace ++ [c.wire fmt args]) := by
  have ha := isAptGet_wire_apt c fmt args hfmt
  have hone : aptCalls (w.trace ++ [Event.exec (c.wire fmt args)]) =
      aptCalls w.trace ++ [c.wire fmt args] := by
    simp [aptCalls_append, aptCalls, ha]
  constructor
  · rcases Execf_trace h c fmt args w with e | e
    · exact Or.inl (by rw [e])
    · exact Or.inr (by rw [e, hone])
  · intro out ho
    rcases hx : Execf h c fmt args w with ⟨r, w1⟩
    rw [hx] at ho
    simp only at ho
    subst ho
    rw [Execf_ok h c fmt args w w1 out hx, hone]

end ssh

namespace packages

open Go manifest ssh

theorem hasPrefix_self_append (p s : String) : hasPrefix (p ++ s) p = true := by
  simp only [hasPrefix, String.data_append]
  exact List.isPrefixOf_iff_prefix.mpr ⟨s.data, rfl⟩

/-- The `apt-get` commands after `Update`. -/
theorem Update_apt {σ : Type} (h : Host σ) (p : Packages) (w : World σ) :
    (aptCalls (p.Update h w).2.trace = aptCalls w.trace ∨
      aptCalls (p.Update h w).2.trace = aptCalls w.trace ++ [p.ssh.wire updateCommand []]) ∧
    ((p.Update h w).1 = none →
      aptCalls (p.Update h w).2.trace = aptCalls w.trace ++ [p.ssh.wire updateCommand []]) := by
  have hx := Execf_apt h p.ssh "DEBIAN_FRONTEND=noninteractive apt-get update" [] w (by decide)
  unfold Packages.Update updateCommand
  rcases he : Execf h p.ssh "DEBIAN_FRONTEND=noninteractive apt-get update" [] w with ⟨e | out, w1⟩
  · rw [he] at hx
    exact ⟨hx.1, by simp⟩
  · rw [he] at hx
    exact ⟨hx.1, fun _ => hx.2 out rfl⟩

/-- The `apt-get` commands after `Install` of a list that is not empty. -/
theorem Install_apt {σ : Type} (h : Host σ) (p : Packages) (pkgs : List Package) (w : World σ)
    (hne : pkgs ≠ []) :
    (aptCalls (p.Install h pkgs w).2.trace = aptCalls w.trace ∨
      aptCalls (p.Install h pkgs w).2.trace =
        aptCalls w.trace ++ [p.ssh.wire (installCommand pkgs) []]) ∧
    ((p.Install h pkgs w).1 = none →
      aptCalls (p.Install h pkgs w).2.trace =
        aptCalls w.trace ++ [p.ssh.wire (installCommand pkgs) []]) := by
  have h0 : ¬ pkgs.length = 0 := fun e => hne (List.length_eq_zero.mp e)
  have hstep : ∀ w1 : World σ, aptCalls w1.trace = aptCalls w.trace →
      (aptCalls (match Execf h p.ssh (installCommand pkgs) [] w1 with
          | (.error err, w2) => (some (errorsWrap err "error on apt-get install"), w2)
          | (.ok _, w2) => (none, w2)).2.trace = aptCalls w.trace ∨
        aptCalls (match Execf h p.ssh (installCommand pkgs) [] w1 with
          | (.error err, w2) => (some (errorsWrap err "error on apt-get install"), w2)
          | (.ok _, w2) => (none, w2)).2.trace =
          aptCalls w.trace ++ [p.ssh.wire (installCommand pkgs) []]) ∧
      ((match Execf h p.ssh (installCommand pkgs) [] w1 with
          | (.error err, w2) => (some (errorsWrap err "error on apt-get install"), w2)
          | (.ok _, w2) => (none, w2)).1 = none →
        aptCalls (match Execf h p.ssh (installCommand pkgs) [] w1 with
          | (.error err, w2) => (some (errorsWrap err "error on apt-get install"), w2)
          | (.ok _, w2) => (none, w2)).2.trace =
          aptCalls w.trace ++ [p.ssh.wire (installCommand pkgs) []]) := by
    intro w1 h1
    have hx := Execf_apt h p.ssh (installCommand pkgs) [] w1 (hasPrefix_self_append _ _)
    rw [h1] at hx
    rcases he : Execf h p.ssh (installCommand pkgs) [] w1 with ⟨e | out, w2⟩
    · rw [he] at hx
      exact ⟨hx.1, by simp⟩
    · rw [he] at hx
      exact ⟨hx.1, fun _ => hx.2 out rfl⟩
  unfold Packages.Install
  simp only [h0, if_false]
  by_cases hd : p.manifest.Provider = ProviderBackendDocker
  · simp only [hd, if_true]
    have hf := (fixInvokeRcd_adds h p notApt (Allows_notApt _) w).apt_eq
    rcases hx : p.fixInvokeRcd h w with ⟨_ | err, w1⟩
    · rw [hx] at hf
      exact hstep w1 hf
    · rw [hx] at hf
      exact ⟨Or.inl hf, by simp⟩
  · simp only [hd, if_false]
    exact hstep w rfl

end packages

namespace reconcile

open Go manifest ssh files packages

/-- After an install step without error, the rest of `Reconcile` (render and
transfer, permissions, restarts, status checks) adds no `apt-get` command. -/
theorem Reconcile_tail {σ : Type} (h : Host σ) (t : Templates)
    (order : GoMap Package → List (String × Package)) (now : String) (p : ProviderReconciler)
    (w w1 w2 : World σ) (pkglist : GoMap Package)
    (hq : (NewPackages p.manifest p.ssh).Query h w = (.ret (.ok pkglist), w1))
    (hi : installMissing h (NewPackages p.manifest p.ssh) p.manifest.ID
      (missingPackages p.manifest.Packages pkglist) w1 = (none, w2)) :
    Adds notApt w2 (p.Reconcile h t order now w).2 := by
  have hP := Allows_notApt p.ssh
  unfold ProviderReconciler.Reconcile
  simp only [hq, hi]
  have hr := RenderAndTransfer_adds h t (files.New p.manifest (some p.ssh)) p.ssh notApt rfl hP
    (renderData p.manifest now) w2
  rcases hx : (files.New p.manifest (some p.ssh)).RenderAndTransfer h t
    (renderData p.manifest now) w2 with ⟨⟨co, _ | err⟩ | msg, fm1, w3⟩ <;> rw [hx] at hr
  · simp only []
    obtain ⟨c, changed, hc, hco, hfm1, _⟩ := RenderAndTransfer_some _ _ _ _ _ _ _ _ hx
    have hc2 : c = p.ssh := by
      simp only [files.New, Option.some.injEq] at hc
      exact hc.symm
    have hssh1 : fm1.ssh = some p.ssh := by rw [hfm1, hc2]; rfl
    have ha := ApplyPermissions_adds h fm1 p.ssh notApt hssh1 hP w3
    rcases hy : fm1.ApplyPermissions h w3 with ⟨_ | err, w4⟩ <;> rw [hy] at ha
    · simp only []
      have hs := restartServices_adds h (NewPackages p.manifest p.ssh) notApt hP p.manifest.ID
        (order (co.getD [])) w4
      rcases hz : restartServices h (NewPackages p.manifest p.ssh) p.manifest.ID
        (order (co.getD [])) w4 with ⟨_ | err, w5⟩ <;> rw [hz] at hs
      · simp only []
        exact ((hr.seq ha).seq hs).seq (checkServices_adds h p notApt hP _ w5)
      · exact (hr.seq ha).seq hs
    · exact hr.seq ha
  · exact hr
  · exact hr

theorem installMissing_nil {σ : Type} (h : Host σ) (pkgs : Packages) (id : String)
    (w : World σ) : installMissing h pkgs id [] w = (none, w) := by
  simp [installMissing]

/-- The install step on a list that is not empty: `Update`, then `Install`, the
first failure returned. -/
theorem installMissing_cons {σ : Type} (h : Host σ) (pkgs : Packages) (id : String)
    (missing : List Package) (w : World σ) (hne : missing ≠ []) :
    installMissing h pkgs id missing w =
      match pkgs.Update h w with
      | (some err, w2) => (some (errorsWrap err ("error update packages on " ++ id)), w2)
      | (none, w2) =>
        match pkgs.Install h missing w2 with
        | (some err, w3) => (some (errorsWrap err ("error installing packages on " ++ id)), w3)
        | (none, w3) => (none, w3) := by
  have h0 : missing.length > 0 := List.length_pos.mpr hne
  simp [installMissing, h0]

/-- The `apt-get` commands of the install step on a list that is not empty. -/
theorem installMissing_apt {σ : Type} (h : Host σ) (pkgs : Packages) (id : String)
    (missing : List Package) (w : World σ) (hne : missing ≠ []) :
    (aptCalls (installMissing h pkgs id missing w).2.trace = aptCalls w.trace ∨
      aptCalls (installMissing h pkgs id missing w).2.trace =
        aptCalls w.trace ++ [pkgs.ssh.wire updateCommand []] ∨
      aptCalls (installMissing h pkgs id missing w).2.trace =
        aptCalls w.trace ++
          [pkgs.ssh.wire updateCommand [], pkgs.ssh.wire (installCommand missing) []]) ∧
    ((installMissing h pkgs id missing w).1 = none →
      aptCalls (installMissing h pkgs id missing w).2.trace =
        aptCalls w.trace ++
          [pkgs.ssh.wire updateCommand [], pkgs.ssh.wire (installCommand missing) []]) := by
  rw [installMissing_cons h pkgs id missing w hne]
  have hu := Update_apt h pkgs w
  rcases hx : pkgs.Update h w with ⟨_ | err, w2⟩ <;> rw [hx] at hu
  · simp only []
    have hu2 := hu.2 rfl
    have hin := Install_apt h pkgs missing w2 hne
    rcases hy : pkgs.Install h missing w2 with ⟨_ | err, w3⟩ <;> rw [hy] at hin
    · simp only []
      have := hin.2 rfl
      simp only [] at this hu2
      rw [hu2] at this
      exact ⟨Or.inr (Or.inr (by simpa using this)), fun _ => by simpa using this⟩
    · simp only []
      refine ⟨?_, by simp⟩
      rcases hin.1 with e | e
      · simp only [] at e hu2
        rw [hu2] at e
        exact Or.inr (Or.inl e)
      · simp only [] at e hu2
        rw [hu2] at e
        exact Or.inr (Or.inr (by simpa using e))
  · simp only []
    refine ⟨?_, by simp⟩
    rcases hu.1 with e | e
    · exact Or.inl e
    · exact Or.inr (Or.inl e)

end reconcile

namespace reconcile

open Go manifest ssh files packages

/-- C12, what the code does: in a run of `Reconcile` whose query succeeded, with
`missing` the install list. When `missing` is empty the run sends no `apt-get`
command at all. When it is not empty, the `apt-get` commands of the run are, in
order, what `Execf` makes of the update command and of the install command
naming the missing packages in declared order one space apart, cut short only
by a failure: all of both when the run returns no error; a failure of `Update`
or of `Install` makes `Reconcile` return that error in the world the failed step
left, before any file is rendered or transferred. A run whose query failed sends
no `apt-get` command. What `Execf` makes of a command is its text formatted once
more: the text itself, behind `sudo ` for a user other than `root`, for the
update command, and for an install command only when it has no percent sign. -/
theorem Reconcile_installs {σ : Type} (h : Host σ) (t : Templates)
    (order : GoMap Package → List (String × Package)) (now : String) (p : ProviderReconciler)
    (w : World σ) :
    (∀ pkglist w1, (NewPackages p.manifest p.ssh).Query h w = (.ret (.ok pkglist), w1) →
      (missingPackages p.manifest.Packages pkglist = [] →
        aptCalls (p.Reconcile h t order now w).2.trace = aptCalls w.trace) ∧
      (missingPackages p.manifest.Packages pkglist ≠ [] →
        (aptCalls (p.Reconcile h t order now w).2.trace = aptCalls w.trace ∨
          aptCalls (p.Reconcile h t order now w).2.trace =
            aptCalls w.trace ++ [p.ssh.wire updateCommand []] ∨
          aptCalls (p.Reconcile h t order now w).2.trace =
            aptCalls w.trace ++ [p.ssh.wire updateCommand [],
              p.ssh.wire (installCommand (missingPackages p.manifest.Packages pkglist)) []]) ∧
        ((p.Reconcile h t order now w).1 = .ret none →
          aptCalls (p.Reconcile h t order now w).2.trace =
            aptCalls w.trace ++ [p.ssh.wire updateCommand [],
              p.ssh.wire (installCommand (missingPackages p.manifest.Packages pkglist)) []]) ∧
        (∀ err w2, (NewPackages p.manifest p.ssh).Update h w1 = (some err, w2) →
          p.Reconcile h t order now w =
            (.ret (some (errorsWrap err ("error update packages on " ++ p.manifest.ID))), w2)) ∧
        (∀ w2 err w3, (NewPackages p.manifest p.ssh).Update h w1 = (none, w2) →
          (NewPackages p.manifest p.ssh).Install h
            (missingPackages p.manifest.Packages pkglist) w2 = (some err, w3) →
          p.Reconcile h t order now w =
            (.ret (some (errorsWrap err ("error installing packages on " ++ p.manifest.ID))),
              w3)))) ∧
    ((∀ pkglist w1, (NewPackages p.manifest p.ssh).Query h w ≠ (.ret (.ok pkglist), w1)) →
      aptCalls (p.Reconcile h t order now w).2.trace = aptCalls w.trace) ∧
    p.ssh.wire updateCommand [] = (if p.ssh.useSudo then "sudo " else "") ++ updateCommand ∧
    (∀ pkgs, '%' ∉ (installCommand pkgs).data →
      p.ssh.wire (installCommand pkgs) [] =
        (if p.ssh.useSudo then "sudo " else "") ++ installCommand pkgs) := by
  have hP := Allows_notApt p.ssh
  have hQ := (Query_adds h (NewPackages p.manifest p.ssh) notApt hP w).apt_eq
  refine ⟨?_, ?_, wire_noPercent _ _ (by decide), fun pkgs hp => wire_noPercent _ _ hp⟩
  · intro pkglist w1 hq
    rw [hq] at hQ
    simp only [] at hQ
    constructor
    · intro hm
      have hi : installMissing h (NewPackages p.manifest p.ssh) p.manifest.ID
          (missingPackages p.manifest.Packages pkglist) w1 = (none, w1) := by
        rw [hm, installMissing_nil]
      rw [(Reconcile_tail h t order now p w w1 w1 pkglist hq hi).apt_eq, hQ]
    · intro hne
      have hfail1 : ∀ err w2, (NewPackages p.manifest p.ssh).Update h w1 = (some err, w2) →
          p.Reconcile h t order now w =
            (.ret (some (errorsWrap err ("error update packages on " ++ p.manifest.ID))), w2) := by
        intro err w2 hu
        unfold ProviderReconciler.Reconcile
        simp only [hq, installMissing_cons _ _ _ _ _ hne, hu]
      have hfail2 : ∀ w2 err w3, (NewPackages p.manifest p.ssh).Update h w1 = (none, w2) →
          (NewPackages p.manifest p.ssh).Install h
            (missingPackages p.manifest.Packages pkglist) w2 = (some err, w3) →
          p.Reconcile h t order now w =
            (.ret (some (errorsWrap err ("error installing packages on " ++ p.manifest.ID))),
              w3) := by
        intro w2 err w3 hu hin
        unfold ProviderReconciler.Reconcile
        simp only [hq, installMissing_cons _ _ _ _ _ hne, hu, hin]
      have ha := installMissing_apt h (NewPackages p.manifest p.ssh) p.manifest.ID
        (missingPackages p.manifest.Packages pkglist) w1 hne
      rw [hQ] at ha
      rcases hi : installMissing h (NewPackages p.manifest p.ssh) p.manifest.ID
        (missingPackages p.manifest.Packages pkglist) w1 with ⟨_ | err, w2⟩
      · rw [hi] at ha
        have htail := (Reconcile_tail h t order now p w w1 w2 pkglist hq hi).apt_eq
        have hall := ha.2 rfl
        simp only [] at hall
        rw [← htail] at hall
        exact ⟨Or.inr (Or.inr hall), fun _ => hall, hfail1, hfail2⟩
      · rw [hi] at ha
        have hR : p.Reconcile h t order now w = (.ret (some err), w2) := by
          unfold ProviderReconciler.Reconcile
          simp only [hq, hi]
        rw [hR]
        refine ⟨ha.1, fun hn => ?_, ?_, ?_⟩
        · simp at hn
        · rw [← hR]; exact hfail1
        · rw [← hR]; exact hfail2
  · intro hnq
    have hR : (p.Reconcile h t order now w).2 = ((NewPackages p.manifest p.ssh).Query h w).2 := by
      unfold ProviderReconciler.Reconcile
      rcases hx : (NewPackages p.manifest p.ssh).Query h w with ⟨(e | pkglist) | msg, w1⟩
      · simp only [hx]
      · exact absurd hx (hnq pkglist w1)
      · simp only [hx]
    rw [hR, hQ]

end reconcile

namespace reconcile

open Go manifest ssh files packages

set_option maxRecDepth 1000000 in
/-- C12 at the failing input and at two plain ones. For the missing package
`a%%b` the run sends the update command, then an install command that names
`a%b`, another package. On a host without `nginx` the run sends the update
command then the install command naming `nginx`; on a host with `nginx`
installed it sends no `apt-get` command. -/
theorem Reconcile_installs_witness :
    aptCalls (ProviderReconciler.Reconcile Examples.diskHost
        (Examples.fieldTemplates []) Examples.listOrder "2024-01-01T00:00:00Z"
        (reconcile.New Examples.percentManifest (ssh.New "root")) ⟨{}, []⟩).2.trace =
      ["DEBIAN_FRONTEND=noninteractive apt-get update",
        "DEBIAN_FRONTEND=noninteractive apt-get install -y a%b"] ∧
    aptCalls (ProviderReconciler.Reconcile Examples.diskHost
        (Examples.fieldTemplates Examples.motdBundle) Examples.listOrder "2024-01-01T00:00:00Z"
        (reconcile.New Examples.motdManifest (ssh.New "root")) ⟨{}, []⟩).2.trace =
      ["DEBIAN_FRONTEND=noninteractive apt-get update",
        "DEBIAN_FRONTEND=noninteractive apt-get install -y nginx"] ∧
    aptCalls (ProviderReconciler.Reconcile Examples.diskHost
        (Examples.fieldTemplates Examples.motdBundle) Examples.listOrder "2024-01-01T00:00:00Z"
        (reconcile.New Examples.motdManifest (ssh.New "root")) ⟨Examples.nginxDisk, []⟩).2.trace =
      [] :=
  ⟨((((Reconcile_installs Examples.diskHost (Examples.fieldTemplates [])
      Examples.listOrder "2024-01-01T00:00:00Z"
      (reconcile.New Examples.percentManifest (ssh.New "root")) ⟨{}, []⟩).1 []
      (Packages.Query Examples.diskHost (NewPackages Examples.percentManifest (ssh.New "root"))
        ⟨{}, []⟩).2 (by decide)).2 (by decide)).2.1 (by decide)).trans (by decide),
   ((((Reconcile_installs Examples.diskHost (Examples.fieldTemplates Examples.motdBundle)
      Examples.listOrder "2024-01-01T00:00:00Z"
      (reconcile.New Examples.motdManifest (ssh.New "root")) ⟨{}, []⟩).1 []
      (Packages.Query Examples.diskHost (NewPackages Examples.motdManifest (ssh.New "root"))
        ⟨{}, []⟩).2 (by decide)).2 (by decide)).2.1 (by decide)).trans (by decide),
   (((Reconcile_installs Examples.diskHost (Examples.fieldTemplates Examples.motdBundle)
      Examples.listOrder "2024-01-01T00:00:00Z"
      (reconcile.New Examples.motdManifest (ssh.New "root")) ⟨Examples.nginxDisk, []⟩).1
      [("nginx", { Name := "nginx", Version := "1.0", Status := "installed" })]
      (Packages.Query Examples.diskHost (NewPackages Examples.motdManifest (ssh.New "root"))
        ⟨Examples.nginxDisk, []⟩).2 (by decide)).1 (by decide)).trans (by decide)⟩

end reconcile

/-! ## The commands of `ApplyPermissions` -/

namespace files

open Go manifest ssh

theorem runCommands_append {σ : Type} (h : Host σ) (c : Client) (l1 l2 : List String)
    (w : World σ) :
    runCommands h c (l1 ++ l2) w =
      match runCommands h c l1 w with
      | (some e, w1) => (some e, w1)
      | (none, w1) => runCommands h c l2 w1 := by
  induction l1 generalizing w with
  | nil => rfl
  | cons cmd rest ih =>
    simp only [List.cons_append, runCommands]
    rcases hx : Execf h c cmd [] w with ⟨e | out, w1⟩
    · rfl
    · simp only []
      exact ih w1

/-- The trace of `runCommands`: the commands of a prefix of the list, all of
them when no command failed. -/
theorem runCommands_trace {σ : Type} (h : Host σ) (c : Client) (l : List String)
    (w : World σ) :
    ∃ k, k ≤ l.length ∧
      (runCommands h c l w).2.trace =
        w.trace ++ (l.take k).map (fun cmd => Event.exec (c.wire cmd [])) ∧
      ((runCommands h c l w).1 = none → k = l.length) := by
  induction l generalizing w with
  | nil => exact ⟨0, by simp [runCommands]⟩
  | cons cmd rest ih =>
    simp only [runCommands]
    rcases hx : Execf h c cmd [] w with ⟨e | out, w1⟩
    · simp only []
      have ht := Execf_trace h c cmd [] w
      rw [hx] at ht
      rcases ht with ht | ht
      · exact ⟨0, by simp, by simpa using ht, by simp⟩
      · exact ⟨1, by simp, by simpa using ht, by simp⟩
    · simp only []
      obtain ⟨k, hk, ht, hn⟩ := ih w1
      refine ⟨k + 1, by simpa using hk, ?_, fun hnone => by simpa using hn hnone⟩
      rw [ht, Execf_ok h c cmd [] w w1 out hx]
      simp

theorem permissionsFiles_follows {σ : Type} (h : Host σ) (c : Client) (fs : List File)
    (w : World σ) :
    Follows (permissionsFiles h c fs w) (runCommands h c (fs.flatMap permissionCommands) w) := by
  induction fs generalizing w with
  | nil => exact ⟨rfl, by simp [permissionsFiles, runCommands], by simp [runCommands]⟩
  | cons f rest ih =>
    unfold permissionsFiles
    simp only [List.flatMap_cons, runCommands_append]
    by_cases hp : f.Path = ""
    · simp only [hp, if_true, permissionCommands, runCommands]
      exact ih w
    · by_cases hm : f.Mode = "" <;> by_cases ho : f.Owner = ""
      · simp only [hp, hm, ho, if_false, permissionCommands, ne_eq, not_true_eq_false,
          List.append_nil, runCommands]
        exact ih w
      · simp only [hp, hm, ho, if_false, permissionCommands, ne_eq, not_true_eq_false,
          not_false_eq_true, if_true, List.nil_append, runCommands]
        rcases hx : Execf h c ("chown " ++ f.Owner ++ " " ++ f.Path) [] w with ⟨e | out, w1⟩
        · exact ⟨rfl, by simp, fun e1 he => ⟨_, by simp at he; rw [he]⟩⟩
        · exact ih w1
      · simp only [hp, hm, ho, if_false, permissionCommands, ne_eq, not_true_eq_false,
          not_false_eq_true, if_true, List.append_nil, runCommands]
        rcases hx : Execf h c ("chmod " ++ f.Mode ++ " " ++ f.Path) [] w with ⟨e | out, w1⟩
        · exact ⟨rfl, by simp, fun e1 he => ⟨_, by simp at he; rw [he]⟩⟩
        · exact ih w1
      · simp only [hp, hm, ho, if_false, permissionCommands, ne_eq, not_false_eq_true, if_true,
          List.singleton_append, runCommands]
        rcases hx : Execf h c ("chmod " ++ f.Mode ++ " " ++ f.Path) [] w with ⟨e | out, w1⟩
        · exact ⟨rfl, by simp, fun e1 he => ⟨_, by simp at he; rw [he]⟩⟩
        · simp only []
          rcases hy : Execf h c ("chown " ++ f.Owner ++ " " ++ f.Path) [] w1 with ⟨e | out2, w2⟩
          · exact ⟨rfl, by simp, fun e1 he => ⟨_, by simp at he; rw [he]⟩⟩
          · exact ih w2

theorem permissionsPackages_follows {σ : Type} (h : Host σ) (c : Client) (ps : List Package)
    (w : World σ) :
    Follows (permissionsPackages h c ps w)
      (runCommands h c (ps.flatMap (fun pkg => pkg.Files.flatMap permissionCommands)) w) := by
  induction ps generalizing w with
  | nil => exact ⟨rfl, by simp [permissionsPackages, runCommands], by simp [runCommands]⟩
  | cons pkg rest ih =>
    unfold permissionsPackages
    simp only [List.flatMap_cons, runCommands_append]
    obtain ⟨h1, h2, h3⟩ := permissionsFiles_follows h c pkg.Files w
    rcases hx : permissionsFiles h c pkg.Files w with ⟨_ | err, w1⟩ <;>
      rcases hy : runCommands h c (pkg.Files.flatMap permissionCommands) w with ⟨_ | e, w2⟩ <;>
      rw [hx, hy] at h1 h2 h3 <;> simp only [] at h1 h2 h3
    · subst h1
      exact ih w1
    · simp at h2
    · simp at h2
    · subst h1
      exact ⟨rfl, by simp, fun e1 he => by
        simp only [Option.some.injEq] at he
        subst he
        exact h3 e rfl⟩

end files

namespace files

open Go manifest ssh

/-- C13, what the code does: with the SSH client set, `ApplyPermissions` does
what handing the listed commands to `Execf` in order up to the first failure
does, for the commands of every file of every package in declared order (none
for an empty path, `chmod <mode> <path>` for a mode that is not empty, then
`chown <owner> <path>` for an owner that is not empty), whatever the transfer
changed: it leaves the same world, returns an error exactly when a command
failed, and that error wraps the failure. So it sent, for the commands of a
prefix of the list (all of them when it returns no error), what `Execf` makes of
each: the command text formatted once more, which is the text itself, behind
`sudo ` for a user other than `root`, only when the text has no percent sign. -/
theorem ApplyPermissions_commands {σ : Type} (h : Host σ) (fm : FileManager) (c : Client)
    (w : World σ) (hssh : fm.ssh = some c) :
    (fm.ApplyPermissions h w).2 =
      (runCommands h c (manifestPermissionCommands fm.manifest) w).2 ∧
    ((fm.ApplyPermissions h w).1 = none ↔
      (runCommands h c (manifestPermissionCommands fm.manifest) w).1 = none) ∧
    (∀ e, (runCommands h c (manifestPermissionCommands fm.manifest) w).1 = some e →
      ∃ msg, (fm.ApplyPermissions h w).1 = some (errorsWrap e msg)) ∧
    (∃ k, k ≤ (manifestPermissionCommands fm.manifest).length ∧
      (fm.ApplyPermissions h w).2.trace =
        w.trace ++ ((manifestPermissionCommands fm.manifest).take k).map
          (fun cmd => Event.exec (c.wire cmd [])) ∧
      ((fm.ApplyPermissions h w).1 = none →
        k = (manifestPermissionCommands fm.manifest).length)) ∧
    (∀ cmd : String, '%' ∉ cmd.data →
      c.wire cmd [] = (if c.useSudo then "sudo " else "") ++ cmd) := by
  have hf : Follows (fm.ApplyPermissions h w)
      (runCommands h c (manifestPermissionCommands fm.manifest) w) := by
    unfold FileManager.ApplyPermissions manifestPermissionCommands
    simp only [hssh]
    exact permissionsPackages_follows h c _ w
  obtain ⟨h1, h2, h3⟩ := hf
  obtain ⟨k, hk, ht, hn⟩ := runCommands_trace h c (manifestPermissionCommands fm.manifest) w
  refine ⟨h1, h2, h3, ⟨k, hk, ?_, fun hnone => hn (h2.mp hnone)⟩,
    fun cmd hp => wire_noPercent c cmd hp⟩
  rw [h1, ht]

set_option maxRecDepth 100000 in
/-- C13 at the failing input and at two plain ones. For the file `/srv/a%%b`
with mode `0644` and owner `root:root`, on a host where every command succeeds,
the commands sent are `chmod 0644 /srv/a%b` and `chown root:root /srv/a%b`: they
name another path. For the file `/etc/motd` both commands are sent as listed,
and where `chmod` fails an error is returned and `chown` is not sent. -/
theorem ApplyPermissions_commands_witness :
    FileManager.ApplyPermissions Examples.emptyHost
        (New Examples.percentFileManifest (some (ssh.New "root"))) ⟨(), []⟩ =
      (none, ⟨(), [Event.exec "chmod 0644 /srv/a%b", Event.exec "chown root:root /srv/a%b"]⟩) ∧
    FileManager.ApplyPermissions Examples.emptyHost
        (New Examples.motdManifest (some (ssh.New "root"))) ⟨(), []⟩ =
      (none, ⟨(), [Event.exec "chmod 0644 /etc/motd", Event.exec "chown root:root /etc/motd"]⟩) ∧
    (FileManager.ApplyPermissions Examples.noChmodHost
        (New Examples.motdManifest (some (ssh.New "root"))) ⟨(), []⟩).2 =
      ⟨(), [Event.exec "chmod 0644 /etc/motd"]⟩ ∧
    (FileManager.ApplyPermissions Examples.noChmodHost
        (New Examples.motdManifest (some (ssh.New "root"))) ⟨(), []⟩).1 ≠ none := by
  have h0 := ApplyPermissions_commands Examples.emptyHost
    (New Examples.percentFileManifest (some (ssh.New "root"))) (ssh.New "root") ⟨(), []⟩ rfl
  have h1 := ApplyPermissions_commands Examples.emptyHost
    (New Examples.motdManifest (some (ssh.New "root"))) (ssh.New "root") ⟨(), []⟩ rfl
  have h2 := ApplyPermissions_commands Examples.noChmodHost
    (New Examples.motdManifest (some (ssh.New "root"))) (ssh.New "root") ⟨(), []⟩ rfl
  refine ⟨Prod.ext (h0.2.1.mpr (by decide)) (h0.1.trans (by decide)),
    Prod.ext (h1.2.1.mpr (by decide)) (h1.1.trans (by decide)), h2.1.trans (by decide),
    fun hn => ?_⟩
  have := h2.2.1.mp hn
  revert this
  decide

end files

/-! ## The parse of `Query` after exit status 0 -/

namespace Go

theorem splitChars_append_sep (sep : Char) (a rest : List Char) (h : sep ∉ a) :
    splitChars sep (a ++ sep :: rest) = a :: splitChars sep rest := by
  induction a with
  | nil => exact splitChars_sep sep rest
  | cons c cs ih =>
    simp only [List.mem_cons, not_or] at h
    exact splitChars_cons sep c _ _ _ (fun e => h.1 e.symm) (ih h.2)

/-- A line of three fields without commas splits into its fields. -/
theorem split_three (a b c : String) (ha : ',' ∉ a.data) (hb : ',' ∉ b.data)
    (hc : ',' ∉ c.data) : split (a ++ "," ++ b ++ "," ++ c) ',' = [a, b, c] := by
  have hd : (a ++ "," ++ b ++ "," ++ c).data = a.data ++ ',' :: (b.data ++ ',' :: c.data) := by
    simp [String.data_append]
  unfold split
  rw [hd, splitChars_append_sep _ _ _ ha, splitChars_append_sep _ _ _ hb,
    splitChars_noSep _ _ hc]
  rfl

end Go

namespace packages

open Go manifest ssh

theorem parseLines_rows (rows : List (String × String × String)) (m : GoMap Package)
    (hnc : ∀ r ∈ rows, ',' ∉ r.1.data ∧ ',' ∉ r.2.1.data ∧ ',' ∉ r.2.2.data) :
    parseLines (rows.map (fun r => r.1 ++ "," ++ r.2.1 ++ "," ++ r.2.2)) m =
      .ret ((rows.map rowEntry).foldl (fun m e => m.set e.1 e.2) m) := by
  induction rows generalizing m with
  | nil => rfl
  | cons r rest ih =>
    obtain ⟨h1, h2, h3⟩ := hnc r (List.mem_cons_self _ _)
    simp only [List.map_cons, parseLines, split_three _ _ _ h1 h2 h3, List.foldl_cons, rowEntry]
    exact ih _ (fun q hq => hnc q (List.mem_cons_of_mem _ hq))

/-- After exit status 0, for an output whose lines are `name,version,status`
(fields without commas), `Query` returns the mapping in which a name is looked
up among the lines, the last line first: one entry per listed name with that
line's version and status, and none for a name that is not listed. -/
theorem Query_exit_zero {σ : Type} (h : Host σ) (p : Packages) (w : World σ) (s s1 : σ)
    (out : String) (rows : List (String × String × String))
    (hne : p.manifest.Packages ≠ [])
    (hs : h.newSession w.host = (none, s))
    (hr : h.run s (p.ssh.wire queryFormat [join (p.manifest.Packages.map (fun pkg => pkg.Name)) " "])
      = (.ok out, s1))
    (hlines : scanLines out = rows.map (fun r => r.1 ++ "," ++ r.2.1 ++ "," ++ r.2.2))
    (hnc : ∀ r ∈ rows, ',' ∉ r.1.data ∧ ',' ∉ r.2.1.data ∧ ',' ∉ r.2.2.data) :
    ∃ pkglist, (p.Query h w).1 = .ret (.ok pkglist) ∧
      ∀ name, pkglist.get name = GoMap.get (rows.map rowEntry).reverse name := by
  have hlen : p.manifest.Packages.length ≠ 0 := fun h0 => hne (List.length_eq_zero.mp h0)
  refine ⟨(rows.map rowEntry).foldl (fun m e => m.set e.1 e.2) [], ?_, fun name => ?_⟩
  · simp only [Packages.Query, hlen, if_false, Execf, hs, hr, hlines, parseLines_rows rows [] hnc]
  · rw [GoMap.get_foldl_set]
    split
    · rename_i v hv
      exact hv.symm
    · rename_i hv
      rw [hv]
      rfl

set_option maxRecDepth 100000 in
/-- The parse on a host where `apt` and `nginx` are installed: both are in the
mapping, and a name that is not listed is not. -/
theorem Query_exit_zero_witness :
    ∃ pkglist, (Packages.Query Examples.diskHost
        (NewPackages Examples.aptManifest (ssh.New "root"))
        ⟨{ installed := ["apt", "nginx"] }, []⟩).1 = .ret (.ok pkglist) ∧
      pkglist.get "apt" = some { Name := "apt", Version := "1.0", Status := "installed" } ∧
      pkglist.get "nginx" = some { Name := "nginx", Version := "1.0", Status := "installed" } ∧
      pkglist.get "php" = none := by
  obtain ⟨pkglist, h1, h2⟩ := Query_exit_zero Examples.diskHost
    (NewPackages Examples.aptManifest (ssh.New "root")) ⟨{ installed := ["apt", "nginx"] }, []⟩
    { installed := ["apt", "nginx"] } { installed := ["apt", "nginx"] }
    "apt,1.0,installed\nnginx,1.0,installed\n"
    [("apt", "1.0", "installed"), ("nginx", "1.0", "installed")]
    (by decide) rfl (by decide) (by decide) (by decide)
  exact ⟨pkglist, h1, (h2 "apt").trans (by decide), (h2 "nginx").trans (by decide),
    (h2 "php").trans (by decide)⟩

end packages

/-! ## `FindPackage` -/

namespace Go

theorem indexFrom_spec {α : Type} (f : α → Bool) (l : List α) (i : Nat) :
    (indexFrom f l i = -1 ∧ ∀ a ∈ l, f a = false) ∨
    ∃ k a, indexFrom f l i = ((i + k : Nat) : Int) ∧ l.get? k = some a ∧ f a = true ∧
      ∀ j b, j < k → l.get? j = some b → f b = false := by
  induction l generalizing i with
  | nil => exact Or.inl ⟨rfl, by simp⟩
  | cons x rest ih =>
    by_cases hx : f x = true
    · refine Or.inr ⟨0, x, by simp [indexFrom, hx], rfl, hx, ?_⟩
      intro j b hj
      omega
    · have hx2 : f x = false := by simpa using hx
      rcases ih (i + 1) with ⟨h1, h2⟩ | ⟨k, a, h1, h2, h3, h4⟩
      · refine Or.inl ⟨by simp [indexFrom, hx2, h1], ?_⟩
        intro a ha
        rcases List.mem_cons.mp ha with e | e
        · rw [e]; exact hx2
        · exact h2 a e
      · refine Or.inr ⟨k + 1, a, ?_, by simpa using h2, h3, ?_⟩
        · simp only [indexFrom, hx2, Bool.false_eq_true, if_false, h1]
          congr 1
          omega
        · intro j b hj hb
          cases j with
          | zero =>
            simp only [List.get?_cons_zero, Option.some.injEq] at hb
            rw [← hb]; exact hx2
          | succ n =>
            simp only [List.get?_cons_succ] at hb
            exact h4 n b (by omega) hb

end Go

namespace manifest

open Go

/-- C22: `FindPackage` returns the package at the least index whose name has
the prefix and the suffix, and it returns an error exactly when no package name
has both; it never indexes out of range. -/
theorem FindPackage_first (m : Manifest) (pfx sfx : String) :
    (∀ pkg, m.FindPackage pfx sfx = .ret (.ok pkg) ↔
      ∃ k, m.Packages.get? k = some pkg ∧
        (hasPrefix pkg.Name pfx && hasSuffix pkg.Name sfx) = true ∧
        ∀ j q, j < k → m.Packages.get? j = some q →
          (hasPrefix q.Name pfx && hasSuffix q.Name sfx) = false) ∧
    ((∃ e, m.FindPackage pfx sfx = .ret (.error e)) ↔
      ∀ q ∈ m.Packages, (hasPrefix q.Name pfx && hasSuffix q.Name sfx) = false) ∧
    (∀ msg, m.FindPackage pfx sfx ≠ .panic msg) := by
  rcases indexFrom_spec (fun p : Package => hasPrefix p.Name pfx && hasSuffix p.Name sfx)
    m.Packages 0 with ⟨h1, h2⟩ | ⟨k, a, h1, h2, h3, h4⟩
  · have hf : m.FindPackage pfx sfx = .ret (.error (errorsNew
        ("no package found with prefix: " ++ pfx ++ " and suffix: " ++ sfx))) := by
      simp [Manifest.FindPackage, IndexFunc, h1]
    refine ⟨fun pkg => ⟨fun h => ?_, fun ⟨k, hk, hm, _⟩ => ?_⟩, ⟨fun _ => h2, fun _ => ⟨_, hf⟩⟩,
      fun msg h => ?_⟩
    · rw [hf] at h
      simp at h
    · have := h2 pkg (List.get?_mem hk)
      simp only [] at this
      rw [this] at hm
      simp at hm
    · rw [hf] at h
      simp at h
  · have hne : ((0 + k : Nat) : Int) ≠ -1 := by omega
    have hf : m.FindPackage pfx sfx = .ret (.ok a) := by
      have h2b : m.Packages[k]? = some a := by simpa using h2
      simp only [Manifest.FindPackage, IndexFunc, h1, hne, if_false]
      simp [h2b]
    refine ⟨fun pkg => ⟨fun h => ?_, fun ⟨k2, hk, hm, hl⟩ => ?_⟩, ⟨fun ⟨e, he⟩ => ?_, fun hall => ?_⟩,
      fun msg h => ?_⟩
    · rw [hf] at h
      simp only [Outcome.ret.injEq, Except.ok.injEq] at h
      subst h
      exact ⟨k, h2, h3, h4⟩
    · rw [hf]
      have hk2 : k2 = k := by
        rcases Nat.lt_trichotomy k2 k with hlt | heq | hgt
        · have := h4 k2 pkg hlt hk
          simp only [] at this
          rw [this] at hm
          simp at hm
        · exact heq
        · have := hl k a hgt h2
          rw [this] at h3
          simp at h3
      subst hk2
      rw [h2] at hk
      simp only [Option.some.injEq] at hk
      rw [hk]
    · rw [hf] at he
      simp at he
    · have := hall a (List.get?_mem h2)
      rw [this] at h3
      simp at h3
    · rw [hf] at h
      simp at h

/-- C22 on the manifest with `php8.2-fpm` and `nginx`: the prefix `php` with the
suffix `-fpm` finds the package of version 8.2, the prefix `zz` with the suffix
`-x` finds none. -/
theorem FindPackage_first_witness :
    Examples.phpManifest.FindPackage "php" "-fpm" =
      .ret (.ok { Name := "php8.2-fpm", Version := "8.2", Kind := "service" }) ∧
    ∃ e, Examples.phpManifest.FindPackage "zz" "-x" = .ret (.error e) :=
  ⟨((FindPackage_first Examples.phpManifest "php" "-fpm").1 _).mpr
      ⟨0, rfl, by decide, fun j q hj => by omega⟩,
   (FindPackage_first Examples.phpManifest "zz" "-x").2.1.mpr (by decide)⟩

end manifest

/-! ## `NewID` -/

namespace Go

theorem hexValue_hexDigit : ∀ n, n < 16 → hexValue (hexDigit n) = n := by
  decide

theorem hexDigit_lower : ∀ n, n < 16 →
    ((48 ≤ (hexDigit n).toNat ∧ (hexDigit n).toNat ≤ 57) ∨
      (97 ≤ (hexDigit n).toNat ∧ (hexDigit n).toNat ≤ 102)) := by
  decide

/-- The text of a byte slice has two characters for a byte, all of them digits
or lowercase letters `a` to `f`, and it stands for the bytes. -/
theorem hexBytes_spec (b : Bytes) (hb : ∀ x ∈ b, x < 256) :
    (hexBytes b).data.length = 2 * b.length ∧
    (∀ c ∈ (hexBytes b).data,
      (48 ≤ c.toNat ∧ c.toNat ≤ 57) ∨ (97 ≤ c.toNat ∧ c.toNat ≤ 102)) ∧
    unhex (hexBytes b).data = b := by
  induction b with
  | nil => exact ⟨rfl, by simp [hexBytes], rfl⟩
  | cons x rest ih =>
    obtain ⟨h1, h2, h3⟩ := ih (fun y hy => hb y (List.mem_cons_of_mem _ hy))
    have hx : x < 256 := hb x (List.mem_cons_self _ _)
    have e : (hexBytes (x :: rest)).data =
        hexDigit (x / 16 % 16) :: hexDigit (x % 16) :: (hexBytes rest).data := by
      simp [hexBytes]
    have q1 : x / 16 % 16 < 16 := Nat.mod_lt _ (by decide)
    have q2 : x % 16 < 16 := Nat.mod_lt _ (by decide)
    refine ⟨?_, ?_, ?_⟩
    · rw [e]
      simp only [List.length_cons, h1]
      omega
    · intro c hc
      rw [e] at hc
      simp only [List.mem_cons] at hc
      rcases hc with hc | hc | hc
      · rw [hc]; exact hexDigit_lower _ q1
      · rw [hc]; exact hexDigit_lower _ q2
      · exact h2 c hc
    · rw [e]
      simp only [unhex, hexValue_hexDigit _ q1, hexValue_hexDigit _ q2, h3]
      congr 1
      omega

end Go

namespace manifest

open Go

/-- C23: for a format other than `ulid`, when the random source delivers 5
bytes `NewID` returns, with no error, their text of 10 characters, each a digit
or a lowercase letter `a` to `f`, that stands for the bytes in hexadecimal; when
the random source fails it returns an error. -/
theorem NewID_random (e : Entropy) (format : String) (hf : format ≠ "ulid") :
    (∀ b, e.read 5 = .ok b → b.length = 5 → (∀ x ∈ b, x < 256) →
      NewID e format = (hexBytes b, none) ∧ (hexBytes b).data.length = 10 ∧
      (∀ c ∈ (hexBytes b).data,
        (48 ≤ c.toNat ∧ c.toNat ≤ 57) ∨ (97 ≤ c.toNat ∧ c.toNat ≤ 102)) ∧
      unhex (hexBytes b).data = b) ∧
    (∀ err, e.read 5 = .error err →
      (NewID e format).2 = some (errorsWrap (errorsWrap err "error reading random bytes")
        "error creating new id")) := by
  have hf2 : ¬ format = UniqueIDFormatULID := hf
  constructor
  · intro b hr hl hb
    obtain ⟨h1, h2, h3⟩ := hexBytes_spec b hb
    refine ⟨by simp [NewID, hf2, randID, hr], by rw [h1, hl], h2, h3⟩
  · intro err hr
    simp [NewID, hf2, randID, hr]

/-- C23 for the formats `random` and `uuid` on the bytes 222, 173, 190, 239, 1,
and for a random source that fails. -/
theorem NewID_random_witness :
    NewID (Examples.fixedEntropy [222, 173, 190, 239, 1]) "random" = ("deadbeef01", none) ∧
    NewID (Examples.fixedEntropy [222, 173, 190, 239, 1]) "uuid" = ("deadbeef01", none) ∧
    (NewID Examples.noEntropy "random").2 ≠ none := by
  have h1 := ((NewID_random (Examples.fixedEntropy [222, 173, 190, 239, 1]) "random"
    (by decide)).1 _ rfl rfl (by decide)).1
  have h2 := ((NewID_random (Examples.fixedEntropy [222, 173, 190, 239, 1]) "uuid"
    (by decide)).1 _ rfl rfl (by decide)).1
  have h3 := (NewID_random Examples.noEntropy "random" (by decide)).2 _ rfl
  refine ⟨h1.trans (by decide), h2.trans (by decide), ?_⟩
  rw [h3]
  simp

end manifest

/-! ## Short lines in the output of `dpkg-query` -/

namespace packages

open Go manifest ssh

theorem parseLines_short (lines : List String) (m : GoMap Package)
    (hs : ∃ line ∈ lines, (split line ',').length < 3) :
    parseLines lines m = .panic "index out of range" := by
  induction lines generalizing m with
  | nil => simp at hs
  | cons l rest ih =>
    unfold parseLines
    rcases hsp : split l ',' with _ | ⟨a, _ | ⟨b, _ | ⟨c, tail⟩⟩⟩
    · rfl
    · rfl
    · rfl
    · simp only []
      apply ih
      obtain ⟨line, hmem, hlen⟩ := hs
      rcases List.mem_cons.mp hmem with e | e
      · rw [e, hsp] at hlen
        simp only [List.length_cons] at hlen
        omega
      · exact ⟨line, e, hlen⟩

/-- C30, what the code does: when the `dpkg-query` command succeeds and a line
of its output (before any line of 65536 bytes or more) has fewer than three
fields between commas, a blank line for one, the parse loop of `Query` indexes
the split line out of range and `Query` panics. -/
theorem Query_short_line {σ : Type} (h : Host σ) (p : Packages) (w : World σ) (s s1 : σ)
    (out : String) (hne : p.manifest.Packages ≠ [])
    (hs : h.newSession w.host = (none, s))
    (hr : h.run s (p.ssh.wire queryFormat [join (p.manifest.Packages.map (fun pkg => pkg.Name)) " "])
      = (.ok out, s1))
    (hshort : ∃ line ∈ scanLines out, (split line ',').length < 3) :
    (p.Query h w).1 = .panic "index out of range" := by
  have hlen : p.manifest.Packages.length ≠ 0 := fun h0 => hne (List.length_eq_zero.mp h0)
  simp only [Packages.Query, hlen, if_false, Execf, hs, hr, parseLines_short _ [] hshort]

set_option maxRecDepth 100000 in
/-- C30 at the failing inputs: an output whose first line is a warning without
commas, and an output with a blank line after the line of the package. -/
theorem Query_short_line_witness :
    (Packages.Query Examples.warningHost (NewPackages Examples.motdManifest (ssh.New "root"))
      ⟨(), []⟩).1 = .panic "index out of range" ∧
    parseLines (scanLines "nginx,1.0,installed\n\n") [] = .panic "index out of range" :=
  ⟨Query_short_line Examples.warningHost (NewPackages Examples.motdManifest (ssh.New "root"))
    ⟨(), []⟩ () ()
    "dpkg-query: warning: files list file for package 'nginx' missing\nnginx,1.0,installed\n"
    (by decide) rfl (by decide)
    ⟨"dpkg-query: warning: files list file for package 'nginx' missing", by decide, by decide⟩,
   by decide⟩

end packages

/-! ## The error the `reconcile` action returns -/

namespace cmd

open Go manifest errgroup

theorem failures_append (a b : List Event) : failures (a ++ b) = failures a ++ failures b := by
  induction a with
  | nil => rfl
  | cons e rest ih =>
    cases e with
    | load p q => simp [failures, ih]
    | start p q => simp [failures, ih]
    | finish p err =>
      cases err with
      | none => simp [failures, ih]
      | some e => simp [failures, ih]

theorem startCount_append (a b : List Event) :
    startCount (a ++ b) = startCount a + startCount b := by
  induction a with
  | nil => simp [startCount]
  | cons e rest ih =>
    cases e <;> simp [startCount, ih]
    omega

theorem finishCount_append (a b : List Event) :
    finishCount (a ++ b) = finishCount a + finishCount b := by
  induction a with
  | nil => simp [finishCount]
  | cons e rest ih =>
    cases e <;> simp [finishCount, ih]
    omega

/-- The first failure after one more task ended: the one before if there was
one, else the error of that task. -/
theorem failures_finish (ev : List Event) (path : String) (res : Option GoError) :
    (failures (ev ++ [Event.finish path res])).head? =
      if (failures ev).head?.isSome then (failures ev).head? else res := by
  rw [failures_append]
  rcases hf : failures ev with _ | ⟨e, rest⟩
  · cases res <;> simp [failures]
  · simp

theorem begin_accounted (load : String → String → Except GoError Manifest) (c : Context)
    (hlen : c.manifest.length ≤ 10) (hload : ∀ p ∈ c.manifest, ∃ m, load p c.packages = .ok m) :
    (Action.begin c).Accounted load c := by
  have hn : ¬ c.manifest.length > maxReconcileManifests := by
    simp only [maxReconcileManifests]; omega
  have hb : ∃ g : Group, g.err = none ∧ Action.begin c = { todo := c.manifest, group := g } := by
    unfold Action.begin
    simp only [hn, if_false]
    unfold Group.SetLimit
    by_cases h0 : flags.concurrency c.concurrency < 0
    · exact ⟨{ sem := none }, rfl, by simp [h0]⟩
    · exact ⟨{ sem := some (flags.concurrency c.concurrency).toNat }, rfl, by simp [h0]⟩
  obtain ⟨g, hg0, hg⟩ := hb
  rw [hg]
  exact ⟨by simp [hg0, failures], by simp [startCount, finishCount],
    by simp [startCount], hload, Or.inl rfl⟩

theorem step_accounted (load : String → String → Except GoError Manifest)
    (runTask : Task → Option GoError) (c : Context) (r : Runner) (s : Step)
    (hr : r.Accounted load c) : (Runner.step load runTask c r s).Accounted load c := by
  obtain ⟨h1, h2, h3, h4, h5⟩ := hr
  by_cases hret : r.returned.isSome = true
  · rw [step_returned load runTask c r s hret]
    exact ⟨h1, h2, h3, h4, h5⟩
  · have hnone : r.returned = none := by
      cases hx : r.returned with
      | none => rfl
      | some x => simp [hx] at hret
    cases s with
    | main =>
      unfold Runner.step Runner.main
      simp only [hret, Bool.false_eq_true, if_false]
      rcases hp : r.pending with _ | task
      · simp only []
        rcases ht : r.todo with _ | ⟨path, rest⟩
        · simp only []
          by_cases he : r.running.isEmpty = true
          · have hrun : r.running = [] := by simpa using he
            simp only [he, if_true, Option.getD_some]
            refine ⟨h1, h2, ?_, ?_, Or.inr ⟨by rw [h1], rfl, rfl, hrun⟩⟩
            · simpa [ht, hp] using h3
            · rw [ht] at h4; exact h4
          · simp only [he, Bool.false_eq_true, if_false, Option.getD_none]
            exact ⟨h1, h2, h3, h4, h5⟩
        · simp only []
          obtain ⟨m, hm⟩ := h4 path (by rw [ht]; exact List.mem_cons_self _ _)
          simp only [hm, Option.getD_some]
          refine ⟨?_, ?_, ?_, ?_, Or.inl hnone⟩
          · simpa [failures_append, failures] using h1
          · simpa [startCount_append, finishCount_append, startCount, finishCount] using h2
          · simp only [startCount_append, startCount, Option.isSome_some, if_true]
            rw [ht, hp] at h3
            simp only [List.length_cons, Option.isSome_none, Bool.false_eq_true, if_false] at h3
            omega
          · intro p hp2
            exact h4 p (by rw [ht]; exact List.mem_cons_of_mem _ hp2)
      · simp only []
        by_cases hg : r.group.canGo = true
        · simp only [hg, if_true, Option.getD_some]
          refine ⟨?_, ?_, ?_, h4, Or.inl hnone⟩
          · simpa [failures_append, failures, Group.Go] using h1
          · simp only [startCount_append, finishCount_append, startCount, finishCount,
              List.length_append, List.length_singleton]
            omega
          · simp only [startCount_append, startCount, Option.isSome_none, Bool.false_eq_true,
              if_false]
            rw [hp] at h3
            simp only [Option.isSome_some, if_true] at h3
            omega
        · simp only [hg, Bool.false_eq_true, if_false, Option.getD_none]
          exact ⟨h1, h2, h3, h4, h5⟩
    | finish i =>
      unfold Runner.step Runner.finish
      simp only [hret, Bool.false_eq_true, if_false]
      rcases hi : r.running.get? i with _ | task
      · simp only [Option.getD_none]
        exact ⟨h1, h2, h3, h4, h5⟩
      · obtain ⟨hlt, _⟩ := List.get?_eq_some.mp hi
        simp only [Option.getD_some]
        refine ⟨?_, ?_, ?_, h4, Or.inl hnone⟩
        · simp only [Group.done, failures_finish, h1]
        · simp only [startCount_append, finishCount_append, startCount, finishCount,
            List.length_eraseIdx, hlt, if_true]
          omega
        · simpa [startCount_append, startCount] using h3

theorem foldl_accounted (load : String → String → Except GoError Manifest)
    (runTask : Task → Option GoError) (c : Context) (schedule : List Step) (r : Runner)
    (hr : r.Accounted load c) :
    (schedule.foldl (Runner.step load runTask c) r).Accounted load c := by
  induction schedule generalizing r with
  | nil => exact hr
  | cons s rest ih => exact ih _ (step_accounted load runTask c r s hr)

/-- A move keeps what the action needs to go on: every manifest not yet reached
loads, the count of the group is the number of tasks in flight, and the limit of
the group is not 0. -/
theorem step_ready (load : String → String → Except GoError Manifest)
    (runTask : Task → Option GoError) (c : Context) (r : Runner) (s : Step)
    (hl : ∀ p ∈ r.todo, ∃ m, load p c.packages = .ok m)
    (hk : r.running.length = r.group.running) (hs : r.group.sem ≠ some 0) :
    (∀ p ∈ (Runner.step load runTask c r s).todo, ∃ m, load p c.packages = .ok m) ∧
    (Runner.step load runTask c r s).running.length =
      (Runner.step load runTask c r s).group.running ∧
    (Runner.step load runTask c r s).group.sem ≠ some 0 := by
  by_cases hret : r.returned.isSome = true
  · rw [step_returned load runTask c r s hret]
    exact ⟨hl, hk, hs⟩
  · cases s with
    | main =>
      unfold Runner.step Runner.main
      simp only [hret, Bool.false_eq_true, if_false]
      rcases hp : r.pending with _ | task
      · simp only []
        rcases ht : r.todo with _ | ⟨path, rest⟩
        · simp only []
          by_cases he : r.running.isEmpty = true
          · simp only [he, if_true, Option.getD_some]
            exact ⟨by simp, hk, hs⟩
          · simp only [he, Bool.false_eq_true, if_false, Option.getD_none]
            exact ⟨hl, hk, hs⟩
        · simp only []
          have hrest : ∀ p ∈ rest, ∃ m, load p c.packages = .ok m :=
            fun p hp2 => hl p (by rw [ht]; exact List.mem_cons_of_mem _ hp2)
          rcases hld : load path c.packages with e | m
          · simp only [Option.getD_some]
            exact ⟨hrest, hk, hs⟩
          · simp only [Option.getD_some]
            exact ⟨hrest, hk, hs⟩
      · simp only []
        by_cases hg : r.group.canGo = true
        · simp only [hg, if_true, Option.getD_some, Group.Go, List.length_append,
            List.length_singleton, hk]
          exact ⟨hl, trivial, hs⟩
        · simp only [hg, Bool.false_eq_true, if_false, Option.getD_none]
          exact ⟨hl, hk, hs⟩
    | finish i =>
      unfold Runner.step Runner.finish
      simp only [hret, Bool.false_eq_true, if_false]
      rcases hi : r.running.get? i with _ | task
      · simp only [Option.getD_none]
        exact ⟨hl, hk, hs⟩
      · obtain ⟨hlt, _⟩ := List.get?_eq_some.mp hi
        rw [hk] at hlt
        simp only [Option.getD_some, Group.done, List.length_eraseIdx, hk, hlt, if_true]
        exact ⟨hl, trivial, hs⟩

theorem foldl_ready (load : String → String → Except GoError Manifest)
    (runTask : Task → Option GoError) (c : Context) (schedule : List Step) (r : Runner)
    (hl : ∀ p ∈ r.todo, ∃ m, load p c.packages = .ok m)
    (hk : r.running.length = r.group.running) (hs : r.group.sem ≠ some 0) :
    (∀ p ∈ (schedule.foldl (Runner.step load runTask c) r).todo,
      ∃ m, load p c.packages = .ok m) ∧
    (schedule.foldl (Runner.step load runTask c) r).running.length =
      (schedule.foldl (Runner.step load runTask c) r).group.running ∧
    (schedule.foldl (Runner.step load runTask c) r).group.sem ≠ some 0 := by
  induction schedule generalizing r with
  | nil => exact ⟨hl, hk, hs⟩
  | cons s rest ih =>
    obtain ⟨h1, h2, h3⟩ := step_ready load runTask c r s hl hk hs
    exact ih _ h1 h2 h3

/-- From every state in which the manifests not yet reached load and the limit
of the group is not 0, some moves take the action to its return: the tasks in
flight end, each manifest left is loaded and its task started and ended, and
`Wait` returns. -/
theorem can_return (load : String → String → Except GoError Manifest)
    (runTask : Task → Option GoError) (c : Context) (n : Nat) (r : Runner)
    (hn : 3 * r.todo.length + (if r.pending.isSome then 2 else 0) + r.running.length ≤ n)
    (hl : ∀ p ∈ r.todo, ∃ m, load p c.packages = .ok m)
    (hk : r.running.length = r.group.running) (hs : r.group.sem ≠ some 0) :
    ∃ more : List Step, (more.foldl (Runner.step load runTask c) r).returned.isSome = true := by
  induction n generalizing r with
  | zero =>
    by_cases hret : r.returned.isSome = true
    · exact ⟨[], hret⟩
    · have ht : r.todo = [] := by
        cases hx : r.todo with
        | nil => rfl
        | cons a b => rw [hx] at hn; simp at hn
      have hp : r.pending = none := by
        cases hx : r.pending with
        | none => rfl
        | some a => rw [hx] at hn; simp at hn
      have hr : r.running = [] := by
        cases hx : r.running with
        | nil => rfl
        | cons a b => rw [hx] at hn; simp at hn
      refine ⟨[Step.main], ?_⟩
      simp [Runner.step, Runner.main, hret, ht, hp, hr]
  | succ n ih =>
    by_cases hret : r.returned.isSome = true
    · exact ⟨[], hret⟩
    · have hnext : ∀ s : Step,
          3 * (Runner.step load runTask c r s).todo.length +
            (if (Runner.step load runTask c r s).pending.isSome then 2 else 0) +
            (Runner.step load runTask c r s).running.length ≤ n →
          ∃ more : List Step,
            (more.foldl (Runner.step load runTask c) r).returned.isSome = true := by
        intro s hm
        obtain ⟨h1, h2, h3⟩ := step_ready load runTask c r s hl hk hs
        obtain ⟨more, hmore⟩ := ih (Runner.step load runTask c r s) hm h1 h2 h3
        exact ⟨s :: more, by simpa using hmore⟩
      rcases hr : r.running with _ | ⟨t0, ts⟩
      · rcases hp : r.pending with _ | task
        · rcases ht : r.todo with _ | ⟨path, rest⟩
          · refine ⟨[Step.main], ?_⟩
            simp [Runner.step, Runner.main, hret, ht, hp, hr]
          · obtain ⟨m, hm⟩ := hl path (by rw [ht]; exact List.mem_cons_self _ _)
            apply hnext Step.main
            rw [ht, hp, hr] at hn
            simp only [Runner.step, Runner.main, hret, Bool.false_eq_true, if_false, hp, ht, hm,
              Option.getD_some, Option.isSome_some, if_true, hr, List.length_nil]
            simp only [List.length_cons, Option.isSome_none, Bool.false_eq_true, if_false,
              List.length_nil] at hn
            omega
        · have hg : r.group.canGo = true := by
            have h0 : r.group.running = 0 := by rw [← hk, hr]; rfl
            unfold Group.canGo
            rcases hsem : r.group.sem with _ | cap
            · rfl
            · have hc : cap ≠ 0 := by
                intro e
                rw [e] at hsem
                exact hs hsem
              simp only [h0, decide_eq_true_eq]
              omega
          apply hnext Step.main
          rw [hp, hr] at hn
          simp only [Runner.step, Runner.main, hret, Bool.false_eq_true, if_false, hp, hg,
            if_true, Option.getD_some, Option.isSome_none, hr, List.nil_append,
            List.length_singleton]
          simp only [Option.isSome_some, if_true, List.length_nil] at hn
          omega
      · apply hnext (Step.finish 0)
        rw [hr] at hn
        simp only [Runner.step, Runner.finish, hret, Bool.false_eq_true, if_false, hr,
          List.get?_cons_zero, Option.getD_some, List.eraseIdx_cons_zero]
        simp only [List.length_cons] at hn
        omega

/-- The state in which the loop starts, when at most 10 manifests are given that
all load and the limit is not 0, has what the action needs to go on. -/
theorem begin_ready (load : String → String → Except GoError Manifest) (c : Context)
    (hlen : c.manifest.length ≤ 10) (hload : ∀ p ∈ c.manifest, ∃ m, load p c.packages = .ok m)
    (hconc : flags.concurrency c.concurrency ≠ 0) :
    (∀ p ∈ (Action.begin c).todo, ∃ m, load p c.packages = .ok m) ∧
    (Action.begin c).running.length = (Action.begin c).group.running ∧
    (Action.begin c).group.sem ≠ some 0 := by
  have hn : ¬ c.manifest.length > maxReconcileManifests := by
    simp only [maxReconcileManifests]; omega
  unfold Action.begin
  simp only [hn, if_false]
  unfold Group.SetLimit
  by_cases h0 : flags.concurrency c.concurrency < 0
  · simp only [h0, if_true]
    exact ⟨hload, rfl, by simp⟩
  · simp only [h0, if_false]
    refine ⟨hload, rfl, ?_⟩
    simp only [ne_eq, Option.some.injEq]
    omega

/-- With the limit 0 and a first manifest that loads, the action never returns:
the task of the first manifest waits in `Go` for a token that no goroutine can
give back. -/
theorem Action_zero_limit (load : String → String → Except GoError Manifest)
    (runTask : Task → Option GoError) (c : Context) (p : String) (rest : List String)
    (m : Manifest) (hm : c.manifest = p :: rest) (hlen : c.manifest.length ≤ 10)
    (hload : load p c.packages = .ok m) (hconc : flags.concurrency c.concurrency = 0)
    (schedule : List Step) :
    (Action load runTask c schedule).returned = none ∧
    (Action load runTask c schedule).running = [] := by
  have hn : ¬ c.manifest.length > maxReconcileManifests := by
    simp only [maxReconcileManifests]; omega
  have hb : Action.begin c = { todo := p :: rest, group := { sem := some 0 } } := by
    unfold Action.begin
    simp only [hn, if_false]
    unfold Group.SetLimit
    simp [hconc, hm]
  have hinv : ∀ (sch : List Step) (r : Runner), r.returned = none → r.running = [] →
      r.group.sem = some 0 → (r.pending.isSome = true ∨ (r.pending = none ∧ r.todo = p :: rest)) →
      (sch.foldl (Runner.step load runTask c) r).returned = none ∧
      (sch.foldl (Runner.step load runTask c) r).running = [] := by
    intro sch
    induction sch with
    | nil => intro r h1 h2 _ _; exact ⟨h1, h2⟩
    | cons s more ih =>
      intro r h1 h2 h3 h4
      simp only [List.foldl_cons]
      cases s with
      | main =>
        rcases h4 with h4 | ⟨h4, h5⟩
        · obtain ⟨task, ht⟩ := Option.isSome_iff_exists.mp h4
          have hstep : Runner.step load runTask c r Step.main = r := by
            simp [Runner.step, Runner.main, h1, ht, Group.canGo, h3]
          rw [hstep]
          exact ih r h1 h2 h3 (Or.inl h4)
        · have hstep : Runner.step load runTask c r Step.main =
              { r with todo := rest, events := r.events ++ [Event.load p c.packages],
                       pending := some { path := p, m := m, op := reconcileOP c } } := by
            simp [Runner.step, Runner.main, h1, h4, h5, hload]
          rw [hstep]
          exact ih _ h1 h2 h3 (Or.inl rfl)
      | finish i =>
        have hstep : Runner.step load runTask c r (Step.finish i) = r := by
          simp [Runner.step, Runner.finish, h1, h2]
        rw [hstep]
        exact ih r h1 h2 h3 h4
  unfold Action
  rw [hb]
  exact hinv schedule _ rfl rfl rfl (Or.inr ⟨rfl, rfl⟩)

/-- C21 as amended: when at most 10 manifests are given, each of them loads and
the limit of the group is not 0, the action returns: whatever moves were made,
some further moves take it to its return. Under every schedule it returns only
after the task of every manifest was started and has ended, whichever of them
failed, and what it returns is the error of the task that failed first (no
error when none failed); the errors of the other failed tasks are not in it. -/
theorem Action_first_error (load : String → String → Except GoError Manifest)
    (runTask : Task → Option GoError) (c : Context) (hlen : c.manifest.length ≤ 10)
    (hload : ∀ p ∈ c.manifest, ∃ m, load p c.packages = .ok m)
    (hconc : flags.concurrency c.concurrency ≠ 0) :
    (∀ schedule : List Step, ∃ more : List Step,
      (Action load runTask c (schedule ++ more)).returned.isSome = true) ∧
    (∀ (schedule : List Step) (x : Outcome (Option GoError)),
      (Action load runTask c schedule).returned = some x →
      x = .ret (failures (Action load runTask c schedule).events).head? ∧
      startCount (Action load runTask c schedule).events = c.manifest.length ∧
      finishCount (Action load runTask c schedule).events = c.manifest.length) := by
  constructor
  · intro schedule
    obtain ⟨h1, h2, h3⟩ := begin_ready load c hlen hload hconc
    obtain ⟨k1, k2, k3⟩ := foldl_ready load runTask c schedule _ h1 h2 h3
    obtain ⟨more, hmore⟩ := can_return load runTask c _ _ (Nat.le_refl _) k1 k2 k3
    exact ⟨more, by simpa [Action, List.foldl_append] using hmore⟩
  · intro schedule x hret
    obtain ⟨_, h2, h3, _, h5⟩ := foldl_accounted load runTask c schedule _
      (begin_accounted load c hlen hload)
    have h2a : startCount (Action load runTask c schedule).events =
        finishCount (Action load runTask c schedule).events +
          (Action load runTask c schedule).running.length := h2
    have h3a : (Action load runTask c schedule).todo.length +
        (if (Action load runTask c schedule).pending.isSome then 1 else 0) +
        startCount (Action load runTask c schedule).events = c.manifest.length := h3
    rcases h5 with h5 | ⟨h5, ht, hp, hrun⟩
    · have h5a : (Action load runTask c schedule).returned = none := h5
      rw [h5a] at hret
      simp at hret
    · have h5a : (Action load runTask c schedule).returned =
          some (.ret (failures (Action load runTask c schedule).events).head?) := h5
      have hta : (Action load runTask c schedule).todo = [] := ht
      have hpa : (Action load runTask c schedule).pending = none := hp
      have hra : (Action load runTask c schedule).running = [] := hrun
      rw [h5a] at hret
      simp only [Option.some.injEq] at hret
      rw [hta, hpa] at h3a
      rw [hra] at h2a
      simp only [List.length_nil, Option.isSome_none, Bool.false_eq_true, if_false] at h3a h2a
      exact ⟨hret.symm, by omega, by omega⟩

end cmd

namespace cmd

open Go manifest errgroup

/-- The theorem `Action_first_error` at two manifests of which the task of `m1`
fails, with the default limit 2: after the first two moves some further moves
take the action to its return; under the schedule in which the task of `m1`
ends first, both tasks are started and end, and the action returns that
error. -/
theorem Action_first_error_witness :
    ["m0", "m1"].length ≤ 10 ∧
    (∀ p ∈ ["m0", "m1"], ∃ m, Examples.loadByName p "" = .ok m) ∧
    flags.concurrency none ≠ 0 ∧
    (∃ more : List Step,
      (Action Examples.loadByName Examples.failOnM1 { manifest := ["m0", "m1"] }
        ([Step.main, Step.main] ++ more)).returned.isSome = true) ∧
    (Action Examples.loadByName Examples.failOnM1 { manifest := ["m0", "m1"] }
        Examples.secondEndsFirst).returned =
      some (.ret (some (errorsNew "unreachable"))) ∧
    (some (errorsNew "unreachable") : Option GoError) =
      (failures (Action Examples.loadByName Examples.failOnM1 { manifest := ["m0", "m1"] }
        Examples.secondEndsFirst).events).head? ∧
    startCount (Action Examples.loadByName Examples.failOnM1 { manifest := ["m0", "m1"] }
        Examples.secondEndsFirst).events = 2 ∧
    finishCount (Action Examples.loadByName Examples.failOnM1 { manifest := ["m0", "m1"] }
        Examples.secondEndsFirst).events = 2 := by
  have hload : ∀ p ∈ ["m0", "m1"], ∃ m, Examples.loadByName p "" = .ok m :=
    fun p _ => ⟨_, rfl⟩
  have hret : (Action Examples.loadByName Examples.failOnM1 { manifest := ["m0", "m1"] }
      Examples.secondEndsFirst).returned = some (.ret (some (errorsNew "unreachable"))) := by
    decide
  have h := Action_first_error Examples.loadByName Examples.failOnM1 { manifest := ["m0", "m1"] }
    (by decide) hload (by decide)
  have h2 := h.2 Examples.secondEndsFirst _ hret
  exact ⟨by decide, hload, by decide, h.1 [Step.main, Step.main], hret, by simpa using h2.1,
    h2.2.1, h2.2.2⟩

/-- C21, the inputs on which the claim fails. The tasks of two manifests both
fail, the task of `m1` first: the action returns the error of `m1` alone, and
the error of `m0` is nowhere in it. When the second manifest does not load, the
action returns that error while the task of the first is in flight: no task has
ended. With the limit 0 the task of the first manifest waits in `Go` and the
action has not returned after any of the moves made. -/
theorem Action_error_not_joined :
    failures (Action Examples.loadByName Examples.failByPath { manifest := ["m0", "m1"] }
        Examples.secondEndsFirst).events =
      [errorsNew "error on m1", errorsNew "error on m0"] ∧
    (Action Examples.loadByName Examples.failByPath { manifest := ["m0", "m1"] }
        Examples.secondEndsFirst).returned = some (.ret (some (errorsNew "error on m1"))) ∧
    strContains (errorsNew "error on m1").msg (errorsNew "error on m0").msg = false ∧
    (Action Examples.loadButM1 Examples.failByPath { manifest := ["m0", "m1"] }
        [Step.main, Step.main, Step.main]).returned =
      some (.ret (some (errorsNew "open m1: no such file or directory"))) ∧
    (Action Examples.loadButM1 Examples.failByPath { manifest := ["m0", "m1"] }
        [Step.main, Step.main, Step.main]).running.length = 1 ∧
    finishCount (Action Examples.loadButM1 Examples.failByPath { manifest := ["m0", "m1"] }
        [Step.main, Step.main, Step.main]).events = 0 ∧
    (Action Examples.loadByName Examples.failByPath
        { manifest := ["m0", "m1"], concurrency := some 0 }
        [Step.main, Step.main, Step.finish 0, Step.main, Step.main, Step.main]).returned = none ∧
    startCount (Action Examples.loadByName Examples.failByPath
        { manifest := ["m0", "m1"], concurrency := some 0 }
        [Step.main, Step.main, Step.finish 0, Step.main, Step.main, Step.main]).events = 0 := by
  decide

end cmd

/-! ## What `Copy` puts in the remote file -/

namespace ssh

open Go

theorem Adds.mono {σ : Type} (P Q : Event → Prop) (w w1 : World σ) (hPQ : ∀ e, P e → Q e)
    (hw : Adds P w w1) : Adds Q w w1 := by
  obtain ⟨l, hl, hall⟩ := hw
  exact ⟨l, hl, fun e he => hPQ e (hall e he)⟩

theorem Flush_sftp {σ : Type} (h : Host σ) (P : Event → Prop) (path : String)
    (hwr : ∀ d, P (Event.sftpWrite path d)) (b : BufWriter) (w : World σ) :
    Adds P w (BufWriter.Flush h path b w).2.2 := by
  unfold BufWriter.Flush
  cases b.err with
  | some e => exact Adds.same P w
  | none =>
    try simp only []
    by_cases hl : b.buf.length = 0
    · simp only [hl, if_true]
      exact Adds.same P w
    · simp only [hl, if_false]
      rcases h.write w.host path b.buf with ⟨⟨n, err⟩, s⟩
      try simp only []
      split <;> exact Adds.one P _ _ _ w rfl (hwr _)

theorem Write_sftp {σ : Type} (h : Host σ) (P : Event → Prop) (path : String)
    (hwr : ∀ d, P (Event.sftpWrite path d)) (b : BufWriter) (p : Bytes) (w : World σ) :
    Adds P w (BufWriter.Write h path b p w).2.2 := by
  unfold BufWriter.Write
  split
  · have hf := Flush_sftp h P path hwr
      { b with buf := b.buf ++ p.take (4096 - b.buf.length) } w
    try simp only []
    split <;> exact hf
  · split <;> exact Adds.same P w

theorem copyLoop_sftp {σ : Type} (h : Host σ) (P : Event → Prop) (path : String)
    (hwr : ∀ d, P (Event.sftpWrite path d)) (fuel : Nat) (sizes : List Nat) (rest : Bytes)
    (readErr : Option GoError) (b : BufWriter) (w : World σ) :
    Adds P w (copyLoop h path fuel sizes rest readErr b w).2.2 := by
  induction fuel generalizing sizes rest b w with
  | zero => exact Adds.same P w
  | succ n ih =>
    unfold copyLoop
    split
    · split <;> exact Adds.same P w
    · split
      · exact ih _ _ _ _
      · have hw := Write_sftp h P path hwr b (rest.take (min (sizes.headD 1024) 1024)) w
        rcases hx : BufWriter.Write h path b (rest.take (min (sizes.headD 1024) 1024)) w
          with ⟨_ | e2, b1, w1⟩
        · rw [hx] at hw
          try simp only []
          exact hw.seq (ih _ _ _ _)
        · rw [hx] at hw
          exact hw

/-- The events of `Copy` are the opening of the remote file and writes on it. -/
theorem Copy_sftp {σ : Type} (h : Host σ) (P : Event → Prop) (scp : SecureCopyClient)
    (data : Reader) (filepath : String) (hop : P (Event.sftpOpen filepath))
    (hwr : ∀ d, P (Event.sftpWrite filepath d)) (w : World σ) :
    Adds P w (Copy h scp data filepath w).2 := by
  unfold Copy
  split
  · exact ⟨[], by simp, by simp⟩
  · split
    · exact ⟨[], by simp, by simp⟩
    · simp only []
      split
      · exact ⟨[], by simp, by simp⟩
      · split
        · exact ⟨[], by simp, by simp⟩
        · simp only []
          rename_i s2 _
          exact ((Adds.one P s2 w.trace (Event.sftpOpen filepath) w rfl hop).seq
            (copyLoop_sftp h P filepath hwr _ _ _ _ _ _)).seq (Flush_sftp h P filepath hwr _ _)

theorem remoteFile_snoc (path : String) (tr : List Event) (e : Event) :
    remoteFile path (tr ++ [e]) =
      (match e with
        | Event.sftpOpen p => if p = path then [] else remoteFile path tr
        | Event.sftpWrite p d => if p = path then remoteFile path tr ++ d else remoteFile path tr
        | _ => remoteFile path tr) := by
  simp [remoteFile, List.foldl_append]

/-- With a writer that takes every byte, a flush keeps the bytes of the file and
of the buffer together, and leaves the buffer empty. -/
theorem Flush_content {σ : Type} (h : Host σ) (path : String)
    (hwrite : ∀ s d, (h.write s path d).1 = (d.length, none)) (b : BufWriter) (w : World σ)
    (hb : b.err = none) :
    (BufWriter.Flush h path b w).1 = none ∧
    (BufWriter.Flush h path b w).2.1 = { buf := [], err := none } ∧
    remoteFile path (BufWriter.Flush h path b w).2.2.trace = remoteFile path w.trace ++ b.buf := by
  obtain ⟨buf, err⟩ := b
  cases hb
  have hw := hwrite w.host buf
  unfold BufWriter.Flush
  rcases hx : h.write w.host path buf with ⟨⟨n, err⟩, s⟩
  rw [hx] at hw
  simp only [Prod.mk.injEq] at hw
  obtain ⟨hn, he⟩ := hw
  subst hn
  subst he
  by_cases hl : buf.length = 0
  · have hnil : buf = [] := List.length_eq_zero.mp hl
    simp [hnil]
  · simp [hl, remoteFile_snoc]

/-- With a writer that takes every byte, a write keeps the bytes of the file and
of the buffer together and adds the bytes written behind them. -/
theorem Write_content {σ : Type} (h : Host σ) (path : String)
    (hwrite : ∀ s d, (h.write s path d).1 = (d.length, none)) (b : BufWriter) (p : Bytes)
    (w : World σ) (hb : b.err = none) :
    (BufWriter.Write h path b p w).1 = none ∧
    (BufWriter.Write h path b p w).2.1.err = none ∧
    remoteFile path (BufWriter.Write h path b p w).2.2.trace ++
        (BufWriter.Write h path b p w).2.1.buf =
      remoteFile path w.trace ++ b.buf ++ p := by
  obtain ⟨buf, err⟩ := b
  cases hb
  unfold BufWriter.Write
  by_cases hc : p.length > 4096 - buf.length
  · have hf := Flush_content h path hwrite
      { buf := buf ++ p.take (4096 - buf.length), err := none } w rfl
    rcases hx : BufWriter.Flush h path { buf := buf ++ p.take (4096 - buf.length), err := none } w
      with ⟨e, b1, w1⟩
    rw [hx] at hf
    obtain ⟨_, hb1, htr⟩ := hf
    simp only [] at hb1 htr
    subst hb1
    simp only [hc, and_self, if_true, hx, htr]
    simp [List.append_assoc]
  · simp only [hc, false_and, if_false]
    simp

/-- The read loop with a writer that takes every byte: with enough fuel for the
reads, every byte left in the reader is put behind the bytes of the file and of
the buffer, and the loop ends with the error of the reader, if any. -/
theorem copyLoop_content {σ : Type} (h : Host σ) (path : String)
    (hwrite : ∀ s d, (h.write s path d).1 = (d.length, none)) (fuel : Nat) (sizes : List Nat)
    (rest : Bytes) (b : BufWriter) (w : World σ) (hb : b.err = none)
    (hfuel : rest.length + sizes.length < fuel) :
    (copyLoop h path fuel sizes rest none b w).1 = none ∧
    (copyLoop h path fuel sizes rest none b w).2.1.err = none ∧
    remoteFile path (copyLoop h path fuel sizes rest none b w).2.2.trace ++
        (copyLoop h path fuel sizes rest none b w).2.1.buf =
      remoteFile path w.trace ++ b.buf ++ rest := by
  induction fuel generalizing sizes rest b w with
  | zero => omega
  | succ n ih =>
    unfold copyLoop
    by_cases hr : rest.isEmpty = true
    · have hnil : rest = [] := by simpa using hr
      simp [hr, hb, hnil]
    · have hne : rest ≠ [] := by simpa using hr
      have hpos : 0 < rest.length := List.length_pos.mpr hne
      simp only [hr, Bool.false_eq_true, if_false]
      by_cases hz : min (sizes.headD 1024) 1024 = 0
      · simp only [hz, if_true]
        have hs : sizes ≠ [] := by
          intro e
          rw [e] at hz
          simp at hz
        have hlen : sizes.tail.length + 1 = sizes.length := by
          cases sizes with
          | nil => exact absurd rfl hs
          | cons a t => simp
        exact ih sizes.tail rest b w hb (by omega)
      · simp only [hz, if_false]
        have hw := Write_content h path hwrite b (rest.take (min (sizes.headD 1024) 1024)) w hb
        rcases hx : BufWriter.Write h path b (rest.take (min (sizes.headD 1024) 1024)) w
          with ⟨e, b1, w1⟩
        rw [hx] at hw
        obtain ⟨he, hb1, htr⟩ := hw
        simp only [] at he hb1 htr
        subst he
        simp only []
        have hdrop : (rest.drop (min (sizes.headD 1024) 1024)).length < rest.length := by
          rw [List.length_drop]
          omega
        have hih := ih sizes.tail (rest.drop (min (sizes.headD 1024) 1024)) b1 w1 hb1
          (by
            have : sizes.tail.length ≤ sizes.length := by
              cases sizes <;> simp
            omega)
        refine ⟨hih.1, hih.2.1, ?_⟩
        rw [hih.2.2, htr, List.append_assoc, List.append_assoc, List.take_append_drop]
        simp [List.append_assoc]

end ssh

namespace ssh

open Go

/-- What `Copy` does once the SFTP client is started, the directories are made
(or exist) and the remote file is opened: the read loop on the reader, rewound
when it is seekable, then the flush whose error is dropped. -/
theorem Copy_opened {σ : Type} (h : Host σ) (scp : SecureCopyClient) (data : Reader)
    (path : String) (w : World σ)
    (hsftp : ∀ s, (h.sftpNew s).1 = none)
    (hseek : data.seekable = true → data.seekErr = none)
    (hmk : ∀ s, (h.mkdirAll s (pathDir path)).1.filter (fun e => !e.exist) = none)
    (hopen : ∀ s, (h.openFile s path).1 = none) :
    ∃ s2 : σ,
      Copy h scp data path w =
        ((copyLoop h path
            ((data.data.drop (if data.seekable then 0 else data.pos)).length +
              data.sizes.length + 1)
            data.sizes (data.data.drop (if data.seekable then 0 else data.pos)) data.readErr {}
            ⟨s2, w.trace ++ [Event.sftpOpen path]⟩).1,
         (BufWriter.Flush h path
            (copyLoop h path
              ((data.data.drop (if data.seekable then 0 else data.pos)).length +
                data.sizes.length + 1)
              data.sizes (data.data.drop (if data.seekable then 0 else data.pos)) data.readErr {}
              ⟨s2, w.trace ++ [Event.sftpOpen path]⟩).2.1
            (copyLoop h path
              ((data.data.drop (if data.seekable then 0 else data.pos)).length +
                data.sizes.length + 1)
              data.sizes (data.data.drop (if data.seekable then 0 else data.pos)) data.readErr {}
              ⟨s2, w.trace ++ [Event.sftpOpen path]⟩).2.2).2.2) := by
  have h1 := hsftp w.host
  rcases hx1 : h.sftpNew w.host with ⟨e0, s0⟩
  rw [hx1] at h1
  simp only [] at h1
  subst h1
  have h2 := hmk s0
  rcases hx2 : h.mkdirAll s0 (pathDir path) with ⟨mk, s1⟩
  rw [hx2] at h2
  simp only [] at h2
  have h3 := hopen s1
  rcases hx3 : h.openFile s1 path with ⟨e3, s2⟩
  rw [hx3] at h3
  simp only [] at h3
  subst h3
  refine ⟨s2, ?_⟩
  have hse : (if data.seekable = true then data.seekErr else none) = none := by
    by_cases hs : data.seekable = true
    · simp [hs, hseek hs]
    · simp [hs]
  unfold Copy
  simp only [hx1, hse, hx2, h2, hx3]
  by_cases hs : data.seekable = true <;> simp [hs]

/-- C24: for every byte sequence in a seekable reader (one whose `Seek` works),
at whatever offset the reader stands and in whatever sizes its reads come, on a
host where the SFTP client starts, the directories are made or exist, the file
opens and every write takes all its bytes, `Copy` returns no error and the
bytes it has put in the remote file (opened with truncation, then written in
order, the last of them by the final flush) are the whole sequence from offset
0. -/
theorem Copy_round_trip {σ : Type} (h : Host σ) (scp : SecureCopyClient) (data : Bytes)
    (pos : Nat) (sizes : List Nat) (path : String) (w : World σ)
    (hsftp : ∀ s, (h.sftpNew s).1 = none)
    (hmk : ∀ s, (h.mkdirAll s (pathDir path)).1.filter (fun e => !e.exist) = none)
    (hopen : ∀ s, (h.openFile s path).1 = none)
    (hwrite : ∀ s d, (h.write s path d).1 = (d.length, none)) :
    (Copy h scp { data := data, pos := pos, seekable := true, sizes := sizes } path w).1 = none ∧
    remoteFile path
        (Copy h scp { data := data, pos := pos, seekable := true, sizes := sizes } path w).2.trace =
      data := by
  obtain ⟨s2, hc⟩ := Copy_opened h scp
    { data := data, pos := pos, seekable := true, sizes := sizes } path w hsftp (fun _ => rfl)
    hmk hopen
  simp only [if_true, List.drop_zero] at hc
  rw [hc]
  have hl := copyLoop_content h path hwrite (data.length + sizes.length + 1) sizes data {}
    ⟨s2, w.trace ++ [Event.sftpOpen path]⟩ rfl (Nat.lt_succ_self _)
  have hf := Flush_content h path hwrite
    (copyLoop h path (data.length + sizes.length + 1) sizes data none {}
      ⟨s2, w.trace ++ [Event.sftpOpen path]⟩).2.1
    (copyLoop h path (data.length + sizes.length + 1) sizes data none {}
      ⟨s2, w.trace ++ [Event.sftpOpen path]⟩).2.2 hl.2.1
  refine ⟨hl.1, ?_⟩
  simp only []
  rw [hf.2.2, hl.2.2]
  simp [remoteFile_snoc]

set_option maxRecDepth 100000 in
/-- C24 on a host with a file system: the bytes of `hello this is a test`, in a
reader that stands at offset 7 and whose first reads deliver 3, 0 and 5 bytes,
are the bytes of `/tmp/hello.txt` after the copy, and `/bin/cat` gives them
back. -/
theorem Copy_round_trip_witness :
    remoteFile "/tmp/hello.txt"
        (Copy Examples.diskHost (NewSecureCopyClient (New "root"))
          { data := bytesOf "hello this is a test", pos := 7, seekable := true,
            sizes := [3, 0, 5] }
          "/tmp/hello.txt" ⟨{}, []⟩).2.trace = bytesOf "hello this is a test" ∧
    (Execf Examples.diskHost (New "root") "/bin/cat /tmp/hello.txt" []
        (Copy Examples.diskHost (NewSecureCopyClient (New "root"))
          { data := bytesOf "hello this is a test", pos := 7, seekable := true,
            sizes := [3, 0, 5] }
          "/tmp/hello.txt" ⟨{}, []⟩).2).1 = .ok "hello this is a test" :=
  ⟨(Copy_round_trip Examples.diskHost (NewSecureCopyClient (New "root"))
      (bytesOf "hello this is a test") 7 [3, 0, 5] "/tmp/hello.txt" ⟨{}, []⟩
      (fun _ => rfl) (fun _ => rfl) (fun _ => rfl) (fun _ _ => rfl)).2, by decide⟩

end ssh

/-! ## The flush at the end of `Copy` -/

namespace ssh

open Go

/-- While the bytes still to read fit in the buffer of the writer next to those
it holds, the read loop makes no remote write and returns no error. -/
theorem copyLoop_buffered {σ : Type} (h : Host σ) (path : String) (fuel : Nat)
    (sizes : List Nat) (rest : Bytes) (b : BufWriter) (w : World σ) (hb : b.err = none)
    (hfit : b.buf.length + rest.length ≤ 4096) :
    (copyLoop h path fuel sizes rest none b w).1 = none ∧
    (copyLoop h path fuel sizes rest none b w).2.2 = w := by
  induction fuel generalizing sizes rest b with
  | zero => exact ⟨rfl, rfl⟩
  | succ n ih =>
    unfold copyLoop
    by_cases hr : rest.isEmpty = true
    · simp [hr]
    · simp only [hr, Bool.false_eq_true, if_false]
      by_cases hz : min (sizes.headD 1024) 1024 = 0
      · simp only [hz, if_true]
        exact ih _ _ _ hb hfit
      · simp only [hz, if_false]
        have hlen : (rest.take (min (sizes.headD 1024) 1024)).length ≤ rest.length := by
          rw [List.length_take]
          exact Nat.min_le_right _ _
        have hnot : ¬ ((rest.take (min (sizes.headD 1024) 1024)).length > 4096 - b.buf.length ∧
            b.err = none) := by
          intro hc
          omega
        have hw : BufWriter.Write h path b (rest.take (min (sizes.headD 1024) 1024)) w =
            (none, { b with buf := b.buf ++ rest.take (min (sizes.headD 1024) 1024) }, w) := by
          unfold BufWriter.Write
          rw [if_neg hnot]
          simp only [hb]
        rw [hw]
        simp only []
        refine ih _ _ _ hb ?_
        simp only [List.length_append, List.length_take, List.length_drop]
        omega

/-- C29, what the code does: when the SFTP client starts, the directories are
made or exist, the file opens, the reader has no error and at most 4096 bytes
are to be copied, `Copy` returns no error whatever the remote writer does: the
only write is that of the final flush, whose error is logged and dropped. -/
theorem Copy_flush_error_dropped {σ : Type} (h : Host σ) (scp : SecureCopyClient)
    (data : Reader) (path : String) (w : World σ)
    (hsftp : ∀ s, (h.sftpNew s).1 = none)
    (hseek : data.seekable = true → data.seekErr = none)
    (hmk : ∀ s, (h.mkdirAll s (pathDir path)).1.filter (fun e => !e.exist) = none)
    (hopen : ∀ s, (h.openFile s path).1 = none)
    (hread : data.readErr = none)
    (hlen : (data.data.drop (if data.seekable then 0 else data.pos)).length ≤ 4096) :
    (Copy h scp data path w).1 = none := by
  obtain ⟨s2, hc⟩ := Copy_opened h scp data path w hsftp hseek hmk hopen
  rw [hc, hread]
  exact (copyLoop_buffered h path _ data.sizes _ {} _ rfl (by simpa using hlen)).1

set_option maxRecDepth 100000 in
/-- C29 on a host with a full disk: the copy of the five bytes of `hello`
returns no error, and the remote file is empty. -/
theorem Copy_flush_error_dropped_witness :
    Copy Examples.fullDiskHost (NewSecureCopyClient (New "root")) (NewReader (bytesOf "hello"))
        "/tmp/hello.txt" ⟨{}, []⟩ =
      (none, ⟨{ files := [("/tmp/hello.txt", [])] },
        [Event.sftpOpen "/tmp/hello.txt", Event.sftpWrite "/tmp/hello.txt" []]⟩) ∧
    remoteFile "/tmp/hello.txt"
        (Copy Examples.fullDiskHost (NewSecureCopyClient (New "root"))
          (NewReader (bytesOf "hello")) "/tmp/hello.txt" ⟨{}, []⟩).2.trace = [] := by
  have h1 := Copy_flush_error_dropped Examples.fullDiskHost (NewSecureCopyClient (New "root"))
    (NewReader (bytesOf "hello")) "/tmp/hello.txt" ⟨{}, []⟩ (fun _ => rfl) (fun _ => rfl)
    (fun _ => rfl) (fun _ => rfl) rfl (by decide)
  have h2 : (Copy Examples.fullDiskHost (NewSecureCopyClient (New "root"))
      (NewReader (bytesOf "hello")) "/tmp/hello.txt" ⟨{}, []⟩).2 =
      ⟨{ files := [("/tmp/hello.txt", [])] },
        [Event.sftpOpen "/tmp/hello.txt", Event.sftpWrite "/tmp/hello.txt" []]⟩ := by decide
  exact ⟨Prod.ext h1 h2, by rw [h2]; decide⟩

end ssh

/-! ## The reader that `Transfer` drains and then copies -/

namespace files

open Go manifest ssh

/-- The copy from a reader that is at its end and is not seekable: the remote
file is opened (truncated) and nothing is written to it. -/
theorem Copy_drained {σ : Type} (h : Host σ) (scp : SecureCopyClient) (reader : Reader)
    (path : String) (w : World σ)
    (hns : reader.seekable = false) (hre : reader.readErr = none)
    (hsftp : ∀ s, (h.sftpNew s).1 = none)
    (hmk : ∀ s, (h.mkdirAll s (pathDir path)).1.filter (fun e => !e.exist) = none)
    (hopen : ∀ s, (h.openFile s path).1 = none) :
    ∃ s2 : σ, Copy h scp (ReadAll reader).2.2 path w =
      (none, ⟨s2, w.trace ++ [Event.sftpOpen path]⟩) := by
  obtain ⟨s2, hc⟩ := Copy_opened h scp (ReadAll reader).2.2 path w hsftp
    (by simp [ReadAll, hns]) hmk hopen
  refine ⟨s2, ?_⟩
  rw [hc]
  simp [ReadAll, hns, hre, copyLoop, BufWriter.Flush]

/-- For a reader that is not seekable, on a file whose remote copy is absent or
has another SHA-256 than the bytes read, `Transfer` hands the drained reader to
`Copy`, which opens the temporary file and writes nothing to it; when the
read-back and the move succeed, `Transfer` returns `changed = true` with no
error. The bytes read and hashed are those that were left in the reader; the
bytes handed to the remote copy are none. -/
theorem Transfer_drained_reader {σ : Type} (h : Host σ) (fm : FileManager)
    (scp : SecureCopyClient) (c : Client) (f : File) (reader : Reader) (w w1 : World σ)
    (r : Except GoError files.Stat)
    (hscp : fm.scp = some scp) (hssh : fm.ssh = some c)
    (hns : reader.seekable = false) (hre : reader.readErr = none)
    (hdiff : match r with
      | .ok st => st.Sha256 ≠ sha256Hex (ReadAll reader).1
      | .error e => e.notExist = true)
    (hstat : fm.Stat h f w = (.ret r, w1))
    (hsftp : ∀ s, (h.sftpNew s).1 = none)
    (hmk : ∀ s, (h.mkdirAll s (pathDir (tmpName f.Path))).1.filter (fun e => !e.exist) = none)
    (hopen : ∀ s, (h.openFile s (tmpName f.Path)).1 = none) :
    ∃ s2 : σ,
      Copy h scp (ReadAll reader).2.2 (tmpName f.Path) w1 =
        (none, ⟨s2, w1.trace ++ [Event.sftpOpen (tmpName f.Path)]⟩) ∧
      remoteFile (tmpName f.Path) (w1.trace ++ [Event.sftpOpen (tmpName f.Path)]) = [] ∧
      ∀ out3 w3 out4 w4,
        Execf h c ("/bin/cat " ++ tmpName f.Path) []
          ⟨s2, w1.trace ++ [Event.sftpOpen (tmpName f.Path)]⟩ = (.ok out3, w3) →
        Execf h c ("mv " ++ tmpName f.Path ++ " " ++ f.Path) [] w3 = (.ok out4, w4) →
        fm.Transfer h f reader w = (.ret (true, none), w4) := by
  obtain ⟨s2, hcopy⟩ := Copy_drained h scp reader (tmpName f.Path) w1 hns hre hsftp hmk hopen
  refine ⟨s2, hcopy, by simp [remoteFile_snoc], ?_⟩
  intro out3 w3 out4 w4 hx3 hx4
  have hra : ReadAll reader = ((ReadAll reader).1, none, (ReadAll reader).2.2) := by
    simp [ReadAll, hre]
  unfold FileManager.Transfer
  simp only [hscp, hstat, hssh]
  rw [hra]
  cases r with
  | error e =>
    simp only [] at hdiff
    simp [hdiff, hcopy, hx3, hx4]
  | ok st =>
    simp only [] at hdiff
    have hne : ¬ sha256Hex (ReadAll reader).1 = st.Sha256 := fun e => hdiff e.symm
    simp [hne, hcopy, hx3, hx4]

/-- The copy from a seekable reader whose `Seek` works and that has no read
error, on a host where the SFTP client starts, the directories are made or
exist, the file opens and every write takes all its bytes: no error, and the
remote file holds all the bytes of the reader. -/
theorem Copy_content {σ : Type} (h : Host σ) (scp : SecureCopyClient) (reader : Reader)
    (path : String) (w : World σ)
    (hseek : reader.seekable = true) (hserr : reader.seekErr = none)
    (hre : reader.readErr = none)
    (hsftp : ∀ s, (h.sftpNew s).1 = none)
    (hmk : ∀ s, (h.mkdirAll s (pathDir path)).1.filter (fun e => !e.exist) = none)
    (hopen : ∀ s, (h.openFile s path).1 = none)
    (hwrite : ∀ s d, (h.write s path d).1 = (d.length, none)) :
    (Copy h scp reader path w).1 = none ∧
    remoteFile path (Copy h scp reader path w).2.trace = reader.data := by
  obtain ⟨s2, hc⟩ := Copy_opened h scp reader path w hsftp (fun _ => hserr) hmk hopen
  simp only [hseek, if_true, List.drop_zero] at hc
  rw [hc, hre]
  have hl := copyLoop_content h path hwrite (reader.data.length + reader.sizes.length + 1)
    reader.sizes reader.data {} ⟨s2, w.trace ++ [Event.sftpOpen path]⟩ rfl (Nat.lt_succ_self _)
  have hf := Flush_content h path hwrite
    (copyLoop h path (reader.data.length + reader.sizes.length + 1) reader.sizes reader.data
      none {} ⟨s2, w.trace ++ [Event.sftpOpen path]⟩).2.1
    (copyLoop h path (reader.data.length + reader.sizes.length + 1) reader.sizes reader.data
      none {} ⟨s2, w.trace ++ [Event.sftpOpen path]⟩).2.2 hl.2.1
  refine ⟨hl.1, ?_⟩
  simp only []
  rw [hf.2.2, hl.2.2]
  simp [remoteFile_snoc]

/-- C28 as amended: for a seekable reader passed to `Transfer` at offset 0 (as
the reader that `Render` builds), without a read or seek error, on a file whose
remote copy is absent or has another SHA-256 than the bytes read: the bytes
`Transfer` reads and hashes are all the bytes of the reader; the copy it then
makes from the drained reader is the copy from the reader as it was passed,
since `Copy` rewinds it; and on a host where the SFTP client starts, the
directories are made or exist, the file opens and every write takes all its
bytes, that copy returns no error and puts in the temporary file exactly the
bytes that were read and hashed. When the read-back and the move then succeed
`Transfer` returns `changed = true`. -/
theorem Transfer_copies_what_it_read {σ : Type} (h : Host σ) (fm : FileManager)
    (scp : SecureCopyClient) (c : Client) (f : File) (reader : Reader) (w w1 : World σ)
    (r : Except GoError files.Stat)
    (hscp : fm.scp = some scp) (hssh : fm.ssh = some c)
    (hseek : reader.seekable = true) (hpos : reader.pos = 0)
    (hserr : reader.seekErr = none) (hre : reader.readErr = none)
    (hdiff : match r with
      | .ok st => st.Sha256 ≠ sha256Hex (ReadAll reader).1
      | .error e => e.notExist = true)
    (hstat : fm.Stat h f w = (.ret r, w1)) :
    (ReadAll reader).1 = reader.data ∧
    Copy h scp (ReadAll reader).2.2 (tmpName f.Path) w1 = Copy h scp reader (tmpName f.Path) w1 ∧
    ((∀ s, (h.sftpNew s).1 = none) →
      (∀ s, (h.mkdirAll s (pathDir (tmpName f.Path))).1.filter (fun e => !e.exist) = none) →
      (∀ s, (h.openFile s (tmpName f.Path)).1 = none) →
      (∀ s d, (h.write s (tmpName f.Path) d).1 = (d.length, none)) →
      (Copy h scp (ReadAll reader).2.2 (tmpName f.Path) w1).1 = none ∧
      remoteFile (tmpName f.Path)
          (Copy h scp (ReadAll reader).2.2 (tmpName f.Path) w1).2.trace = (ReadAll reader).1 ∧
      ∀ out3 w3 out4 w4,
        Execf h c ("/bin/cat " ++ tmpName f.Path) []
          (Copy h scp (ReadAll reader).2.2 (tmpName f.Path) w1).2 = (.ok out3, w3) →
        Execf h c ("mv " ++ tmpName f.Path ++ " " ++ f.Path) [] w3 = (.ok out4, w4) →
        fm.Transfer h f reader w = (.ret (true, none), w4)) := by
  have hread : (ReadAll reader).1 = reader.data := by
    simp [ReadAll, hpos]
  have hsame : Copy h scp (ReadAll reader).2.2 (tmpName f.Path) w1 =
      Copy h scp reader (tmpName f.Path) w1 := by
    simp [Copy, ReadAll, hseek]
  refine ⟨hread, hsame, ?_⟩
  intro hsftp hmk hopen hwrite
  have hc := Copy_content h scp reader (tmpName f.Path) w1 hseek hserr hre hsftp hmk hopen hwrite
  rw [hsame, hread]
  refine ⟨hc.1, hc.2, ?_⟩
  intro out3 w3 out4 w4 hx3 hx4
  have hra : ReadAll reader = ((ReadAll reader).1, none, (ReadAll reader).2.2) := by
    simp [ReadAll, hre]
  have hcopy : Copy h scp (ReadAll reader).2.2 (tmpName f.Path) w1 =
      (none, (Copy h scp reader (tmpName f.Path) w1).2) := by
    rw [hsame]
    exact Prod.ext hc.1 rfl
  unfold FileManager.Transfer
  simp only [hscp, hstat, hssh]
  rw [hra]
  cases r with
  | error e =>
    simp only [] at hdiff
    simp [hdiff, hcopy, hx3, hx4]
  | ok st =>
    simp only [] at hdiff
    have hne : ¬ sha256Hex (ReadAll reader).1 = st.Sha256 := fun e => hdiff e.symm
    simp [hne, hcopy, hx3, hx4]

set_option maxRecDepth 100000 in
/-- C28 as amended, on a host with a file system that does not hold the file:
from the reader that `bytes.NewReader` gives on the bytes of `hello`, `Transfer`
reads and hashes those bytes, copies them to `/tmp/motd` and moves them to
`/etc/motd`. -/
theorem Transfer_copies_what_it_read_witness :
    (ReadAll (NewReader (bytesOf "hello"))).1 = bytesOf "hello" ∧
    remoteFile "/tmp/motd"
        (Copy Examples.diskHost (NewSecureCopyClient (ssh.New "root"))
          (ReadAll (NewReader (bytesOf "hello"))).2.2 (tmpName Examples.motdFile.Path)
          ⟨{}, [Event.exec "stat -c '%n,%F,%s,%U,%G,%y' /etc/motd"]⟩).2.trace =
      (ReadAll (NewReader (bytesOf "hello"))).1 ∧
    FileManager.Transfer Examples.diskHost
        { manifest := {}, ssh := some (ssh.New "root"),
          scp := some (NewSecureCopyClient (ssh.New "root")) }
        Examples.motdFile (NewReader (bytesOf "hello")) ⟨{}, []⟩ =
      (.ret (true, none),
        ⟨{ files := [("/etc/motd", bytesOf "hello")] },
          [Event.exec "stat -c '%n,%F,%s,%U,%G,%y' /etc/motd", Event.sftpOpen "/tmp/motd",
            Event.sftpWrite "/tmp/motd" (bytesOf "hello"), Event.exec "/bin/cat /tmp/motd",
            Event.exec "mv /tmp/motd /etc/motd"]⟩) := by
  have ht := Transfer_copies_what_it_read Examples.diskHost
    { manifest := {}, ssh := some (ssh.New "root"),
      scp := some (NewSecureCopyClient (ssh.New "root")) }
    (NewSecureCopyClient (ssh.New "root")) (ssh.New "root") Examples.motdFile
    (NewReader (bytesOf "hello")) ⟨{}, []⟩
    ⟨{}, [Event.exec "stat -c '%n,%F,%s,%U,%G,%y' /etc/motd"]⟩ (.error ErrNotExist)
    rfl rfl rfl rfl rfl rfl rfl (by decide)
  obtain ⟨_, hrem, hres⟩ := ht.2.2 (fun _ => rfl) (fun _ => rfl) (fun _ => rfl) (fun _ _ => rfl)
  exact ⟨ht.1, hrem, hres "hello"
    ⟨{ files := [("/tmp/motd", bytesOf "hello")] },
      [Event.exec "stat -c '%n,%F,%s,%U,%G,%y' /etc/motd", Event.sftpOpen "/tmp/motd",
        Event.sftpWrite "/tmp/motd" (bytesOf "hello"), Event.exec "/bin/cat /tmp/motd"]⟩
    ""
    ⟨{ files := [("/etc/motd", bytesOf "hello")] },
      [Event.exec "stat -c '%n,%F,%s,%U,%G,%y' /etc/motd", Event.sftpOpen "/tmp/motd",
        Event.sftpWrite "/tmp/motd" (bytesOf "hello"), Event.exec "/bin/cat /tmp/motd",
        Event.exec "mv /tmp/motd /etc/motd"]⟩
    (by decide) (by decide)⟩

set_option maxRecDepth 100000 in
/-- C28, the inputs on which the claim fails, on a host with a file system that
does not hold the file. From a reader on the bytes of `hello` that is not
seekable, `Transfer` reads and hashes the five bytes, hands the drained reader
to `Copy`, which writes nothing, and reports a change with `/etc/motd` left
empty. From a seekable reader on the same bytes passed at offset 3, `Transfer`
reads and hashes the last two bytes, and `Copy`, which rewinds, copies all
five. -/
theorem Transfer_reader_counterexample :
    (ReadAll { data := bytesOf "hello", seekable := false }).1 = bytesOf "hello" ∧
    FileManager.Transfer Examples.diskHost
        { manifest := {}, ssh := some (ssh.New "root"),
          scp := some (NewSecureCopyClient (ssh.New "root")) }
        Examples.motdFile { data := bytesOf "hello", seekable := false } ⟨{}, []⟩ =
      (.ret (true, none),
        ⟨{ files := [("/etc/motd", [])] },
          [Event.exec "stat -c '%n,%F,%s,%U,%G,%y' /etc/motd", Event.sftpOpen "/tmp/motd",
            Event.exec "/bin/cat /tmp/motd", Event.exec "mv /tmp/motd /etc/motd"]⟩) ∧
    (ReadAll { data := bytesOf "hello", pos := 3 }).1 = bytesOf "lo" ∧
    FileManager.Transfer Examples.diskHost
        { manifest := {}, ssh := some (ssh.New "root"),
          scp := some (NewSecureCopyClient (ssh.New "root")) }
        Examples.motdFile { data := bytesOf "hello", pos := 3 } ⟨{}, []⟩ =
      (.ret (true, none),
        ⟨{ files := [("/etc/motd", bytesOf "hello")] },
          [Event.exec "stat -c '%n,%F,%s,%U,%G,%y' /etc/motd", Event.sftpOpen "/tmp/motd",
            Event.sftpWrite "/tmp/motd" (bytesOf "hello"), Event.exec "/bin/cat /tmp/motd",
            Event.exec "mv /tmp/motd /etc/motd"]⟩) := by
  decide

end files

/-! ## The command strings on the wire -/

namespace Go

/-- The directive `%%` writes a percent sign and takes no argument. -/
theorem verbStep_percent (rest : List Char) (args : List String) (n : Nat) (r : Bool) :
    verbStep ('%' :: rest) args n r = ⟨['%'], rest, n, r⟩ := by
  have hA : ∀ k, argNumber n ('%' :: rest) k = ⟨n, '%' :: rest, false, true, false⟩ := by
    intro k
    simp [argNumber]
  have hp : parsenum ('%' :: rest) 0 false = some (0, false, '%' :: rest) := by
    have hd : isDigit '%' = false := by decide
    simp [parsenum, hd]
  have hW : ∀ bad, widthOrPrec ('%' :: rest) args n bad = ([], '%' :: rest, n, false, false) := by
    intro bad
    simp [widthOrPrec, hp]
  simp [verbStep, isFlag, hA, hW]

end Go

namespace ssh

open Go

/-- The command of `RemoveOne` on the wire of a root client. -/
theorem wire_rm (path : String) : (New "root").wire "rm -f %s" [path] = "rm -f " ++ path := by
  apply String.ext
  simp [Client.wire, New, Sprintf, doPrintf, verbStep, printArg, extraArgs, isFlag]

/-- A command text without a percent sign on the wire of a root client. -/
theorem wire_root (cmd : String) (hp : '%' ∉ cmd.data) : (New "root").wire cmd [] = cmd := by
  unfold Client.wire
  simp [New, Sprintf_noPercent cmd hp]

end ssh

namespace files

open Go manifest ssh

/-- The first command of `Stat` on the wire of a root client. -/
theorem wire_stat (path : String) :
    (ssh.New "root").wire statFormat [path] = "stat -c '%n,%F,%s,%U,%G,%y' " ++ path := by
  apply String.ext
  simp [Client.wire, ssh.New, Sprintf, statFormat, doPrintf, verbStep_percent]
  simp [verbStep, printArg, extraArgs, isFlag]

/-- The temporary name has no percent sign when the path has none. -/
theorem tmpName_noPercent (path : String) (hp : '%' ∉ path.data) : '%' ∉ (tmpName path).data := by
  by_cases h1 : pathBase path = "."
  · have e : tmpName path = "/tmp" := by
      unfold tmpName
      rw [h1]
      decide
    rw [e]
    decide
  · by_cases h2 : pathBase path = ".."
    · have e : tmpName path = "/" := by
        unfold tmpName
        rw [h2]
        decide
      rw [e]
      decide
    · by_cases h3 : pathBase path = "/"
      · have e : tmpName path = "/tmp" := by
          unfold tmpName
          rw [h3]
          decide
        rw [e]
        decide
      · have e : tmpName path = "/tmp/" ++ pathBase path :=
          pathJoin_tmp _ (pathBase_ne_empty _) h1 h2 (pathBase_noSlash _ h3)
        rw [e]
        simp only [String.data_append, List.mem_append, not_or]
        exact ⟨by decide, pathBase_noPercent _ hp⟩

/-- The events `Stat` adds are its two commands. -/
theorem Stat_sends {σ : Type} (h : Host σ) (fm : FileManager) (c : Client) (P : Event → Prop)
    (hssh : fm.ssh = some c) (f : File) (w : World σ)
    (h1 : P (Event.exec (c.wire statFormat [f.Path])))
    (h2 : P (Event.exec (c.wire (shaCommand f.Path) []))) :
    Adds P w (fm.Stat h f w).2 := by
  unfold FileManager.Stat
  simp only [hssh]
  have hq1 := Execf_adds h c P statFormat [f.Path] w h1
  rcases hx1 : Execf h c statFormat [f.Path] w with ⟨_ | out, w1⟩
  · rw [hx1] at hq1
    simp only []
    split <;> exact hq1
  · rw [hx1] at hq1
    simp only []
    split
    · exact hq1
    · have hq2 := Execf_adds h c P (shaCommand f.Path) [] w1 h2
      rcases hx2 : Execf h c (shaCommand f.Path) [] w1 with ⟨_ | out2, w2⟩ <;>
        (rw [hx2] at hq2; exact hq1.seq hq2)

/-- The first event `Stat` adds, if it adds one, is its `stat` command. -/
theorem Stat_first {σ : Type} (h : Host σ) (fm : FileManager) (c : Client)
    (hssh : fm.ssh = some c) (f : File) (w : World σ) :
    (fm.Stat h f w).2.trace = w.trace ∨
      ∃ l, (fm.Stat h f w).2.trace = w.trace ++ Event.exec (c.wire statFormat [f.Path]) :: l := by
  unfold FileManager.Stat
  simp only [hssh]
  rcases hx1 : Execf h c statFormat [f.Path] w with ⟨e1 | out, w1⟩
  · have ht := Execf_trace h c statFormat [f.Path] w
    rw [hx1] at ht
    simp only [] at ht
    simp only []
    split
    · rcases ht with ht | ht
      · exact Or.inl ht
      · exact Or.inr ⟨[], ht⟩
    · rcases ht with ht | ht
      · exact Or.inl ht
      · exact Or.inr ⟨[], ht⟩
  · have ht := Execf_ok h c statFormat [f.Path] w w1 out hx1
    simp only []
    split
    · exact Or.inr ⟨[], ht⟩
    · have ht2 := Execf_trace h c (shaCommand f.Path) [] w1
      rcases hx2 : Execf h c (shaCommand f.Path) [] w1 with ⟨_ | out2, w2⟩ <;>
        (rw [hx2] at ht2
         simp only [] at ht2 ⊢
         rcases ht2 with ht2 | ht2
         · exact Or.inr ⟨[], by rw [ht2, ht]⟩
         · exact Or.inr ⟨[Event.exec (c.wire (shaCommand f.Path) [])], by rw [ht2, ht]; simp⟩)

/-- The events `Transfer` adds: the commands of `Stat`, the SFTP requests on the
temporary file, the read-back and the move. -/
theorem Transfer_sends {σ : Type} (h : Host σ) (fm : FileManager) (c : Client)
    (P : Event → Prop) (hssh : fm.ssh = some c) (f : File) (reader : Reader) (w : World σ)
    (h1 : P (Event.exec (c.wire statFormat [f.Path])))
    (h2 : P (Event.exec (c.wire (shaCommand f.Path) [])))
    (hop : P (Event.sftpOpen (tmpName f.Path)))
    (hwr : ∀ d, P (Event.sftpWrite (tmpName f.Path) d))
    (h3 : P (Event.exec (c.wire ("/bin/cat " ++ tmpName f.Path) [])))
    (h4 : P (Event.exec (c.wire ("mv " ++ tmpName f.Path ++ " " ++ f.Path) []))) :
    Adds P w (fm.Transfer h f reader w).2 := by
  rcases hscp : fm.scp with _ | scp
  · unfold FileManager.Transfer
    simp only [hscp]
    exact Adds.same P w
  · have hw1 := Stat_sends h fm c P hssh f w h1 h2
    rcases hra : ReadAll reader with ⟨b, re, r1⟩
    rcases hstat : fm.Stat h f w with ⟨(e | st) | msg, w1⟩ <;> rw [hstat] at hw1 <;>
      have hw2 := hw1.seq (Copy_sftp h P scp r1 (tmpName f.Path) hop hwr w1) <;>
      rcases hcopy : Copy h scp r1 (tmpName f.Path) w1 with ⟨_ | ce, w2⟩ <;>
      rw [hcopy] at hw2
    all_goals try
      (have hw3 := hw2.seq (Execf_adds h c P ("/bin/cat " ++ tmpName f.Path) [] w2 h3)
       rcases hcat : Execf h c ("/bin/cat " ++ tmpName f.Path) [] w2 with ⟨e3 | o3, w3⟩ <;>
         rw [hcat] at hw3 <;>
         have hw4 := hw3.seq (Execf_adds h c P
           ("mv " ++ tmpName f.Path ++ " " ++ f.Path) [] w3 h4) <;>
         rcases hmv : Execf h c ("mv " ++ tmpName f.Path ++ " " ++ f.Path) [] w3
           with ⟨e4 | o4, w4⟩ <;>
         rw [hmv] at hw4)
    all_goals
      (unfold FileManager.Transfer
       rcases re with _ | re <;>
         simp only [hscp, hstat, hra, hcopy, hssh, *] <;>
         repeat' split)
    all_goals first | exact hw1 | exact hw2 | exact hw3 | exact hw4

/-- The events the permission loop adds for a list of files. -/
theorem permissionsFiles_sends {σ : Type} (h : Host σ) (c : Client) (P : Event → Prop)
    (fs : List File) (w : World σ)
    (hP : ∀ f ∈ fs, P (Event.exec (c.wire ("chmod " ++ f.Mode ++ " " ++ f.Path) [])) ∧
      P (Event.exec (c.wire ("chown " ++ f.Owner ++ " " ++ f.Path) []))) :
    Adds P w (permissionsFiles h c fs w).2 := by
  induction fs generalizing w with
  | nil => exact Adds.same P w
  | cons f rest ih =>
    have hf := hP f (List.mem_cons_self _ _)
    have hrest : ∀ g ∈ rest, P (Event.exec (c.wire ("chmod " ++ g.Mode ++ " " ++ g.Path) [])) ∧
        P (Event.exec (c.wire ("chown " ++ g.Owner ++ " " ++ g.Path) [])) :=
      fun g hg => hP g (List.mem_cons_of_mem _ hg)
    have hB : ∀ w0 : World σ, Adds P w w0 →
        Adds P w
          (match (if f.Owner ≠ "" then
            (match Execf h c ("chown " ++ f.Owner ++ " " ++ f.Path) [] w0 with
              | (.error err, w2) => (some (errorsWrap err ("error exec chown " ++ f.Path)), w2)
              | (.ok _, w2) => (none, w2))
          else (none, w0)) with
          | (some err, w2) => (some err, w2)
          | (none, w2) => permissionsFiles h c rest w2).2 := by
      intro w0 hw0
      by_cases ho : f.Owner = ""
      · simp only [ho, ne_eq, not_true_eq_false, if_false]
        exact hw0.seq (ih w0 hrest)
      · simp only [ne_eq, ho, not_false_eq_true, if_true]
        have hq := Execf_adds h c P ("chown " ++ f.Owner ++ " " ++ f.Path) [] w0 hf.2
        rcases hx : Execf h c ("chown " ++ f.Owner ++ " " ++ f.Path) [] w0 with ⟨_ | _, w2⟩
        · rw [hx] at hq
          exact hw0.seq hq
        · rw [hx] at hq
          exact (hw0.seq hq).seq (ih w2 hrest)
    unfold permissionsFiles
    by_cases hp : f.Path = ""
    · simp only [hp, if_true]
      exact ih w hrest
    · simp only [hp, if_false]
      by_cases hm : f.Mode = ""
      · simp only [hm, ne_eq, not_true_eq_false, if_false]
        exact hB w (Adds.same P w)
      · simp only [ne_eq, hm, not_false_eq_true, if_true]
        have hq := Execf_adds h c P ("chmod " ++ f.Mode ++ " " ++ f.Path) [] w hf.1
        rcases hx : Execf h c ("chmod " ++ f.Mode ++ " " ++ f.Path) [] w with ⟨_ | _, w1⟩
        · rw [hx] at hq
          exact hq
        · rw [hx] at hq
          exact hB w1 hq

/-- The events `ApplyPermissions` adds are `chmod` and `chown` commands for
files of the manifest. -/
theorem ApplyPermissions_sends {σ : Type} (h : Host σ) (fm : FileManager) (c : Client)
    (P : Event → Prop) (hssh : fm.ssh = some c) (w : World σ)
    (hP : ∀ pkg ∈ fm.manifest.Packages, ∀ f ∈ pkg.Files,
      P (Event.exec (c.wire ("chmod " ++ f.Mode ++ " " ++ f.Path) [])) ∧
      P (Event.exec (c.wire ("chown " ++ f.Owner ++ " " ++ f.Path) []))) :
    Adds P w (fm.ApplyPermissions h w).2 := by
  unfold FileManager.ApplyPermissions
  simp only [hssh]
  generalize fm.manifest.Packages = ps at hP
  induction ps generalizing w with
  | nil => exact Adds.same P w
  | cons pkg rest ih =>
    unfold permissionsPackages
    have h1 := permissionsFiles_sends h c P pkg.Files w (hP pkg (List.mem_cons_self _ _))
    rcases hx : permissionsFiles h c pkg.Files w with ⟨_ | e, w1⟩
    · rw [hx] at h1
      simp only []
      exact h1.seq (ih w1 (fun p hp => hP p (List.mem_cons_of_mem _ hp)))
    · rw [hx] at h1
      exact h1

end files

namespace reconcile

open Go manifest ssh files packages

/-- C25 as amended: for a root user the command strings are, character for
character: from `RestartService`, for a name without a percent sign,
`DEBIAN_FRONTEND=noninteractive service <name> restart`; from `Stat`, for every
path, first `stat -c '%n,%F,%s,%U,%G,%y' <path>`, and for a path without a
percent sign no other command than that and
`sha256sum <path> |awk '{ print $1 }'`; from `ApplyPermissions`, for modes,
owners and paths without a percent sign, `chmod <mode> <path>` and
`chown <owner> <path>` for files of the manifest; from `Transfer`, for a path
without a percent sign, next to the commands of `Stat` and the SFTP requests on
the temporary file `tmp`, `/bin/cat <tmp>` and `mv <tmp> <path>`, where `tmp` is
`path.Join("/", "tmp", base)`, which is `/tmp/<base>` for a base name other
than `.`, `..` and `/`; from `RemoveOne`, for every path, `rm -f <path>`. -/
theorem command_shapes {σ : Type} (h : Host σ) (w : World σ) :
    (∀ (p : Packages) (name : String), p.ssh = ssh.New "root" → '%' ∉ name.data →
      Adds (fun e => e = Event.call "RestartService" name ∨
          e = Event.exec ("DEBIAN_FRONTEND=noninteractive service " ++ name ++ " restart"))
        w (p.RestartService h name w).2) ∧
    (∀ (fm : FileManager) (f : File), fm.ssh = some (ssh.New "root") →
      ((fm.Stat h f w).2.trace = w.trace ∨
        ∃ l, (fm.Stat h f w).2.trace =
          w.trace ++ Event.exec ("stat -c '%n,%F,%s,%U,%G,%y' " ++ f.Path) :: l) ∧
      ('%' ∉ f.Path.data →
        Adds (fun e => e = Event.exec ("stat -c '%n,%F,%s,%U,%G,%y' " ++ f.Path) ∨
            e = Event.exec ("sha256sum " ++ f.Path ++ " |awk '\x7b print $1 \x7d'"))
          w (fm.Stat h f w).2)) ∧
    (∀ (fm : FileManager), fm.ssh = some (ssh.New "root") →
      (∀ pkg ∈ fm.manifest.Packages, ∀ f ∈ pkg.Files,
        '%' ∉ f.Mode.data ∧ '%' ∉ f.Owner.data ∧ '%' ∉ f.Path.data) →
      Adds (fun e => ∃ pkg ∈ fm.manifest.Packages, ∃ f ∈ pkg.Files,
          e = Event.exec ("chmod " ++ f.Mode ++ " " ++ f.Path) ∨
          e = Event.exec ("chown " ++ f.Owner ++ " " ++ f.Path))
        w (fm.ApplyPermissions h w).2) ∧
    (∀ (fm : FileManager) (f : File) (reader : Reader), fm.ssh = some (ssh.New "root") →
      '%' ∉ f.Path.data →
      Adds (fun e => e = Event.sftpOpen (tmpName f.Path) ∨
          (∃ d, e = Event.sftpWrite (tmpName f.Path) d) ∨
          e = Event.exec ("stat -c '%n,%F,%s,%U,%G,%y' " ++ f.Path) ∨
          e = Event.exec ("sha256sum " ++ f.Path ++ " |awk '\x7b print $1 \x7d'") ∨
          e = Event.exec ("/bin/cat " ++ tmpName f.Path) ∨
          e = Event.exec ("mv " ++ tmpName f.Path ++ " " ++ f.Path))
        w (fm.Transfer h f reader w).2 ∧
      (pathBase f.Path ≠ "." → pathBase f.Path ≠ ".." → pathBase f.Path ≠ "/" →
        tmpName f.Path = "/tmp/" ++ pathBase f.Path)) ∧
    (∀ (fm : FileManager) (f : File), fm.ssh = some (ssh.New "root") →
      Adds (fun e => e = Event.exec ("rm -f " ++ f.Path)) w (fm.RemoveOne h f w).2) := by
  have hsha : ∀ path : String, '%' ∉ path.data →
      (ssh.New "root").wire (shaCommand path) [] =
        "sha256sum " ++ path ++ " |awk '\x7b print $1 \x7d'" := by
    intro path hp
    apply wire_root
    simp only [shaCommand, String.data_append, List.mem_append, not_or]
    exact ⟨⟨by decide, hp⟩, by decide⟩
  refine ⟨?_, ?_, ?_, ?_, ?_⟩
  · intro p name hp hn
    have hcmd : '%' ∉ ("DEBIAN_FRONTEND=noninteractive service " ++ name ++ " restart").data := by
      simp only [String.data_append, List.mem_append, not_or]
      exact ⟨⟨by decide, hn⟩, by decide⟩
    unfold Packages.RestartService
    simp only []
    have h1 : Adds (fun e => e = Event.call "RestartService" name ∨
        e = Event.exec ("DEBIAN_FRONTEND=noninteractive service " ++ name ++ " restart"))
        w ⟨w.host, w.trace ++ [Event.call "RestartService" name]⟩ :=
      Adds.one _ _ _ _ w rfl (Or.inl rfl)
    have hq := Execf_adds h p.ssh (fun e => e = Event.call "RestartService" name ∨
        e = Event.exec ("DEBIAN_FRONTEND=noninteractive service " ++ name ++ " restart"))
      ("DEBIAN_FRONTEND=noninteractive service " ++ name ++ " restart") []
      ⟨w.host, w.trace ++ [Event.call "RestartService" name]⟩
      (by rw [hp, wire_root _ hcmd]; exact Or.inr rfl)
    rcases hx : Execf h p.ssh ("DEBIAN_FRONTEND=noninteractive service " ++ name ++ " restart") []
      ⟨w.host, w.trace ++ [Event.call "RestartService" name]⟩ with ⟨_ | _, w1⟩ <;>
      (rw [hx] at hq; exact h1.seq hq)
  · intro fm f hssh
    constructor
    · have hf := Stat_first h fm _ hssh f w
      rw [wire_stat] at hf
      exact hf
    · intro hp
      exact Stat_sends h fm _ _ hssh f w (by rw [wire_stat]; exact Or.inl rfl)
        (by rw [hsha _ hp]; exact Or.inr rfl)
  · intro fm hssh hpct
    refine ApplyPermissions_sends h fm _ _ hssh w ?_
    intro pkg hpkg f hf
    obtain ⟨hm, ho, hp⟩ := hpct pkg hpkg f hf
    have h1 : '%' ∉ ("chmod " ++ f.Mode ++ " " ++ f.Path).data := by
      simp only [String.data_append, List.mem_append, not_or]
      exact ⟨⟨⟨by decide, hm⟩, by decide⟩, hp⟩
    have h2 : '%' ∉ ("chown " ++ f.Owner ++ " " ++ f.Path).data := by
      simp only [String.data_append, List.mem_append, not_or]
      exact ⟨⟨⟨by decide, ho⟩, by decide⟩, hp⟩
    rw [wire_root _ h1, wire_root _ h2]
    exact ⟨⟨pkg, hpkg, f, hf, Or.inl rfl⟩, ⟨pkg, hpkg, f, hf, Or.inr rfl⟩⟩
  · intro fm f reader hssh hp
    have ht := tmpName_noPercent f.Path hp
    have h3 : '%' ∉ ("/bin/cat " ++ tmpName f.Path).data := by
      simp only [String.data_append, List.mem_append, not_or]
      exact ⟨by decide, ht⟩
    have h4 : '%' ∉ ("mv " ++ tmpName f.Path ++ " " ++ f.Path).data := by
      simp only [String.data_append, List.mem_append, not_or]
      exact ⟨⟨⟨by decide, ht⟩, by decide⟩, hp⟩
    constructor
    · refine Transfer_sends h fm _ _ hssh f reader w ?_ ?_ ?_ ?_ ?_ ?_
      · rw [wire_stat]
        exact Or.inr (Or.inr (Or.inl rfl))
      · rw [hsha _ hp]
        exact Or.inr (Or.inr (Or.inr (Or.inl rfl)))
      · exact Or.inl rfl
      · intro d
        exact Or.inr (Or.inl ⟨d, rfl⟩)
      · rw [wire_root _ h3]
        exact Or.inr (Or.inr (Or.inr (Or.inr (Or.inl rfl))))
      · rw [wire_root _ h4]
        exact Or.inr (Or.inr (Or.inr (Or.inr (Or.inr rfl))))
    · intro hb1 hb2 hb3
      exact pathJoin_tmp _ (pathBase_ne_empty _) hb1 hb2 (pathBase_noSlash _ hb3)
  · intro fm f hssh
    unfold FileManager.RemoveOne
    simp only [hssh]
    exact Execf_adds h _ _ "rm -f %s" [f.Path] w (by rw [wire_rm])

set_option maxRecDepth 100000 in
/-- C25 as amended, on a host without files: the commands of `RestartService`
for `nginx`, of `Stat` and `RemoveOne` for `/etc/motd`, and of
`ApplyPermissions` for the manifest with that file. -/
theorem command_shapes_witness :
    (Packages.RestartService Examples.emptyHost
        { manifest := {}, ssh := ssh.New "root" } "nginx" ⟨(), []⟩).2.trace =
      [Event.call "RestartService" "nginx",
        Event.exec "DEBIAN_FRONTEND=noninteractive service nginx restart"] ∧
    (FileManager.RemoveOne Examples.emptyHost (files.New {} (some (ssh.New "root")))
        Examples.motdFile ⟨(), []⟩).2.trace = [Event.exec "rm -f /etc/motd"] ∧
    Adds (fun e => e = Event.exec ("stat -c '%n,%F,%s,%U,%G,%y' " ++ Examples.motdFile.Path) ∨
        e = Event.exec ("sha256sum " ++ Examples.motdFile.Path ++ " |awk '\x7b print $1 \x7d'"))
      ⟨(), []⟩
      (FileManager.Stat Examples.emptyHost (files.New {} (some (ssh.New "root")))
        Examples.motdFile ⟨(), []⟩).2 :=
  ⟨by decide, by decide,
    ((command_shapes Examples.emptyHost ⟨(), []⟩).2.1 (files.New {} (some (ssh.New "root")))
      Examples.motdFile rfl).2 (by decide)⟩

set_option maxRecDepth 100000 in
/-- C25, the inputs on which the claim fails: for the name `nginx` the command
of `RestartService` is not `service nginx restart`, and for the path
`/etc/motd` the second command of `Stat` is not
`sha256sum /etc/motd | awk '{ print $1 }'`. -/
theorem command_shapes_counterexample :
    (Packages.RestartService Examples.emptyHost
        { manifest := {}, ssh := ssh.New "root" } "nginx" ⟨(), []⟩).2.trace =
      [Event.call "RestartService" "nginx",
        Event.exec "DEBIAN_FRONTEND=noninteractive service nginx restart"] ∧
    Event.exec (specRestartCommand "nginx") ∉
      (Packages.RestartService Examples.emptyHost
        { manifest := {}, ssh := ssh.New "root" } "nginx" ⟨(), []⟩).2.trace ∧
    (FileManager.Stat (Examples.staticHost "00") (files.New {} (some (ssh.New "root")))
        Examples.motdFile ⟨(), []⟩).2.trace =
      [Event.exec "stat -c '%n,%F,%s,%U,%G,%y' /etc/motd",
        Event.exec "sha256sum /etc/motd |awk '\x7b print $1 \x7d'"] ∧
    Event.exec (specShaCommand "/etc/motd") ∉
      (FileManager.Stat (Examples.staticHost "00") (files.New {} (some (ssh.New "root")))
        Examples.motdFile ⟨(), []⟩).2.trace := by
  decide

end reconcile

/-! ## The EC2 lookup by name tag -/

namespace ec2

open Go

/-- One attempt of `Exists` on a well-formed answer: the id and DNS name of the
first non-terminated first instance, or `ErrNoInstanceFound`. -/
theorem existsAttempt_firstLive (rs : List Reservation) (hwf : wellFormed rs = true) :
    existsAttempt (.ok rs) =
      (match firstLive rs with
        | some i => .ret (.ok (i.InstanceId.getD "", i.PublicDnsName.getD ""))
        | none => .ret (.error ErrNoInstanceFound)) := by
  have hfind : findInstance rs =
      .ret ((firstLive rs).map (fun i => (i.InstanceId.getD "", i.PublicDnsName.getD ""))) := by
    induction rs with
    | nil => rfl
    | cons r rest ih =>
      simp only [wellFormed, List.all_cons, Bool.and_eq_true] at hwf
      obtain ⟨hr, hrest⟩ := hwf
      have ih1 := ih (by simpa [wellFormed] using hrest)
      obtain ⟨insts⟩ := r
      cases insts with
      | nil => simp at hr
      | cons i more =>
        obtain ⟨id, dns, st⟩ := i
        simp only [Bool.and_eq_true, Option.isSome_iff_exists] at hr
        obtain ⟨⟨⟨s, hs⟩, ⟨a, ha⟩⟩, ⟨b, hb⟩⟩ := hr
        subst hs ha hb
        by_cases ht : s.Name = InstanceStateNameTerminated
        · simp [findInstance, firstLive, firstInstances, isTerminated, ht] at ih1 ⊢
          exact ih1
        · simp [findInstance, firstLive, firstInstances, isTerminated, ht]
  unfold existsAttempt
  simp only [hfind]
  cases firstLive rs <;> rfl

/-- What `firstLive` gives is a first instance that is not terminated. -/
theorem firstLive_spec (rs : List Reservation) (i : Instance) (h : firstLive rs = some i) :
    i ∈ firstInstances rs ∧ isTerminated i = false := by
  unfold firstLive at h
  have h1 := List.find?_some h
  have h2 := List.mem_of_find?_eq_some h
  exact ⟨h2, by simpa using h1⟩

/-- In a well-formed answer the id and DNS name of every first instance are set. -/
theorem wellFormed_first (rs : List Reservation) (hwf : wellFormed rs = true) (i : Instance)
    (hi : i ∈ firstInstances rs) :
    i.InstanceId = some (i.InstanceId.getD "") ∧
    i.PublicDnsName = some (i.PublicDnsName.getD "") := by
  simp only [firstInstances, List.mem_filterMap] at hi
  obtain ⟨r, hr, hh⟩ := hi
  simp only [wellFormed, List.all_eq_true] at hwf
  have h1 := hwf r hr
  obtain ⟨insts⟩ := r
  cases insts with
  | nil => simp at hh
  | cons j more =>
    simp only [List.head?_cons, Option.some.injEq] at hh
    subst hh
    simp only [Bool.and_eq_true, Option.isSome_iff_exists] at h1
    obtain ⟨⟨_, ⟨a, ha⟩⟩, ⟨b, hb⟩⟩ := h1
    simp [ha, hb]

/-- One attempt of `Exists` on a backend whose answers are well-formed: it
fails, with `ErrNoInstanceFound` when the call itself succeeded, or it finds
the first non-terminated first instance. -/
theorem existsAttempt_cases (p : ProviderBackend) (name : String)
    (hwf : ∀ k rs, p.Client name k = .ok rs → wellFormed rs = true) (k : Nat) :
    (∃ e, existsAttempt (p.Client name k) = .ret (.error e) ∧
      ∀ rs, p.Client name k = .ok rs → firstLive rs = none ∧ e = ErrNoInstanceFound) ∨
    (∃ rs i, p.Client name k = .ok rs ∧ firstLive rs = some i ∧
      existsAttempt (p.Client name k) =
        .ret (.ok (i.InstanceId.getD "", i.PublicDnsName.getD ""))) := by
  rcases hc : p.Client name k with e | rs
  · left
    exact ⟨e, rfl, fun rs h => by simp at h⟩
  · have ha := existsAttempt_firstLive rs (hwf k rs hc)
    rcases hl : firstLive rs with _ | i
    · left
      rw [hl] at ha
      refine ⟨ErrNoInstanceFound, ha, ?_⟩
      intro rs1 h1
      simp only [Except.ok.injEq] at h1
      subst h1
      exact ⟨hl, rfl⟩
    · right
      rw [hl] at ha
      exact ⟨rs, i, rfl, hl, ha⟩

theorem retry_error {α : Type} (op : Nat → Outcome (Except GoError α)) (n k : Nat)
    (e : GoError) (h : op k = .ret (.error e)) : retry op (n + 1) k = retry op n (k + 1) := by
  simp [retry, h]

theorem retry_found {α : Type} (op : Nat → Outcome (Except GoError α)) (n k : Nat) (a : α)
    (h : op k = .ret (.ok a)) : retry op n k = .ret (.ok a) := by
  cases n <;> simp [retry, h]

/-- The result of `Exists` when the first attempts fail and a later one finds an
instance, and when all three fail. -/
theorem Exists_attempts (p : ProviderBackend) (name : String) :
    (∀ x, existsAttempt (p.Client name 0) = .ret (.ok x) →
      p.Exists name = .ret (true, x.1, x.2, none)) ∧
    (∀ e0 x, existsAttempt (p.Client name 0) = .ret (.error e0) →
      existsAttempt (p.Client name 1) = .ret (.ok x) →
      p.Exists name = .ret (true, x.1, x.2, none)) ∧
    (∀ e0 e1 x, existsAttempt (p.Client name 0) = .ret (.error e0) →
      existsAttempt (p.Client name 1) = .ret (.error e1) →
      existsAttempt (p.Client name 2) = .ret (.ok x) →
      p.Exists name = .ret (true, x.1, x.2, none)) ∧
    (∀ e0 e1 e2, existsAttempt (p.Client name 0) = .ret (.error e0) →
      existsAttempt (p.Client name 1) = .ret (.error e1) →
      existsAttempt (p.Client name 2) = .ret (.error e2) →
      p.Exists name = .ret (false, "", "", some e2)) := by
  refine ⟨?_, ?_, ?_, ?_⟩
  · intro x h0
    unfold ProviderBackend.Exists
    rw [retry_found (fun k => existsAttempt (p.Client name k)) 2 0 x h0]
  · intro e0 x h0 h1
    unfold ProviderBackend.Exists
    rw [retry_error (fun k => existsAttempt (p.Client name k)) 1 0 e0 h0,
      retry_found (fun k => existsAttempt (p.Client name k)) 1 1 x h1]
  · intro e0 e1 x h0 h1 h2
    unfold ProviderBackend.Exists
    rw [retry_error (fun k => existsAttempt (p.Client name k)) 1 0 e0 h0,
      retry_error (fun k => existsAttempt (p.Client name k)) 0 1 e1 h1,
      retry_found (fun k => existsAttempt (p.Client name k)) 0 2 x h2]
  · intro e0 e1 e2 h0 h1 h2
    unfold ProviderBackend.Exists
    rw [retry_error (fun k => existsAttempt (p.Client name k)) 1 0 e0 h0,
      retry_error (fun k => existsAttempt (p.Client name k)) 0 1 e1 h1]
    simp only [retry, h2]

/-- C26 as amended: on a backend whose every answer has an instance in each
reservation, with its state, id and DNS name set, `Exists` looks only at the
first instance of each reservation. It makes up to three attempts; on the first
attempt whose answer has a reservation with a first instance that is not
terminated it reports `exists = true` with the id and DNS name of the first
such instance; when no attempt has one (every first instance is terminated, or
the call fails) it reports no instance, with the error of the third attempt,
`ErrNoInstanceFound` when that call succeeded. It never reports a terminated
instance, and it does not panic. -/
theorem Exists_first_instance (p : ProviderBackend) (name : String)
    (hwf : ∀ k rs, p.Client name k = .ok rs → wellFormed rs = true) :
    (∀ k rs i, k ≤ 2 →
      (∀ j rs1, j < k → p.Client name j = .ok rs1 → firstLive rs1 = none) →
      p.Client name k = .ok rs → firstLive rs = some i →
      p.Exists name = .ret (true, i.InstanceId.getD "", i.PublicDnsName.getD "", none)) ∧
    ((∀ j rs1, j ≤ 2 → p.Client name j = .ok rs1 → firstLive rs1 = none) →
      ∃ err, p.Exists name = .ret (false, "", "", some err) ∧
        (∀ rs, p.Client name 2 = .ok rs → err = ErrNoInstanceFound) ∧
        (∀ e, p.Client name 2 = .error e → err = e)) ∧
    (∀ id dns, p.Exists name = .ret (true, id, dns, none) →
      ∃ k rs i, k ≤ 2 ∧ p.Client name k = .ok rs ∧ i ∈ firstInstances rs ∧
        isTerminated i = false ∧ i.InstanceId = some id ∧ i.PublicDnsName = some dns) ∧
    (∀ msg, p.Exists name ≠ .panic msg) := by
  have hfail : ∀ k, (∀ rs1, p.Client name k = .ok rs1 → firstLive rs1 = none) →
      ∃ e, existsAttempt (p.Client name k) = .ret (.error e) ∧
        (∀ rs, p.Client name k = .ok rs → e = ErrNoInstanceFound) ∧
        (∀ e1, p.Client name k = .error e1 → e = e1) := by
    intro k hk
    rcases existsAttempt_cases p name hwf k with ⟨e, he, hrs⟩ | ⟨rs, i, hc, hl, _⟩
    · refine ⟨e, he, fun rs h => (hrs rs h).2, ?_⟩
      intro e1 h1
      rw [h1] at he
      simp only [existsAttempt, Outcome.ret.injEq, Except.error.injEq] at he
      exact he.symm
    · rw [hk rs hc] at hl
      simp at hl
  have hfound : ∀ k rs i, p.Client name k = .ok rs → firstLive rs = some i →
      existsAttempt (p.Client name k) =
        .ret (.ok (i.InstanceId.getD "", i.PublicDnsName.getD "")) := by
    intro k rs i hc hl
    have ha := existsAttempt_firstLive rs (hwf k rs hc)
    rw [hl] at ha
    rw [hc]
    exact ha
  have hrep : ∀ k rs i, p.Client name k = .ok rs → firstLive rs = some i →
      i ∈ firstInstances rs ∧ isTerminated i = false ∧
        i.InstanceId = some (i.InstanceId.getD "") ∧
        i.PublicDnsName = some (i.PublicDnsName.getD "") := by
    intro k rs i hc hl
    obtain ⟨hm, ht⟩ := firstLive_spec rs i hl
    obtain ⟨h1, h2⟩ := wellFormed_first rs (hwf k rs hc) i hm
    exact ⟨hm, ht, h1, h2⟩
  obtain ⟨hA0, hA1, hA2, hA3⟩ := Exists_attempts p name
  refine ⟨?_, ?_, ?_, ?_⟩
  · intro k rs i hk hprev hc hl
    have hk3 : k = 0 ∨ k = 1 ∨ k = 2 := by omega
    rcases hk3 with rfl | rfl | rfl
    · exact hA0 _ (hfound 0 rs i hc hl)
    · obtain ⟨e0, h0, _⟩ := hfail 0 (fun rs1 h => hprev 0 rs1 (by omega) h)
      exact hA1 e0 _ h0 (hfound 1 rs i hc hl)
    · obtain ⟨e0, h0, _⟩ := hfail 0 (fun rs1 h => hprev 0 rs1 (by omega) h)
      obtain ⟨e1, h1, _⟩ := hfail 1 (fun rs1 h => hprev 1 rs1 (by omega) h)
      exact hA2 e0 e1 _ h0 h1 (hfound 2 rs i hc hl)
  · intro hall
    obtain ⟨e0, h0, _⟩ := hfail 0 (fun rs1 h => hall 0 rs1 (by omega) h)
    obtain ⟨e1, h1, _⟩ := hfail 1 (fun rs1 h => hall 1 rs1 (by omega) h)
    obtain ⟨e2, h2, h2a, h2b⟩ := hfail 2 (fun rs1 h => hall 2 rs1 (by omega) h)
    exact ⟨e2, hA3 e0 e1 e2 h0 h1 h2, h2a, h2b⟩
  · intro id dns hex
    rcases existsAttempt_cases p name hwf 0 with ⟨e0, h0, _⟩ | ⟨rs, i, hc, hl, h0⟩
    · rcases existsAttempt_cases p name hwf 1 with ⟨e1, h1, _⟩ | ⟨rs, i, hc, hl, h1⟩
      · rcases existsAttempt_cases p name hwf 2 with ⟨e2, h2, _⟩ | ⟨rs, i, hc, hl, h2⟩
        · rw [hA3 e0 e1 e2 h0 h1 h2] at hex
          simp at hex
        · rw [hA2 e0 e1 _ h0 h1 h2] at hex
          simp only [Outcome.ret.injEq, Prod.mk.injEq, true_and, and_true] at hex
          obtain ⟨hm, ht, hi1, hi2⟩ := hrep 2 rs i hc hl
          exact ⟨2, rs, i, by omega, hc, hm, ht, by rw [hi1, hex.1], by rw [hi2, hex.2]⟩
      · rw [hA1 e0 _ h0 h1] at hex
        simp only [Outcome.ret.injEq, Prod.mk.injEq, true_and, and_true] at hex
        obtain ⟨hm, ht, hi1, hi2⟩ := hrep 1 rs i hc hl
        exact ⟨1, rs, i, by omega, hc, hm, ht, by rw [hi1, hex.1], by rw [hi2, hex.2]⟩
    · rw [hA0 _ h0] at hex
      simp only [Outcome.ret.injEq, Prod.mk.injEq, true_and, and_true] at hex
      obtain ⟨hm, ht, hi1, hi2⟩ := hrep 0 rs i hc hl
      exact ⟨0, rs, i, by omega, hc, hm, ht, by rw [hi1, hex.1], by rw [hi2, hex.2]⟩
  · intro msg hex
    rcases existsAttempt_cases p name hwf 0 with ⟨e0, h0, _⟩ | ⟨rs, i, hc, hl, h0⟩
    · rcases existsAttempt_cases p name hwf 1 with ⟨e1, h1, _⟩ | ⟨rs, i, hc, hl, h1⟩
      · rcases existsAttempt_cases p name hwf 2 with ⟨e2, h2, _⟩ | ⟨rs, i, hc, hl, h2⟩
        · rw [hA3 e0 e1 e2 h0 h1 h2] at hex
          simp at hex
        · rw [hA2 e0 e1 _ h0 h1 h2] at hex
          simp at hex
      · rw [hA1 e0 _ h0 h1] at hex
        simp at hex
    · rw [hA0 _ h0] at hex
      simp at hex

/-- C26 as amended, on an answer with two reservations, the first with a
terminated instance, the second with a running one, given on every call: the
running instance is reported. -/
theorem Exists_first_instance_witness :
    (Examples.steadyEC2 [⟨[Examples.goneInstance]⟩, ⟨[Examples.liveInstance]⟩]).Exists "h1" =
      .ret (true, "i-2", "ec2-2.compute.amazonaws.com", none) :=
  (Exists_first_instance (Examples.steadyEC2 [⟨[Examples.goneInstance]⟩, ⟨[Examples.liveInstance]⟩])
    "h1" (fun _ rs h => by
      have e : rs = [⟨[Examples.goneInstance]⟩, ⟨[Examples.liveInstance]⟩] := by
        simp only [Examples.steadyEC2, Except.ok.injEq] at h
        exact h.symm
      rw [e]
      decide)).1 0 [⟨[Examples.goneInstance]⟩, ⟨[Examples.liveInstance]⟩] Examples.liveInstance
    (by decide) (fun j _ hj => absurd hj (Nat.not_lt_zero j)) rfl (by decide)

/-- C26, the inputs on which the claim fails: the answer holds one reservation
with a terminated instance followed by a running one; only the first instance
is looked at, so no instance is reported although the answer contains one that
is not terminated. And on an answer with a reservation that has no instance the
index expression panics. -/
theorem Exists_misses_second_instance :
    isTerminated Examples.liveInstance = false ∧
    (Examples.steadyEC2 [⟨[Examples.goneInstance, Examples.liveInstance]⟩]).Exists "h1" =
      .ret (false, "", "", some ErrNoInstanceFound) ∧
    (Examples.steadyEC2 [⟨[]⟩]).Exists "h1" = .panic "index out of range [0] with length 0" := by
  decide

end ec2

/-! ## The container of the docker backend -/

namespace docker

open Go manifest ssh reconcile

theorem closeCalls_append (t1 t2 : List Event) :
    closeCalls (t1 ++ t2) = closeCalls t1 ++ closeCalls t2 := by
  induction t1 with
  | nil => simp [closeCalls]
  | cons e rest ih =>
    cases e with
    | exec cmd => simp [closeCalls, ih]
    | call method arg => by_cases hm : method = "Close" <;> simp [closeCalls, hm, ih]
    | sftpOpen path => simp [closeCalls, ih]
    | sftpWrite path data => simp [closeCalls, ih]

/-- The backend's `Run` adds to the trace nothing, or the start of the
container; it calls no `Close`. -/
theorem Run_trace {σ : Type} (d : Docker σ) (w : World σ) :
    (ProviderBackend.Run d w).2.trace = w.trace ∨
    ∃ id, (ProviderBackend.Run d w).2.trace = w.trace ++ [Event.call "RunWithOptions" id] := by
  unfold ProviderBackend.Run
  rcases d.newPool w.host with ⟨_ | e0, s⟩
  · simp only []
    rcases d.ping s with ⟨_ | e1, s1⟩
    · simp only []
      rcases d.getFreePort s1 with ⟨e2 | port, s2⟩
      · exact Or.inl rfl
      · simp only []
        rcases d.runWithOptions s2 port with ⟨e3 | id, s3⟩
        · exact Or.inl rfl
        · right
          refine ⟨id, ?_⟩
          simp only []
          rcases d.generateKeyPair (d.setContainer s3 id) with ⟨e4 | ⟨priv, pub⟩, s4⟩
          · rfl
          · simp only []
            rcases d.exec s4 id (authorizedKeysCommand pub id) with ⟨e5 | exit, s5⟩
            · rfl
            · simp only []
              by_cases hx : exit = 0
              · simp only [hx, ne_eq, not_true_eq_false, if_false]
                rcases d.dial s5 priv port with ⟨_ | e6, s6⟩ <;> rfl
              · simp only [ne_eq, hx, not_false_eq_true, if_true]
    · exact Or.inl rfl
  · exact Or.inl rfl

end docker

namespace reconcile

open Go manifest ssh files packages docker

/-- C27, what the code does: on the docker backend, when the backend's `Run`
fails, `reconcile.Run` returns that error at once, in the world the backend's
`Run` left: the deferred `Close` is registered only after a successful `Run`.
The backend's `Run` itself calls no `Close`, so a container that was started
before the failing step (key generation, the command writing
`authorized_keys`, the SSH dial) is still there when `reconcile.Run` returns. -/
theorem Run_failed_start_not_closed {σ : Type} (h : Host σ) (t : Templates)
    (order : GoMap Package → List (String × Package)) (now : String) (d : Docker σ)
    (bs : Backends σ) (m : Manifest) (op : String) (options : List (Backend σ → Backend σ))
    (w w1 : World σ) (err : GoError)
    (hprov : m.Provider = ProviderBackendDocker) (hbs : bs.docker m = docker.New d m)
    (hrun : ProviderBackend.Run d w = (.error err, w1)) :
    Run h t order now bs m op options w =
      (.ret (some (errorsWrap err "error on provider backend reconcile")), w1) ∧
    closeCalls w1.trace = closeCalls w.trace ∧
    (w1.trace = w.trace ∨ ∃ id, w1.trace = w.trace ++ [Event.call "RunWithOptions" id]) := by
  have htr := Run_trace d w
  rw [hrun] at htr
  simp only [] at htr
  refine ⟨?_, ?_, htr⟩
  · have hnb : newBackend bs m options = .ok (docker.New d m) := by
      unfold newBackend
      simp only [hprov, if_true, hbs]
    unfold Run
    simp only [hnb]
    have hr : (docker.New d m).Run w = (.error err, w1) := hrun
    simp only [hr]
  · rcases htr with e | ⟨id, e⟩
    · rw [e]
    · rw [e, closeCalls_append]
      simp [closeCalls]

set_option maxRecDepth 100000 in
/-- C27 on a daemon where the container starts and the key generation fails:
`reconcile.Run` returns the error, the container `c1` was started and runs, and
no `Close` was called. -/
theorem Run_failed_start_not_closed_witness :
    Run Examples.containerHost (Examples.fieldTemplates []) Examples.listOrder
        "2024-01-01T00:00:00Z"
        (Examples.dockerBackends
          (Examples.dockerDaemon (.error (errorsNew "crypto/rsa: too few primes")) none))
        Examples.motdManifest Reconcile [] ⟨{}, []⟩ =
      (.ret (some (errorsWrap (errorsWrap (errorsNew "crypto/rsa: too few primes")
          "error generating key pair") "error on provider backend reconcile")),
        ⟨{ running := ["c1"], container := some "c1" }, [Event.call "RunWithOptions" "c1"]⟩) ∧
    startCalls [Event.call "RunWithOptions" "c1"] = ["c1"] ∧
    closeCalls [Event.call "RunWithOptions" "c1"] = [] :=
  ⟨(Run_failed_start_not_closed Examples.containerHost (Examples.fieldTemplates [])
      Examples.listOrder "2024-01-01T00:00:00Z"
      (Examples.dockerDaemon (.error (errorsNew "crypto/rsa: too few primes")) none)
      (Examples.dockerBackends
        (Examples.dockerDaemon (.error (errorsNew "crypto/rsa: too few primes")) none))
      Examples.motdManifest Reconcile [] ⟨{}, []⟩
      ⟨{ running := ["c1"], container := some "c1" }, [Event.call "RunWithOptions" "c1"]⟩
      (errorsWrap (errorsNew "crypto/rsa: too few primes") "error generating key pair")
      (by decide) rfl (by decide)).1, by decide, by decide⟩

end reconcile

/-! ## Two runs of `Reconcile` on a host that keeps files -/

namespace ssh

open Go

/-- A command whose format starts with literal text that is neither the start of
`sudo ` nor that of `mv ` is not a move. -/
theorem isMove_wire_lit (c : Client) (fmt : String) (args : List String) (lit : List Char)
    (hfmt : lit.isPrefixOf fmt.data = true) (hp : '%' ∉ lit)
    (h1 : ∀ t, "sudo ".data.isPrefixOf (lit ++ t) = false)
    (h2 : ∀ t, "mv ".data.isPrefixOf (lit ++ t) = false) :
    isMove (c.wire fmt args) = false := by
  obtain ⟨tail, ht⟩ := Sprintf_lit fmt args lit hfmt hp
  unfold isMove Client.wire
  by_cases hs : c.useSudo = true
  · simp only [hs, if_true]
    have : trimPrefix ("sudo " ++ Sprintf fmt args) "sudo " = Sprintf fmt args := by
      apply String.ext
      simp [trimPrefix, hasPrefix]
    rw [this]
    simp only [hasPrefix, ht]
    exact h2 tail
  · simp only [hs, Bool.false_eq_true, if_false]
    have : trimPrefix (Sprintf fmt args) "sudo " = Sprintf fmt args := by
      simp only [trimPrefix, hasPrefix, ht, h1 tail, Bool.false_eq_true, if_false]
    rw [this]
    simp only [hasPrefix, ht]
    exact h2 tail

/-- No command of a format of `quietFormat` is a move. -/
theorem quietFormat_notMove (c : Client) (fmt : String) (args : List String)
    (hf : quietFormat fmt = true) : isMove (c.wire fmt args) = false := by
  simp only [quietFormat, Bool.or_eq_true, hasPrefix] at hf
  rcases hf with (((((((h | h) | h) | h) | h) | h) | h) | h) | h <;>
    exact isMove_wire_lit c fmt args _ h (by decide) (fun _ => rfl) (fun _ => rfl)

/-- The command on the wire for a command text without a percent sign. -/
theorem wire_sudo (c : Client) (cmd : String) (hp : '%' ∉ cmd.data) :
    c.wire cmd [] = c.sudo ++ cmd := by
  unfold Client.wire Client.sudo
  rw [Sprintf_noPercent cmd hp]
  by_cases hs : c.useSudo = true
  · simp [hs]
  · simp only [hs, Bool.false_eq_true, if_false]
    apply String.ext
    simp

end ssh

namespace files

open Go manifest ssh

/-- The first command of `Stat` on the wire. -/
theorem wire_statFormat (c : Client) (path : String) :
    c.wire statFormat [path] = c.sudo ++ ("stat -c '%n,%F,%s,%U,%G,%y' " ++ path) := by
  have hs : Sprintf statFormat [path] = "stat -c '%n,%F,%s,%U,%G,%y' " ++ path := by
    apply String.ext
    simp [Sprintf, statFormat, doPrintf, verbStep_percent]
    simp [verbStep, printArg, extraArgs, isFlag]
  unfold Client.wire Client.sudo
  rw [hs]
  by_cases hu : c.useSudo = true
  · simp [hu]
  · simp only [hu, Bool.false_eq_true, if_false]
    apply String.ext
    simp

/-- On a host that keeps files, a command that is not the move leaves the files
as they are. -/
theorem Execf_disk {σ : Type} (h : Host σ) (c : Client) (disk : σ → String → Option Bytes)
    (paths : List String) (hk : KeepsFiles h c disk paths) (cmd : String) (args : List String)
    (hfmt : quietFormat cmd = true) (w : World σ) :
    disk (Execf h c cmd args w).2.host = disk w.host := by
  unfold Execf
  have h1 := hk.session w.host
  rcases hx : h.newSession w.host with ⟨_ | e, s⟩
  · rw [hx] at h1
    simp only [] at h1 ⊢
    have h2 := hk.command s (c.wire cmd args) (quietFormat_notMove c cmd args hfmt)
    rcases hr : h.run s (c.wire cmd args) with ⟨_ | _ | _, s1⟩ <;>
      (rw [hr] at h2; simp only [] at h2 ⊢; rw [h2, h1])
  · rw [hx] at h1
    exact h1

end files

namespace ssh

open Go

/-- A command that succeeds ran in a session that opened, and its answer is
that of the host. -/
theorem Execf_run {σ : Type} (h : Host σ) (c : Client) (cmd : String) (args : List String)
    (w w1 : World σ) (out : String) (hx : Execf h c cmd args w = (.ok out, w1)) :
    (h.newSession w.host).1 = none ∧
      h.run (h.newSession w.host).2 (c.wire cmd args) = (.ok out, w1.host) := by
  unfold Execf at hx
  rcases hn : h.newSession w.host with ⟨_ | err, s⟩
  · simp only [hn] at hx
    rcases hr : h.run s (c.wire cmd args) with ⟨_ | _ | _, s1⟩ <;> simp only [hr] at hx
    · simp only [Prod.mk.injEq, Except.ok.injEq] at hx
      refine ⟨rfl, ?_⟩
      rw [← hx.2, ← hx.1]
    · simp at hx
    · simp at hx
  · simp [hn] at hx

/-- A command whose session opens and which the host answers succeeds with that
answer. -/
theorem Execf_answer {σ : Type} (h : Host σ) (c : Client) (cmd : String) (args : List String)
    (w : World σ) (out : String) (hn : (h.newSession w.host).1 = none)
    (hr : (h.run (h.newSession w.host).2 (c.wire cmd args)).1 = .ok out) :
    (Execf h c cmd args w).1 = .ok out := by
  unfold Execf
  rcases hx : h.newSession w.host with ⟨e, s⟩
  rw [hx] at hn hr
  simp only [] at hn hr
  subst hn
  simp only []
  rcases hy : h.run s (c.wire cmd args) with ⟨r, s1⟩
  rw [hy] at hr
  simp only [] at hr
  subst hr
  rfl

/-- A command whose session does not open fails with the error of the session,
wrapped. -/
theorem Execf_noSession {σ : Type} (h : Host σ) (c : Client) (cmd : String)
    (args : List String) (w : World σ) (e : GoError) (hn : (h.newSession w.host).1 = some e) :
    (Execf h c cmd args w).1 = .error (errorsWrap e "failed to create session") := by
  unfold Execf
  rcases hx : h.newSession w.host with ⟨e1, s⟩
  rw [hx] at hn
  simp only [] at hn
  subst hn
  rfl

end ssh

namespace files

open Go manifest ssh

/-- The second command of `Stat` has no percent sign when the path has none. -/
theorem shaCommand_noPercent (path : String) (hp : '%' ∉ path.data) :
    '%' ∉ (shaCommand path).data := by
  unfold shaCommand
  simp only [String.data_append, List.mem_append, not_or]
  exact ⟨⟨by decide, hp⟩, by decide⟩

/-- On a host that keeps files `Stat` leaves the files as they are. -/
theorem Stat_keeps {σ : Type} (h : Host σ) (fm : FileManager) (c : Client)
    (disk : σ → String → Option Bytes) (paths : List String) (hk : KeepsFiles h c disk paths)
    (hssh : fm.ssh = some c) (f : File) (w : World σ) :
    Quiet (fun s => disk s = disk w.host) w (fm.Stat h f w).2 :=
  Stat_quiet h fm c (fun s => disk s = disk w.host) hssh
    (fun w1 cmd args hfmt hi => (Execf_disk h c disk paths hk cmd args hfmt w1).trans hi) f w

/-- On a host that keeps files, a `Stat` that succeeds found the file, and the
hash it reports is that of the bytes of the file. -/
theorem Stat_found {σ : Type} (h : Host σ) (fm : FileManager) (c : Client)
    (disk : σ → String → Option Bytes) (paths : List String) (hk : KeepsFiles h c disk paths)
    (hssh : fm.ssh = some c) (f : File) (hmem : f.Path ∈ paths) (hp : '%' ∉ f.Path.data)
    (w w1 : World σ) (st : files.Stat) (hs : fm.Stat h f w = (.ret (.ok st), w1)) :
    ∃ b, disk w.host f.Path = some b ∧ st.Sha256 = sha256Hex b := by
  unfold FileManager.Stat at hs
  simp only [hssh] at hs
  rcases hx1 : Execf h c statFormat [f.Path] w with ⟨_ | out, w2⟩
  · simp only [hx1] at hs
    split at hs <;> simp at hs
  · simp only [hx1] at hs
    split at hs
    · simp at hs
    · rcases hx2 : Execf h c (shaCommand f.Path) [] w2 with ⟨_ | out2, w3⟩
      · simp [hx2] at hs
      · simp only [hx2, Prod.mk.injEq, Outcome.ret.injEq, Except.ok.injEq] at hs
        obtain ⟨_, hr1⟩ := Execf_run h c _ _ _ _ _ hx1
        obtain ⟨_, hr2⟩ := Execf_run h c _ _ _ _ _ hx2
        rw [wire_statFormat] at hr1
        rw [wire_sudo c _ (shaCommand_noPercent _ hp)] at hr2
        have hd1 : disk (h.newSession w.host).2 = disk w.host := hk.session _
        have hd2 : disk w2.host = disk w.host :=
          Execf_disk h c disk paths hk statFormat [f.Path] rfl w ▸ by rw [hx1]
        have hd3 : disk (h.newSession w2.host).2 = disk w.host := (hk.session _).trans hd2
        have hne := hk.statMissing (h.newSession w.host).2 f.Path out hmem (by rw [hr1])
        rw [hd1] at hne
        rcases hb : disk w.host f.Path with _ | b
        · exact absurd hb hne
        · refine ⟨b, rfl, ?_⟩
          obtain ⟨out3, ho3, hsha⟩ := hk.sha (h.newSession w2.host).2 f.Path b hmem
            (by rw [hd3]; exact hb)
          rw [hr2] at ho3
          simp only [RunResult.ok.injEq] at ho3
          subst ho3
          rw [← hs.1]
          exact hsha

/-- On a host that keeps files, `Stat` on a file that exists reports the hash of
its bytes, or fails with an error that does not say that the file is missing. -/
theorem Stat_holds {σ : Type} (h : Host σ) (fm : FileManager) (c : Client)
    (disk : σ → String → Option Bytes) (paths : List String) (hk : KeepsFiles h c disk paths)
    (hssh : fm.ssh = some c) (f : File) (hmem : f.Path ∈ paths) (hp : '%' ∉ f.Path.data)
    (w : World σ) (b : Bytes) (hb : disk w.host f.Path = some b) :
    (∃ st, (fm.Stat h f w).1 = .ret (.ok st) ∧ st.Sha256 = sha256Hex b) ∨
      ∃ err, (fm.Stat h f w).1 = .ret (.error err) ∧ err.notExist = false := by
  unfold FileManager.Stat
  simp only [hssh]
  rcases hn1 : (h.newSession w.host).1 with _ | e
  · obtain ⟨out, ho, hlen⟩ := hk.statFound (h.newSession w.host).2 f.Path b hmem
      (by rw [hk.session]; exact hb)
    have ha := Execf_answer h c statFormat [f.Path] w out hn1 (by rw [wire_statFormat]; exact ho)
    have hd2 := Execf_disk h c disk paths hk statFormat [f.Path] rfl w
    rcases hx1 : Execf h c statFormat [f.Path] w with ⟨r, w2⟩
    rw [hx1] at ha hd2
    simp only [] at ha hd2
    subst ha
    simp only [hlen, ne_eq, not_true_eq_false, if_false]
    rcases hn2 : (h.newSession w2.host).1 with _ | e
    · obtain ⟨out2, ho2, hsha⟩ := hk.sha (h.newSession w2.host).2 f.Path b hmem
        (by rw [hk.session, hd2]; exact hb)
      have ha2 := Execf_answer h c (shaCommand f.Path) [] w2 out2 hn2
        (by rw [wire_sudo c _ (shaCommand_noPercent _ hp)]; exact ho2)
      rcases hx2 : Execf h c (shaCommand f.Path) [] w2 with ⟨r2, w3⟩
      rw [hx2] at ha2
      simp only [] at ha2
      subst ha2
      left
      exact ⟨_, rfl, hsha⟩
    · have ha2 := Execf_noSession h c (shaCommand f.Path) [] w2 e hn2
      rcases hx2 : Execf h c (shaCommand f.Path) [] w2 with ⟨r2, w3⟩
      rw [hx2] at ha2
      simp only [] at ha2
      subst ha2
      right
      exact ⟨_, rfl, rfl⟩
  · have ha := Execf_noSession h c statFormat [f.Path] w e hn1
    have hes := hk.sessionError w.host e hn1
    rcases hx1 : Execf h c statFormat [f.Path] w with ⟨r, w2⟩
    rw [hx1] at ha
    simp only [] at ha
    subst ha
    right
    simp only [errorsWrap, hes, Option.isSome_none, Bool.false_and, Bool.false_eq_true, if_false]
    exact ⟨_, rfl, rfl⟩

end files

namespace files

open Go manifest ssh

theorem stored_self (d : String → Option Bytes) (path : String) (x : Bytes) :
    stored d path x path = some x := by
  simp [stored]

theorem stored_stored (d : String → Option Bytes) (path : String) (x y : Bytes) :
    stored (stored d path x) path y = stored d path y := by
  funext q
  by_cases hq : path = q <;> simp [stored, hq]

/-- On a host that keeps files, a flush puts the bytes of the buffer at the end
of the file and leaves the buffer empty. -/
theorem Flush_disk {σ : Type} (h : Host σ) (c : Client) (disk : σ → String → Option Bytes)
    (paths : List String) (hk : KeepsFiles h c disk paths) (path : String) (b : BufWriter)
    (w : World σ) (d0 : String → Option Bytes) (x : Bytes) (hb : b.err = none)
    (hd : disk w.host = stored d0 path x) :
    (BufWriter.Flush h path b w).1 = none ∧
    (BufWriter.Flush h path b w).2.1 = { buf := [], err := none } ∧
    disk (BufWriter.Flush h path b w).2.2.host = stored d0 path (x ++ b.buf) := by
  obtain ⟨buf, err⟩ := b
  cases hb
  obtain ⟨hw1, hw2⟩ := hk.write w.host path buf
  unfold BufWriter.Flush
  rcases hx : h.write w.host path buf with ⟨⟨n, err⟩, s⟩
  rw [hx] at hw1 hw2
  simp only [Prod.mk.injEq] at hw1 hw2
  obtain ⟨hn, he⟩ := hw1
  subst hn
  subst he
  by_cases hl : buf.length = 0
  · have hnil : buf = [] := List.length_eq_zero.mp hl
    simp [hnil, hd]
  · simp only [hl, if_false, lt_self_iff_false, false_and, List.take_length, true_and]
    rw [hw2, hd, stored_self, stored_stored]
    rfl

/-- On a host that keeps files, a write keeps the bytes of the file and of the
buffer together and adds the bytes written behind them. -/
theorem Write_disk {σ : Type} (h : Host σ) (c : Client) (disk : σ → String → Option Bytes)
    (paths : List String) (hk : KeepsFiles h c disk paths) (path : String) (b : BufWriter)
    (p : Bytes) (w : World σ) (d0 : String → Option Bytes) (x : Bytes) (hb : b.err = none)
    (hd : disk w.host = stored d0 path x) :
    (BufWriter.Write h path b p w).1 = none ∧
    (BufWriter.Write h path b p w).2.1.err = none ∧
    ∃ x1, disk (BufWriter.Write h path b p w).2.2.host = stored d0 path x1 ∧
      x1 ++ (BufWriter.Write h path b p w).2.1.buf = x ++ b.buf ++ p := by
  obtain ⟨buf, err⟩ := b
  cases hb
  unfold BufWriter.Write
  by_cases hc : p.length > 4096 - buf.length
  · have hf := Flush_disk h c disk paths hk path
      { buf := buf ++ p.take (4096 - buf.length), err := none } w d0 x rfl hd
    rcases hx : BufWriter.Flush h path { buf := buf ++ p.take (4096 - buf.length), err := none } w
      with ⟨e, b1, w1⟩
    rw [hx] at hf
    obtain ⟨_, hb1, hdisk⟩ := hf
    simp only [] at hb1 hdisk
    subst hb1
    simp only [hc, and_self, if_true, hx]
    refine ⟨trivial, trivial, _, hdisk, ?_⟩
    simp [List.append_assoc]
  · simp only [hc, false_and, if_false]
    exact ⟨trivial, trivial, x, hd, by simp⟩

/-- On a host that keeps files, the read loop puts every byte left in the reader
behind the bytes of the file and of the buffer. -/
theorem copyLoop_disk {σ : Type} (h : Host σ) (c : Client) (disk : σ → String → Option Bytes)
    (paths : List String) (hk : KeepsFiles h c disk paths) (path : String) (fuel : Nat)
    (sizes : List Nat) (rest : Bytes) (b : BufWriter) (w : World σ)
    (d0 : String → Option Bytes) (x : Bytes) (hb : b.err = none)
    (hd : disk w.host = stored d0 path x) (hfuel : rest.length + sizes.length < fuel) :
    (copyLoop h path fuel sizes rest none b w).2.1.err = none ∧
    ∃ x1, disk (copyLoop h path fuel sizes rest none b w).2.2.host = stored d0 path x1 ∧
      x1 ++ (copyLoop h path fuel sizes rest none b w).2.1.buf = x ++ b.buf ++ rest := by
  induction fuel generalizing sizes rest b w x with
  | zero => omega
  | succ n ih =>
    unfold copyLoop
    by_cases hr : rest.isEmpty = true
    · have hnil : rest = [] := by simpa using hr
      simp only [hr, if_true]
      exact ⟨hb, x, hd, by simp [hnil]⟩
    · have hne : rest ≠ [] := by simpa using hr
      have hpos : 0 < rest.length := List.length_pos.mpr hne
      simp only [hr, Bool.false_eq_true, if_false]
      by_cases hz : min (sizes.headD 1024) 1024 = 0
      · simp only [hz, if_true]
        have hs : sizes ≠ [] := by
          intro e
          rw [e] at hz
          simp at hz
        have hlen : sizes.tail.length + 1 = sizes.length := by
          cases sizes with
          | nil => exact absurd rfl hs
          | cons a t => simp
        exact ih sizes.tail rest b w x hb hd (by omega)
      · simp only [hz, if_false]
        have hw := Write_disk h c disk paths hk path b
          (rest.take (min (sizes.headD 1024) 1024)) w d0 x hb hd
        rcases hx : BufWriter.Write h path b (rest.take (min (sizes.headD 1024) 1024)) w
          with ⟨e, b1, w1⟩
        rw [hx] at hw
        obtain ⟨he, hb1, x1, hd1, hx1⟩ := hw
        simp only [] at he hb1 hd1 hx1
        subst he
        simp only []
        have hdrop : (rest.drop (min (sizes.headD 1024) 1024)).length < rest.length := by
          rw [List.length_drop]
          omega
        have hih := ih sizes.tail (rest.drop (min (sizes.headD 1024) 1024)) b1 w1 x1 hb1 hd1
          (by
            have : sizes.tail.length ≤ sizes.length := by
              cases sizes <;> simp
            omega)
        obtain ⟨he2, x2, hd2, hx2⟩ := hih
        refine ⟨he2, x2, hd2, ?_⟩
        rw [hx2, hx1, List.append_assoc, List.append_assoc, List.take_append_drop]
        simp [List.append_assoc]

/-- On a host that keeps files, a `Copy` of a seekable reader that returns no
error leaves the remote file with the bytes of the reader, and every other file
as it was. -/
theorem Copy_disk {σ : Type} (h : Host σ) (c : Client) (disk : σ → String → Option Bytes)
    (paths : List String) (hk : KeepsFiles h c disk paths) (scp : SecureCopyClient)
    (data : Bytes) (pos : Nat) (path : String) (w w1 : World σ)
    (hx : Copy h scp { data := data, pos := pos } path w = (none, w1)) :
    disk w1.host = stored (disk w.host) path data := by
  unfold Copy at hx
  have h0 := hk.sftp w.host
  rcases hx1 : h.sftpNew w.host with ⟨_ | e0, s0⟩
  · rw [hx1] at h0
    simp only [hx1, if_true] at hx h0
    have h1 := hk.mkdir s0 (pathDir path)
    rcases hx2 : h.mkdirAll s0 (pathDir path) with ⟨mk, s1⟩
    rw [hx2] at h1
    simp only [hx2] at hx h1
    rcases hm : mk.filter (fun e => !e.exist) with _ | e1
    · simp only [hm] at hx
      have h2 := hk.openFile s1 path
      rcases hx3 : h.openFile s1 path with ⟨_ | e3, s2⟩
      · rw [hx3] at h2
        simp only [hx3, true_implies, List.drop_zero] at hx h2
        have hd2 : disk (⟨s2, w.trace ++ [Event.sftpOpen path]⟩ : World σ).host =
            stored (disk w.host) path [] := by
          simp only []
          rw [h2, h1, h0]
        have hl := copyLoop_disk h c disk paths hk path (data.length + 0 + 1) [] data {}
          ⟨s2, w.trace ++ [Event.sftpOpen path]⟩ (disk w.host) [] rfl hd2 (by simp)
        obtain ⟨he, x1, hd3, hx4⟩ := hl
        have hf := Flush_disk h c disk paths hk path
          (copyLoop h path (data.length + 0 + 1) [] data none {}
            ⟨s2, w.trace ++ [Event.sftpOpen path]⟩).2.1
          (copyLoop h path (data.length + 0 + 1) [] data none {}
            ⟨s2, w.trace ++ [Event.sftpOpen path]⟩).2.2 (disk w.host) x1 he hd3
        rw [hx4] at hf
        simp only [List.nil_append] at hf
        simp only [Prod.mk.injEq] at hx
        rw [← hx.2]
        exact hf.2.2
      · simp [hx3] at hx
    · simp [hm] at hx
  · simp [hx1] at hx

end files

namespace files

open Go manifest ssh

/-- The two ways in which `Transfer` returns no error: the hash short-circuit
after a `Stat` that succeeded, or the copy to the temporary name, the `cat` and
the move, all three without error. -/
theorem Transfer_cases {σ : Type} (h : Host σ) (fm : FileManager) (c : Client)
    (scp : SecureCopyClient) (hssh : fm.ssh = some c) (hscp : fm.scp = some scp) (f : File)
    (b : Bytes) (w w1 : World σ) (ch : Bool)
    (hx : fm.Transfer h f (NewReader b) w = (.ret (ch, none), w1)) :
    (∃ st, fm.Stat h f w = (.ret (.ok st), w1) ∧ st.Sha256 = sha256Hex b) ∨
    (∃ w3 w4 o o2,
      Copy h scp { data := b, pos := b.length } (tmpName f.Path) (fm.Stat h f w).2 = (none, w3) ∧
      Execf h c ("/bin/cat " ++ tmpName f.Path) [] w3 = (.ok o, w4) ∧
      Execf h c ("mv " ++ tmpName f.Path ++ " " ++ f.Path) [] w4 = (.ok o2, w1)) := by
  unfold FileManager.Transfer at hx
  simp only [hscp, hssh] at hx
  have tail : ∀ w2 : World σ,
      (match Copy h scp { data := b, pos := b.length } (tmpName f.Path) w2 with
        | (some err, w3) =>
          ((.ret (false, some (errorsWrap err "error copying file")), w3) :
            Outcome (Bool × Option GoError) × World σ)
        | (none, w3) =>
          match Execf h c ("/bin/cat " ++ tmpName f.Path) [] w3 with
          | (.error err, w4) =>
            (.ret (false, some (errorsWrap err ("error exec cat " ++ tmpName f.Path))), w4)
          | (.ok _, w4) =>
            match Execf h c ("mv " ++ tmpName f.Path ++ " " ++ f.Path) [] w4 with
            | (.error err, w5) =>
              (.ret (false, some (errorsWrap err ("error exec cat " ++ f.Path))), w5)
            | (.ok _, w5) => (.ret (true, none), w5)) = (.ret (ch, none), w1) →
      ∃ w3 w4 o o2,
        Copy h scp { data := b, pos := b.length } (tmpName f.Path) w2 = (none, w3) ∧
        Execf h c ("/bin/cat " ++ tmpName f.Path) [] w3 = (.ok o, w4) ∧
        Execf h c ("mv " ++ tmpName f.Path ++ " " ++ f.Path) [] w4 = (.ok o2, w1) := by
    intro w2 hy
    rcases hc1 : Copy h scp { data := b, pos := b.length } (tmpName f.Path) w2 with ⟨_ | e, w3⟩
    · simp only [hc1] at hy
      rcases hc2 : Execf h c ("/bin/cat " ++ tmpName f.Path) [] w3 with ⟨e | o, w4⟩
      · simp [hc2] at hy
      · simp only [hc2] at hy
        rcases hc3 : Execf h c ("mv " ++ tmpName f.Path ++ " " ++ f.Path) [] w4
          with ⟨e | o2, w5⟩
        · simp [hc3] at hy
        · simp only [hc3, Prod.mk.injEq] at hy
          exact ⟨w3, w4, o, o2, rfl, hc2, by rw [← hy.2]; exact hc3⟩
    · simp [hc1] at hy
  rcases hst : fm.Stat h f w with ⟨st | msg, w2⟩
  · simp only [hst] at hx
    rcases st with err | x
    · by_cases hne : err.notExist = true
      · simp only [hne, Bool.not_true, Bool.false_eq_true, if_false, ReadAll, NewReader,
          List.drop_zero, Option.isSome_none, Bool.false_and] at hx
        right
        exact tail w2 hx
      · simp [hne] at hx
    · simp only [ReadAll, NewReader, List.drop_zero, Option.isSome_some, if_true,
        Bool.true_and, Option.map_some', Option.some.injEq, decide_eq_true_eq] at hx
      by_cases hsame : sha256Hex b = x.Sha256
      · simp only [hsame, if_true, Prod.mk.injEq] at hx
        left
        exact ⟨x, by rw [hx.2], hsame.symm⟩
      · simp only [hsame, if_false] at hx
        right
        exact tail w2 hx
  · simp [hst] at hx

end files

namespace files

open Go manifest ssh

/-- On a host that keeps files, a `Transfer` that returns no error leaves the
file with bytes that have the SHA-256 of the rendered bytes, and leaves every
file other than this one and its temporary copy as it was. -/
theorem Transfer_installs {σ : Type} (h : Host σ) (fm : FileManager) (c : Client)
    (scp : SecureCopyClient) (disk : σ → String → Option Bytes) (paths : List String)
    (hk : KeepsFiles h c disk paths) (hssh : fm.ssh = some c) (hscp : fm.scp = some scp)
    (f : File) (hmem : f.Path ∈ paths) (hp : '%' ∉ f.Path.data) (b : Bytes) (w w1 : World σ)
    (ch : Bool) (hx : fm.Transfer h f (NewReader b) w = (.ret (ch, none), w1)) :
    Holds (disk w1.host) f.Path b ∧
      ∀ q, q ≠ f.Path → q ≠ tmpName f.Path → disk w1.host q = disk w.host q := by
  have hkeep := Stat_keeps h fm c disk paths hk hssh f w
  rcases Transfer_cases h fm c scp hssh hscp f b w w1 ch hx with
    ⟨st, hst, hsha⟩ | ⟨w3, w4, o, o2, hcopy, hcat, hmv⟩
  · obtain ⟨b1, hb1, hst1⟩ := Stat_found h fm c disk paths hk hssh f hmem hp w w1 st hst
    rw [hst] at hkeep
    have hd : disk w1.host = disk w.host := hkeep.2.2 rfl
    refine ⟨⟨b1, by rw [hd]; exact hb1, by rw [← hst1, hsha]⟩, ?_⟩
    intro q _ _
    rw [hd]
  · have hd2 : disk (fm.Stat h f w).2.host = disk w.host := hkeep.2.2 rfl
    have hd3 := Copy_disk h c disk paths hk scp b b.length (tmpName f.Path) _ w3 hcopy
    have hd4 := Execf_disk h c disk paths hk ("/bin/cat " ++ tmpName f.Path) []
      (quietFormat_append _ _ rfl) w3
    rw [hcat] at hd4
    simp only [] at hd4
    obtain ⟨_, hrun⟩ := Execf_run h c _ _ _ _ _ hmv
    have hnp : '%' ∉ ("mv " ++ tmpName f.Path ++ " " ++ f.Path).data := by
      simp only [String.data_append, List.mem_append, not_or]
      exact ⟨⟨⟨by decide, tmpName_noPercent _ hp⟩, by decide⟩, hp⟩
    rw [wire_sudo c _ hnp] at hrun
    have hd5 := hk.move _ f.Path o2 w1.host hmem hrun
    rw [hk.session, hd4, hd3, hd2] at hd5
    constructor
    · refine ⟨b, ?_, rfl⟩
      rw [hd5]
      simp [moved, stored]
    · intro q hq1 hq2
      rw [hd5]
      have e1 : ¬ f.Path = q := fun e => hq1 e.symm
      have e2 : ¬ tmpName f.Path = q := fun e => hq2 e.symm
      simp [moved, stored, e1, e2]

/-- On a host that keeps files and holds the file with bytes that have the
SHA-256 of the rendered bytes, `Transfer` returns `changed = false`, copies
nothing and leaves the files as they are. -/
theorem Transfer_holds {σ : Type} (h : Host σ) (fm : FileManager) (c : Client)
    (scp : SecureCopyClient) (disk : σ → String → Option Bytes) (paths : List String)
    (hk : KeepsFiles h c disk paths) (hssh : fm.ssh = some c) (hscp : fm.scp = some scp)
    (f : File) (hmem : f.Path ∈ paths) (hp : '%' ∉ f.Path.data) (b : Bytes) (w : World σ)
    (hh : Holds (disk w.host) f.Path b) :
    (∃ e, (fm.Transfer h f (NewReader b) w).1 = .ret (false, e)) ∧
      Quiet (fun s => disk s = disk w.host) w (fm.Transfer h f (NewReader b) w).2 := by
  obtain ⟨b1, hb1, hsha⟩ := hh
  have hkeep := Stat_keeps h fm c disk paths hk hssh f w
  rcases Stat_holds h fm c disk paths hk hssh f hmem hp w b1 hb1 with
    ⟨st, hst, hst1⟩ | ⟨err, hst, hne⟩
  · rcases hs : fm.Stat h f w with ⟨r, w1⟩
    rw [hs] at hst hkeep
    simp only [] at hst
    subst hst
    rw [Transfer_same_hash h fm scp f b w w1 st hscp hs (hst1.trans hsha)]
    exact ⟨⟨none, rfl⟩, hkeep⟩
  · rcases hs : fm.Stat h f w with ⟨r, w1⟩
    rw [hs] at hst hkeep
    simp only [] at hst
    subst hst
    have ht : fm.Transfer h f (NewReader b) w =
        (.ret (false, some (errorsWrap err ("error stat " ++ f.Path))), w1) := by
      simp [FileManager.Transfer, hscp, hs, hne]
    rw [ht]
    exact ⟨⟨_, rfl⟩, hkeep⟩

end files

namespace files

open Go manifest ssh

/-- A reader that holds the same bytes. -/
theorem NewReader_inj (a b : Bytes) (hab : NewReader a = NewReader b) : a = b := by
  simp only [NewReader, Reader.mk.injEq, and_true] at hab
  exact hab

/-- The files of one package in a first run on a host that keeps files: when the
loop ends without returning, the files visited before it and the files of the
package are installed. -/
theorem transferFiles_installs {σ : Type} (h : Host σ) (t : Templates) (fm : FileManager)
    (c : Client) (scp : SecureCopyClient) (disk : σ → String → Option Bytes)
    (paths : List String) (hk : KeepsFiles h c disk paths) (hssh : fm.ssh = some c)
    (hscp : fm.scp = some scp) (m : Manifest) (pkg : Package) (data : GoMap String)
    (fs : List File) (done : List (Package × File))
    (hmem : ∀ f ∈ fs, f.Path ∈ paths) (hp : ∀ f ∈ fs, '%' ∉ f.Path.data)
    (hpw : (done ++ fs.map (fun f => (pkg, f))).Pairwise (Apart t m data))
    (changed ch : GoMap Package) (w w1 : World σ)
    (hdone : ∀ a ∈ done, Installed t m data (disk w.host) a)
    (hx : transferFiles h t fm pkg data fs changed w = (.ret (.inr ch), w1)) :
    ∀ a ∈ done ++ fs.map (fun f => (pkg, f)), Installed t m data (disk w1.host) a := by
  induction fs generalizing done changed w with
  | nil =>
    simp only [transferFiles, Prod.mk.injEq] at hx
    rw [← hx.2]
    simpa using hdone
  | cons f rest ih =>
    unfold transferFiles at hx
    by_cases hpath : f.Path = ""
    · simp [hpath] at hx
    · simp only [hpath, if_false] at hx
      rcases hr : fm.Render t pkg f data with err | reader
      · simp [hr] at hx
      · simp only [hr] at hx
        have hrd := Render_reader t fm pkg f data reader hr
        rw [hrd] at hr hx
        rcases htr : fm.Transfer h f (NewReader reader.data) w with ⟨⟨diff, _ | e⟩ | msg, w2⟩
        · simp only [htr] at hx
          obtain ⟨hholds, hframe⟩ := Transfer_installs h fm c scp disk paths hk hssh hscp f
            (hmem f (List.mem_cons_self _ _)) (hp f (List.mem_cons_self _ _)) reader.data w w2
            diff htr
          have hrn : (files.New m none).Render t pkg f data = .ok (NewReader reader.data) := by
            rw [← hr]
            exact Render_fm _ _ _ _ _ _
          have hsplit : done ++ (f :: rest).map (fun f => (pkg, f)) =
              (done ++ [(pkg, f)]) ++ rest.map (fun f => (pkg, f)) := by
            simp
          rw [hsplit] at hpw ⊢
          have hpw1 := (List.pairwise_append.mp hpw).1
          have hsep := (List.pairwise_append.mp hpw1).2.2
          refine ih (done ++ [(pkg, f)]) (fun g hg => hmem g (List.mem_cons_of_mem _ hg))
            (fun g hg => hp g (List.mem_cons_of_mem _ hg)) hpw _ w2 ?_ hx
          intro a ha
          rcases List.mem_append.mp ha with ha | ha
          · obtain ⟨hne, ba, hra, b1, hb1, hsha⟩ := hdone a ha
            obtain ⟨hs1, hs2⟩ := hsep a ha (pkg, f) (List.mem_singleton_self _)
            simp only [] at hs1 hs2
            by_cases hsame : a.2.Path = f.Path
            · have heq := hs2 hsame
              rw [hra, hrn] at heq
              have hba : ba = reader.data := NewReader_inj _ _ (Except.ok.inj heq)
              subst hba
              refine ⟨hne, _, hra, ?_⟩
              rw [hsame]
              exact hholds
            · refine ⟨hne, ba, hra, b1, ?_, hsha⟩
              rw [hframe a.2.Path hsame hs1]
              exact hb1
          · have hae : a = (pkg, f) := by simpa using ha
            subst hae
            exact ⟨hpath, reader.data, hrn, hholds⟩
        · simp [htr] at hx
        · simp [htr] at hx

/-- The packages of a manifest in a first run on a host that keeps files: when
the loop ends without returning, the files visited before it and the files of
the packages are installed. -/
theorem transferPackages_installs {σ : Type} (h : Host σ) (t : Templates) (fm : FileManager)
    (c : Client) (scp : SecureCopyClient) (disk : σ → String → Option Bytes)
    (paths : List String) (hk : KeepsFiles h c disk paths) (hssh : fm.ssh = some c)
    (hscp : fm.scp = some scp) (m : Manifest) (data : GoMap String)
    (ps : List Package) (done : List (Package × File))
    (hmem : ∀ pkg ∈ ps, ∀ f ∈ pkg.Files, f.Path ∈ paths)
    (hp : ∀ pkg ∈ ps, ∀ f ∈ pkg.Files, '%' ∉ f.Path.data)
    (hpw : (done ++ ps.flatMap (fun pkg => pkg.Files.map (fun f => (pkg, f)))).Pairwise
      (Apart t m data))
    (changed ch : GoMap Package) (w w1 : World σ)
    (hdone : ∀ a ∈ done, Installed t m data (disk w.host) a)
    (hx : transferPackages h t fm data ps changed w = (.ret (.inr ch), w1)) :
    ∀ a ∈ done ++ ps.flatMap (fun pkg => pkg.Files.map (fun f => (pkg, f))),
      Installed t m data (disk w1.host) a := by
  induction ps generalizing done changed w with
  | nil =>
    simp only [transferPackages, Prod.mk.injEq] at hx
    rw [← hx.2]
    simpa using hdone
  | cons pkg rest ih =>
    unfold transferPackages at hx
    have hsplit : done ++ (pkg :: rest).flatMap (fun pkg => pkg.Files.map (fun f => (pkg, f))) =
        (done ++ pkg.Files.map (fun f => (pkg, f))) ++
          rest.flatMap (fun pkg => pkg.Files.map (fun f => (pkg, f))) := by
      simp
    rw [hsplit] at hpw ⊢
    rcases hf : transferFiles h t fm pkg data pkg.Files changed w
      with ⟨(r | changed1) | msg, w2⟩
    · simp [hf] at hx
    · simp only [hf] at hx
      have hfiles := transferFiles_installs h t fm c scp disk paths hk hssh hscp m pkg data
        pkg.Files done (hmem pkg (List.mem_cons_self _ _)) (hp pkg (List.mem_cons_self _ _))
        (List.pairwise_append.mp hpw).1 changed changed1 w w2 hdone hf
      exact ih (done ++ pkg.Files.map (fun f => (pkg, f)))
        (fun q hq => hmem q (List.mem_cons_of_mem _ hq))
        (fun q hq => hp q (List.mem_cons_of_mem _ hq)) hpw changed1 w2 hfiles hx
    · simp [hf] at hx

/-- The files of one package in a run on a host that keeps files and on which
they are installed: every `Transfer` returns `changed = false`, so the loop
copies nothing, leaves the files as they are and the changed set as it was. -/
theorem transferFiles_holds {σ : Type} (h : Host σ) (t : Templates) (fm : FileManager)
    (c : Client) (scp : SecureCopyClient) (disk : σ → String → Option Bytes)
    (paths : List String) (hk : KeepsFiles h c disk paths) (hssh : fm.ssh = some c)
    (hscp : fm.scp = some scp) (m : Manifest) (pkg : Package) (data : GoMap String)
    (d : String → Option Bytes) (fs : List File)
    (hmem : ∀ f ∈ fs, f.Path ∈ paths) (hp : ∀ f ∈ fs, '%' ∉ f.Path.data)
    (hall : ∀ f ∈ fs, Installed t m data d (pkg, f))
    (changed : GoMap Package) (w : World σ) (hd : disk w.host = d) :
    Quiet (fun s => disk s = d) w (transferFiles h t fm pkg data fs changed w).2 ∧
      ((∃ e, (transferFiles h t fm pkg data fs changed w).1 =
          .ret (.inl (some changed, some e))) ∨
        (transferFiles h t fm pkg data fs changed w).1 = .ret (.inr changed)) := by
  induction fs generalizing w with
  | nil => exact ⟨Quiet.refl _ w, Or.inr rfl⟩
  | cons f rest ih =>
    unfold transferFiles
    obtain ⟨hpath, b, hrn, hholds⟩ := hall f (List.mem_cons_self _ _)
    simp only [] at hpath hrn hholds
    have hr : fm.Render t pkg f data = .ok (NewReader b) := by
      rw [← hrn]
      exact Render_fm _ _ _ _ _ _
    simp only [hpath, if_false, hr]
    obtain ⟨⟨e, hres⟩, hq⟩ := Transfer_holds h fm c scp disk paths hk hssh hscp f
      (hmem f (List.mem_cons_self _ _)) (hp f (List.mem_cons_self _ _)) b w
      (by rw [hd]; exact hholds)
    rw [hd] at hq
    rcases htr : fm.Transfer h f (NewReader b) w with ⟨r, w2⟩
    rw [htr] at hres hq
    simp only [] at hres
    subst hres
    rcases e with _ | e
    · simp only [Bool.false_eq_true, if_false]
      have hrest := ih (fun g hg => hmem g (List.mem_cons_of_mem _ hg))
        (fun g hg => hp g (List.mem_cons_of_mem _ hg))
        (fun g hg => hall g (List.mem_cons_of_mem _ hg)) w2 (hq.2.2 hd)
      exact ⟨hq.trans hrest.1, hrest.2⟩
    · exact ⟨hq, Or.inl ⟨_, rfl⟩⟩

/-- The packages of a manifest in a run on a host that keeps files and on which
their files are installed: nothing is copied, the files are left as they are
and the changed set as it was. -/
theorem transferPackages_holds {σ : Type} (h : Host σ) (t : Templates) (fm : FileManager)
    (c : Client) (scp : SecureCopyClient) (disk : σ → String → Option Bytes)
    (paths : List String) (hk : KeepsFiles h c disk paths) (hssh : fm.ssh = some c)
    (hscp : fm.scp = some scp) (m : Manifest) (data : GoMap String)
    (d : String → Option Bytes) (ps : List Package)
    (hmem : ∀ pkg ∈ ps, ∀ f ∈ pkg.Files, f.Path ∈ paths)
    (hp : ∀ pkg ∈ ps, ∀ f ∈ pkg.Files, '%' ∉ f.Path.data)
    (hall : ∀ pkg ∈ ps, ∀ f ∈ pkg.Files, Installed t m data d (pkg, f))
    (changed : GoMap Package) (w : World σ) (hd : disk w.host = d) :
    Quiet (fun s => disk s = d) w (transferPackages h t fm data ps changed w).2 ∧
      ((∃ e, (transferPackages h t fm data ps changed w).1 =
          .ret (.inl (some changed, some e))) ∨
        (transferPackages h t fm data ps changed w).1 = .ret (.inr changed)) := by
  induction ps generalizing w with
  | nil => exact ⟨Quiet.refl _ w, Or.inr rfl⟩
  | cons pkg rest ih =>
    unfold transferPackages
    have hf := transferFiles_holds h t fm c scp disk paths hk hssh hscp m pkg data d pkg.Files
      (hmem pkg (List.mem_cons_self _ _)) (hp pkg (List.mem_cons_self _ _))
      (hall pkg (List.mem_cons_self _ _)) changed w hd
    rcases hx : transferFiles h t fm pkg data pkg.Files changed w with ⟨r, w2⟩
    rw [hx] at hf
    obtain ⟨hq, ⟨e, hres⟩ | hres⟩ := hf
    · simp only [] at hres
      subst hres
      exact ⟨hq, Or.inl ⟨e, rfl⟩⟩
    · simp only [] at hres
      subst hres
      simp only []
      have hrest := ih (fun q hq => hmem q (List.mem_cons_of_mem _ hq))
        (fun q hq => hp q (List.mem_cons_of_mem _ hq))
        (fun q hq => hall q (List.mem_cons_of_mem _ hq)) w2 (hq.2.2 hd)
      exact ⟨hq.trans hrest.1, hrest.2⟩

end files

namespace files

open Go manifest ssh

theorem mem_manifestFiles (m : Manifest) (pkg : Package) (f : File) (hpkg : pkg ∈ m.Packages)
    (hf : f ∈ pkg.Files) : (pkg, f) ∈ manifestFiles m := by
  unfold manifestFiles
  simp only [List.mem_flatMap, List.mem_map, Prod.mk.injEq]
  exact ⟨pkg, hpkg, f, hf, rfl, rfl⟩

/-- A first run of `RenderAndTransfer` on a host that keeps files: when it
returns no error, every file of the manifest is installed. -/
theorem RenderAndTransfer_installs {σ : Type} (h : Host σ) (t : Templates) (m : Manifest)
    (c : Client) (disk : σ → String → Option Bytes) (data : GoMap String)
    (hk : KeepsFiles h c disk ((manifestFiles m).map (fun a => a.2.Path)))
    (hp : ∀ a ∈ manifestFiles m, '%' ∉ a.2.Path.data)
    (hpw : (manifestFiles m).Pairwise (Apart t m data))
    (w w1 : World σ) (co : Option (GoMap Package)) (fm1 : FileManager)
    (hx : (files.New m (some c)).RenderAndTransfer h t data w = (.ret (co, none), fm1, w1)) :
    ∀ a ∈ manifestFiles m, Installed t m data (disk w1.host) a := by
  obtain ⟨c1, changed, hc1, _, _, htp⟩ := RenderAndTransfer_some _ _ _ _ _ _ _ _ hx
  simp only [files.New, Option.some.injEq] at hc1
  subst hc1
  have := transferPackages_installs h t
    { manifest := m, ssh := some c, scp := some (NewSecureCopyClient c) } c
    (NewSecureCopyClient c) disk _ hk rfl rfl m data m.Packages []
    (fun pkg hpkg f hf => List.mem_map.mpr ⟨(pkg, f), mem_manifestFiles m pkg f hpkg hf, rfl⟩)
    (fun pkg hpkg f hf => hp (pkg, f) (mem_manifestFiles m pkg f hpkg hf))
    (by simpa [manifestFiles] using hpw) [] changed w w1 (by simp) htp
  simpa [manifestFiles] using this

/-- A run of `RenderAndTransfer` on a host that keeps files and on which every
file of the manifest is installed: nothing is copied, the files are left as
they are, and the changed set it returns is empty. -/
theorem RenderAndTransfer_holds {σ : Type} (h : Host σ) (t : Templates) (m : Manifest)
    (c : Client) (disk : σ → String → Option Bytes) (data : GoMap String)
    (hk : KeepsFiles h c disk ((manifestFiles m).map (fun a => a.2.Path)))
    (hp : ∀ a ∈ manifestFiles m, '%' ∉ a.2.Path.data)
    (d : String → Option Bytes)
    (hall : ∀ a ∈ manifestFiles m, Installed t m data d a)
    (w : World σ) (hd : disk w.host = d) :
    Quiet (fun s => disk s = d) w ((files.New m (some c)).RenderAndTransfer h t data w).2.2 ∧
      ∃ e, ((files.New m (some c)).RenderAndTransfer h t data w).1 = .ret (some [], e) := by
  have hl := transferPackages_holds h t
    { manifest := m, ssh := some c, scp := some (NewSecureCopyClient c) } c
    (NewSecureCopyClient c) disk _ hk rfl rfl m data d m.Packages
    (fun pkg hpkg f hf => List.mem_map.mpr ⟨(pkg, f), mem_manifestFiles m pkg f hpkg hf, rfl⟩)
    (fun pkg hpkg f hf => hp (pkg, f) (mem_manifestFiles m pkg f hpkg hf))
    (fun pkg hpkg f hf => hall (pkg, f) (mem_manifestFiles m pkg f hpkg hf)) [] w hd
  unfold FileManager.RenderAndTransfer files.New
  simp only []
  rcases hx : transferPackages h t
    { manifest := m, ssh := some c, scp := some (NewSecureCopyClient c) } data m.Packages [] w
    with ⟨r, w1⟩
  rw [hx] at hl
  obtain ⟨hq, ⟨e, hres⟩ | hres⟩ := hl
  · simp only [] at hres
    subst hres
    exact ⟨hq, _, rfl⟩
  · simp only [] at hres
    subst hres
    exact ⟨hq, _, rfl⟩

end files

namespace reconcile

open Go manifest ssh files packages

/-- On a host that keeps files the restart loop leaves the files as they are. -/
theorem restartServices_disk {σ : Type} (h : Host σ) (pkgs : Packages)
    (disk : σ → String → Option Bytes) (paths : List String)
    (hk : KeepsFiles h pkgs.ssh disk paths) (id : String) (l : List (String × Package))
    (w : World σ) : disk (restartServices h pkgs id l w).2.host = disk w.host := by
  induction l generalizing w with
  | nil => rfl
  | cons e rest ih =>
    obtain ⟨name, pkg⟩ := e
    unfold restartServices
    by_cases hkind : pkg.Kind = PackageKindService
    · simp only [hkind, if_true]
      have hr : disk (pkgs.RestartService h pkg.Name w).2.host = disk w.host := by
        unfold Packages.RestartService
        have he := Execf_disk h pkgs.ssh disk paths hk
          ("DEBIAN_FRONTEND=noninteractive service " ++ pkg.Name ++ " restart") []
          (quietFormat_append _ _ (quietFormat_append _ _ rfl))
          { w with trace := w.trace ++ [Event.call "RestartService" pkg.Name] }
        simp only [] at he ⊢
        split <;> rename_i heq <;> (rw [heq] at he; exact he)
      rcases hx : pkgs.RestartService h pkg.Name w with ⟨_ | err, w1⟩
      · rw [hx] at hr
        simp only [] at hr ⊢
        rw [ih w1, hr]
      · rw [hx] at hr
        exact hr
    · simp only [hkind, if_false]
      exact ih w

end reconcile

namespace reconcile

open Go manifest ssh files packages

/-- C5 as amended: two runs of `Reconcile` on a host that keeps files (it
changes them only on the SFTP requests and the moves of the runs, answers
`stat` and `sha256sum` from them, and takes every byte that is written), for a
manifest whose file paths hold no percent sign, in which no file has the path
that is the temporary name of a file visited after it, and in which two files
with the same path render the same. If the first run returns no error and the
second run, started on the host as the first one left it, renders every file
as the first did (as it does at the same clock reading, or for files that do
not use `LastModifiedDate`), then the second run adds no SFTP event (zero files
are copied), enters `RestartService` on no name and leaves the files as they
are; when it reaches `RenderAndTransfer`, the set of changed packages that
comes back is empty; and every `Transfer` of a file of the manifest with the
bytes of the second run, on the files as the first run left them, returns
`changed = false`. -/
theorem Reconcile_twice {σ : Type} (h : Host σ) (t : Templates)
    (order : GoMap Package → List (String × Package)) (now now2 : String)
    (p : ProviderReconciler) (disk : σ → String → Option Bytes) (w w1 : World σ)
    (horder : ∀ m, (order m).Perm m)
    (hhost : KeepsFiles h p.ssh disk ((manifestFiles p.manifest).map (fun a => a.2.Path)))
    (hpercent : ∀ a ∈ manifestFiles p.manifest, '%' ∉ a.2.Path.data)
    (hapart : (manifestFiles p.manifest).Pairwise
      (Apart t p.manifest (renderData p.manifest now)))
    (hrender : ∀ a ∈ manifestFiles p.manifest,
      (files.New p.manifest (some p.ssh)).Render t a.1 a.2 (renderData p.manifest now2) =
        (files.New p.manifest (some p.ssh)).Render t a.1 a.2 (renderData p.manifest now))
    (hfirst : p.Reconcile h t order now w = (.ret none, w1)) :
    sftpEvents (p.Reconcile h t order now2 w1).2.trace = sftpEvents w1.trace ∧
    restartCalls (p.Reconcile h t order now2 w1).2.trace = restartCalls w1.trace ∧
    disk (p.Reconcile h t order now2 w1).2.host = disk w1.host ∧
    (∀ pkglist wq w2,
      (NewPackages p.manifest p.ssh).Query h w1 = (.ret (.ok pkglist), wq) →
      installMissing h (NewPackages p.manifest p.ssh) p.manifest.ID
        (missingPackages p.manifest.Packages pkglist) wq = (none, w2) →
      ∃ err fm1 w3, (files.New p.manifest (some p.ssh)).RenderAndTransfer h t
        (renderData p.manifest now2) w2 = (.ret (some [], err), fm1, w3)) ∧
    ∀ a ∈ manifestFiles p.manifest, ∀ b,
      (files.New p.manifest (some p.ssh)).Render t a.1 a.2 (renderData p.manifest now2) =
        .ok (NewReader b) →
      ∀ w2 : World σ, disk w2.host = disk w1.host →
        ∃ err, (FileManager.Transfer h
          { manifest := p.manifest, ssh := some p.ssh,
            scp := some (NewSecureCopyClient p.ssh) } a.2 (NewReader b) w2).1 =
          .ret (false, err) := by
  have hexec : ∀ (d : String → Option Bytes) (w1 : World σ) (cmd : String)
      (args : List String), quietFormat cmd = true → disk w1.host = d →
      disk (Execf h p.ssh cmd args w1).2.host = d :=
    fun d w1 cmd args hf hi => (Execf_disk h p.ssh disk _ hhost cmd args hf w1).trans hi
  -- the first run
  have hinst : ∀ a ∈ manifestFiles p.manifest,
      Installed t p.manifest (renderData p.manifest now) (disk w1.host) a := by
    unfold ProviderReconciler.Reconcile at hfirst
    simp only [] at hfirst
    rcases hxq : (NewPackages p.manifest p.ssh).Query h w with ⟨(e | pkglist) | msg, wq⟩
    · simp [hxq] at hfirst
    · simp only [hxq] at hfirst
      rcases hxi : installMissing h (NewPackages p.manifest p.ssh) p.manifest.ID
        (missingPackages p.manifest.Packages pkglist) wq with ⟨_ | err, w2⟩
      · simp only [hxi] at hfirst
        rcases hxr : (files.New p.manifest (some p.ssh)).RenderAndTransfer h t
          (renderData p.manifest now) w2 with ⟨⟨co, _ | err⟩ | msg, fm1, w3⟩
        · simp only [hxr] at hfirst
          have h3 := RenderAndTransfer_installs h t p.manifest p.ssh disk
            (renderData p.manifest now) hhost hpercent hapart w2 w3 co fm1 hxr
          obtain ⟨c1, changed, hc1, _, hfm1, _⟩ := RenderAndTransfer_some _ _ _ _ _ _ _ _ hxr
          have hssh1 : fm1.ssh = some p.ssh := by rw [hfm1]; rfl
          have hq4 := ApplyPermissions_quiet h fm1 p.ssh (fun s => disk s = disk w3.host) hssh1
            (hexec (disk w3.host)) w3
          rcases hxa : fm1.ApplyPermissions h w3 with ⟨_ | err, w4⟩
          · rw [hxa] at hq4
            simp only [hxa] at hfirst
            have hd5 := restartServices_disk h (NewPackages p.manifest p.ssh) disk _ hhost
              p.manifest.ID (order (co.getD [])) w4
            rcases hxs : restartServices h (NewPackages p.manifest p.ssh) p.manifest.ID
              (order (co.getD [])) w4 with ⟨_ | err, w5⟩
            · rw [hxs] at hd5
              simp only [hxs, Prod.mk.injEq, true_and] at hfirst hd5
              have hq6 := checkServices_quiet h p (fun s => disk s = disk w3.host)
                (hexec (disk w3.host)) p.manifest.Packages w5
              rw [hfirst] at hq6
              have hd1 : disk w1.host = disk w3.host :=
                hq6.2.2 (hd5.trans (hq4.2.2 rfl))
              rw [hd1]
              exact h3
            · simp [hxs] at hfirst
          · simp [hxa] at hfirst
        · simp [hxr] at hfirst
        · simp [hxr] at hfirst
      · simp [hxi] at hfirst
    · simp [hxq] at hfirst
  -- the second run renders the same
  have hinst2 : ∀ a ∈ manifestFiles p.manifest,
      Installed t p.manifest (renderData p.manifest now2) (disk w1.host) a := by
    intro a ha
    obtain ⟨hne, b, hr, hh⟩ := hinst a ha
    refine ⟨hne, b, ?_, hh⟩
    rw [Render_fm t _ (files.New p.manifest (some p.ssh)), hrender a ha, ← hr]
    exact Render_fm _ _ _ _ _ _
  have hquiet : Quiet (fun s => disk s = disk w1.host) w1 (p.Reconcile h t order now2 w1).2 := by
    unfold ProviderReconciler.Reconcile
    simp only []
    have hq1 := Query_quiet h (NewPackages p.manifest p.ssh) (fun s => disk s = disk w1.host)
      (hexec (disk w1.host)) w1
    rcases hxq : (NewPackages p.manifest p.ssh).Query h w1 with ⟨(e | pkglist) | msg, wq⟩ <;>
      rw [hxq] at hq1 <;> simp only []
    · exact hq1
    · have hq2 := installMissing_quiet h (NewPackages p.manifest p.ssh)
        (fun s => disk s = disk w1.host) (hexec (disk w1.host))
        p.manifest.ID (missingPackages p.manifest.Packages pkglist) wq
      rcases hxi : installMissing h (NewPackages p.manifest p.ssh) p.manifest.ID
        (missingPackages p.manifest.Packages pkglist) wq with ⟨_ | err, w2⟩ <;>
        rw [hxi] at hq2 <;> simp only []
      · have hd2 : disk w2.host = disk w1.host := hq2.2.2 (hq1.2.2 rfl)
        have hsame := RenderAndTransfer_holds h t p.manifest p.ssh disk
          (renderData p.manifest now2) hhost hpercent (disk w1.host) hinst2 w2 hd2
        rcases hxr : (files.New p.manifest (some p.ssh)).RenderAndTransfer h t
          (renderData p.manifest now2) w2 with ⟨r, fm1, w3⟩
        rw [hxr] at hsame
        obtain ⟨hq3, e, hres⟩ := hsame
        simp only [] at hres hq3
        subst hres
        rcases e with _ | e
        · simp only []
          obtain ⟨c1, changed, hc1, _, hfm1, _⟩ := RenderAndTransfer_some _ _ _ _ _ _ _ _ hxr
          have hssh1 : fm1.ssh = some p.ssh := by rw [hfm1]; rfl
          have hq4 := ApplyPermissions_quiet h fm1 p.ssh (fun s => disk s = disk w1.host)
            hssh1 (hexec (disk w1.host)) w3
          rcases hxa : fm1.ApplyPermissions h w3 with ⟨_ | err, w4⟩ <;>
            rw [hxa] at hq4 <;> simp only []
          · have hnil : order [] = [] := List.Perm.eq_nil (horder [])
            simp only [Option.getD_some, hnil, restartServices]
            exact ((hq1.trans hq2).trans (hq3.trans hq4)).trans
              (checkServices_quiet h p _ (hexec (disk w1.host)) _ w4)
          · exact (hq1.trans hq2).trans (hq3.trans hq4)
        · exact (hq1.trans hq2).trans hq3
      · exact hq1.trans hq2
    · exact hq1
  refine ⟨hquiet.2.1, hquiet.1, hquiet.2.2 rfl, ?_, ?_⟩
  · intro pkglist wq w2 hxq hxi
    have hq1 := Query_quiet h (NewPackages p.manifest p.ssh) (fun s => disk s = disk w1.host)
      (hexec (disk w1.host)) w1
    have hq2 := installMissing_quiet h (NewPackages p.manifest p.ssh)
      (fun s => disk s = disk w1.host) (hexec (disk w1.host))
      p.manifest.ID (missingPackages p.manifest.Packages pkglist) wq
    rw [hxq] at hq1
    rw [hxi] at hq2
    have hd2 : disk w2.host = disk w1.host := hq2.2.2 (hq1.2.2 rfl)
    have hsame := RenderAndTransfer_holds h t p.manifest p.ssh disk
      (renderData p.manifest now2) hhost hpercent (disk w1.host) hinst2 w2 hd2
    rcases hxr : (files.New p.manifest (some p.ssh)).RenderAndTransfer h t
      (renderData p.manifest now2) w2 with ⟨r, fm1, w3⟩
    rw [hxr] at hsame
    obtain ⟨_, e, hres⟩ := hsame
    simp only [] at hres
    subst hres
    exact ⟨e, fm1, w3, rfl⟩
  · intro a ha b hr w2 hd2
    obtain ⟨_, b1, hr1, hh⟩ := hinst2 a ha
    rw [Render_fm t _ (files.New p.manifest (some p.ssh)), hr] at hr1
    have hb : b = b1 := NewReader_inj _ _ (Except.ok.inj hr1)
    subst hb
    exact (Transfer_holds h _ p.ssh (NewSecureCopyClient p.ssh) disk _ hhost rfl rfl a.2
      (List.mem_map.mpr ⟨a, ha, rfl⟩) (hpercent a ha) b w2 (by rw [hd2]; exact hh)).1

end reconcile

/-! ## The model host with a file system keeps files -/

namespace Go

theorem digitChar_ne_comma (n : Nat) : Nat.digitChar n ≠ ',' := by
  by_cases h : n < 16
  · interval_cases n <;> decide
  · have e : Nat.digitChar n = '*' := by
      unfold Nat.digitChar
      repeat rw [if_neg (by omega)]
    rw [e]
    decide

theorem toDigitsCore_noComma (fuel n : Nat) (acc : List Char) (hacc : ',' ∉ acc) :
    ',' ∉ Nat.toDigitsCore 10 fuel n acc := by
  induction fuel generalizing n acc with
  | zero => simpa [Nat.toDigitsCore] using hacc
  | succ k ih =>
    unfold Nat.toDigitsCore
    have hd : ',' ∉ Nat.digitChar (n % 10) :: acc := by
      simp only [List.mem_cons, not_or]
      exact ⟨fun e => digitChar_ne_comma _ e.symm, hacc⟩
    simp only []
    split
    · exact hd
    · exact ih _ _ hd

/-- The decimal text of a number holds no comma. -/
theorem repr_noComma (n : Nat) : ',' ∉ (Nat.repr n).data := by
  unfold Nat.repr Nat.toDigits
  simpa [List.asString] using toDigitsCore_noComma (n + 1) n [] (by simp)

/-- The number of parts of a split is the number of separators and one. -/
theorem splitChars_length (sep : Char) (l : List Char) :
    (splitChars sep l).length = l.count sep + 1 := by
  induction l with
  | nil => simp [splitChars]
  | cons c cs ih =>
    unfold splitChars
    rcases hs : splitChars sep cs with _ | ⟨seg, segs⟩
    · exact absurd hs (splitChars_ne_nil sep cs)
    · rw [hs] at ih
      by_cases hc : c = sep
      · subst hc
        simp only [if_true, List.length_cons, List.count_cons_self]
        simp only [List.length_cons] at ih
        omega
      · have hc1 : ¬ (c == sep) = true := by simpa using hc
        simp only [hc, if_false, List.length_cons, List.count_cons, hc1]
        simp only [List.length_cons] at ih
        simpa using ih

/-- A line that starts and ends with a character that is no space, followed by
a newline, is trimmed to the line. -/
theorem trimSpace_line (c z : Char) (m : List Char) (hc : isSpace c = false)
    (hz : isSpace z = false) :
    trimSpace (String.mk (c :: (m ++ [z, '\n']))) = String.mk (c :: (m ++ [z])) := by
  unfold trimSpace
  have h1 : (c :: (m ++ [z, '\n'])).dropWhile isSpace = c :: (m ++ [z, '\n']) := by
    simp [List.dropWhile, hc]
  have h2 : (c :: (m ++ [z, '\n'])).reverse = '\n' :: z :: (c :: m).reverse := by
    simp
  have h3 : isSpace '\n' = true := by decide
  rw [h1, h2]
  simp [List.dropWhile, h3, hz]

/-- Text without a space, followed by a newline, is trimmed to the text. -/
theorem trimSpace_word (x : List Char) (hx : ∀ c ∈ x, isSpace c = false) :
    trimSpace (String.mk (x ++ ['\n'])) = String.mk x := by
  rcases List.eq_nil_or_concat x with rfl | ⟨m, z, rfl⟩
  · decide
  · rcases m with _ | ⟨c, m⟩
    · have hz := hx z (by simp)
      have h3 : isSpace '\n' = true := by decide
      simp [trimSpace, List.dropWhile, hz, h3]
    · have hc := hx c (by simp)
      have hz := hx z (by simp)
      have := trimSpace_line c z m hc hz
      simpa using this

theorem hexDigit_plain (k : Nat) (hk : k < 16) :
    isSpace (hexDigit k) = false ∧ hexDigit k ≠ 'S' := by
  interval_cases k <;> decide

/-- The characters of a hash are no spaces and not the letter `S`. -/
theorem sha256Hex_plain (b : Bytes) :
    ∀ c ∈ (sha256Hex b).data, isSpace c = false ∧ c ≠ 'S' := by
  intro c hc
  simp only [sha256Hex, List.mem_flatMap, hexWord, List.mem_map] at hc
  obtain ⟨w, _, i, _, rfl⟩ := hc
  exact hexDigit_plain _ (Nat.mod_lt _ (by decide))

/-- What `Stat` makes of the answer of `sha256sum`, a hash and a newline: the
hash. -/
theorem trim_sha256Hex (b : Bytes) :
    trimPrefix (trimSpace (sha256Hex b ++ "\n")) "Sha256:" = sha256Hex b := by
  have h1 : sha256Hex b ++ "\n" = String.mk ((sha256Hex b).data ++ ['\n']) := by
    apply String.ext
    simp
  rw [h1, trimSpace_word _ (fun c hc => (sha256Hex_plain b c hc).1)]
  have h2 : hasPrefix (String.mk (sha256Hex b).data) "Sha256:" = false := by
    unfold hasPrefix
    rcases hd : (sha256Hex b).data with _ | ⟨c, rest⟩
    · rfl
    · have hne := (sha256Hex_plain b c (by rw [hd]; simp)).2
      have : ('S' == c) = false := by simpa using fun e : 'S' = c => hne e.symm
      show List.isPrefixOf ('S' :: _) (c :: rest) = false
      simp [List.isPrefixOf, this]
  simp only [trimPrefix, h2, Bool.false_eq_true, if_false]

/-- The record that the model host prints for `stat` has six fields. -/
theorem statRecord_fields (c : Char) (rest : List Char) (n : Nat) (hc : isSpace c = false)
    (hcomma : ',' ∉ c :: rest) :
    (split (trimSpace (String.mk (c :: rest) ++ ",regular file," ++ Nat.repr n ++
      ",root,root,2024-01-01 00:00:00.000000000 +0000\n")) ',').length = 6 := by
  have h1 : String.mk (c :: rest) ++ ",regular file," ++ Nat.repr n ++
      ",root,root,2024-01-01 00:00:00.000000000 +0000\n" =
      String.mk (c :: ((rest ++ ",regular file,".data ++ (Nat.repr n).data ++
        ",root,root,2024-01-01 00:00:00.000000000 +000".data) ++ ['0', '\n'])) := by
    apply String.ext
    have : ",root,root,2024-01-01 00:00:00.000000000 +0000\n".data =
        ",root,root,2024-01-01 00:00:00.000000000 +000".data ++ ['0', '\n'] := by decide
    simp [this]
  rw [h1, trimSpace_line c '0' _ hc (by decide)]
  simp only [split, List.length_map, splitChars_length]
  have hr := repr_noComma n
  have hc1 : (c :: rest).count ',' = 0 := List.count_eq_zero.mpr hcomma
  have hr1 : (Nat.repr n).data.count ',' = 0 := List.count_eq_zero.mpr hr
  have e1 : ",regular file,".data.count ',' = 2 := by decide
  have e2 : ",root,root,2024-01-01 00:00:00.000000000 +000".data.count ',' = 3 := by decide
  have e3 : ['0'].count ',' = 0 := by decide
  have hsplit : c :: ((rest ++ ",regular file,".data ++ (Nat.repr n).data ++
      ",root,root,2024-01-01 00:00:00.000000000 +000".data) ++ ['0']) =
      (c :: rest) ++ ",regular file,".data ++ (Nat.repr n).data ++
        ",root,root,2024-01-01 00:00:00.000000000 +000".data ++ ['0'] := by
    simp
  rw [hsplit]
  simp only [List.count_append, hc1, hr1, e1, e2, e3]

theorem GoMap.get_filter_self {α : Type} (l : GoMap α) (k : String) :
    GoMap.get (l.filter (fun e => decide (e.1 ≠ k))) k = none := by
  induction l with
  | nil => simp [GoMap.get]
  | cons x rest ih =>
    obtain ⟨k2, v2⟩ := x
    simp only [ne_eq, decide_not] at ih
    by_cases h2 : k2 = k
    · simp [List.filter_cons, h2, ih]
    · simp [List.filter_cons, GoMap.get, h2, ih]

end Go

namespace Examples

open Go manifest ssh files packages reconcile

/-- A command that starts with `mv ` is a move. -/
theorem isMove_of_mv (cmd : String) (hmv : hasPrefix cmd "mv " = true) : isMove cmd = true := by
  unfold isMove
  have hs : hasPrefix cmd "sudo " = false := by
    unfold hasPrefix at hmv ⊢
    obtain ⟨r, hr⟩ := List.isPrefixOf_iff_prefix.mp hmv
    rw [← hr]
    rfl
  simp only [trimPrefix, hs, Bool.false_eq_true, if_false]
  exact hmv

/-- A command that is not a move leaves the files of the model host as they are. -/
theorem diskHost_command (s : Disk) (cmd : String) (hm : isMove cmd = false) :
    (diskHost.run s cmd).2.files = s.files := by
  have hmv : ¬ hasPrefix cmd "mv " = true := by
    intro e
    rw [isMove_of_mv cmd e] at hm
    exact absurd hm (by decide)
  simp only [diskHost]
  split_ifs
  · split <;> rfl
  · split <;> rfl
  · split <;> rfl
  · rfl
  · rfl
  · rfl

end Examples

namespace Examples

open Go manifest ssh files packages reconcile

/-- The model host with a file system keeps the files `/etc/a` and
`/etc/hello`, for the commands of `root`. -/
theorem diskHost_keeps :
    KeepsFiles diskHost (ssh.New "root") diskFiles ["/etc/a", "/etc/hello"] where
  session := fun _ => rfl
  sessionError := fun s e he => by simp [diskHost] at he
  sftp := fun _ => rfl
  mkdir := fun _ _ => rfl
  command := fun s cmd hm => by
    funext q
    simp only [diskFiles, diskHost_command s cmd hm]
  statMissing := fun s path out hmem hrun => by
    simp only [List.mem_cons, List.mem_singleton, List.not_mem_nil, or_false] at hmem
    rcases hmem with rfl | rfl
    · have hrun1 : (match GoMap.get s.files "/etc/a" with
          | some b =>
            ((.ok ("/etc/a" ++ ",regular file," ++ Nat.repr b.length ++
              ",root,root,2024-01-01 00:00:00.000000000 +0000\n"), s) : RunResult × Disk)
          | none =>
            (.exitError ("stat: cannot statx '" ++ "/etc/a" ++
              "': No such file or directory\n") 1 "Process exited with status 1", s)).1 =
          .ok out := hrun
      show GoMap.get s.files "/etc/a" ≠ none
      rcases hg : GoMap.get s.files "/etc/a" with _ | b
      · simp [hg] at hrun1
      · simp
    · have hrun1 : (match GoMap.get s.files "/etc/hello" with
          | some b =>
            ((.ok ("/etc/hello" ++ ",regular file," ++ Nat.repr b.length ++
              ",root,root,2024-01-01 00:00:00.000000000 +0000\n"), s) : RunResult × Disk)
          | none =>
            (.exitError ("stat: cannot statx '" ++ "/etc/hello" ++
              "': No such file or directory\n") 1 "Process exited with status 1", s)).1 =
          .ok out := hrun
      show GoMap.get s.files "/etc/hello" ≠ none
      rcases hg : GoMap.get s.files "/etc/hello" with _ | b
      · simp [hg] at hrun1
      · simp
  statFound := fun s path b hmem hb => by
    simp only [List.mem_cons, List.mem_singleton, List.not_mem_nil, or_false] at hmem
    rcases hmem with rfl | rfl
    · have hg : GoMap.get s.files "/etc/a" = some b := hb
      refine ⟨"/etc/a" ++ ",regular file," ++ Nat.repr b.length ++
        ",root,root,2024-01-01 00:00:00.000000000 +0000\n", ?_, ?_⟩
      · show (match GoMap.get s.files "/etc/a" with
          | some b =>
            ((.ok ("/etc/a" ++ ",regular file," ++ Nat.repr b.length ++
              ",root,root,2024-01-01 00:00:00.000000000 +0000\n"), s) : RunResult × Disk)
          | none =>
            (.exitError ("stat: cannot statx '" ++ "/etc/a" ++
              "': No such file or directory\n") 1 "Process exited with status 1", s)).1 = _
        rw [hg]
      · exact statRecord_fields '/' "etc/a".data b.length (by decide) (by decide)
    · have hg : GoMap.get s.files "/etc/hello" = some b := hb
      refine ⟨"/etc/hello" ++ ",regular file," ++ Nat.repr b.length ++
        ",root,root,2024-01-01 00:00:00.000000000 +0000\n", ?_, ?_⟩
      · show (match GoMap.get s.files "/etc/hello" with
          | some b =>
            ((.ok ("/etc/hello" ++ ",regular file," ++ Nat.repr b.length ++
              ",root,root,2024-01-01 00:00:00.000000000 +0000\n"), s) : RunResult × Disk)
          | none =>
            (.exitError ("stat: cannot statx '" ++ "/etc/hello" ++
              "': No such file or directory\n") 1 "Process exited with status 1", s)).1 = _
        rw [hg]
      · exact statRecord_fields '/' "etc/hello".data b.length (by decide) (by decide)
  sha := fun s path b hmem hb => by
    simp only [List.mem_cons, List.mem_singleton, List.not_mem_nil, or_false] at hmem
    rcases hmem with rfl | rfl
    · have hg : GoMap.get s.files "/etc/a" = some b := hb
      refine ⟨sha256Hex b ++ "\n", ?_, trim_sha256Hex b⟩
      show (match GoMap.get s.files "/etc/a" with
        | some b => ((.ok (sha256Hex b ++ "\n"), s) : RunResult × Disk)
        | none => (.ok "", s)).1 = _
      rw [hg]
    · have hg : GoMap.get s.files "/etc/hello" = some b := hb
      refine ⟨sha256Hex b ++ "\n", ?_, trim_sha256Hex b⟩
      show (match GoMap.get s.files "/etc/hello" with
        | some b => ((.ok (sha256Hex b ++ "\n"), s) : RunResult × Disk)
        | none => (.ok "", s)).1 = _
      rw [hg]
  openFile := fun s path _ => by
    funext q
    simp [diskFiles, diskHost, stored, GoMap.get_set]
  write := fun s path data => by
    refine ⟨rfl, ?_⟩
    funext q
    simp [diskFiles, diskHost, stored, GoMap.get_set]
  move := fun s path out s1 hmem hrun => by
    simp only [List.mem_cons, List.mem_singleton, List.not_mem_nil, or_false] at hmem
    rcases hmem with rfl | rfl
    · have hrun1 : (match GoMap.get s.files "/tmp/a" with
          | some b =>
            ((.ok "", { s with files := GoMap.set (s.files.filter
              (fun e => e.1 ≠ "/tmp/a")) "/etc/a" b }) : RunResult × Disk)
          | none =>
            (.exitError "mv: cannot stat: No such file or directory\n" 1
              "Process exited with status 1", s)) = (.ok out, s1) := hrun
      have ht : tmpName "/etc/a" = "/tmp/a" := by decide
      rw [ht]
      rcases hg : GoMap.get s.files "/tmp/a" with _ | b
      · simp [hg] at hrun1
      · simp only [hg, Prod.mk.injEq] at hrun1
        rw [← hrun1.2]
        funext q
        simp only [diskFiles, moved, GoMap.get_set, hg]
        by_cases h1 : "/etc/a" = q
        · simp [h1]
        · simp only [h1, if_false]
          by_cases h2 : "/tmp/a" = q
          · subst h2
            simpa using GoMap.get_filter_self s.files "/tmp/a"
          · simp only [h2, if_false]
            simpa using GoMap.get_filter_ne s.files q "/tmp/a" (fun e => h2 e.symm)
    · have hrun1 : (match GoMap.get s.files "/tmp/hello" with
          | some b =>
            ((.ok "", { s with files := GoMap.set (s.files.filter
              (fun e => e.1 ≠ "/tmp/hello")) "/etc/hello" b }) : RunResult × Disk)
          | none =>
            (.exitError "mv: cannot stat: No such file or directory\n" 1
              "Process exited with status 1", s)) = (.ok out, s1) := hrun
      have ht : tmpName "/etc/hello" = "/tmp/hello" := by decide
      rw [ht]
      rcases hg : GoMap.get s.files "/tmp/hello" with _ | b
      · simp [hg] at hrun1
      · simp only [hg, Prod.mk.injEq] at hrun1
        rw [← hrun1.2]
        funext q
        simp only [diskFiles, moved, GoMap.get_set, hg]
        by_cases h1 : "/etc/hello" = q
        · simp [h1]
        · simp only [h1, if_false]
          by_cases h2 : "/tmp/hello" = q
          · subst h2
            simpa using GoMap.get_filter_self s.files "/tmp/hello"
          · simp only [h2, if_false]
            simpa using GoMap.get_filter_ne s.files q "/tmp/hello" (fun e => h2 e.symm)

end Examples

namespace reconcile

open Go manifest ssh files packages

set_option maxRecDepth 1000000 in
/-- C5 as amended, on the model host with a file system: a manifest with the
files `/etc/a` (literal content) and `/etc/hello` (rendered from a template
that uses the package version). The first run, at 00:00:00 on an empty disk,
copies both files and returns no error; the second run, at 00:10:00 on the host
as the first run left it, copies nothing, restarts nothing and leaves the files
as they are. -/
theorem Reconcile_twice_witness :
    (Examples.firstRun Examples.diskHost (Examples.fieldTemplates Examples.helloBundle)
        Examples.helloManifest "2024-01-01T00:00:00Z" {}).1 = .ret none ∧
    sftpEvents (Examples.firstRun Examples.diskHost
        (Examples.fieldTemplates Examples.helloBundle) Examples.helloManifest
        "2024-01-01T00:00:00Z" {}).2.trace =
      [Event.sftpOpen "/tmp/a", Event.sftpWrite "/tmp/a" (bytesOf "a"),
        Event.sftpOpen "/tmp/hello", Event.sftpWrite "/tmp/hello" (bytesOf "hello 1.0\n")] ∧
    sftpEvents (ProviderReconciler.Reconcile Examples.diskHost
        (Examples.fieldTemplates Examples.helloBundle) Examples.listOrder "2024-01-01T00:10:00Z"
        (reconcile.New Examples.helloManifest (ssh.New "root"))
        (Examples.firstRun Examples.diskHost (Examples.fieldTemplates Examples.helloBundle)
          Examples.helloManifest "2024-01-01T00:00:00Z" {}).2).2.trace =
      sftpEvents (Examples.firstRun Examples.diskHost
        (Examples.fieldTemplates Examples.helloBundle) Examples.helloManifest
        "2024-01-01T00:00:00Z" {}).2.trace ∧
    restartCalls (ProviderReconciler.Reconcile Examples.diskHost
        (Examples.fieldTemplates Examples.helloBundle) Examples.listOrder "2024-01-01T00:10:00Z"
        (reconcile.New Examples.helloManifest (ssh.New "root"))
        (Examples.firstRun Examples.diskHost (Examples.fieldTemplates Examples.helloBundle)
          Examples.helloManifest "2024-01-01T00:00:00Z" {}).2).2.trace =
      restartCalls (Examples.firstRun Examples.diskHost
        (Examples.fieldTemplates Examples.helloBundle) Examples.helloManifest
        "2024-01-01T00:00:00Z" {}).2.trace ∧
    Examples.diskFiles (ProviderReconciler.Reconcile Examples.diskHost
        (Examples.fieldTemplates Examples.helloBundle) Examples.listOrder "2024-01-01T00:10:00Z"
        (reconcile.New Examples.helloManifest (ssh.New "root"))
        (Examples.firstRun Examples.diskHost (Examples.fieldTemplates Examples.helloBundle)
          Examples.helloManifest "2024-01-01T00:00:00Z" {}).2).2.host =
      Examples.diskFiles (Examples.firstRun Examples.diskHost
        (Examples.fieldTemplates Examples.helloBundle) Examples.helloManifest
        "2024-01-01T00:00:00Z" {}).2.host :=
  have key := Reconcile_twice Examples.diskHost (Examples.fieldTemplates Examples.helloBundle)
    Examples.listOrder "2024-01-01T00:00:00Z" "2024-01-01T00:10:00Z"
    (reconcile.New Examples.helloManifest (ssh.New "root")) Examples.diskFiles ⟨{}, []⟩
    (Examples.firstRun Examples.diskHost (Examples.fieldTemplates Examples.helloBundle)
      Examples.helloManifest "2024-01-01T00:00:00Z" {}).2
    (fun m => List.Perm.refl m) Examples.diskHost_keeps (by decide)
    (List.pairwise_pair.mpr ⟨by decide, fun e => absurd e (by decide)⟩)
    (by decide) (Prod.ext (by decide) rfl)
  ⟨by decide, by decide, key.1, key.2.1, key.2.2.1⟩

end reconcile

namespace reconcile

open Go manifest ssh files packages

set_option maxRecDepth 1000000 in
/-- C5 fails as stated, and without the conditions of the amended claim. In
each case a first run as `root` at 00:00:00 on a host with a file system
returns no error, and a second run on the host as the first run left it copies
a file again.

* The clock: `/etc/motd` is rendered from a template that uses
  `LastModifiedDate`; the second run, at 00:10:00, renders other bytes, copies
  the file and restarts `nginx`.
* The same path twice: two files with the path `/etc/a` and different content;
  the second run, at the same clock reading, copies both and restarts `nginx`.
* A path that is a temporary name: `/tmp/b`, which the host holds, and then
  `/etc/b`, whose temporary copy is `/tmp/b`; the first run moves `/tmp/b` away,
  the second run copies it again and restarts `nginx`.
* A percent sign in a path: with `/srv/a%%b` the commands `cat` and `mv` are
  sent for `/tmp/a%b` and `/srv/a%b`; the second run copies the file again and
  fails.
* A full disk: every write fails, `Copy` drops the error of its last flush and
  the first run installs an empty `/etc/motd`; the second run copies the file
  again and restarts `nginx`. -/
theorem Reconcile_twice_counterexample :
    ((Examples.firstRun Examples.diskHost (Examples.fieldTemplates Examples.motdBundle)
        Examples.motdManifest "2024-01-01T00:00:00Z" {}).1 = .ret none ∧
      (Examples.secondRun Examples.diskHost (Examples.fieldTemplates Examples.motdBundle)
        Examples.motdManifest "2024-01-01T00:00:00Z" "2024-01-01T00:10:00Z" {}).1 = .ret none ∧
      sftpEvents (Examples.secondRun Examples.diskHost
        (Examples.fieldTemplates Examples.motdBundle) Examples.motdManifest
        "2024-01-01T00:00:00Z" "2024-01-01T00:10:00Z" {}).2.trace =
        [Event.sftpOpen "/tmp/motd",
          Event.sftpWrite "/tmp/motd" (bytesOf "generated file 2024-01-01T00:10:00Z\n")] ∧
      restartCalls (Examples.secondRun Examples.diskHost
        (Examples.fieldTemplates Examples.motdBundle) Examples.motdManifest
        "2024-01-01T00:00:00Z" "2024-01-01T00:10:00Z" {}).2.trace = ["nginx"]) ∧
    ((Examples.firstRun Examples.diskHost (Examples.fieldTemplates [])
        Examples.samePathManifest "2024-01-01T00:00:00Z" {}).1 = .ret none ∧
      (Examples.secondRun Examples.diskHost (Examples.fieldTemplates [])
        Examples.samePathManifest "2024-01-01T00:00:00Z" "2024-01-01T00:00:00Z" {}).1 =
        .ret none ∧
      sftpEvents (Examples.secondRun Examples.diskHost (Examples.fieldTemplates [])
        Examples.samePathManifest "2024-01-01T00:00:00Z" "2024-01-01T00:00:00Z" {}).2.trace =
        [Event.sftpOpen "/tmp/a", Event.sftpWrite "/tmp/a" [97],
          Event.sftpOpen "/tmp/a", Event.sftpWrite "/tmp/a" [98]] ∧
      restartCalls (Examples.secondRun Examples.diskHost (Examples.fieldTemplates [])
        Examples.samePathManifest "2024-01-01T00:00:00Z" "2024-01-01T00:00:00Z" {}).2.trace =
        ["nginx"]) ∧
    ((Examples.firstRun Examples.diskHost (Examples.fieldTemplates [])
        Examples.tmpPathManifest "2024-01-01T00:00:00Z" Examples.tmpDisk).1 = .ret none ∧
      (Examples.secondRun Examples.diskHost (Examples.fieldTemplates [])
        Examples.tmpPathManifest "2024-01-01T00:00:00Z" "2024-01-01T00:00:00Z"
        Examples.tmpDisk).1 = .ret none ∧
      sftpEvents (Examples.secondRun Examples.diskHost (Examples.fieldTemplates [])
        Examples.tmpPathManifest "2024-01-01T00:00:00Z" "2024-01-01T00:00:00Z"
        Examples.tmpDisk).2.trace =
        [Event.sftpOpen "/tmp/b", Event.sftpWrite "/tmp/b" [120]] ∧
      restartCalls (Examples.secondRun Examples.diskHost (Examples.fieldTemplates [])
        Examples.tmpPathManifest "2024-01-01T00:00:00Z" "2024-01-01T00:00:00Z"
        Examples.tmpDisk).2.trace = ["nginx"]) ∧
    ((Examples.firstRun Examples.diskHost (Examples.fieldTemplates [])
        Examples.percentFileManifest "2024-01-01T00:00:00Z" Examples.percentDisk).1 =
        .ret none ∧
      sftpEvents (Examples.secondRun Examples.diskHost (Examples.fieldTemplates [])
        Examples.percentFileManifest "2024-01-01T00:00:00Z" "2024-01-01T00:00:00Z"
        Examples.percentDisk).2.trace =
        [Event.sftpOpen "/tmp/a%%b", Event.sftpWrite "/tmp/a%%b" [120]]) ∧
    ((Examples.firstRun Examples.fullDiskHost (Examples.fieldTemplates Examples.motdBundle)
        Examples.motdManifest "2024-01-01T00:00:00Z" {}).1 = .ret none ∧
      (Examples.secondRun Examples.fullDiskHost (Examples.fieldTemplates Examples.motdBundle)
        Examples.motdManifest "2024-01-01T00:00:00Z" "2024-01-01T00:00:00Z" {}).1 = .ret none ∧
      sftpEvents (Examples.secondRun Examples.fullDiskHost
        (Examples.fieldTemplates Examples.motdBundle) Examples.motdManifest
        "2024-01-01T00:00:00Z" "2024-01-01T00:00:00Z" {}).2.trace =
        [Event.sftpOpen "/tmp/motd", Event.sftpWrite "/tmp/motd" []] ∧
      restartCalls (Examples.secondRun Examples.fullDiskHost
        (Examples.fieldTemplates Examples.motdBundle) Examples.motdManifest
        "2024-01-01T00:00:00Z" "2024-01-01T00:00:00Z" {}).2.trace = ["nginx"]) := by
  decide

end reconcile
